import Mathlib

/-!
# RayTracer: intersection primitives, key-frame animation and Fresnel term

A shallow embedding of the numeric core of the ray tracer (`types.h`,
`objects.cpp`, `sceneparser.cpp`, `raytracer.cpp`).

The program's `scalar` is modelled as an element of an arbitrary linearly
ordered field `K` (exact arithmetic; rounding, infinities and NaN of the
machine type are outside the model).  Functions of the C++ standard library
that the program calls (`sqrt`, `log`, `atan2`, ...) are not part of the
repository; they are passed in as a record `Libm K`, and theorems state the
contract they need from it explicitly.
-/

set_option linter.unusedSectionVars false

namespace RayTracer

/-! ## Standard library functions used by the program -/

/-- A complex number over `K` as `std::complex<scalar>` stores it. -/
structure Cplx (K : Type) where
  re : K
  im : K
deriving DecidableEq, Repr

/-- The functions of `<cmath>` and `<complex>` that the program calls. -/
structure Libm (K : Type) where
  sqrt : K → K
  log : K → K
  atan2 : K → K → K
  asin : K → K
  sin : K → K
  cos : K → K
  tan : K → K
  pow : K → K → K
  csqrt : Cplx K → Cplx K

section Scalars

variable {K : Type} [LinearOrderedField K]

/-! ## types.h -/

/-- Embeds `const scalar PI = 3.14159265358979323846f` -/
def PI : K := 314159265358979323846 / 100000000000000000000

/-- Embeds `const scalar INFINITE = std::numeric_limits<scalar>::max()` : the largest
finite single precision value, `(2 - 2^-23) * 2^127`. -/
def INFINITE : K := 340282346638528859811704183484516925440

/-- Embeds `const scalar EPSILON = 0.0001f` -/
def EPSILON : K := 1 / 10000

/-- Embeds `struct Vector2` -/
structure Vector2 (K : Type) where
  x : K
  y : K
deriving DecidableEq, Repr

/-- Embeds `Vector2::operator+(Vector2)` -/
def Vector2.add (a b : Vector2 K) : Vector2 K := ⟨a.x + b.x, a.y + b.y⟩

/-- Embeds `Vector2::operator*(scalar)` -/
def Vector2.scale (a : Vector2 K) (s : K) : Vector2 K := ⟨a.x * s, a.y * s⟩

/-- Embeds `struct Vector3` -/
structure Vector3 (K : Type) where
  x : K
  y : K
  z : K
deriving DecidableEq, Repr

/-- Embeds `Vector3::operator+(const Vector3 &)` -/
def Vector3.add (a b : Vector3 K) : Vector3 K := ⟨a.x + b.x, a.y + b.y, a.z + b.z⟩

/-- Embeds `Vector3::operator-(const Vector3 &)` -/
def Vector3.sub (a b : Vector3 K) : Vector3 K := ⟨a.x - b.x, a.y - b.y, a.z - b.z⟩

/-- Embeds `Vector3::operator*(const scalar &)` -/
def Vector3.scale (a : Vector3 K) (s : K) : Vector3 K := ⟨a.x * s, a.y * s, a.z * s⟩

/-- Embeds `Vector3::dot` -/
def Vector3.dot (a b : Vector3 K) : K := a.x * b.x + a.y * b.y + a.z * b.z

/-- Embeds `Vector3::cross` -/
def Vector3.cross (a b : Vector3 K) : Vector3 K :=
  ⟨a.y * b.z - a.z * b.y, a.z * b.x - a.x * b.z, a.x * b.y - a.y * b.x⟩

/-- Embeds `Vector3::length`, that is `std::hypot(x, y, z)`: the square root of the
sum of the squares.  The root is exact here; its overflow on `float` is
embedded in `hypotIEEE`. -/
def Vector3.length (lm : Libm K) (a : Vector3 K) : K :=
  lm.sqrt (a.x * a.x + a.y * a.y + a.z * a.z)

/-- Embeds `Vector3::normalized` -/
def Vector3.normalized (lm : Libm K) (a : Vector3 K) : Vector3 K :=
  let len := a.length lm
  if len = 0 then ⟨0, 0, 0⟩ else ⟨a.x / len, a.y / len, a.z / len⟩

/-- Embeds `struct Matrix34`: the entries `m[r][c]`, last row implicitly 0 0 0 1. -/
structure Matrix34 (K : Type) where
  m00 : K
  m01 : K
  m02 : K
  m03 : K
  m10 : K
  m11 : K
  m12 : K
  m13 : K
  m20 : K
  m21 : K
  m22 : K
  m23 : K
deriving DecidableEq, Repr

/-- Embeds `Matrix34::identity` -/
def Matrix34.identity : Matrix34 K := ⟨1, 0, 0, 0, 0, 1, 0, 0, 0, 0, 1, 0⟩

/-- Embeds `Matrix34::operator*(const Vector3 &)` -/
def Matrix34.mulVec (m : Matrix34 K) (rhs : Vector3 K) : Vector3 K :=
  ⟨rhs.x * m.m00 + rhs.y * m.m01 + rhs.z * m.m02 + m.m03,
   rhs.x * m.m10 + rhs.y * m.m11 + rhs.z * m.m12 + m.m13,
   rhs.x * m.m20 + rhs.y * m.m21 + rhs.z * m.m22 + m.m23⟩

/-- Embeds `Matrix34::mulWithoutTranslate` -/
def Matrix34.mulWithoutTranslate (m : Matrix34 K) (rhs : Vector3 K) : Vector3 K :=
  ⟨rhs.x * m.m00 + rhs.y * m.m01 + rhs.z * m.m02,
   rhs.x * m.m10 + rhs.y * m.m11 + rhs.z * m.m12,
   rhs.x * m.m20 + rhs.y * m.m21 + rhs.z * m.m22⟩

/-- Embeds `struct Quaternion` -/
structure Quaternion (K : Type) where
  r : K
  a : K
  b : K
  c : K
deriving DecidableEq, Repr

/-- Embeds `Quaternion::operator+` -/
def Quaternion.add (p q : Quaternion K) : Quaternion K :=
  ⟨p.r + q.r, p.a + q.a, p.b + q.b, p.c + q.c⟩

/-- Embeds `Quaternion::operator*(const Quaternion &)`: the Hamilton product. -/
def Quaternion.mul (p q : Quaternion K) : Quaternion K :=
  ⟨p.r * q.r - p.a * q.a - p.b * q.b - p.c * q.c,
   p.r * q.a + p.a * q.r + p.b * q.c - p.c * q.b,
   p.r * q.b - p.a * q.c + p.b * q.r + p.c * q.a,
   p.r * q.c + p.a * q.b - p.b * q.a + p.c * q.r⟩

/-- Embeds `Quaternion::squaredLength` -/
def Quaternion.squaredLength (p : Quaternion K) : K :=
  p.r * p.r + p.a * p.a + p.b * p.b + p.c * p.c

/-- Embeds `class Ray`: the two private members, read through `origin()` and
`direction()`. -/
structure Ray (K : Type) where
  origin : Vector3 K
  direction : Vector3 K
deriving DecidableEq, Repr

/-- The constructor `Ray::Ray(origin, direction)`, which normalises.  The
length is that of `Vector3.length`; for a direction whose length overflows,
the stored direction is that of `Vector3.normalizedIEEE`. -/
def Ray.new (lm : Libm K) (origin direction : Vector3 K) : Ray K :=
  ⟨origin, direction.normalized lm⟩

/-- Embeds `Ray::addOffset` -/
def Ray.addOffset (r : Ray K) (offset : Vector3 K) : Ray K :=
  ⟨r.origin.add offset, r.direction⟩

/-! ## objects.h / objects.cpp -/

/-- Embeds `struct Intersection` -/
structure Intersection (K : Type) where
  distance : K
  point : Vector3 K
  normal : Vector3 K
  textureCoordinate : Vector2 K
  photonCoordinate : Vector2 K
deriving DecidableEq, Repr

/-- Embeds `class Sphere` -/
structure Sphere (K : Type) where
  m_center : Vector3 K
  m_radius : K
  m_world2Object : Matrix34 K
  m_object2World : Matrix34 K
  m_object2WorldNormals : Matrix34 K

/-- Lines 45-49 of `Sphere::intersect`: the intersection record built once the
object-space `distance` along the ray has been chosen. -/
def Sphere.hitAt (lm : Libm K) (s : Sphere K) (ray : Ray K)
    (objectRay_origin objectRay_direction : Vector3 K) (distance : K) : Intersection K :=
  let objectIntersectionPoint := objectRay_origin.add (objectRay_direction.scale distance)
  let objectNormal := (objectIntersectionPoint.sub s.m_center).normalized lm
  let textureCoordinate : Vector2 K :=
    ⟨1 / 2 + lm.atan2 objectNormal.x objectNormal.z / (2 * PI), 1 / 2 - lm.asin objectNormal.y / PI⟩
  let worldDistance := (ray.origin.sub (s.m_object2World.mulVec objectIntersectionPoint)).length lm
  { distance := worldDistance
    point := s.m_object2World.mulVec objectIntersectionPoint
    normal := (s.m_object2WorldNormals.mulVec objectNormal).normalized lm
    textureCoordinate := textureCoordinate
    photonCoordinate := textureCoordinate }

/-- Embeds `Sphere::intersect` -/
def Sphere.intersect (lm : Libm K) (s : Sphere K) (ray : Ray K) (max_distance : K) :
    Option (Intersection K) :=
  let objectRay_origin := s.m_world2Object.mulVec ray.origin
  let objectRay_direction := (s.m_world2Object.mulWithoutTranslate ray.direction).normalized lm
  let objectMax_distance : K :=
    if max_distance ≠ INFINITE then
      (objectRay_origin.sub
        (s.m_world2Object.mulVec (ray.origin.add (ray.direction.scale max_distance)))).length lm
    else INFINITE
  let ray_center_vector := objectRay_origin.sub s.m_center
  let b := ray_center_vector.dot objectRay_direction
  let c := ray_center_vector.dot ray_center_vector - s.m_radius * s.m_radius
  let h := b * b - c
  if h < 0 then none
  else
    let distance := -b - lm.sqrt h
    if distance > objectMax_distance then none
    else if distance < 0 then
      let distance2 := -b + lm.sqrt h
      if distance2 < 0 ∨ distance2 > objectMax_distance then none
      else some (s.hitAt lm ray objectRay_origin objectRay_direction distance2)
    else some (s.hitAt lm ray objectRay_origin objectRay_direction distance)

/-- Embeds `struct Triangle::Vertex` -/
structure Vertex (K : Type) where
  position : Vector3 K
  normal : Vector3 K
  textureCoordinate : Vector2 K

/-- Embeds `class Triangle`: the array `m_vertices` of three vertices. -/
structure Triangle (K : Type) where
  v0 : Vertex K
  v1 : Vertex K
  v2 : Vertex K

/-- Embeds `Triangle::intersect` over a field, where a quotient with the divisor
zero is zero.  For a ray parallel to the plane of the triangle
(`approach_rate = 0`) the quotients of the code are infinities or NaN; they are
embedded in `Triangle.intersectIEEE`. -/
def Triangle.intersect (lm : Libm K) (t : Triangle K) (ray : Ray K) (max_distance : K) :
    Option (Intersection K) :=
  let edge1 := t.v1.position.sub t.v0.position
  let edge2 := t.v2.position.sub t.v0.position
  let raydir_edge2_normal := ray.direction.cross edge2
  let approach_rate := edge1.dot raydir_edge2_normal
  let ray_c0_vector := ray.origin.sub t.v0.position
  let bary_weight1 := ray_c0_vector.dot raydir_edge2_normal / approach_rate
  if bary_weight1 < -EPSILON ∨ bary_weight1 > 1 then none
  else
    let rayorigin_edge1_normal := ray_c0_vector.cross edge1
    let bary_weight2 := ray.direction.dot rayorigin_edge1_normal / approach_rate
    if bary_weight2 < -EPSILON ∨ bary_weight1 + bary_weight2 > 1 then none
    else
      let distance := edge2.dot rayorigin_edge1_normal / approach_rate
      if distance < 0 ∨ distance > max_distance then none
      else
        let bary_weight0 := 1 - (bary_weight1 + bary_weight2)
        let intersectionPoint := ray.origin.add (ray.direction.scale distance)
        let normal :=
          (((t.v0.normal.scale bary_weight0).add (t.v1.normal.scale bary_weight1)).add
            (t.v2.normal.scale bary_weight2)).normalized lm
        let textureCoordinate : Vector2 K :=
          ((t.v0.textureCoordinate.scale bary_weight0).add
            (t.v1.textureCoordinate.scale bary_weight1)).add
            (t.v2.textureCoordinate.scale bary_weight2)
        let photonCoordinate : Vector2 K := ⟨bary_weight0, bary_weight1⟩
        some { distance := distance
               point := intersectionPoint
               normal := normal
               textureCoordinate := textureCoordinate
               photonCoordinate := photonCoordinate }

/-- Embeds `JULIA_INTERSECT_SEARCH_ITERATIONS` -/
def JULIA_INTERSECT_SEARCH_ITERATIONS : Nat := 10240

/-- Embeds `JULIA_INTERSECT_SEARCH_CONVERGENCE_LIMIT = 0.0001f` -/
def JULIA_INTERSECT_SEARCH_CONVERGENCE_LIMIT : K := 1 / 10000

/-- Embeds `JULIA_INTERSECT_SEARCH_DIVERGENCE_LIMIT = 10000.0f` -/
def JULIA_INTERSECT_SEARCH_DIVERGENCE_LIMIT : K := 10000

/-- Embeds `JULIA_INTERSECT_DISTANCE_ITERATIONS` -/
def JULIA_INTERSECT_DISTANCE_ITERATIONS : Nat := 10000

/-- Embeds `JULIA_NORMALS_GRADIENT_DIFF = 0.005f` -/
def JULIA_NORMALS_GRADIENT_DIFF : K := 5 / 1000

/-- Embeds `JULIA_NORMALS_GRADIENT_DISTANCE_ITERATIONS` -/
def JULIA_NORMALS_GRADIENT_DISTANCE_ITERATIONS : Nat := 8

/-- Embeds `JULIA_NORMALS_TURN_AGAINST_RAY` -/
def JULIA_NORMALS_TURN_AGAINST_RAY : Bool := true

/-- Embeds `class Julia` -/
structure Julia (K : Type) where
  m_position : Vector3 K
  m_scale : K
  m_c : Quaternion K
  m_cutPlane : K
  m_world2Object : Matrix34 K
  m_object2World : Matrix34 K
  m_object2WorldNormals : Matrix34 K

/-- The `for` loop of `Julia::estimateDistance`, with the remaining number of
iterations as first argument; the state is `(z, d2, m2)` and the result the
final `(d2, m2)`. -/
def Julia.estimateDistanceLoop (j : Julia K) : Nat → Quaternion K → K → K → K × K
  | 0, _, d2, m2 => (d2, m2)
  | n + 1, z, d2, m2 =>
    let d2n := d2 * (4 * m2)
    let zn := (z.mul z).add j.m_c
    let m2n := zn.squaredLength
    if m2n > 10000000000 then (d2n, m2n)
    else Julia.estimateDistanceLoop j n zn d2n m2n

/-- Embeds `Julia::estimateDistance` over a field.  The return statement with
the special values of the IEEE division (`m2 / d2` with `d2 = 0`) is embedded in
`Julia.estimateDistanceIEEE`. -/
def Julia.estimateDistance (lm : Libm K) (j : Julia K) (z0 : Quaternion K) (iterations : Nat) : K :=
  let r := j.estimateDistanceLoop iterations z0 1 z0.squaredLength
  lm.sqrt (r.2 / r.1) * (1 / 2) * lm.log (lm.sqrt r.2)

/-- Embeds `Julia::estimateNormal` -/
def Julia.estimateNormal (lm : Libm K) (j : Julia K) (pos : Quaternion K) (diff : K) : Vector3 K :=
  let dist (qdiff : Quaternion K) : K :=
    j.estimateDistance lm (pos.add qdiff) JULIA_NORMALS_GRADIENT_DISTANCE_ITERATIONS
  let d0 := dist ⟨diff, 0, 0, 0⟩
  let d1 := dist ⟨-diff, 0, 0, 0⟩
  let d2 := dist ⟨0, diff, 0, 0⟩
  let d3 := dist ⟨0, -diff, 0, 0⟩
  let d4 := dist ⟨0, 0, diff, 0⟩
  let d5 := dist ⟨0, 0, -diff, 0⟩
  (⟨d0 - d1, d2 - d3, d4 - d5⟩ : Vector3 K).normalized lm

/-- The search loop of `Julia::intersect` (lines 206-217).  The first argument
is the number of iterations still allowed, `i` the loop counter; the state is
`test_pos` and the last assigned `distance`. -/
def Julia.searchLoop (lm : Libm K) (j : Julia K) (ray_direction : Vector3 K) :
    Nat → Nat → Vector3 K → K → Vector3 K × K
  | 0, _, test_pos, distance => (test_pos, distance)
  | n + 1, i, test_pos, _ =>
    let q : Quaternion K := ⟨test_pos.x, test_pos.y, test_pos.z, j.m_cutPlane⟩
    let distance := j.estimateDistance lm q JULIA_INTERSECT_DISTANCE_ITERATIONS
    if i = 0 ∧ distance < JULIA_INTERSECT_SEARCH_CONVERGENCE_LIMIT then
      let bumped : K := 100 * JULIA_INTERSECT_SEARCH_CONVERGENCE_LIMIT
      Julia.searchLoop lm j ray_direction n (i + 1) (test_pos.add (ray_direction.scale bumped)) bumped
    else if distance < JULIA_INTERSECT_SEARCH_CONVERGENCE_LIMIT ∨
        distance > JULIA_INTERSECT_SEARCH_DIVERGENCE_LIMIT then
      (test_pos, distance)
    else
      Julia.searchLoop lm j ray_direction n (i + 1) (test_pos.add (ray_direction.scale distance)) distance

/-- Lines 174-198 of `Julia::intersect`: the jump to the bounding sphere.
`none` is the early `return std::nullopt`. -/
def Julia.jumpToBoundingSphere (lm : Libm K) (test_pos ray_direction : Vector3 K) :
    Option (Vector3 K) :=
  let BOUNDING_SPHERE_RADIUS := lm.sqrt 3
  if test_pos.length lm > BOUNDING_SPHERE_RADIUS then
    let b := test_pos.dot ray_direction
    let c := test_pos.dot test_pos - BOUNDING_SPHERE_RADIUS * BOUNDING_SPHERE_RADIUS
    let h := b * b - c
    if h ≤ 0 then none
    else
      let distance := -b - lm.sqrt h
      if distance < 0 then none
      else some (test_pos.add (ray_direction.scale distance))
  else some test_pos

/-- Embeds `Julia::intersect` over a field.  The variable `distance` is
unassigned before the search loop; the loop body runs at least once, so the `0`
passed here is never read.  Every test on a distance is decided here; a NaN
distance (`Julia.estimateDistanceIEEE`), for which none of the tests of the code
holds, is outside this embedding. -/
def Julia.intersect (lm : Libm K) (j : Julia K) (ray : Ray K) (max_distance : K) :
    Option (Intersection K) :=
  let test_pos0 := ((j.m_world2Object.mulVec ray.origin).sub j.m_position).scale (1 / j.m_scale)
  let ray_direction := (j.m_world2Object.mulWithoutTranslate ray.direction).normalized lm
  match Julia.jumpToBoundingSphere lm test_pos0 ray_direction with
  | none => none
  | some test_pos1 =>
    let r := j.searchLoop lm ray_direction JULIA_INTERSECT_SEARCH_ITERATIONS 0 test_pos1 0
    let test_pos := r.1
    let distance := r.2
    if distance ≥ JULIA_INTERSECT_SEARCH_CONVERGENCE_LIMIT then none
    else
      let q : Quaternion K := ⟨test_pos.x, test_pos.y, test_pos.z, j.m_cutPlane⟩
      let normal0 := j.estimateNormal lm q JULIA_NORMALS_GRADIENT_DIFF
      let normal :=
        if JULIA_NORMALS_TURN_AGAINST_RAY = true ∧ normal0.dot ray_direction > 0 then
          normal0.scale (-1)
        else normal0
      let intersectionPoint := j.m_object2World.mulVec ((test_pos.scale j.m_scale).add j.m_position)
      let intersectionDistance := (intersectionPoint.sub ray.origin).length lm
      if intersectionDistance < EPSILON ∨ intersectionDistance > max_distance then none
      else
        let textureCoordinate : Vector2 K := ⟨0, 0⟩
        some { distance := intersectionDistance
               point := intersectionPoint
               normal := (j.m_object2WorldNormals.mulVec normal).normalized lm
               textureCoordinate := textureCoordinate
               photonCoordinate := textureCoordinate }

/-- The member `std::variant<Sphere, Triangle, Julia> m_object` of `class Object`. -/
inductive Primitive (K : Type) where
  | sphere (s : Sphere K)
  | triangle (t : Triangle K)
  | julia (j : Julia K)

/-- Embeds `Object::intersect`: the `std::visit` dispatch over the variant. -/
def Primitive.intersect (lm : Libm K) (p : Primitive K) (ray : Ray K) (max_distance : K) :
    Option (Intersection K) :=
  match p with
  | .sphere s => s.intersect lm ray max_distance
  | .triangle t => t.intersect lm ray max_distance
  | .julia j => j.intersect lm ray max_distance

/-! ## sceneparser.cpp: the key-frame animation evaluator -/

/-- The class `\s` of the animation regex (the `space` character class). -/
def isSpaceChar (c : Char) : Bool :=
  c = ' ' || c = '\t' || c = '\n' || c = '\r' || c = Char.ofNat 11 || c = Char.ofNat 12

/-- The bracket class `[\d\.Ee+-]` of the animation regex. -/
def isNumberChar (c : Char) : Bool :=
  c.isDigit || c = '.' || c = 'E' || c = 'e' || c = '+' || c = '-'

/-- The bracket class `[liob]` of the animation regex. -/
def isEaseChar (c : Char) : Bool :=
  c = 'l' || c = 'i' || c = 'o' || c = 'b'

/-- One match of `animationRegex`: sub-matches 1 to 4 as texts (an unmatched
sub-match is the empty text, as `match[i].str()` gives it). -/
structure KeyMatch where
  sub1 : List Char
  sub2 : List Char
  sub3 : List Char
  sub4 : List Char
deriving DecidableEq, Repr

/-- The first alternative of the optional group of `animationRegex`, tried on
the text after the opening parenthesis and the blanks following it:
`([liob])(?:\s*,\s*(\+?[\d\.Ee+-]+))?\s*\)`.
Gives sub-matches 2 and 3 and the text left after the closing parenthesis. -/
def matchEaseGroup (s : List Char) : Option (List Char × List Char × List Char) :=
  match s with
  | [] => none
  | e :: s4 =>
    if isEaseChar e then
      let s5 := s4.dropWhile isSpaceChar
      let plain : Option (List Char × List Char × List Char) :=
        match s5 with
        | ')' :: rest => some ([e], [], rest)
        | _ => none
      match s5 with
      | ',' :: s6 =>
        let s7 := s6.dropWhile isSpaceChar
        let run := s7.takeWhile isNumberChar
        if run = [] then plain
        else
          match (s7.dropWhile isNumberChar).dropWhile isSpaceChar with
          | ')' :: rest => some ([e], run, rest)
          | _ => plain
      | _ => plain
    else none

/-- The second alternative of the optional group of `animationRegex`, tried on
the text after the opening parenthesis and the blanks following it:
`(\+?[\d\.Ee+-]+)?\s*\)`.  Gives sub-match 4 and the text left. -/
def matchTimeGroup (s : List Char) : Option (List Char × List Char) :=
  let run := s.takeWhile isNumberChar
  match (s.dropWhile isNumberChar).dropWhile isSpaceChar with
  | ')' :: rest => some (run, rest)
  | _ => none

/-- One application of `animationRegex` with `match_continuous` at the head of
`s`; `first` tells whether `s` is the whole attribute value (where `^`
matches) or what is left after an earlier match (where only `;` does).
Gives the sub-matches and the text left after the match. -/
def matchKeyFrame (first : Bool) (s : List Char) : Option (KeyMatch × List Char) :=
  let afterSep : Option (List Char) :=
    match s with
    | ';' :: rest => some rest
    | _ => if first then some s else none
  match afterSep with
  | none => none
  | some s1 =>
    let s2 := s1.dropWhile isSpaceChar
    let sub1 := s2.takeWhile isNumberChar
    if sub1 = [] then none
    else
      let s3 := (s2.dropWhile isNumberChar).dropWhile isSpaceChar
      match s3 with
      | '(' :: s4 =>
        let s5 := s4.dropWhile isSpaceChar
        match matchEaseGroup s5 with
        | some (sub2, sub3, rest) => some (⟨sub1, sub2, sub3, []⟩, rest.dropWhile isSpaceChar)
        | none =>
          match matchTimeGroup s5 with
          | some (sub4, rest) => some (⟨sub1, [], [], sub4⟩, rest.dropWhile isSpaceChar)
          | none => some (⟨sub1, [], [], []⟩, s3)
      | _ => some (⟨sub1, [], [], []⟩, s3)

/-- The sequence of matches the `std::sregex_iterator` of `animateScalar`
walks through.  Every match takes at least one character, so `fuel` equal to
the length of the text plus one never runs out. -/
def regexMatches : Nat → Bool → List Char → List KeyMatch
  | 0, _, _ => []
  | fuel + 1, first, s =>
    match matchKeyFrame first s with
    | none => []
    | some (m, rest) => m :: regexMatches fuel false rest

/-- The value of a run of decimal digits. -/
def digitsValue (ds : List Char) : Nat :=
  ds.foldl (fun acc c => 10 * acc + (c.toNat - '0'.toNat)) 0

/-- What `std::stof` reads from a decimal text: the sign, the digits of the
mantissa as one number, the count of digits after the point, and the
exponent. -/
structure Decimal where
  negative : Bool
  digits : Nat
  fracLength : Nat
  exponent : Int
deriving DecidableEq, Repr

/-- The exact value of a decimal. -/
def Decimal.value (d : Decimal) : ℚ :=
  let magnitude : ℚ := (d.digits : ℚ) / (10 : ℚ) ^ d.fracLength * (10 : ℚ) ^ d.exponent
  if d.negative = true then -magnitude else magnitude

/-- The scanning part of `std::stof` on the decimal forms that texts over
`[\d\.Ee+-]` can have: blanks, an optional sign, digits with an optional
point (at least one digit), and an exponent when `e` or `E` is followed by
an optionally signed digit; the longest such prefix is read.  `none` stands
for the exception thrown when no conversion can be made. -/
def scanDecimal (s : List Char) : Option Decimal :=
  let s0 := s.dropWhile isSpaceChar
  let signed : Bool × List Char :=
    match s0 with
    | '-' :: r => (true, r)
    | '+' :: r => (false, r)
    | _ => (false, s0)
  let s1 := signed.2
  let intDigits := s1.takeWhile Char.isDigit
  let s2 := s1.dropWhile Char.isDigit
  let fracDigits : List Char :=
    match s2 with
    | '.' :: r => r.takeWhile Char.isDigit
    | _ => []
  let s3 : List Char :=
    match s2 with
    | '.' :: r => r.dropWhile Char.isDigit
    | _ => s2
  if intDigits = [] ∧ fracDigits = [] then none
  else
    let exponent : Int :=
      match s3 with
      | c :: r =>
        if c = 'e' ∨ c = 'E' then
          match r with
          | '-' :: r2 => -((digitsValue (r2.takeWhile Char.isDigit) : Nat) : Int)
          | '+' :: r2 => ((digitsValue (r2.takeWhile Char.isDigit) : Nat) : Int)
          | _ => ((digitsValue (r.takeWhile Char.isDigit) : Nat) : Int)
        else 0
      | [] => 0
    some ⟨signed.1, digitsValue (intDigits ++ fracDigits), fracDigits.length, exponent⟩

/-- Embeds `std::stof`, with the exact value of the text read as result (no rounding
to the machine type, no range error). -/
def stof (s : List Char) : Option ℚ :=
  (scanDecimal s).map Decimal.value

/-- What one iteration of the loop of `animateScalar` reads from its match:
`targetValue`, the ease letter when sub-match 2 is present, and the explicit
time when sub-match 3 or 4 is present. -/
structure KeyFrame (K : Type) where
  targetValue : K
  easeTag : Option Char
  explicitTime : Option K

/-- Lines 327-338 of `animateScalar`: the conversions of one match.  An error
is a `std::stof` exception. -/
def readKeyFrame (m : KeyMatch) : Except String (KeyFrame K) :=
  match stof m.sub1 with
  | none => .error "stof"
  | some targetValue =>
    let easeTag : Option Char := m.sub2.head?
    if m.sub3 ≠ [] then
      match stof m.sub3 with
      | none => .error "stof"
      | some t => .ok ⟨(targetValue : K), easeTag, some (t : K)⟩
    else if m.sub4 ≠ [] then
      match stof m.sub4 with
      | none => .error "stof"
      | some t => .ok ⟨(targetValue : K), easeTag, some (t : K)⟩
    else .ok ⟨(targetValue : K), easeTag, none⟩

/-- Embeds `Scene::SceneParser::ease` -/
def ease (easeType : Char) (time : K) : Except String K :=
  if easeType = 'l' then .ok time
  else if easeType = 'i' then .ok (time ^ 3)
  else if easeType = 'o' then .ok (1 - (1 - time) ^ 3)
  else if easeType = 'b' then
    .ok (if time < 1 / 2 then (time * 2) ^ 3 / 2 else 1 - ((1 - time) * 2) ^ 3 / 2)
  else .error "invalid ease function selected"

/-- The loop of `animateScalar` (lines 323-368) over the matches still to be
visited, each given with the outcome of its conversions; the state is
`start`, `value`, `time` and `easeType`. -/
def animateLoop (m_time : K) :
    List (Except String (KeyFrame K)) → Bool → K → K → Char → Except String K
  | [], _, value, _, _ => .ok value
  | .error e :: _, _, _, _, _ => .error e
  | .ok kf :: rest, start, value, time, easeType =>
    let targetValue := kf.targetValue
    let easeType := match kf.easeTag with
      | some c => c
      | none => easeType
    let targetTime : K := match kf.explicitTime with
      | some t => t
      | none => if start then 0 else 1
    if targetTime < 0 ∨ targetTime > 1 then .error "invalid animation time"
    else if start = true ∨ targetTime < m_time then
      if time > targetTime then .error "animation time not in increasing order"
      else animateLoop m_time rest false targetValue targetTime easeType
    else if time > m_time then .ok value
    else
      match ease easeType ((m_time - time) / (targetTime - time)) with
      | .error e => .error e
      | .ok f => .ok (f * (targetValue - value) + value)

/-- Embeds `animateScalar` on the key-frames read from the matches. -/
def animateKeyFrames (m_time : K) (frames : List (KeyFrame K)) : Except String K :=
  animateLoop m_time (frames.map Except.ok) true 0 0 'l'

/-- Embeds `Scene::SceneParser::animateScalar`: `m_time` is the parser's scene time
and `attrValue` the attribute text. -/
def animateScalar (m_time : K) (attrValue : List Char) : Except String K :=
  animateLoop m_time
    ((regexMatches (attrValue.length + 1) true attrValue).map readKeyFrame) true 0 0 'l'

/-! ## raytracer.cpp: the Fresnel term -/

/-- Embeds `std::complex` addition of a real: `z + x`. -/
def Cplx.addReal (z : Cplx K) (x : K) : Cplx K := ⟨z.re + x, z.im⟩

/-- Embeds `std::complex` addition. -/
def Cplx.add (z w : Cplx K) : Cplx K := ⟨z.re + w.re, z.im + w.im⟩

/-- Embeds `std::complex` subtraction. -/
def Cplx.sub (z w : Cplx K) : Cplx K := ⟨z.re - w.re, z.im - w.im⟩

/-- Embeds `std::complex` product. -/
def Cplx.mul (z w : Cplx K) : Cplx K := ⟨z.re * w.re - z.im * w.im, z.re * w.im + z.im * w.re⟩

/-- Embeds `std::complex` product with a real: `z * x`. -/
def Cplx.scale (z : Cplx K) (x : K) : Cplx K := ⟨z.re * x, z.im * x⟩

/-- Embeds `std::complex` quotient. -/
def Cplx.div (z w : Cplx K) : Cplx K :=
  ⟨(z.re * w.re + z.im * w.im) / (w.re * w.re + w.im * w.im),
   (z.im * w.re - z.re * w.im) / (w.re * w.re + w.im * w.im)⟩

/-- Embeds `std::norm`: the squared magnitude. -/
def Cplx.norm (z : Cplx K) : K := z.re * z.re + z.im * z.im

/-- Embeds `struct Color` -/
structure Color (K : Type) where
  r : K
  g : K
  b : K
  a : K
deriving DecidableEq, Repr

/-- Embeds `struct UPoint2` -/
structure UPoint2 where
  x : Nat
  y : Nat
deriving DecidableEq, Repr

/-- Embeds `class Picture` -/
structure Picture (K : Type) where
  m_size : UPoint2
  m_data : List (Color K)

/-- The anonymous struct `phong` of `struct Material`. -/
structure Phong (K : Type) where
  ka : K
  kd : K
  ks : K
  exponent : K

/-- Embeds `struct Material` -/
structure Material (K : Type) where
  color : Color K
  texture : Picture K
  phong : Phong K
  reflectance : K
  transmittance : K
  refraction : Cplx K
  dispersion : K

/-- Embeds `RayTracer::Instance::Thread::calcFresnel` -/
def calcFresnel (lm : Libm K) (material : Material K) (cos_angle_ray_normal wavelength : K) : K :=
  let etai0 : Cplx K := ⟨1, 0⟩
  let etat0 : Cplx K := material.refraction.addReal (wavelength * material.dispersion)
  let etai := if cos_angle_ray_normal > 0 then etat0 else etai0
  let etat := if cos_angle_ray_normal > 0 then etai0 else etat0
  let sint := (etai.div etat).scale (lm.sqrt (max 0 (1 - cos_angle_ray_normal * cos_angle_ray_normal)))
  if sint.norm < 1 then
    let cost := lm.csqrt ((⟨1, 0⟩ : Cplx K).sub (sint.mul sint))
    let cos_angle_ray_normalAbs := |cos_angle_ray_normal|
    let Rs := ((etat.scale cos_angle_ray_normalAbs).sub (etai.mul cost)).div
      ((etat.scale cos_angle_ray_normalAbs).add (etai.mul cost))
    let Rp := ((etai.scale cos_angle_ray_normalAbs).sub (etat.mul cost)).div
      ((etai.scale cos_angle_ray_normalAbs).add (etat.mul cost))
    (Rs.norm + Rp.norm) / 2
  else 1

/-! ## types.h: colours and pictures -/

/-- Embeds the default constructor `Color()`: all four channels zero. -/
def Color.zero : Color K := ⟨0, 0, 0, 0⟩

/-- Embeds the constructor `Color(r, g, b)`, which sets alpha to 1. -/
def Color.rgb (r g b : K) : Color K := ⟨r, g, b, 1⟩

/-- Embeds `Color::operator+` (and `operator+=`). -/
def Color.add (p q : Color K) : Color K := ⟨p.r + q.r, p.g + q.g, p.b + q.b, p.a + q.a⟩

/-- Embeds `Color::operator*(const scalar &)` -/
def Color.scale (p : Color K) (s : K) : Color K := ⟨p.r * s, p.g * s, p.b * s, p.a * s⟩

/-- Embeds `Color::operator/(const scalar &)` -/
def Color.divScalar (p : Color K) (s : K) : Color K := ⟨p.r / s, p.g / s, p.b / s, p.a / s⟩

/-- Embeds `Color::operator*(const Color &)`: the component-wise product. -/
def Color.mul (p q : Color K) : Color K := ⟨p.r * q.r, p.g * q.g, p.b * q.b, p.a * q.a⟩

/-- Embeds `Color::withoutAlpha` -/
def Color.withoutAlpha (p : Color K) : Color K := ⟨p.r, p.g, p.b, 1⟩

/-- Subtraction of `u32` values, which wraps around modulo `2^32`. -/
def u32Sub (a b : Nat) : Nat := (a + 4294967296 - b) % 4294967296

/-- Addition of `u32` values, which wraps around modulo `2^32`. -/
def u32Add (a b : Nat) : Nat := (a + b) % 4294967296

/-- Multiplication of `u32` values, which wraps around modulo `2^32`. -/
def u32Mul (a b : Nat) : Nat := (a * b) % 4294967296

/-- Embeds `std::clamp(v, lo, hi)` on `u32` values. -/
def clampU32 (v lo hi : Nat) : Nat := if v < lo then lo else if hi < v then hi else v

/-- Embeds `std::clamp(v, lo, hi)` on scalars. -/
def clampScalar (v lo hi : K) : K := if v < lo then lo else if hi < v then hi else v

/-- Embeds the default constructor `Picture()`: size 0 x 0 and no data. -/
def Picture.default : Picture K := ⟨⟨0, 0⟩, []⟩

/-- Embeds the constructor `Picture(UDim2 size)`: `size.x * size.y`
value-initialised (all zero) pixels. -/
def Picture.new (size : UPoint2) : Picture K :=
  ⟨size, List.replicate (size.x * size.y) Color.zero⟩

/-- Embeds the constructor `Picture(UDim2 size, Radiance background)`. -/
def Picture.newFilled (size : UPoint2) (background : Color K) : Picture K :=
  ⟨size, List.replicate (size.x * size.y) background⟩

/-- Embeds `Picture::size` -/
def Picture.size (p : Picture K) : UPoint2 := p.m_size

/-- Embeds `Picture::empty` -/
def Picture.empty (p : Picture K) : Bool := p.m_size.x = 0 || p.m_size.y = 0

/-- Embeds `Picture::datapos` -/
def Picture.datapos (p : Picture K) (pos : UPoint2) : Nat := pos.y * p.m_size.x + pos.x

/-- Embeds `Picture::get`.  Reading outside `m_data` is undefined in the
source; here it gives the zero colour. -/
def Picture.get (p : Picture K) (pos : UPoint2) : Color K :=
  p.m_data.getD (p.datapos pos) Color.zero

/-- Embeds `Picture::set`.  Writing outside `m_data` is undefined in the
source; here it changes nothing. -/
def Picture.set (p : Picture K) (pos : UPoint2) (radiance : Color K) : Picture K :=
  ⟨p.m_size, p.m_data.set (p.datapos pos) radiance⟩

/-- The loop of `Picture::mulAdd` over the two data arrays.  Where `rhs` is
shorter the source reads outside it (undefined); here those pixels stay. -/
def mulAddData : List (Color K) → List (Color K) → K → List (Color K)
  | [], _, _ => []
  | a :: as, [], _ => a :: as
  | a :: as, b :: bs, factor => a.add (b.scale factor) :: mulAddData as bs factor

/-- Embeds `Picture::mulAdd` -/
def Picture.mulAdd (p rhs : Picture K) (factor : K) : Picture K :=
  ⟨p.m_size, mulAddData p.m_data rhs.m_data factor⟩

/-! ## objects.h: objects, lights, camera -/

/-- Embeds `class Object` -/
structure Object (K : Type) where
  m_material : Material K
  m_photonMap : Picture K
  m_object : Primitive K

/-- Embeds `Object::material` -/
def Object.material (o : Object K) : Material K := o.m_material

/-- Embeds `Object::intersect` -/
def Object.intersect (lm : Libm K) (o : Object K) (ray : Ray K) (max_distance : K) :
    Option (Intersection K) :=
  o.m_object.intersect lm ray max_distance

/-- Embeds `enum class Light::Type` -/
inductive LightType where
  | Parallel
  | Point
deriving DecidableEq, Repr

/-- Embeds `class Light`; `m_position` holds the direction of a parallel
light. -/
structure Light (K : Type) where
  m_type : LightType
  m_position : Vector3 K
  m_power : Color K

/-- Embeds `class Camera`: its data members. -/
structure Camera (K : Type) where
  m_position : Vector3 K
  m_lookAt : Vector3 K
  m_upVector : Vector3 K
  m_fieldOfViewAngle : K
  m_resolution : UPoint2
  m_maxBounces : Nat
  m_superSamplingPerAxis : Nat
  m_cameraTransformation : Matrix34 K
  m_focusPoint : Vector3 K
  m_focusDistance : K
  m_lensSize : K

/-! ## scene.h -/

/-- Embeds `class Scene`: its data members. -/
structure Scene (K : Type) where
  m_sceneFileName : String
  m_outFileName : String
  m_threads : Nat
  m_time : K
  m_frames : Nat
  m_fps : K
  m_subFrames : Nat
  m_camera : Camera K
  m_background : Color K
  m_ambientLight : Color K
  m_lights : List (Light K)
  m_objects : List (Object K)
  m_dispersionMode : Bool
  m_photonMapScanSteps : K
  m_photonMapTextureSize : Nat
  m_photonMapFactor : K

/-! ## main.cpp: the frame driver -/

/-- The four rendering functions of `main.cpp`. -/
inductive RenderMode where
  | renderImage
  | renderImageMotionBlur
  | renderVideo
  | renderVideoMotionBlur
deriving DecidableEq, Repr

/-- Lines 189-201 of `main`: which rendering function is called. -/
def chooseRenderMode (scene : Scene K) : RenderMode :=
  if scene.m_frames > 1 ∧ scene.m_time = INFINITE then
    if scene.m_subFrames > 1 then .renderVideoMotionBlur else .renderVideo
  else
    if scene.m_subFrames > 1 then .renderImageMotionBlur else .renderImage

section FloorScalars

variable [FloorRing K]

/-! ## Conversions and `<cmath>` functions defined through rounding -/

/-- Embeds `static_cast<u32>(x)` of a scalar: truncation toward zero.  C++
defines it for `-1 < x < 2^32`, where it is the natural floor used here; for
other values the source's behaviour is undefined. -/
def castU32 (x : K) : Nat := ⌊x⌋₊

/-- Truncation toward zero, as a scalar. -/
def truncScalar (x : K) : K := if 0 ≤ x then ((⌊x⌋ : Int) : K) else ((⌈x⌉ : Int) : K)

/-- Embeds `modff(x, &tmp)`: the fractional part, with the sign of `x`. -/
def modff (x : K) : K := x - truncScalar x

/-- Embeds `fmod(x, y)`: `x - y * trunc(x / y)`. -/
def fmod (x y : K) : K := x - y * truncScalar (x / y)

/-- Embeds `std::ceil` -/
def ceilScalar (x : K) : K := ((⌈x⌉ : Int) : K)

/-- Embeds `HSVtoRGB`; `none` is the exception thrown for arguments out of
range.  The call `abs(...)` in line 318 is unqualified, and `types.h` includes
`<cmath>` but no C header: the overloads of `abs` for floating-point numbers
are in namespace `std`, and the call is the C function `int abs(int)`.  The
argument `fmod(H / 60, 2) - 1` is converted to `int`, that is truncated toward
zero, before its absolute value is taken. -/
def HSVtoRGB (H S V : K) : Option (Color K) :=
  if H > 360 ∨ H < 0 ∨ S > 100 ∨ S < 0 ∨ V > 100 ∨ V < 0 then none
  else
    let s := S / 100
    let v := V / 100
    let C := s * v
    let X := C * (1 - |truncScalar (fmod (H / 60) 2 - 1)|)
    let m := v - C
    let rgb : K × K × K :=
      if H ≥ 0 ∧ H < 60 then (C, X, 0)
      else if H ≥ 60 ∧ H < 120 then (X, C, 0)
      else if H ≥ 120 ∧ H < 180 then (0, C, X)
      else if H ≥ 180 ∧ H < 240 then (0, X, C)
      else if H ≥ 240 ∧ H < 300 then (X, 0, C)
      else (C, 0, X)
    some (Color.rgb (rgb.1 + m) (rgb.2.1 + m) (rgb.2.2 + m))

/-- The values of `h` in the loops `for (float h = 0.0f; h < 360.0f; h += 45.0f)`. -/
def dispersionHues : List K := [0, 45, 90, 135, 180, 225, 270, 315]

/-! ## objects.cpp: the photon texture of an object -/

/-- The pixel computed in `Object::addPhoton` and again in `Object::getPhoton`:
`std::clamp(static_cast<u32>(pos * (size - 1)), 0u, size - 1)` on each axis. -/
def photonTexel (size : UPoint2) (pos : Vector2 K) : UPoint2 :=
  ⟨clampU32 (castU32 (pos.x * ((u32Sub size.x 1 : Nat) : K))) 0 (u32Sub size.x 1),
   clampU32 (castU32 (pos.y * ((u32Sub size.y 1 : Nat) : K))) 0 (u32Sub size.y 1)⟩

/-- Embeds `Object::addPhoton` -/
def Object.addPhoton (o : Object K) (textureSize : Nat) (pos : Vector2 K) (rad : Color K) :
    Object K :=
  let photonMap : Picture K :=
    if o.m_photonMap.empty = true then Picture.new ⟨textureSize, textureSize⟩ else o.m_photonMap
  let size := photonMap.size
  let uPhotonCoord := photonTexel size pos
  { o with m_photonMap := photonMap.set uPhotonCoord ((photonMap.get uPhotonCoord).add rad) }

/-- Embeds `Object::getPhoton` -/
def Object.getPhoton (o : Object K) (pos : Vector2 K) : Color K :=
  if o.m_photonMap.empty = true then Color.zero
  else o.m_photonMap.get (photonTexel o.m_photonMap.size pos)

/-! ## raytracer.cpp: shading and the recursive ray caster -/

/-- Embeds `calcTexturePixelColorWithAntiAliasing` -/
def calcTexturePixelColorWithAntiAliasing (texture : Picture K) (textureCoord : Vector2 K) :
    Color K :=
  let textureSize := texture.size
  let tx := modff textureCoord.x
  let ty := modff textureCoord.y
  let px : K := tx * ((u32Sub textureSize.x 1 : Nat) : K)
  let py : K := ty * ((u32Sub textureSize.y 1 : Nat) : K)
  let lowX := clampU32 (castU32 px) 0 (u32Sub textureSize.x 1)
  let lowY := clampU32 (castU32 py) 0 (u32Sub textureSize.y 1)
  let highX := clampU32 (castU32 (ceilScalar px)) 0 (u32Sub textureSize.x 1)
  let highY := clampU32 (castU32 (ceilScalar py)) 0 (u32Sub textureSize.y 1)
  let textureFactor1 := (1 - modff px) * (1 - modff py)
  let textureFactor2 := modff px * (1 - modff py)
  let textureFactor3 := (1 - modff px) * modff py
  let textureFactor4 := modff px * modff py
  ((((texture.get ⟨lowX, lowY⟩).scale textureFactor1).add
    ((texture.get ⟨highX, lowY⟩).scale textureFactor2)).add
    ((texture.get ⟨lowX, highY⟩).scale textureFactor3)).add
    ((texture.get ⟨highX, highY⟩).scale textureFactor4)

/-- The shadow ray of `calcPhong` for one light (lines 214-217). -/
def lightRayOf (lm : Libm K) (light : Light K) (point normal : Vector3 K) : Ray K :=
  (if light.m_type = LightType.Parallel then Ray.new lm point (light.m_position.scale (-1))
    else Ray.new lm point (light.m_position.sub point)).addOffset (normal.scale EPSILON)

/-- The length limit of the shadow ray of `calcPhong` (lines 218-220). -/
def lightDistanceOf (lm : Libm K) (light : Light K) (lightRay : Ray K) : K :=
  if light.m_type = LightType.Parallel then INFINITE
  else (light.m_position.sub lightRay.origin).length lm

/-- The visibility test of `calcPhong` (lines 222-226): no object returns a
front-facing intersection on the shadow ray. -/
def lightVisible (lm : Libm K) (objects : List (Object K)) (lightRay : Ray K)
    (lightDistance : K) : Bool :=
  !objects.any (fun objectForTest =>
    match objectForTest.intersect lm lightRay lightDistance with
    | none => false
    | some lightIntersect => decide (lightRay.direction.dot lightIntersect.normal < 0))

/-- Lines 230-234 of `calcPhong`: the diffuse and the specular radiance that a
visible light adds. -/
def phongLight (lm : Libm K) (ray : Ray K) (normal : Vector3 K) (material : Material K)
    (materialColor : Color K) (light : Light K) (lightRay : Ray K) : Color K :=
  let lightPower := light.m_power
  let diffuseRad :=
    ((lightPower.mul materialColor).scale (max (lightRay.direction.dot normal) 0)).scale
      material.phong.kd
  let lightReflectionVector :=
    (((normal.scale (lightRay.direction.dot normal)).scale 2).sub lightRay.direction).normalized lm
  let specularRad :=
    (lightPower.scale
      (lm.pow (max (lightReflectionVector.dot (ray.direction.scale (-1))) 0)
        material.phong.exponent)).scale material.phong.ks
  diffuseRad.add specularRad

/-- The loop over the lights in `calcPhong` (lines 213-236), with `rad` as
state. -/
def calcPhongLights (lm : Libm K) (objects : List (Object K)) (ray : Ray K)
    (point normal : Vector3 K) (material : Material K) (materialColor : Color K) :
    List (Light K) → Color K → Color K
  | [], rad => rad
  | light :: rest, rad =>
    let lightRay := lightRayOf lm light point normal
    let lightDistance := lightDistanceOf lm light lightRay
    if lightVisible lm objects lightRay lightDistance = true then
      calcPhongLights lm objects ray point normal material materialColor rest
        (rad.add (phongLight lm ray normal material materialColor light lightRay))
    else calcPhongLights lm objects ray point normal material materialColor rest rad

/-- Embeds `calcPhong` -/
def calcPhong (lm : Libm K) (scene : Scene K) (ray : Ray K) (intersection : Intersection K)
    (material : Material K) : Color K :=
  let point := intersection.point
  let normal := intersection.normal
  let materialColor :=
    if material.texture.empty = true then material.color
    else calcTexturePixelColorWithAntiAliasing material.texture intersection.textureCoordinate
  let rad := Color.zero.add ((scene.m_ambientLight.mul materialColor).scale material.phong.ka)
  calcPhongLights lm scene.m_objects ray point normal material materialColor scene.m_lights rad

/-- Embeds `calcRefraction`; `recurse` is the recursive call of `castRay`. -/
def calcRefraction (lm : Libm K) (recurse : Ray K → Nat → K → Option (Color K)) (ray : Ray K)
    (intersection : Intersection K) (material : Material K) (cos_angle_ray_normal : K)
    (recursion : Nat) (wavelength : K) : Option (Color K) :=
  let point := intersection.point
  let normal := intersection.normal
  let refractionIndex0 := material.refraction.re + wavelength * material.dispersion
  let outside : Bool := decide (cos_angle_ray_normal ≤ 0)
  let cos_angle_ray_normalTurned :=
    if outside = true then cos_angle_ray_normal * -1 else cos_angle_ray_normal
  let refractionIndex := if outside = true then 1 / refractionIndex0 else refractionIndex0
  let normalTurned := if outside = true then normal else normal.scale (-1)
  let k := 1 - refractionIndex * refractionIndex *
    (1 - cos_angle_ray_normalTurned * cos_angle_ray_normalTurned)
  if k ≥ 0 then
    let refractionVector := (ray.direction.scale refractionIndex).add
      (normalTurned.scale (refractionIndex * cos_angle_ray_normalTurned - lm.sqrt k))
    let refractionRay := (Ray.new lm point refractionVector).addOffset
      (normal.scale (if outside = true then -EPSILON else EPSILON))
    recurse refractionRay (u32Add recursion 1) wavelength
  else some Color.zero

/-- Embeds `calcReflection`; `recurse` is the recursive call of `castRay`. -/
def calcReflection (lm : Libm K) (recurse : Ray K → Nat → K → Option (Color K)) (ray : Ray K)
    (intersection : Intersection K) (cos_angle_ray_normal : K)
    (recursion : Nat) (wavelength : K) : Option (Color K) :=
  let point := intersection.point
  let normal := intersection.normal
  let outside : Bool := decide (cos_angle_ray_normal ≤ 0)
  let reflectionVector := ray.direction.sub ((normal.scale cos_angle_ray_normal).scale 2)
  let mirrorRay := (Ray.new lm point reflectionVector).addOffset
    (normal.scale (if outside = true then EPSILON else -EPSILON))
  recurse mirrorRay (u32Add recursion 1) wavelength

/-- Lines 140-160 of `castRay`: the radiance computed at an accepted
intersection (before it replaces `rad`). -/
def hitRadiance (lm : Libm K) (scene : Scene K) (recurse : Ray K → Nat → K → Option (Color K))
    (ray : Ray K) (recursion : Nat) (wavelength : K) (object : Object K)
    (intersection : Intersection K) (cos_angle_ray_normal : K) : Option (Color K) :=
  let material := object.material
  let rad0 : Color K := Color.zero
  let rad1 : Color K :=
    if cos_angle_ray_normal < 0 then
      (rad0.add (calcPhong lm scene ray intersection material)).add
        (object.getPhoton intersection.photonCoordinate)
    else rad0
  let rad3 : Option (Color K) :=
    if (material.transmittance ≠ 0 ∨ material.reflectance ≠ 0) ∧ material.refraction.norm > 0 then
      let kr := calcFresnel lm material cos_angle_ray_normal wavelength
      let rad2 : Option (Color K) :=
        if material.transmittance ≠ 0 ∧ kr < 1 then
          match calcRefraction lm recurse ray intersection material cos_angle_ray_normal
              recursion wavelength with
          | none => none
          | some c => some (rad1.add (c.scale (1 - kr)))
        else some rad1
      match rad2 with
      | none => none
      | some r2 =>
        if material.reflectance ≠ 0 ∧ kr > 0 then
          match calcReflection lm recurse ray intersection cos_angle_ray_normal
              recursion wavelength with
          | none => none
          | some c => some (r2.add (c.scale kr))
        else some r2
    else some rad1
  match rad3 with
  | none => none
  | some r => some r.withoutAlpha

/-- The loop over the objects in `castRay` (lines 126-162); the state is `rad`
and `max_distance`. -/
def castRayObjects (lm : Libm K) (scene : Scene K)
    (recurse : Ray K → Nat → K → Option (Color K)) (ray : Ray K) (recursion : Nat)
    (wavelength : K) : List (Object K) → Color K → K → Option (Color K)
  | [], rad, _ => some rad
  | object :: rest, rad, max_distance =>
    match object.intersect lm ray max_distance with
    | none => castRayObjects lm scene recurse ray recursion wavelength rest rad max_distance
    | some intersection =>
      let material := object.material
      let cos_angle_ray_normal := clampScalar (ray.direction.dot intersection.normal) (-1) 1
      if cos_angle_ray_normal ≥ 0 ∧
          (material.transmittance = 0 ∨ material.refraction.norm = 0) then
        castRayObjects lm scene recurse ray recursion wavelength rest rad max_distance
      else
        match hitRadiance lm scene recurse ray recursion wavelength object intersection
            cos_angle_ray_normal with
        | none => none
        | some newRad =>
          castRayObjects lm scene recurse ray recursion wavelength rest newRad
            intersection.distance

/-- Embeds `RayTracer::Instance::Thread::castRay`.  The first argument bounds
the depth of the recursion that is followed; `none` means it did not
suffice. -/
def castRay (lm : Libm K) (scene : Scene K) : Nat → Ray K → Nat → K → Option (Color K)
  | 0, _, _, _ => none
  | fuel + 1, ray, recursion, wavelength =>
    if recursion > scene.m_camera.m_maxBounces then some Color.zero
    else
      castRayObjects lm scene (castRay lm scene fuel) ray recursion wavelength scene.m_objects
        scene.m_background INFINITE

end FloorScalars

/-! ## raytracer.cpp: the worker threads -/

/-- The state shared by the worker threads of `Instance::raytrace`: the atomic
counter `m_NextLine`, the workers whose loop has ended, and the calls
`raytraceLine(y)` made so far as pairs (worker, y), in the order of the
`fetch_add` operations that produced them. -/
structure Workers where
  m_NextLine : Nat
  finished : List Nat
  lines : List (Nat × Nat)
deriving DecidableEq, Repr

/-- Line 32 of `Instance::raytrace`: `m_NextLine.store(0)` before the workers
are started. -/
def Workers.start : Workers := ⟨0, [], []⟩

/-- One evaluation by worker `t` of the loop condition of `Thread::raytrace`,
`(y = m_NextLine.fetch_add(1)) < m_picSize.y`, which is one atomic operation on
the `u32` counter, with the call `raytraceLine(y)` that follows when it holds.
A worker whose loop has ended does nothing. -/
def Workers.fetch (height : Nat) (s : Workers) (t : Nat) : Workers :=
  if t ∈ s.finished then s
  else
    let y := s.m_NextLine
    if y < height then ⟨u32Add s.m_NextLine 1, s.finished, s.lines ++ [(t, y)]⟩
    else ⟨u32Add s.m_NextLine 1, t :: s.finished, s.lines⟩

/-- The workers after the `fetch_add` operations of `schedule`, the list of the
workers in the order in which their operations take effect on the counter. -/
def Workers.run (height : Nat) (schedule : List Nat) : Workers :=
  schedule.foldl (Workers.fetch height) Workers.start

/-! ## raytracer.cpp: the per-frame renderer -/

/-- Embeds the constructor `Vector2(UPoint2 p)` -/
def Vector2.ofUPoint2 (p : UPoint2) : Vector2 K := ⟨(p.x : K), (p.y : K)⟩

/-- Embeds `Vector2::operator*(Vector2)`: the component-wise product. -/
def Vector2.mul (a b : Vector2 K) : Vector2 K := ⟨a.x * b.x, a.y * b.y⟩

/-- Embeds `Vector2::aspect` -/
def Vector2.aspect (a : Vector2 K) : K := a.y / a.x

/-- Embeds `operator/(scalar lhs, Vector2 rhs)` -/
def Vector2.scalarDiv (lhs : K) (rhs : Vector2 K) : Vector2 K := ⟨lhs / rhs.x, lhs / rhs.y⟩

/-- Embeds `Vector3::operator+(const Vector2 &)` -/
def Vector3.addVector2 (a : Vector3 K) (rhs : Vector2 K) : Vector3 K :=
  ⟨a.x + rhs.x, a.y + rhs.y, a.z⟩

/-- The constant members of `class RayTracer::Instance`. -/
structure Instance (K : Type) where
  m_picSize : UPoint2
  m_picSizeF : Vector2 K
  m_halfFovX : K
  m_halfFov : Vector2 K
  m_pixelSize : Vector2 K
  m_subPixelSize : Vector2 K
  m_cameraTransformation : Matrix34 K

/-- Embeds the constructor `RayTracer::Instance::Instance`. -/
def Instance.new (lm : Libm K) (scene : Scene K) (picture : Picture K) : Instance K :=
  let m_picSize := picture.size
  let m_picSizeF : Vector2 K := Vector2.ofUPoint2 m_picSize
  let m_halfFovX := scene.m_camera.m_fieldOfViewAngle
  let m_halfFov : Vector2 K := ⟨-lm.tan m_halfFovX, lm.tan m_halfFovX * m_picSizeF.aspect⟩
  let m_pixelSize : Vector2 K := (Vector2.scalarDiv (-2) m_picSizeF).mul m_halfFov
  { m_picSize := m_picSize
    m_picSizeF := m_picSizeF
    m_halfFovX := m_halfFovX
    m_halfFov := m_halfFov
    m_pixelSize := m_pixelSize
    m_subPixelSize := m_pixelSize.scale (1 / (scene.m_camera.m_superSamplingPerAxis : K))
    m_cameraTransformation := scene.m_camera.m_cameraTransformation }

section FloorScalars

variable [FloorRing K]

/-- The loop over the hues in `raytraceLine` (lines 101-103), with `radiance`
as state. -/
def dispersionRays (lm : Libm K) (scene : Scene K) (fuel : Nat) (ray : Ray K) :
    List K → Color K → Option (Color K)
  | [], radiance => some radiance
  | h :: rest, radiance =>
    match castRay lm scene fuel ray 0 (h / 180 - 1), HSVtoRGB h 100 100 with
    | some c, some tint =>
      dispersionRays lm scene fuel ray rest (radiance.add ((c.mul tint).divScalar 4))
    | _, _ => none

/-- Lines 70-106 of `raytraceLine`: the radiance of one sub-pixel ray added to
`radiance`.  `jitter` holds the two values drawn from `m_randDis(m_randGen)`. -/
def subPixelRadiance (lm : Libm K) (scene : Scene K) (inst : Instance K) (fuel : Nat)
    (rayX rayY : K) (initialRayCount subX subY : Nat) (jitter : Vector2 K) (radiance : Color K) :
    Option (Color K) :=
  let subDisplacement : Vector2 K :=
    ⟨2 * ((u32Add subX 1 : Nat) : K) / ((u32Add initialRayCount 1 : Nat) : K) - 1,
     2 * ((u32Add subY 1 : Nat) : K) / ((u32Add initialRayCount 1 : Nat) : K) - 1⟩
  let targetDisplacement := subDisplacement.mul inst.m_pixelSize
  let targetOnImagePlane := (⟨rayX, rayY, -1⟩ : Vector3 K).addVector2 targetDisplacement
  let targetOnFocusPlane :=
    inst.m_cameraTransformation.mulVec (targetOnImagePlane.scale scene.m_camera.m_focusDistance)
  let originDisplacement : Vector2 K :=
    (subDisplacement.add (jitter.scale (1 / (initialRayCount : K)))).scale
      scene.m_camera.m_lensSize
  let rayOrigin := (inst.m_cameraTransformation.mulVec ⟨0, 0, 0⟩).addVector2 originDisplacement
  let ray := Ray.new lm rayOrigin (targetOnFocusPlane.sub rayOrigin)
  if scene.m_dispersionMode = true then
    dispersionRays lm scene fuel ray dispersionHues radiance
  else
    match castRay lm scene fuel ray 0 0 with
    | none => none
    | some c => some (radiance.add c)

/-- The inner loop of `raytraceLine` over `subX` (line 69); the first argument
counts the iterations that remain. -/
def subPixelRow (lm : Libm K) (scene : Scene K) (inst : Instance K) (fuel : Nat)
    (rnd : Nat → Nat → Nat → Nat → Vector2 K) (x y : Nat) (rayX rayY : K)
    (initialRayCount subY : Nat) : Nat → Nat → Color K → Option (Color K)
  | 0, _, radiance => some radiance
  | n + 1, subX, radiance =>
    match subPixelRadiance lm scene inst fuel rayX rayY initialRayCount subX subY
        (rnd x y subX subY) radiance with
    | none => none
    | some r => subPixelRow lm scene inst fuel rnd x y rayX rayY initialRayCount subY n (subX + 1) r

/-- The loop of `raytraceLine` over `subY` (line 68). -/
def subPixelGrid (lm : Libm K) (scene : Scene K) (inst : Instance K) (fuel : Nat)
    (rnd : Nat → Nat → Nat → Nat → Vector2 K) (x y : Nat) (rayX rayY : K)
    (initialRayCount : Nat) : Nat → Nat → Color K → Option (Color K)
  | 0, _, radiance => some radiance
  | n + 1, subY, radiance =>
    match subPixelRow lm scene inst fuel rnd x y rayX rayY initialRayCount subY
        initialRayCount 0 radiance with
    | none => none
    | some r => subPixelGrid lm scene inst fuel rnd x y rayX rayY initialRayCount n (subY + 1) r

/-- The loop of `raytraceLine` over the pixels `x` of the line (lines 60-112);
the state is the picture and `rayX`.  When the `u32` product
`initialRayCount * initialRayCount` is 0, the factor `1.0f / 0` of line 110 is
an infinity and the values stored in the pixel are infinities or NaN, which a
picture of this embedding cannot hold: the result is `none`. -/
def raytracePixels (lm : Libm K) (scene : Scene K) (inst : Instance K) (fuel : Nat)
    (rnd : Nat → Nat → Nat → Nat → Vector2 K) (y : Nat) (rayY : K) (initialRayCount : Nat) :
    Nat → Nat → K → Picture K → Option (Picture K)
  | 0, _, _, picture => some picture
  | n + 1, x, rayX, picture =>
    match subPixelGrid lm scene inst fuel rnd x y rayX rayY initialRayCount initialRayCount 0
        Color.zero with
    | none => none
    | some radiance =>
      if u32Mul initialRayCount initialRayCount = 0 then none
      else
        let origRadiance := picture.get ⟨x, y⟩
        let picture2 := picture.set ⟨x, y⟩
          (origRadiance.add
            (radiance.scale (1 / ((u32Mul initialRayCount initialRayCount : Nat) : K))))
        raytracePixels lm scene inst fuel rnd y rayY initialRayCount n (x + 1)
          (rayX + inst.m_pixelSize.x) picture2

/-- Embeds `RayTracer::Instance::Thread::raytraceLine`.  The values drawn
from the thread's random generator are given by `rnd`, indexed by pixel and
sub-pixel. -/
def raytraceLine (lm : Libm K) (scene : Scene K) (inst : Instance K) (fuel : Nat)
    (rnd : Nat → Nat → Nat → Nat → Vector2 K) (picture : Picture K) (y : Nat) :
    Option (Picture K) :=
  let rayY := inst.m_halfFov.y + (y : K) * inst.m_pixelSize.y + 1 / 2 * inst.m_pixelSize.y
  let initialRayCount := scene.m_camera.m_superSamplingPerAxis
  let rayX := inst.m_halfFov.x + 1 / 2 * inst.m_pixelSize.x
  raytracePixels lm scene inst fuel rnd y rayY initialRayCount inst.m_picSize.x 0 rayX picture

/-- The calls `raytraceLine(y)` for the lines `y` of a list, one after the
other. -/
def raytraceLines (lm : Libm K) (scene : Scene K) (inst : Instance K) (fuel : Nat)
    (rnd : Nat → Nat → Nat → Nat → Vector2 K) : List Nat → Picture K → Option (Picture K)
  | [], picture => some picture
  | y :: rest, picture =>
    match raytraceLine lm scene inst fuel rnd picture y with
    | none => none
    | some picture2 => raytraceLines lm scene inst fuel rnd rest picture2

/-- Embeds `RayTracer::raytrace` with `Instance::raytrace` and
`Thread::raytrace`: a new picture of the camera's resolution, on which the
workers make the calls `raytraceLine(y)` that `Workers.run` gives for
`schedule`, the order in which the `fetch_add` operations of the workers take
effect.  The calls are evaluated one after the other in that order; a call
reads and writes only the pixels of its own line.  A line that the counter
hands out twice is rendered twice.  `fuel` bounds the recursion depth followed
by `castRay`. -/
def raytrace (lm : Libm K) (scene : Scene K) (fuel : Nat)
    (rnd : Nat → Nat → Nat → Nat → Vector2 K) (schedule : List Nat) : Option (Picture K) :=
  let picture : Picture K := Picture.new scene.m_camera.m_resolution
  let inst := Instance.new lm scene picture
  raytraceLines lm scene inst fuel rnd
    ((Workers.run inst.m_picSize.y schedule).lines.map Prod.snd) picture

end FloorScalars

/-! ## photonmap.cpp -/

/-- The values taken by the loop variable of
`for (scalar x = start; x < limit; x += step)`, in order.  The first argument
bounds the number of iterations; `none` means it did not suffice.  The sums are exact here;
`scanAngles32` rounds each of them to a `float`. -/
def scanAngles : Nat → K → K → K → Option (List K)
  | 0, _, _, _ => none
  | fuel + 1, limit, step, x =>
    if x < limit then
      match scanAngles fuel limit step (x + step) with
      | none => none
      | some rest => some (x :: rest)
    else some []

/-- The loop of `PhotonMapper::castRay` that finds the nearest intersected
object (lines 68-74); `i` is the position of `object` in the scene and the
state is `max_distance` with the nearest object found so far. -/
def nearestHit (lm : Libm K) (ray : Ray K) :
    List (Object K) → Nat → K → Option (Nat × Intersection K) → Option (Nat × Intersection K)
  | [], _, _, nearest => nearest
  | object :: rest, i, max_distance, nearest =>
    match object.intersect lm ray max_distance with
    | some intersection => nearestHit lm ray rest (i + 1) intersection.distance (some (i, intersection))
    | none => nearestHit lm ray rest (i + 1) max_distance nearest

section FloorScalars

variable [FloorRing K]

/-- Embeds `PhotonMapper::castRay`.  The objects of the scene, whose photon
textures the function changes, are passed and returned as a list; `scene`
gives the camera and the texture size.  The first argument bounds the depth
of the recursion that is followed; `none` means it did not suffice. -/
def PhotonMapper.castRay (lm : Libm K) (scene : Scene K) :
    Nat → List (Object K) → Ray K → Nat → K → Color K → Option (List (Object K))
  | 0, _, _, _, _, _ => none
  | fuel + 1, objects, ray, recursion, wavelength, rad =>
    if recursion > scene.m_camera.m_maxBounces then some objects
    else
      match nearestHit lm ray objects 0 INFINITE none with
      | none => some objects
      | some (index, nearestIntersection) =>
        match objects[index]? with
        | none => some objects
        | some nearestObject =>
          if nearestObject.material.refraction.norm ≤ 0 then
            if recursion > 0 then
              some (objects.set index
                (nearestObject.addPhoton scene.m_photonMapTextureSize
                  nearestIntersection.photonCoordinate rad))
            else some objects
          else
            let material := nearestObject.material
            let point := nearestIntersection.point
            let normal := nearestIntersection.normal
            let cos_angle_ray_normal := clampScalar (ray.direction.dot normal) (-1) 1
            let etai0 : Cplx K := ⟨1, 0⟩
            let etat0 : Cplx K := material.refraction.addReal (wavelength * material.dispersion)
            let outside : Bool := !decide (cos_angle_ray_normal > 0)
            let etai := if cos_angle_ray_normal > 0 then etat0 else etai0
            let etat := if cos_angle_ray_normal > 0 then etai0 else etat0
            let sint := (etai.div etat).scale
              (lm.sqrt (max 0 (1 - cos_angle_ray_normal * cos_angle_ray_normal)))
            let kr : K :=
              if sint.norm < 1 then
                let cost := lm.csqrt ((⟨1, 0⟩ : Cplx K).sub (sint.mul sint))
                let cos_angle_ray_normalAbs := |cos_angle_ray_normal|
                let Rs := ((etat.scale cos_angle_ray_normalAbs).sub (etai.mul cost)).div
                  ((etat.scale cos_angle_ray_normalAbs).add (etai.mul cost))
                let Rp := ((etai.scale cos_angle_ray_normalAbs).sub (etat.mul cost)).div
                  ((etai.scale cos_angle_ray_normalAbs).add (etat.mul cost))
                (Rs.norm + Rp.norm) / 2
              else 1
            let afterRefraction : Option (List (Object K)) :=
              if kr < 1 then
                let refractionIndex0 := material.refraction.re + wavelength * material.dispersion
                let cos_angle_ray_normalTurned :=
                  if outside = true then cos_angle_ray_normal * -1 else cos_angle_ray_normal
                let refractionIndex :=
                  if outside = true then 1 / refractionIndex0 else refractionIndex0
                let normalTurned := if outside = true then normal else normal.scale (-1)
                let k := 1 - refractionIndex * refractionIndex *
                  (1 - cos_angle_ray_normalTurned * cos_angle_ray_normalTurned)
                if k ≥ 0 then
                  let refractionVector := (ray.direction.scale refractionIndex).add
                    (normalTurned.scale
                      (refractionIndex * cos_angle_ray_normalTurned - lm.sqrt k))
                  let refractionRay := (Ray.new lm point refractionVector).addOffset
                    (normal.scale (if outside = true then -EPSILON else EPSILON))
                  PhotonMapper.castRay lm scene fuel objects refractionRay (u32Add recursion 1)
                    wavelength (rad.scale (1 - kr))
                else some objects
              else some objects
            match afterRefraction with
            | none => none
            | some objects2 =>
              let reflectionVector :=
                ray.direction.sub ((normal.scale cos_angle_ray_normal).scale 2)
              let mirrorRay := (Ray.new lm point reflectionVector).addOffset
                (normal.scale (if outside = true then EPSILON else -EPSILON))
              PhotonMapper.castRay lm scene fuel objects2 mirrorRay (u32Add recursion 1)
                wavelength (rad.scale kr)

/-- The loop over the hues in `PhotonMapper::generate` (lines 49-51), with the
objects as state. -/
def PhotonMapper.dispersionRays (lm : Libm K) (scene : Scene K) (fuel : Nat) (lightRay : Ray K) :
    List K → List (Object K) → Option (List (Object K))
  | [], objects => some objects
  | h :: rest, objects =>
    match HSVtoRGB h 100 100 with
    | none => none
    | some tint =>
      match PhotonMapper.castRay lm scene fuel objects lightRay 0 (h / 180 - 1)
          ((tint.scale scene.m_photonMapFactor).divScalar 4) with
      | none => none
      | some objects2 => PhotonMapper.dispersionRays lm scene fuel lightRay rest objects2

/-- Lines 48-55 of `PhotonMapper::generate`: what is cast along one primary
light ray. -/
def PhotonMapper.castPrimary (lm : Libm K) (scene : Scene K) (fuel : Nat)
    (objects : List (Object K)) (lightRay : Ray K) : Option (List (Object K)) :=
  if scene.m_dispersionMode = true then
    PhotonMapper.dispersionRays lm scene fuel lightRay dispersionHues objects
  else
    PhotonMapper.castRay lm scene fuel objects lightRay 0 0
      ((Color.rgb 1 1 1).scale scene.m_photonMapFactor)

end FloorScalars

/-- The primary light rays that the two scan loops of `PhotonMapper::generate`
(lines 38-46) construct for one point light, in order; `none` when `fuel`
iterations do not end one of the loops. -/
def PhotonMapper.primaryRays (lm : Libm K) (scene : Scene K) (fuel : Nat) (light : Light K) :
    Option (List (Ray K)) :=
  let SCAN_STEP_ANGLE := 2 * PI / scene.m_photonMapScanSteps
  match scanAngles fuel (2 * PI) SCAN_STEP_ANGLE 0, scanAngles fuel PI SCAN_STEP_ANGLE 0 with
  | some phis, some thetas =>
    some (phis.flatMap (fun phi => thetas.map (fun theta =>
      Ray.new lm light.m_position
        ⟨lm.sin theta * lm.cos phi, lm.sin theta * lm.sin phi, lm.cos theta⟩)))
  | _, _ => none

section FloorScalars

variable [FloorRing K]

/-- The casts of `PhotonMapper::generate` along a list of primary rays, with
the objects as state. -/
def PhotonMapper.castAll (lm : Libm K) (scene : Scene K) (fuel : Nat) :
    List (Ray K) → List (Object K) → Option (List (Object K))
  | [], objects => some objects
  | lightRay :: rest, objects =>
    match PhotonMapper.castPrimary lm scene fuel objects lightRay with
    | none => none
    | some objects2 => PhotonMapper.castAll lm scene fuel rest objects2

/-- The loop of `PhotonMapper::generate` over the lights (lines 21-58), with
the objects as state. -/
def PhotonMapper.generateLights (lm : Libm K) (scene : Scene K) (fuel : Nat) :
    List (Light K) → List (Object K) → Option (List (Object K))
  | [], objects => some objects
  | light :: rest, objects =>
    if light.m_type = LightType.Parallel then
      PhotonMapper.generateLights lm scene fuel rest objects
    else
      match PhotonMapper.primaryRays lm scene fuel light with
      | none => none
      | some rays =>
        match PhotonMapper.castAll lm scene fuel rays objects with
        | none => none
        | some objects2 => PhotonMapper.generateLights lm scene fuel rest objects2

/-- Embeds `PhotonMapper::generate`: the scene with the photon textures of its
objects filled.  `fuel` bounds the iterations of each scan loop and the depth
of the recursion of `castRay`; `none` means it did not suffice. -/
def PhotonMapper.generate (lm : Libm K) (scene : Scene K) (fuel : Nat) : Option (Scene K) :=
  match PhotonMapper.generateLights lm scene fuel scene.m_lights scene.m_objects with
  | none => none
  | some objects => some { scene with m_objects := objects }

end FloorScalars

/-! ## main.cpp: motion-blur compositing -/

/-- The compositing loop of `renderImageMotionBlur` (lines 45-64). -/
def compositeSubPictures (size : UPoint2) (subFramesCount : Nat)
    (subPictures : List (Picture K)) : Picture K :=
  subPictures.foldl
    (fun picture subPicture => picture.mulAdd subPicture (1 / (subFramesCount : K)))
    (Picture.new size)

/-! ## fspolyfill.h -/

/-- Embeds `DRIVE_SEPARATORS { ":" }` -/
def DRIVE_SEPARATORS : List Char := [':']

/-- Embeds `DIR_SEPARATORS`, the colon, the slash and the backslash (code 92). -/
def DIR_SEPARATORS : List Char := [':', '/', Char.ofNat 92]

/-- Embeds `std::string::find_first_of`: the position of the first character
of `s` that occurs in `set`; `none` is `npos`. -/
def find_first_of : List Char → List Char → Option Nat
  | [], _ => none
  | c :: rest, set =>
    if c ∈ set then some 0
    else
      match find_first_of rest set with
      | none => none
      | some i => some (i + 1)

/-- Embeds `std::string::find_last_of`: the position of the last character of
`s` that occurs in `set`; `none` is `npos`. -/
def find_last_of : List Char → List Char → Option Nat
  | [], _ => none
  | c :: rest, set =>
    match find_last_of rest set with
    | some i => some (i + 1)
    | none => if c ∈ set then some 0 else none

/-- Embeds `std::string::front`.  On an empty string the call is undefined;
the character read here is the terminating NUL of the string's storage. -/
def front (s : List Char) : Char := s.headD (Char.ofNat 0)

/-- Embeds `replace_filename` -/
def replace_filename (path replacement : List Char) : List Char :=
  if find_first_of DIR_SEPARATORS [front replacement] ≠ none then replacement
  else if find_first_of replacement DRIVE_SEPARATORS ≠ none then replacement
  else
    let seppos := find_last_of path DIR_SEPARATORS
    let ret := path.take (match seppos with
      | none => 0
      | some p => p + 1)
    ret ++ replacement

/-! ## types.h: matrix product and camera matrix -/

/-- Embeds `Matrix34::operator*(const Matrix34 &)`: every entry is the sum `s`
of the loop over `i`, started at 0, and the translation of the left factor is
added to column 3. -/
def Matrix34.mul (m rhs : Matrix34 K) : Matrix34 K :=
  ⟨0 + m.m00 * rhs.m00 + m.m01 * rhs.m10 + m.m02 * rhs.m20,
   0 + m.m00 * rhs.m01 + m.m01 * rhs.m11 + m.m02 * rhs.m21,
   0 + m.m00 * rhs.m02 + m.m01 * rhs.m12 + m.m02 * rhs.m22,
   0 + m.m00 * rhs.m03 + m.m01 * rhs.m13 + m.m02 * rhs.m23 + m.m03,
   0 + m.m10 * rhs.m00 + m.m11 * rhs.m10 + m.m12 * rhs.m20,
   0 + m.m10 * rhs.m01 + m.m11 * rhs.m11 + m.m12 * rhs.m21,
   0 + m.m10 * rhs.m02 + m.m11 * rhs.m12 + m.m12 * rhs.m22,
   0 + m.m10 * rhs.m03 + m.m11 * rhs.m13 + m.m12 * rhs.m23 + m.m13,
   0 + m.m20 * rhs.m00 + m.m21 * rhs.m10 + m.m22 * rhs.m20,
   0 + m.m20 * rhs.m01 + m.m21 * rhs.m11 + m.m22 * rhs.m21,
   0 + m.m20 * rhs.m02 + m.m21 * rhs.m12 + m.m22 * rhs.m22,
   0 + m.m20 * rhs.m03 + m.m21 * rhs.m13 + m.m22 * rhs.m23 + m.m23⟩

/-- Embeds `Matrix34::lookAt` -/
def Matrix34.lookAt (lm : Libm K) (camera target up : Vector3 K) : Matrix34 K :=
  let zAxis := (camera.sub target).normalized lm
  let xAxis := (up.cross zAxis).normalized lm
  let yAxis := (zAxis.cross xAxis).normalized lm
  ⟨xAxis.x, yAxis.x, zAxis.x, camera.x,
   xAxis.y, yAxis.y, zAxis.y, camera.y,
   xAxis.z, yAxis.z, zAxis.z, camera.z⟩

/-! ## objects.h: the camera -/

/-- Embeds `Camera::recalculateCamera` -/
def Camera.recalculateCamera (lm : Libm K) (c : Camera K) : Camera K :=
  { c with
    m_cameraTransformation := Matrix34.lookAt lm c.m_position c.m_lookAt c.m_upVector
    m_focusDistance := (c.m_focusPoint.sub c.m_position).length lm }

/-- Embeds the constructor `Camera()`: the default member initialisers, then
`recalculateCamera()`.  The two members without initialiser are indeterminate
until that call assigns them; they are written here as the identity and 0. -/
def Camera.new (lm : Libm K) : Camera K :=
  Camera.recalculateCamera lm
    { m_position := ⟨0, 0, 0⟩
      m_lookAt := ⟨0, 0, -1⟩
      m_upVector := ⟨0, 1, 0⟩
      m_fieldOfViewAngle := PI / 4
      m_resolution := ⟨512, 512⟩
      m_maxBounces := 8
      m_superSamplingPerAxis := 1
      m_cameraTransformation := Matrix34.identity
      m_focusPoint := ⟨0, 0, -1⟩
      m_focusDistance := 0
      m_lensSize := 0 }

/-- Embeds `Camera::cameraTransformation` -/
def Camera.cameraTransformation (c : Camera K) : Matrix34 K := c.m_cameraTransformation

/-- Embeds `Camera::focusDistance` -/
def Camera.focusDistance (c : Camera K) : K := c.m_focusDistance

/-- Embeds `Camera::setPosition` -/
def Camera.setPosition (lm : Libm K) (c : Camera K) (p : Vector3 K) : Camera K :=
  Camera.recalculateCamera lm { c with m_position := p }

/-- Embeds `Camera::setLookAt` -/
def Camera.setLookAt (lm : Libm K) (c : Camera K) (p : Vector3 K) : Camera K :=
  Camera.recalculateCamera lm { c with m_lookAt := p }

/-- Embeds `Camera::setUpVector` -/
def Camera.setUpVector (lm : Libm K) (c : Camera K) (v : Vector3 K) : Camera K :=
  Camera.recalculateCamera lm { c with m_upVector := v }

/-- Embeds `Camera::setFieldOfViewAngle` -/
def Camera.setFieldOfViewAngle (c : Camera K) (fov : K) : Camera K :=
  { c with m_fieldOfViewAngle := fov }

/-- Embeds `Camera::setResolution` -/
def Camera.setResolution (c : Camera K) (resolution : UPoint2) : Camera K :=
  { c with m_resolution := resolution }

/-- Embeds `Camera::setMaxBounces` -/
def Camera.setMaxBounces (c : Camera K) (n : Nat) : Camera K :=
  { c with m_maxBounces := n }

/-- Embeds `Camera::setSuperSamplingPerAxis` -/
def Camera.setSuperSamplingPerAxis (c : Camera K) (v : Nat) : Camera K :=
  { c with m_superSamplingPerAxis := v }

/-- Embeds `Camera::setFocusPoint` -/
def Camera.setFocusPoint (lm : Libm K) (c : Camera K) (p : Vector3 K) : Camera K :=
  Camera.recalculateCamera lm { c with m_focusPoint := p }

/-- Embeds `Camera::setLensSize` -/
def Camera.setLensSize (c : Camera K) (size : K) : Camera K :=
  { c with m_lensSize := size }

/-! ## types.h: 8-bit colours -/

/-- Embeds `struct UColor`: four bytes. -/
structure UColor where
  r : Nat
  g : Nat
  b : Nat
  a : Nat
deriving DecidableEq, Repr

/-- Embeds `static_cast<u8>` of an `int`: reduction modulo 256. -/
def castU8 (n : Int) : Nat := (n % 256).toNat

/-- Embeds `UColor::rgba` -/
def UColor.rgba (c : UColor) : List Nat := [c.r, c.g, c.b, c.a]

/-- Embeds `UColor::operator+` -/
def UColor.add (p q : UColor) : UColor :=
  ⟨castU8 ((p.r : Int) + q.r), castU8 ((p.g : Int) + q.g), castU8 ((p.b : Int) + q.b),
    castU8 ((p.a : Int) + q.a)⟩

/-- Embeds `UColor::operator-` -/
def UColor.sub (p q : UColor) : UColor :=
  ⟨castU8 ((p.r : Int) - q.r), castU8 ((p.g : Int) - q.g), castU8 ((p.b : Int) - q.b),
    castU8 ((p.a : Int) - q.a)⟩

/-- Embeds the constructor `Color(UColor ucol)` -/
def Color.ofUColor (ucol : UColor) : Color K :=
  ⟨(ucol.r : K) / 255, (ucol.g : K) / 255, (ucol.b : K) / 255, (ucol.a : K) / 255⟩

section FloorScalars

variable [FloorRing K]

/-- Embeds `Color::scaleOut`: `static_cast<u8>(std::clamp(v * gain, 0.0f,
1.0f) * 255.0f)` on each channel; the converted value lies in `[0, 255]`,
where the conversion is truncation. -/
def Color.scaleOut (c : Color K) (gain : K) : UColor :=
  ⟨⌊clampScalar (c.r * gain) 0 1 * 255⌋₊, ⌊clampScalar (c.g * gain) 0 1 * 255⌋₊,
    ⌊clampScalar (c.b * gain) 0 1 * 255⌋₊, ⌊clampScalar (c.a * gain) 0 1 * 255⌋₊⟩

end FloorScalars

/-! ## pngwriter.cpp: the filtered scan lines -/

/-- Embeds `enum class PNGFilterType` -/
inductive PNGFilterType where
  | None
  | Sub
deriving DecidableEq, Repr

/-- Embeds `static_cast<u8>(filterType)` -/
def PNGFilterType.toU8 : PNGFilterType → Nat
  | .None => 0
  | .Sub => 1

section FloorScalars

variable [FloorRing K]

/-- The loop over `x` in `writeAPNGFrame` (lines 210-215): the bytes appended
for the pixels `x, x + 1, ...` of line `y`; the first argument counts the
pixels that remain. -/
def filterLine (picture : Picture K) (gain : K) (filterType : PNGFilterType) (y : Nat) :
    Nat → Nat → UColor → List Nat
  | 0, _, _ => []
  | n + 1, x, prevPixelColor =>
    let color := (picture.get ⟨x, y⟩).scaleOut gain
    let encodedColor :=
      (if filterType = PNGFilterType.None then color else color.sub prevPixelColor).rgba
    encodedColor ++ filterLine picture gain filterType y n (x + 1) color

/-- The loop over `y` in `writeAPNGFrame` (lines 207-216). -/
def filterLines (picture : Picture K) (gain : K) (filterType : PNGFilterType) :
    Nat → Nat → List Nat
  | 0, _ => []
  | n + 1, y =>
    filterType.toU8 ::
      (filterLine picture gain filterType y picture.size.x 0 ⟨0, 0, 0, 0⟩ ++
        filterLines picture gain filterType n (y + 1))

/-- The vector `filteredData` that `writeAPNGFrame` builds and compresses. -/
def filteredData (picture : Picture K) (gain : K) (filterType : PNGFilterType) : List Nat :=
  filterLines picture gain filterType picture.size.y 0

end FloorScalars

/-! ## pngloader.cpp: decoding the scan lines -/

/-- Embeds `struct PngIHDR` -/
structure PngIHDR where
  width : Nat
  height : Nat
  bitDepth : Nat
  colorType : Nat
  compressionMethod : Nat
  filterMethod : Nat
  interlaceMethod : Nat

/-- Embeds `average` on bytes -/
def averageU8 (lhs rhs : Nat) : Nat := castU8 (((lhs : Int) + rhs) / 2)

/-- Embeds `average` on colours -/
def UColor.average (lhs rhs : UColor) : UColor :=
  ⟨averageU8 lhs.r rhs.r, averageU8 lhs.g rhs.g, averageU8 lhs.b rhs.b, averageU8 lhs.a rhs.a⟩

/-- Embeds `paeth` on bytes -/
def paethU8 (a b c : Nat) : Nat :=
  let p : Int := (a : Int) + b - c
  let pa := |p - a|
  let pb := |p - b|
  let pc := |p - c|
  if pa ≤ pb ∧ pa ≤ pc then a
  else if pb ≤ pc then b
  else c

/-- Embeds `paeth` on colours -/
def UColor.paeth (a b c : UColor) : UColor :=
  ⟨paethU8 a.r b.r c.r, paethU8 a.g b.g c.g, paethU8 a.b b.b c.b, paethU8 a.a b.a c.a⟩

/-- Lines 209-231 of `decodePngData`: one pixel is read from the iterator
`it` and unfiltered.  `none` is a read past the end of the data (undefined in
the source) or the exception for an unsupported filter type. -/
def decodePixel (alpha : Bool) (filterType : Nat)
    (prevPixel prevLinePixel prevLinePrevPixel : UColor) (it : List Nat) :
    Option (UColor × List Nat) :=
  match it with
  | r :: g :: b :: it3 =>
    let last : Option (Nat × List Nat) :=
      if alpha = true then
        match it3 with
        | a :: it4 => some (a, it4)
        | [] => none
      else some (255, it3)
    match last with
    | none => none
    | some (a, it4) =>
      let col : UColor := ⟨r, g, b, a⟩
      let filtered : Option UColor :=
        match filterType with
        | 0 => some col
        | 1 => some (col.add prevPixel)
        | 2 => some (col.add prevLinePixel)
        | 3 => some (col.add (UColor.average prevPixel prevLinePixel))
        | 4 => some (col.add (UColor.paeth prevPixel prevLinePixel prevLinePrevPixel))
        | _ => none
      match filtered with
      | none => none
      | some col2 => some (if alpha = true then col2 else { col2 with a := 255 }, it4)
  | _ => none

/-- The loop over `x` in `decodePngData` (lines 206-234); the first argument
counts the pixels that remain.  The state is the iterator, the picture,
`prevLine`, `prevPixel` and `prevLinePixel`. -/
def decodeLine (alpha : Bool) (filterType y : Nat) :
    Nat → Nat → List Nat → Picture K → List UColor → UColor → UColor →
      Option (List Nat × Picture K × List UColor)
  | 0, _, it, pic, prevLine, _, _ => some (it, pic, prevLine)
  | n + 1, x, it, pic, prevLine, prevPixel, prevLinePixel0 =>
    let prevLinePrevPixel := prevLinePixel0
    let prevLinePixel := prevLine.getD x ⟨0, 0, 0, 0⟩
    match decodePixel alpha filterType prevPixel prevLinePixel prevLinePrevPixel it with
    | none => none
    | some (col, it2) =>
      decodeLine alpha filterType y n (x + 1) it2 (pic.set ⟨x, y⟩ (Color.ofUColor col))
        (prevLine.set x col) col prevLinePixel

/-- The loop over `y` in `decodePngData` (lines 200-235). -/
def decodeLines (alpha : Bool) (width : Nat) :
    Nat → Nat → List Nat → Picture K → List UColor → Option (Picture K)
  | 0, _, _, pic, _ => some pic
  | n + 1, y, it, pic, prevLine =>
    match it with
    | [] => none
    | filterType :: it2 =>
      match decodeLine alpha filterType y width 0 it2 pic prevLine ⟨0, 0, 0, 0⟩ ⟨0, 0, 0, 0⟩ with
      | none => none
      | some (it3, pic2, prevLine2) => decodeLines alpha width n (y + 1) it3 pic2 prevLine2

/-- Embeds `decodePngData` -/
def decodePngData (ihdr : PngIHDR) (data : List Nat) : Option (Picture K) :=
  let alpha : Bool := decide (ihdr.colorType = 6)
  decodeLines alpha ihdr.width ihdr.height 0 data (Picture.new ⟨ihdr.width, ihdr.height⟩)
    (List.replicate ihdr.width ⟨0, 0, 0, 0⟩)

/-! ## wavefobj.cpp: the mesh loader -/

/-- The formatted extraction operators `>>` of the C++ stream library that
`Mesh::load` applies to a `std::istringstream`, acting on what is left of the
stream: each gives the rest of the stream behind what it has read.
`word` is the extraction of a `std::string`, `scalar` of a `scalar`, `char` of a
`char`; they give `none` when the extraction fails. `u32` is the extraction of a
`u32`: whether it succeeded, the value it stored in the variable, and the rest of
the stream (which `Mesh::load` goes on reading after `text.clear()`). -/
structure Extract (K : Type) where
  word : List Char → Option (List Char × List Char)
  scalar : List Char → Option (K × List Char)
  u32 : List Char → Bool × Nat × List Char
  char : List Char → Option (Char × List Char)

/-- Embeds `struct Mesh::Point` -/
structure Mesh.Point where
  vertex : Nat
  textureCoord : Nat
  normal : Nat
deriving DecidableEq, Repr

/-- Embeds `struct Mesh::Face`: the array `points` of three points. -/
structure Mesh.Face where
  p0 : Mesh.Point
  p1 : Mesh.Point
  p2 : Mesh.Point
deriving DecidableEq, Repr

/-- The three points of a face. -/
def Mesh.Face.points (f : Mesh.Face) : List Mesh.Point := [f.p0, f.p1, f.p2]

/-- Embeds `class Mesh` -/
structure Mesh (K : Type) where
  m_vertices : List (Vector3 K)
  m_textureCoords : List (Vector2 K)
  m_normals : List (Vector3 K)
  m_faces : List Mesh.Face

/-- The extraction `line >> x >> y >> z` of three scalars. -/
def Mesh.scalars3 (ex : Extract K) (line : List Char) : Option (Vector3 K) :=
  match ex.scalar line with
  | none => none
  | some (x, line1) =>
    match ex.scalar line1 with
    | none => none
    | some (y, line2) =>
      match ex.scalar line2 with
      | none => none
      | some (z, _) => some ⟨x, y, z⟩

/-- The extraction `line >> x >> y` of two scalars. -/
def Mesh.scalars2 (ex : Extract K) (line : List Char) : Option (Vector2 K) :=
  match ex.scalar line with
  | none => none
  | some (x, line1) =>
    match ex.scalar line1 with
    | none => none
    | some (y, _) => some ⟨x, y⟩

/-- The extraction `line >> p[0] >> p[1] >> p[2]` of three words. -/
def Mesh.words3 (ex : Extract K) (line : List Char) :
    Option (List Char × List Char × List Char) :=
  match ex.word line with
  | none => none
  | some (w0, line1) =>
    match ex.word line1 with
    | none => none
    | some (w1, line2) =>
      match ex.word line2 with
      | none => none
      | some (w2, _) => some (w0, w1, w2)

/-- The lambda of `Mesh::load` that reads one face point from the word `stext`:
`none` where the lambda sets `error`, the point `{ v, t, n }` otherwise. A
failed extraction of the texture index `t` is cleared and reading goes on. -/
def Mesh.parsePoint (ex : Extract K) (stext : List Char) : Option Mesh.Point :=
  match ex.u32 stext with
  | (false, _, _) => none
  | (true, v, text1) =>
    match ex.char text1 with
    | none => none
    | some (sep, text2) =>
      if sep ≠ '/' ∨ v = 0 then none
      else
        match ex.u32 text2 with
        | (_, t, text3) =>
          match ex.char text3 with
          | none => none
          | some (sep, text4) =>
            match ex.u32 text4 with
            | (false, _, _) => none
            | (true, n, _) => if sep ≠ '/' ∨ n = 0 then none else some ⟨v, t, n⟩

/-- The update of `max` at the end of the lambda of `Mesh::load`, which is
reached by the points that were read without error. -/
def Mesh.maxPoint (max : Mesh.Point) (p : Option Mesh.Point) : Mesh.Point :=
  match p with
  | none => max
  | some p =>
    ⟨Nat.max max.vertex p.vertex, Nat.max max.textureCoord p.textureCoord,
      Nat.max max.normal p.normal⟩

/-- The `std::transform` over the three words of a face line in `Mesh::load`:
the face, unless `error` was set, and the new value of `max`. -/
def Mesh.loadFace (ex : Extract K) (max : Mesh.Point) (w0 w1 w2 : List Char) :
    Option Mesh.Face × Mesh.Point :=
  let q0 := Mesh.parsePoint ex w0
  let q1 := Mesh.parsePoint ex w1
  let q2 := Mesh.parsePoint ex w2
  (match q0, q1, q2 with
    | some a, some b, some c => some ⟨a, b, c⟩
    | _, _, _ => none,
   Mesh.maxPoint (Mesh.maxPoint (Mesh.maxPoint max q0) q1) q2)

/-- The body of the loop of `Mesh::load(std::istream &)` for the line `sline`,
on the mesh `m` and the running maximum `max` of the face indices. -/
def Mesh.loadLine (ex : Extract K) (st : Mesh K × Mesh.Point) (sline : List Char) :
    Mesh K × Mesh.Point :=
  match ex.word sline with
  | none => st
  | some (cmd, line) =>
    if cmd = ['v'] then
      match Mesh.scalars3 ex line with
      | none => st
      | some p => (⟨st.1.m_vertices ++ [p], st.1.m_textureCoords, st.1.m_normals, st.1.m_faces⟩,
          st.2)
    else if cmd = ['v', 't'] then
      match Mesh.scalars2 ex line with
      | none => st
      | some p => (⟨st.1.m_vertices, st.1.m_textureCoords ++ [p], st.1.m_normals, st.1.m_faces⟩,
          st.2)
    else if cmd = ['v', 'n'] then
      match Mesh.scalars3 ex line with
      | none => st
      | some p => (⟨st.1.m_vertices, st.1.m_textureCoords, st.1.m_normals ++ [p], st.1.m_faces⟩,
          st.2)
    else if cmd = ['f'] then
      match Mesh.words3 ex line with
      | none => st
      | some (w0, w1, w2) =>
        match Mesh.loadFace ex st.2 w0 w1 w2 with
        | (none, max) => (st.1, max)
        | (some face, max) =>
          (⟨st.1.m_vertices, st.1.m_textureCoords, st.1.m_normals, st.1.m_faces ++ [face]⟩, max)
    else st

/-- The loop of `Mesh::load(std::istream &)` over the lines that `std::getline`
reads from the stream, from the empty mesh and `max{ 0, 0, 0 }`. -/
def Mesh.loadLines (ex : Extract K) (lines : List (List Char)) : Mesh K × Mesh.Point :=
  lines.foldl (Mesh.loadLine ex) (⟨[], [], [], []⟩, ⟨0, 0, 0⟩)

/-- Embeds `Mesh::load(std::istream &)` on the lines of the stream: `none` where
the code throws. -/
def Mesh.load (ex : Extract K) (lines : List (List Char)) : Option (Mesh K) :=
  let st := Mesh.loadLines ex lines
  if st.2.normal > st.1.m_normals.length ∨ st.2.textureCoord > st.1.m_textureCoords.length ∨
      st.2.vertex > st.1.m_vertices.length then none
  else some st.1

/-- The lambda of `Mesh::createObjects` that builds one `Triangle::Vertex`; an
index outside its array gives `none`. The indices `p.vertex - 1` are computed in
`u32`. -/
def Mesh.createVertex (m : Mesh K) (vertices normals : List (Vector3 K)) (p : Mesh.Point) :
    Option (Vertex K) :=
  match vertices[u32Sub p.vertex 1]?, normals[u32Sub p.normal 1]?,
    (if p.textureCoord > 0 then m.m_textureCoords[u32Sub p.textureCoord 1]?
      else some ⟨0, 0⟩) with
  | some v, some n, some t => some ⟨v, n, t⟩
  | _, _, _ => none

/-- The lambda of `Mesh::createObjects` that builds the object of one face. -/
def Mesh.createObject (m : Mesh K) (vertices normals : List (Vector3 K))
    (material : Material K) (face : Mesh.Face) : Option (Object K) :=
  match m.createVertex vertices normals face.p0, m.createVertex vertices normals face.p1,
    m.createVertex vertices normals face.p2 with
  | some v0, some v1, some v2 => some ⟨material, Picture.default, Primitive.triangle ⟨v0, v1, v2⟩⟩
  | _, _, _ => none

/-- Embeds `Mesh::createObjects`; `none` when an array is indexed out of its
range. -/
def Mesh.createObjects (lm : Libm K) (m : Mesh K) (material : Material K)
    (verticesTransform normalsTransform : Matrix34 K) : Option (List (Object K)) :=
  let vertices := m.m_vertices.map (fun p => verticesTransform.mulVec p)
  let normals := m.m_normals.map (fun n => (normalsTransform.mulVec n).normalized lm)
  m.m_faces.mapM (m.createObject vertices normals material)

/-! ## main.cpp: the times of the sub-frames -/

/-- Line 138 of `renderVideoMotionBlur`: the scene time `subFrameTime` of
sub-frame `subFrame` of frame `frame`, for `frames` frames and `subFramesCount`
sub-frames per frame; `subFramesCount - 1` is computed in `u32`. -/
def subFrameTime (frames subFramesCount frame subFrame : Nat) : K :=
  ((frame : K) + (subFrame : K) / ((u32Sub subFramesCount 1 : Nat) : K)) / (frames : K)

/-! ## types.h: the factories of `Matrix34` -/

/-- Embeds `Matrix34::translation` -/
def Matrix34.translation (v : Vector3 K) : Matrix34 K :=
  ⟨1, 0, 0, v.x,
   0, 1, 0, v.y,
   0, 0, 1, v.z⟩

/-- Embeds `Matrix34::rotationX` -/
def Matrix34.rotationX (lm : Libm K) (angle : K) : Matrix34 K :=
  let s := lm.sin angle
  let c := lm.cos angle
  ⟨1, 0, 0, 0,
   0, c, -s, 0,
   0, s, c, 0⟩

/-- Embeds `Matrix34::rotationY` -/
def Matrix34.rotationY (lm : Libm K) (angle : K) : Matrix34 K :=
  let s := lm.sin angle
  let c := lm.cos angle
  ⟨c, 0, s, 0,
   0, 1, 0, 0,
   -s, 0, c, 0⟩

/-- Embeds `Matrix34::rotationZ` -/
def Matrix34.rotationZ (lm : Libm K) (angle : K) : Matrix34 K :=
  let s := lm.sin angle
  let c := lm.cos angle
  ⟨c, -s, 0, 0,
   s, c, 0, 0,
   0, 0, 1, 0⟩

/-- Embeds `Matrix34::scale` -/
def Matrix34.scale (v : Vector3 K) : Matrix34 K :=
  ⟨v.x, 0, 0, 0,
   0, v.y, 0, 0,
   0, 0, v.z, 0⟩

/-- Embeds `operator/(const scalar &lhs, const Vector3 &rhs)` -/
def Vector3.scalarDiv (lhs : K) (rhs : Vector3 K) : Vector3 K :=
  ⟨lhs / rhs.x, lhs / rhs.y, lhs / rhs.z⟩

/-! ## sceneparser.cpp: the transformations of an object -/

/-- Embeds `struct Scene::SceneParser::TransformInfo` -/
structure TransformInfo (K : Type) where
  o2wVector : Matrix34 K
  o2wNormal : Matrix34 K
  w2oVector : Matrix34 K

/-- The member initialisers of `TransformInfo`: three identity matrices. -/
def TransformInfo.new : TransformInfo K :=
  ⟨Matrix34.identity, Matrix34.identity, Matrix34.identity⟩

/-- A tag that `tag_transform` accepts inside `<transform>`, with the value of
its attributes: `tag_vector3()` for `translate` and `scale`,
`attrToScalar("theta")` for the rotations. -/
inductive TransformTag (K : Type) where
  | translate (v : Vector3 K)
  | scale (v : Vector3 K)
  | rotateX (theta : K)
  | rotateY (theta : K)
  | rotateZ (theta : K)

/-- The body of the loop of `tag_transform` for one tag. -/
def transformStep (lm : Libm K) (transformInfo : TransformInfo K) :
    TransformTag K → TransformInfo K
  | .translate v =>
    { o2wVector := transformInfo.o2wVector.mul (Matrix34.translation v)
      o2wNormal := transformInfo.o2wNormal
      w2oVector := (Matrix34.translation (v.scale (-1))).mul transformInfo.w2oVector }
  | .scale v =>
    { o2wVector := transformInfo.o2wVector.mul (Matrix34.scale v)
      o2wNormal := transformInfo.o2wNormal.mul (Matrix34.scale (Vector3.scalarDiv 1 v))
      w2oVector := (Matrix34.scale (Vector3.scalarDiv 1 v)).mul transformInfo.w2oVector }
  | .rotateX theta =>
    { o2wVector := transformInfo.o2wVector.mul (Matrix34.rotationX lm (theta * 2 * PI / 360))
      o2wNormal := transformInfo.o2wNormal.mul (Matrix34.rotationX lm (theta * 2 * PI / 360))
      w2oVector := (Matrix34.rotationX lm (-theta * 2 * PI / 360)).mul transformInfo.w2oVector }
  | .rotateY theta =>
    { o2wVector := transformInfo.o2wVector.mul (Matrix34.rotationY lm (theta * 2 * PI / 360))
      o2wNormal := transformInfo.o2wNormal.mul (Matrix34.rotationY lm (theta * 2 * PI / 360))
      w2oVector := (Matrix34.rotationY lm (-theta * 2 * PI / 360)).mul transformInfo.w2oVector }
  | .rotateZ theta =>
    { o2wVector := transformInfo.o2wVector.mul (Matrix34.rotationZ lm (theta * 2 * PI / 360))
      o2wNormal := transformInfo.o2wNormal.mul (Matrix34.rotationZ lm (theta * 2 * PI / 360))
      w2oVector := (Matrix34.rotationZ lm (-theta * 2 * PI / 360)).mul transformInfo.w2oVector }

/-- Embeds `Scene::SceneParser::tag_transform` on the tags between `<transform>`
and `</transform>`. -/
def tag_transform (lm : Libm K) (tags : List (TransformTag K)) : TransformInfo K :=
  tags.foldl (transformStep lm) TransformInfo.new

/-- Lines 273-286 of `calcRefraction`: the value `k`, whose sign decides whether
a refraction ray is cast. -/
def refractionK (material : Material K) (cos_angle_ray_normal wavelength : K) : K :=
  let refractionIndex0 := material.refraction.re + wavelength * material.dispersion
  let outside : Bool := decide (cos_angle_ray_normal ≤ 0)
  let cos_angle_ray_normalTurned :=
    if outside = true then cos_angle_ray_normal * -1 else cos_angle_ray_normal
  let refractionIndex := if outside = true then 1 / refractionIndex0 else refractionIndex0
  1 - refractionIndex * refractionIndex *
    (1 - cos_angle_ray_normalTurned * cos_angle_ray_normalTurned)

/-- Lines 271-288 of `calcRefraction`: the vector `refractionVector`, from which
the constructor of `Ray` makes the direction of the refraction ray. -/
def refractionVector (lm : Libm K) (ray : Ray K) (intersection : Intersection K)
    (material : Material K) (cos_angle_ray_normal wavelength : K) : Vector3 K :=
  let normal := intersection.normal
  let refractionIndex0 := material.refraction.re + wavelength * material.dispersion
  let outside : Bool := decide (cos_angle_ray_normal ≤ 0)
  let cos_angle_ray_normalTurned :=
    if outside = true then cos_angle_ray_normal * -1 else cos_angle_ray_normal
  let refractionIndex := if outside = true then 1 / refractionIndex0 else refractionIndex0
  let normalTurned := if outside = true then normal else normal.scale (-1)
  let k := 1 - refractionIndex * refractionIndex *
    (1 - cos_angle_ray_normalTurned * cos_angle_ray_normalTurned)
  (ray.direction.scale refractionIndex).add
    (normalTurned.scale (refractionIndex * cos_angle_ray_normalTurned - lm.sqrt k))

/-- Lines 91-116 of `PhotonMapper::castRay`: the Fresnel coefficient `kr` that
the photon mapper computes inline. -/
def PhotonMapper.kr (lm : Libm K) (material : Material K) (cos_angle_ray_normal wavelength : K) :
    K :=
  let etai0 : Cplx K := ⟨1, 0⟩
  let etat0 : Cplx K := material.refraction.addReal (wavelength * material.dispersion)
  let etai := if cos_angle_ray_normal > 0 then etat0 else etai0
  let etat := if cos_angle_ray_normal > 0 then etai0 else etat0
  let sint := (etai.div etat).scale
    (lm.sqrt (max 0 (1 - cos_angle_ray_normal * cos_angle_ray_normal)))
  if sint.norm < 1 then
    let cost := lm.csqrt ((⟨1, 0⟩ : Cplx K).sub (sint.mul sint))
    let cos_angle_ray_normalAbs := |cos_angle_ray_normal|
    let Rs := ((etat.scale cos_angle_ray_normalAbs).sub (etai.mul cost)).div
      ((etat.scale cos_angle_ray_normalAbs).add (etai.mul cost))
    let Rp := ((etai.scale cos_angle_ray_normalAbs).sub (etat.mul cost)).div
      ((etai.scale cos_angle_ray_normalAbs).add (etat.mul cost))
    (Rs.norm + Rp.norm) / 2
  else 1

/-! ## Triangle::intersect with the special values of the division -/

/-- The values of a `scalar` that a division can produce: a number, one of
the two infinities, or NaN. Numbers are exact; rounding, overflow and
underflow of the finite arithmetic are outside this model. -/
inductive IEEE (K : Type) where
  | num (x : K)
  | posInf
  | negInf
  | nan

/-- Division `x / y` of two numbers by the IEEE rules. A zero divisor gives
NaN for `0 / 0` and an infinity otherwise, whose sign is the sign of `x`,
reversed when the zero is the negative zero (`negZero`). -/
def IEEE.div (negZero : Bool) (x y : K) : IEEE K :=
  if y ≠ 0 then IEEE.num (x / y)
  else if x = 0 then IEEE.nan
  else if (0 < x ∧ negZero = false) ∨ (x < 0 ∧ negZero = true) then IEEE.posInf
  else IEEE.negInf

/-- Comparison `a < b` by the IEEE rules: false whenever NaN takes part. -/
def IEEE.lt : IEEE K → IEEE K → Bool
  | IEEE.num x, IEEE.num y => decide (x < y)
  | IEEE.num _, IEEE.posInf => true
  | IEEE.negInf, IEEE.num _ => true
  | IEEE.negInf, IEEE.posInf => true
  | _, _ => false

/-- Addition by the IEEE rules. -/
def IEEE.add : IEEE K → IEEE K → IEEE K
  | IEEE.num x, IEEE.num y => IEEE.num (x + y)
  | IEEE.nan, _ => IEEE.nan
  | _, IEEE.nan => IEEE.nan
  | IEEE.posInf, IEEE.negInf => IEEE.nan
  | IEEE.negInf, IEEE.posInf => IEEE.nan
  | IEEE.posInf, _ => IEEE.posInf
  | _, IEEE.posInf => IEEE.posInf
  | IEEE.negInf, _ => IEEE.negInf
  | _, IEEE.negInf => IEEE.negInf

/-- The three quotients of a hit that `Triangle::intersect` reports. -/
structure TriangleHit (K : Type) where
  bary_weight1 : IEEE K
  bary_weight2 : IEEE K
  distance : IEEE K

/-- Embeds `Triangle::intersect` up to its last `return std::nullopt`, with
the three divisions by `approach_rate` taken by the IEEE rules. The vertices
and the ray are numbers; `negZero` is the sign of `approach_rate` when it is
zero. The result is `none` for `std::nullopt` and otherwise the quotients from
which the reported hit is built. -/
def Triangle.intersectIEEE (negZero : Bool) (t : Triangle K) (ray : Ray K)
    (max_distance : IEEE K) : Option (TriangleHit K) :=
  let edge1 := t.v1.position.sub t.v0.position
  let edge2 := t.v2.position.sub t.v0.position
  let raydir_edge2_normal := ray.direction.cross edge2
  let approach_rate := edge1.dot raydir_edge2_normal
  let ray_c0_vector := ray.origin.sub t.v0.position
  let bary_weight1 := IEEE.div negZero (ray_c0_vector.dot raydir_edge2_normal) approach_rate
  if (bary_weight1.lt (IEEE.num (-EPSILON)) || (IEEE.num 1).lt bary_weight1) = true then none
  else
    let rayorigin_edge1_normal := ray_c0_vector.cross edge1
    let bary_weight2 := IEEE.div negZero (ray.direction.dot rayorigin_edge1_normal) approach_rate
    if (bary_weight2.lt (IEEE.num (-EPSILON)) ||
        (IEEE.num 1).lt (bary_weight1.add bary_weight2)) = true then none
    else
      let distance := IEEE.div negZero (edge2.dot rayorigin_edge1_normal) approach_rate
      if (distance.lt (IEEE.num 0) || max_distance.lt distance) = true then none
      else some ⟨bary_weight1, bary_weight2, distance⟩

/-- Lines 71-74 of `raytraceLine`: the vector `subDisplacement` of the sub-pixel
`(subX, subY)`; the sums `subX + 1` and `initialRayCount + 1` are computed in
`u32`. -/
def subDisplacement (initialRayCount subX subY : Nat) : Vector2 K :=
  ⟨2 * ((u32Add subX 1 : Nat) : K) / ((u32Add initialRayCount 1 : Nat) : K) - 1,
   2 * ((u32Add subY 1 : Nat) : K) / ((u32Add initialRayCount 1 : Nat) : K) - 1⟩

/-- Line 76 of `raytraceLine`: the offset `targetDisplacement` of the target of
the sub-pixel ray from the centre `(rayX, rayY)` of the pixel. -/
def targetDisplacement (inst : Instance K) (initialRayCount subX subY : Nat) : Vector2 K :=
  (subDisplacement initialRayCount subX subY).mul inst.m_pixelSize

/-- The operands of the interpolation of `animateScalar` (line 362): the ease
type, the dividend `m_time - time`, the divisor `targetTime - time`, and the two
values. -/
structure Interpolation (K : Type) where
  easeType : Char
  elapsed : K
  span : K
  targetValue : K
  value : K
deriving DecidableEq, Repr

/-- The loop of `animateScalar` (lines 323-368) followed up to its
interpolation branch: the operands of line 362 when that line is reached,
`none` when the loop ends elsewhere (with an error, at one of the other two
`return` statements, or after the last match). -/
def interpolationOf (m_time : K) :
    List (Except String (KeyFrame K)) → Bool → K → K → Char → Option (Interpolation K)
  | [], _, _, _, _ => none
  | .error _ :: _, _, _, _, _ => none
  | .ok kf :: rest, start, value, time, easeType =>
    let targetValue := kf.targetValue
    let easeType := match kf.easeTag with
      | some c => c
      | none => easeType
    let targetTime : K := match kf.explicitTime with
      | some t => t
      | none => if start then 0 else 1
    if targetTime < 0 ∨ targetTime > 1 then none
    else if start = true ∨ targetTime < m_time then
      if time > targetTime then none
      else interpolationOf m_time rest false targetValue targetTime easeType
    else if time > m_time then none
    else some ⟨easeType, m_time - time, targetTime - time, targetValue, value⟩

/-- Comparison `a == b` by the IEEE rules: false whenever NaN takes part. -/
def IEEE.eq : IEEE K → IEEE K → Bool
  | IEEE.num x, IEEE.num y => decide (x = y)
  | IEEE.posInf, IEEE.posInf => true
  | IEEE.negInf, IEEE.negInf => true
  | _, _ => false

/-- Comparison `a <= b` by the IEEE rules: false whenever NaN takes part. -/
def IEEE.le : IEEE K → IEEE K → Bool
  | IEEE.num x, IEEE.num y => decide (x ≤ y)
  | IEEE.num _, IEEE.posInf => true
  | IEEE.negInf, IEEE.num _ => true
  | IEEE.negInf, IEEE.posInf => true
  | IEEE.posInf, IEEE.posInf => true
  | IEEE.negInf, IEEE.negInf => true
  | _, _ => false

/-- Multiplication by the IEEE rules: NaN when NaN takes part and for zero
times an infinity. -/
def IEEE.mul : IEEE K → IEEE K → IEEE K
  | IEEE.num x, IEEE.num y => IEEE.num (x * y)
  | IEEE.nan, _ => IEEE.nan
  | _, IEEE.nan => IEEE.nan
  | IEEE.num x, IEEE.posInf =>
    if x = 0 then IEEE.nan else if 0 < x then IEEE.posInf else IEEE.negInf
  | IEEE.num x, IEEE.negInf =>
    if x = 0 then IEEE.nan else if 0 < x then IEEE.negInf else IEEE.posInf
  | IEEE.posInf, IEEE.num y =>
    if y = 0 then IEEE.nan else if 0 < y then IEEE.posInf else IEEE.negInf
  | IEEE.negInf, IEEE.num y =>
    if y = 0 then IEEE.nan else if 0 < y then IEEE.negInf else IEEE.posInf
  | IEEE.posInf, IEEE.posInf => IEEE.posInf
  | IEEE.posInf, IEEE.negInf => IEEE.negInf
  | IEEE.negInf, IEEE.posInf => IEEE.negInf
  | IEEE.negInf, IEEE.negInf => IEEE.posInf

/-- Square root by the IEEE rules: NaN for NaN and for a negative argument. -/
def IEEE.sqrt (lm : Libm K) : IEEE K → IEEE K
  | IEEE.num x => if x < 0 then IEEE.nan else IEEE.num (lm.sqrt x)
  | IEEE.posInf => IEEE.posInf
  | IEEE.negInf => IEEE.nan
  | IEEE.nan => IEEE.nan

/-- Natural logarithm by the IEEE rules: `-Inf` at zero, NaN for NaN and for a
negative argument. -/
def IEEE.log (lm : Libm K) : IEEE K → IEEE K
  | IEEE.num x =>
    if x < 0 then IEEE.nan else if x = 0 then IEEE.negInf else IEEE.num (lm.log x)
  | IEEE.posInf => IEEE.posInf
  | IEEE.negInf => IEEE.nan
  | IEEE.nan => IEEE.nan

/-- Line 84 of `Triangle::intersect`, `ray.origin() + ray.direction() * distance`,
for a reported hit: the three components of `intersectionPoint`. -/
def TriangleHit.intersectionPoint (ray : Ray K) (h : TriangleHit K) :
    IEEE K × IEEE K × IEEE K :=
  ((IEEE.num ray.origin.x).add ((IEEE.num ray.direction.x).mul h.distance),
   (IEEE.num ray.origin.y).add ((IEEE.num ray.direction.y).mul h.distance),
   (IEEE.num ray.origin.z).add ((IEEE.num ray.direction.z).mul h.distance))

/-- Embeds `Julia::estimateDistance` with the special values of its return
statement `sqrt(m2 / d2) * 0.5f * log(sqrt(m2))`.  The loop runs on numbers;
`d2` is a product of sums of squares, so a zero `d2` is the positive zero. -/
def Julia.estimateDistanceIEEE (lm : Libm K) (j : Julia K) (z0 : Quaternion K)
    (iterations : Nat) : IEEE K :=
  let r := j.estimateDistanceLoop iterations z0 1 z0.squaredLength
  ((IEEE.sqrt lm (IEEE.div false r.2 r.1)).mul (IEEE.num (1 / 2))).mul
    (IEEE.log lm (IEEE.sqrt lm (IEEE.num r.2)))

/-! ## types.h: the length of a vector with its overflow -/

/-- Embeds `std::hypot(x, y, z)` on `float` with its overflow.  The function
computes the root of the sum of the squares without overflow of the squares;
a result of `2^128` or more is beyond the largest `float` and is `+Inf`.
Rounding is outside the model (also between the largest `float` and `2^128`,
where the result depends on it). -/
def hypotIEEE (lm : Libm K) (x y z : K) : IEEE K :=
  let r := lm.sqrt (x * x + y * y + z * z)
  if r < 2 ^ 128 then IEEE.num r else IEEE.posInf

/-- Division `x / len` of a number by a length, by the IEEE rules: a number
divided by an infinity is zero. -/
def IEEE.divNum (x : K) : IEEE K → IEEE K
  | IEEE.num y => IEEE.div false x y
  | IEEE.posInf => IEEE.num 0
  | IEEE.negInf => IEEE.num 0
  | IEEE.nan => IEEE.nan

/-- Embeds `Vector3::normalized` with the length of `hypotIEEE`: the three
components of the result. -/
def Vector3.normalizedIEEE (lm : Libm K) (a : Vector3 K) : IEEE K × IEEE K × IEEE K :=
  let len := hypotIEEE lm a.x a.y a.z
  if len.eq (IEEE.num 0) = true then (IEEE.num 0, IEEE.num 0, IEEE.num 0)
  else (IEEE.divNum a.x len, IEEE.divNum a.y len, IEEE.divNum a.z len)

/-! ## photonmap.cpp: the scan loops in single precision -/

/-- The number of binary digits of `n`, for `n < 2^fuel`. -/
def binaryDigits : Nat → Nat → Nat
  | 0, _ => 0
  | fuel + 1, n => if n = 0 then 0 else binaryDigits fuel (n / 2) + 1

/-- The `float` nearest to the quotient `num / den`, ties to the even
significand.  A finite non-negative `float` is given here by the natural
number of its multiples of `2^-149`, the smallest positive `float`, and
`num / den` is in the same unit.  The result keeps the 24 leading binary digits
of the quotient.  Overflow is not modelled: the quotient is below `2^128`. -/
def f32Round (num den : Nat) : Nat :=
  let sh := binaryDigits 277 (num / den) - 24
  let d := den * 2 ^ sh
  let q := num / d
  let r := num % d
  if 2 * r > d ∨ (2 * r = d ∧ q % 2 = 1) then (q + 1) * 2 ^ sh else q * 2 ^ sh

/-- The `float` of a natural number below `2^24`. -/
def f32OfNat (n : Nat) : Nat := n * 2 ^ 149

/-- The sum `a + b` of two `float`s, rounded to a `float`. -/
def f32Add (a b : Nat) : Nat := f32Round (a + b) 1

/-- The product `a * b` of two `float`s, rounded to a `float`. -/
def f32Mul (a b : Nat) : Nat := f32Round (a * b) (2 ^ 149)

/-- The quotient `a / b` of two `float`s, rounded to a `float`. -/
def f32Div (a b : Nat) : Nat := f32Round (a * 2 ^ 149) b

/-- Embeds `const scalar PI = 3.14159265358979323846f` as a `float`: the one
nearest to the decimal number. -/
def PI32 : Nat := f32Round (314159265358979323846 * 2 ^ 149) 100000000000000000000

/-- The values taken by the loop variable of
`for (scalar x = start; x < limit; x += step)` in single precision, in order.
The first argument bounds the number of iterations; `none` means it did not
suffice. -/
def scanAngles32 : Nat → Nat → Nat → Nat → Option (List Nat)
  | 0, _, _, _ => none
  | fuel + 1, limit, step, x =>
    if x < limit then
      match scanAngles32 fuel limit step (f32Add x step) with
      | none => none
      | some rest => some (x :: rest)
    else some []

/-- Lines 38-40 of `PhotonMapper::generate` in single precision, for a point
light and the scan-step count `scanSteps`: the values of `phi` and the values
of `theta`.  Lines 41-46 construct one primary ray for each pair of them, and
without dispersion line 54 casts it once. -/
def PhotonMapper.scanGrid32 (scanSteps : Nat) (fuel : Nat) : Option (List Nat × List Nat) :=
  let SCAN_STEP_ANGLE := f32Div (f32Mul (f32OfNat 2) PI32) (f32OfNat scanSteps)
  match scanAngles32 fuel (f32Mul (f32OfNat 2) PI32) SCAN_STEP_ANGLE 0,
      scanAngles32 fuel PI32 SCAN_STEP_ANGLE 0 with
  | some phis, some thetas => some (phis, thetas)
  | _, _ => none

/-- The number of primary rays of `PhotonMapper::generate` for one point
light: one for each pair of a value of `phi` and a value of `theta`. -/
def PhotonMapper.primaryRayCount32 (scanSteps : Nat) (fuel : Nat) : Option Nat :=
  (PhotonMapper.scanGrid32 scanSteps fuel).map (fun g => g.1.length * g.2.length)

/-! ## Specification vocabulary -/

/-- The contract of the real square root. -/
def SqrtExact (lm : Libm K) : Prop :=
  ∀ x : K, 0 ≤ x → 0 ≤ lm.sqrt x ∧ lm.sqrt x * lm.sqrt x = x

/-- The equation `|o + t*d - c|^2 = r^2` of ray and sphere at ray parameter `t`. -/
def SphereRoot (c : Vector3 K) (r : K) (ray : Ray K) (t : K) : Prop :=
  ((ray.origin.add (ray.direction.scale t)).sub c).dot
    ((ray.origin.add (ray.direction.scale t)).sub c) = r * r

/-- The Moeller-Trumbore weight of vertex 1: `u = s . (d x e2) / (e1 . (d x e2))`. -/
def Triangle.mtWeight1 (t : Triangle K) (ray : Ray K) : K :=
  (ray.origin.sub t.v0.position).dot (ray.direction.cross (t.v2.position.sub t.v0.position)) /
    (t.v1.position.sub t.v0.position).dot (ray.direction.cross (t.v2.position.sub t.v0.position))

/-- The Moeller-Trumbore weight of vertex 2: `v = d . (s x e1) / (e1 . (d x e2))`. -/
def Triangle.mtWeight2 (t : Triangle K) (ray : Ray K) : K :=
  ray.direction.dot ((ray.origin.sub t.v0.position).cross (t.v1.position.sub t.v0.position)) /
    (t.v1.position.sub t.v0.position).dot (ray.direction.cross (t.v2.position.sub t.v0.position))

/-- The Moeller-Trumbore ray parameter: `t = e2 . (s x e1) / (e1 . (d x e2))`. -/
def Triangle.mtDistance (t : Triangle K) (ray : Ray K) : K :=
  (t.v2.position.sub t.v0.position).dot
      ((ray.origin.sub t.v0.position).cross (t.v1.position.sub t.v0.position)) /
    (t.v1.position.sub t.v0.position).dot (ray.direction.cross (t.v2.position.sub t.v0.position))

/-- Embeds `d` is the Euclidean distance between the points `p` and `q`. -/
def IsEuclideanDistance (p q : Vector3 K) (d : K) : Prop :=
  0 ≤ d ∧ d * d = (p.sub q).dot (p.sub q)

/-- Time `t_k` of key-frame `k` of a list: its explicit time, or else the
default (0 for the first key-frame, 1 for every later one). -/
def keyTime (frames : List (KeyFrame K)) (k : Nat) : K :=
  match frames[k]? with
  | some kf => kf.explicitTime.getD (if k = 0 then 0 else 1)
  | none => 0

/-- Value `v_k` of key-frame `k` of a list. -/
def keyValue (frames : List (KeyFrame K)) (k : Nat) : K :=
  match frames[k]? with
  | some kf => kf.targetValue
  | none => 0

/-- Explicit easing tag of key-frame `k`, when it has one. -/
def keyTag (frames : List (KeyFrame K)) (k : Nat) : Option Char :=
  match frames[k]? with
  | some kf => kf.easeTag
  | none => none

/-- The most recent explicit easing tag at or before key-frame `k`
(default `l`). -/
def keyEase (frames : List (KeyFrame K)) : Nat → Char
  | 0 => (keyTag frames 0).getD 'l'
  | k + 1 => (keyTag frames (k + 1)).getD (keyEase frames k)

/-- The key-frame list of the text `0;1(0.5);2(0.3)`: the last key-frame is
earlier than the one before it. -/
def illOrderedFrames : List (KeyFrame ℚ) :=
  [⟨0, none, none⟩, ⟨1, none, some (1 / 2)⟩, ⟨2, none, some (3 / 10)⟩]

/-- The key-frame list of the text `0;1(l,0.5);0`. -/
def rampFrames : List (KeyFrame ℚ) :=
  [⟨0, none, none⟩, ⟨1, some 'l', some (1 / 2)⟩, ⟨0, none, none⟩]

/-- The Julia set with `c = 0`, unit scale, at the origin, cut at 0, with
identity transforms. -/
def unitJulia : Julia K :=
  ⟨⟨0, 0, 0⟩, 1, ⟨0, 0, 0, 0⟩, 0, Matrix34.identity, Matrix34.identity, Matrix34.identity⟩

/-- The triangle with corners `(0,0,0)`, `(1,0,0)`, `(0,1,0)` and normals
along the z axis. -/
def unitTriangle : Triangle K :=
  ⟨⟨⟨0, 0, 0⟩, ⟨0, 0, 1⟩, ⟨0, 0⟩⟩, ⟨⟨1, 0, 0⟩, ⟨0, 0, 1⟩, ⟨1, 0⟩⟩, ⟨⟨0, 1, 0⟩, ⟨0, 0, 1⟩, ⟨0, 1⟩⟩⟩

/-- A ray from `(1/4, 1/4, 1)` straight down the z axis. -/
def downRay : Ray K := ⟨⟨1 / 4, 1 / 4, 1⟩, ⟨0, 0, -1⟩⟩

/-- A ray from the origin along the z axis. -/
def zRay : Ray K := ⟨⟨0, 0, 0⟩, ⟨0, 0, 1⟩⟩

/-- A material with the real refraction index 3/2 and no dispersion. -/
def glass : Material K :=
  ⟨⟨1, 1, 1, 1⟩, ⟨⟨0, 0⟩, []⟩, ⟨0, 0, 0, 0⟩, 0, 1, ⟨3 / 2, 0⟩, 0⟩

/-- The contract of the principal complex square root: it squares to its
argument and has non-negative real part. -/
def CsqrtPrincipal (lm : Libm K) : Prop :=
  ∀ z : Cplx K, (lm.csqrt z).mul (lm.csqrt z) = z ∧ 0 ≤ (lm.csqrt z).re

/-- The data array of a picture has one entry per pixel. -/
def Picture.WellFormed (p : Picture K) : Prop := p.m_data.length = p.m_size.x * p.m_size.y

/-- A scene without lights and objects. -/
def emptyScene : Scene K :=
  { m_sceneFileName := ""
    m_outFileName := ""
    m_threads := 1
    m_time := INFINITE
    m_frames := 1
    m_fps := 25
    m_subFrames := 1
    m_camera :=
      { m_position := ⟨0, 0, 0⟩
        m_lookAt := ⟨0, 0, -1⟩
        m_upVector := ⟨0, 1, 0⟩
        m_fieldOfViewAngle := 1 / 2
        m_resolution := ⟨1, 1⟩
        m_maxBounces := 8
        m_superSamplingPerAxis := 1
        m_cameraTransformation := Matrix34.identity
        m_focusPoint := ⟨0, 0, -1⟩
        m_focusDistance := 1
        m_lensSize := 0 }
    m_background := ⟨0, 0, 0, 0⟩
    m_ambientLight := ⟨0, 0, 0, 0⟩
    m_lights := []
    m_objects := []
    m_dispersionMode := false
    m_photonMapScanSteps := 0
    m_photonMapTextureSize := 16
    m_photonMapFactor := 1 }

/-- A scene file with two frames and the time attribute 0. -/
def timedScene : Scene K := { emptyScene with m_frames := 2, m_time := 0 }

/-- A material with the negative refraction index -2. -/
def negGlass : Material K :=
  ⟨⟨1, 1, 1, 1⟩, ⟨⟨0, 0⟩, []⟩, ⟨0, 0, 0, 0⟩, 0, 1, ⟨-2, 0⟩, 0⟩

/-- A picture of one red pixel. -/
def redPixel : Picture K := ⟨⟨1, 1⟩, [⟨1, 0, 0, 1⟩]⟩

/-- A picture of one green pixel. -/
def greenPixel : Picture K := ⟨⟨1, 1⟩, [⟨0, 1, 0, 1⟩]⟩

/-- A new object: the unit triangle with the material `glass`. -/
def glassTriangle : Object K := ⟨glass, Picture.default, Primitive.triangle unitTriangle⟩

section FloorScalars

variable [FloorRing K]

/-- A sequence of `addPhoton` calls on one object with the same texture size. -/
def addPhotons (textureSize : Nat) : Object K → List (Vector2 K × Color K) → Object K
  | o, [] => o
  | o, call :: rest => addPhotons textureSize (o.addPhoton textureSize call.1 call.2) rest

/-- The photon texture that `addPhoton` writes to: the object's photon picture,
allocated with textureSize x textureSize zero pixels if the object was never
struck. -/
def Object.photonTexture (o : Object K) (textureSize : Nat) : Picture K :=
  if o.m_photonMap.empty = true then Picture.new ⟨textureSize, textureSize⟩ else o.m_photonMap

/-- The value `clamp(floor(x), 0, hi)`. -/
def clampedFloor (x : K) (hi : Nat) : Nat := (max 0 (min ⌊x⌋ (hi : Int))).toNat

/-- The pixel `(clamp(floor(u*(w-1)), 0, w-1), clamp(floor(v*(h-1)), 0, h-1))`
of a texture of size `w x h`. -/
def struckTexel (size : UPoint2) (pos : Vector2 K) : UPoint2 :=
  ⟨clampedFloor (pos.x * ((size.x - 1 : Nat) : K)) (size.x - 1),
   clampedFloor (pos.y * ((size.y - 1 : Nat) : K)) (size.y - 1)⟩

end FloorScalars

/-- A matte (purely diffuse) white material: refraction index 0. -/
def matte : Material K :=
  ⟨⟨1, 1, 1, 1⟩, ⟨⟨0, 0⟩, []⟩, ⟨0, 1, 0, 1⟩, 0, 0, ⟨0, 0⟩, 0⟩

/-- A new object: the unit triangle with the material `matte`. -/
def matteTriangle : Object K := ⟨matte, Picture.default, Primitive.triangle unitTriangle⟩

/-- A white point light at `(0, 0, 5)`. -/
def lamp : Light K := ⟨LightType.Point, ⟨0, 0, 5⟩, ⟨1, 1, 1, 1⟩⟩

/-- A scene with one matte triangle, one point light and four scan steps. -/
def diffuseScene : Scene K :=
  { emptyScene with
    m_objects := [matteTriangle]
    m_lights := [lamp]
    m_photonMapScanSteps := 4 }

/-- The scene without objects with an opaque white background and the
supersampling factor 65536. -/
def overflowScene : Scene K :=
  { emptyScene with
    m_background := ⟨1, 1, 1, 1⟩
    m_camera := { (emptyScene : Scene K).m_camera with m_superSamplingPerAxis := 65536 } }

/-- A mirror-like material: reflectance 1, no transmittance, refraction
index 3/2, no Phong terms. -/
def mirror : Material K :=
  ⟨⟨1, 1, 1, 1⟩, ⟨⟨0, 0⟩, []⟩, ⟨0, 0, 0, 0⟩, 1, 0, ⟨3 / 2, 0⟩, 0⟩

/-- A triangle in the plane `z = 0` around the origin, with normals up. -/
def floorTriangle : Triangle K :=
  ⟨⟨⟨-1, -1, 0⟩, ⟨0, 0, 1⟩, ⟨0, 0⟩⟩, ⟨⟨1, -1, 0⟩, ⟨0, 0, 1⟩, ⟨1, 0⟩⟩,
    ⟨⟨0, 1, 0⟩, ⟨0, 0, 1⟩, ⟨0, 1⟩⟩⟩

/-- A triangle in the plane `z = 1` above `floorTriangle`, with normals down. -/
def ceilingTriangle : Triangle K :=
  ⟨⟨⟨-1, -1, 1⟩, ⟨0, 0, -1⟩, ⟨0, 0⟩⟩, ⟨⟨1, -1, 1⟩, ⟨0, 0, -1⟩, ⟨1, 0⟩⟩,
    ⟨⟨0, 1, 1⟩, ⟨0, 0, -1⟩, ⟨0, 1⟩⟩⟩

/-- The mirror on the floor. -/
def floorMirror : Object K := ⟨mirror, Picture.default, Primitive.triangle floorTriangle⟩

/-- The mirror on the ceiling. -/
def ceilingMirror : Object K := ⟨mirror, Picture.default, Primitive.triangle ceilingTriangle⟩

/-- Two facing mirrors and the bounce limit 4294967295, which the scene parser
stores for `<max_bounces n="-1"/>`. -/
def mirrorScene : Scene K :=
  { emptyScene with
    m_objects := [floorMirror, ceilingMirror]
    m_camera := { (emptyScene : Scene K).m_camera with m_maxBounces := 4294967295 } }

/-- The ray from just above the floor mirror straight up. -/
def upRay : Ray K := ⟨⟨0, 0, EPSILON⟩, ⟨0, 0, 1⟩⟩

/-- The ray from just below the ceiling mirror straight down. -/
def bounceRay : Ray K := ⟨⟨0, 0, 1 - EPSILON⟩, ⟨0, 0, -1⟩⟩

/-- A call of one of the setters of `Camera`, with its argument. -/
inductive CameraCall (K : Type) where
  | setPosition (p : Vector3 K)
  | setLookAt (p : Vector3 K)
  | setUpVector (v : Vector3 K)
  | setFocusPoint (p : Vector3 K)
  | setFieldOfViewAngle (fov : K)
  | setResolution (resolution : UPoint2)
  | setMaxBounces (n : Nat)
  | setSuperSamplingPerAxis (v : Nat)
  | setLensSize (size : K)

/-- The camera after one setter call. -/
def Camera.call (lm : Libm K) (c : Camera K) : CameraCall K → Camera K
  | .setPosition p => c.setPosition lm p
  | .setLookAt p => c.setLookAt lm p
  | .setUpVector v => c.setUpVector lm v
  | .setFocusPoint p => c.setFocusPoint lm p
  | .setFieldOfViewAngle fov => c.setFieldOfViewAngle fov
  | .setResolution resolution => c.setResolution resolution
  | .setMaxBounces n => c.setMaxBounces n
  | .setSuperSamplingPerAxis v => c.setSuperSamplingPerAxis v
  | .setLensSize size => c.setLensSize size

/-- The camera invariant: the stored transformation and focus distance are
those of the current position, look-at point, up vector and focus point. -/
def Camera.Consistent (lm : Libm K) (c : Camera K) : Prop :=
  c.cameraTransformation = Matrix34.lookAt lm c.m_position c.m_lookAt c.m_upVector ∧
  c.focusDistance = (c.m_focusPoint.sub c.m_position).length lm

/-- The unit sphere around `(0, 0, 3/2)`, with identity transformations. -/
def nearSphere : Sphere K :=
  ⟨⟨0, 0, 3 / 2⟩, 1, Matrix34.identity, Matrix34.identity, Matrix34.identity⟩

/-- The unit sphere of object space, stretched by 2 along the z axis:
`world2Object` halves z and `object2World` doubles it. -/
def stretchedSphere : Sphere K :=
  ⟨⟨0, 0, 0⟩, 1,
    ⟨1, 0, 0, 0, 0, 1, 0, 0, 0, 0, 1 / 2, 0⟩,
    ⟨1, 0, 0, 0, 0, 1, 0, 0, 0, 0, 2, 0⟩,
    ⟨1, 0, 0, 0, 0, 1, 0, 0, 0, 0, 1 / 2, 0⟩⟩

/-- The ray from `(0, 0, -4)` along the z axis. -/
def farRay : Ray K := ⟨⟨0, 0, -4⟩, ⟨0, 0, 1⟩⟩

/-- Every channel is a byte. -/
def UColor.IsBytes (c : UColor) : Prop := c.r < 256 ∧ c.g < 256 ∧ c.b < 256 ∧ c.a < 256

section FloorScalars

variable [FloorRing K]

/-- The pixel that the round trip leaves at `q`. -/
def quantized (picture : Picture K) (gain : K) (q : UPoint2) : Color K :=
  Color.ofUColor ((picture.get q).scaleOut gain)

end FloorScalars

/-- The invariant of the workers while the counter has not wrapped. -/
def Workers.Inv (height threads : Nat) (s : Workers) : Prop :=
  s.finished.Nodup ∧ (∀ t ∈ s.finished, t < threads) ∧
  s.m_NextLine = (s.lines.length + s.finished.length) % 4294967296 ∧
  s.lines.map Prod.snd = List.range s.lines.length ∧ s.lines.length ≤ height ∧
  (s.finished ≠ [] → s.lines.length = height)

/-- The componentwise order of face points. -/
def Mesh.Point.le (p q : Mesh.Point) : Prop :=
  p.vertex ≤ q.vertex ∧ p.textureCoord ≤ q.textureCoord ∧ p.normal ≤ q.normal

/-- The invariant of the loop of `Mesh::load` on the stored faces: indices of
vertices and normals are at least 1, and `max` bounds every index. -/
def Mesh.FacesBounded (st : Mesh K × Mesh.Point) : Prop :=
  ∀ face ∈ st.1.m_faces, ∀ p ∈ face.points, 1 ≤ p.vertex ∧ 1 ≤ p.normal ∧ p.le st.2

/-- A face line of the file: its command is `f` and three words follow, of
which `w` is one. -/
def Mesh.FaceWord (ex : Extract K) (sline w : List Char) : Prop :=
  ∃ line w0 w1 w2, ex.word sline = some (['f'], line) ∧
    Mesh.words3 ex line = some (w0, w1, w2) ∧ w ∈ [w0, w1, w2]

/-- Skips leading whitespace, as the extraction operators do. -/
def skipws (s : List Char) : List Char := s.dropWhile isSpaceChar

/-- Reads a decimal number without sign: the digits read and the rest. -/
def readDigits (s : List Char) : List Char × List Char :=
  ((skipws s).takeWhile Char.isDigit, (skipws s).dropWhile Char.isDigit)

/-- The extraction operators on the input of the examples: words between
whitespace, single characters, and decimal numbers without sign; a number above
the largest `u32` fails and stores that largest value. -/
def plainExtract : Extract K where
  word := fun s =>
    if (skipws s).takeWhile (fun c => !isSpaceChar c) = [] then none
    else some ((skipws s).takeWhile (fun c => !isSpaceChar c),
      (skipws s).dropWhile (fun c => !isSpaceChar c))
  scalar := fun s =>
    if (readDigits s).1 = [] then none
    else some ((digitsValue (readDigits s).1 : K), (readDigits s).2)
  u32 := fun s =>
    if (readDigits s).1 = [] then (false, 0, skipws s)
    else if digitsValue (readDigits s).1 < 4294967296 then
      (true, digitsValue (readDigits s).1, (readDigits s).2)
    else (false, 4294967295, (readDigits s).2)
  char := fun s =>
    match skipws s with
    | [] => none
    | c :: rest => some (c, rest)

/-- A mesh file with one triangle without texture coordinates. -/
def triangleFile : List (List Char) :=
  ["v 0 0 0".toList, "v 1 0 0".toList, "v 0 1 0".toList, "vn 0 0 1".toList,
   "f 1//1 2//1 3//1".toList]

/-- A mesh file whose face names a fourth vertex, of three. -/
def brokenFile : List (List Char) :=
  ["v 0 0 0".toList, "v 1 0 0".toList, "v 0 1 0".toList, "vn 0 0 1".toList,
   "f 1//1 2//1 4//1".toList]

/-- The condition of `castRay` under which the hit of an object is passed over:
a back face of a material that lets no light through. -/
def hitSkipped (ray : Ray K) (object : Object K) (intersection : Intersection K) : Bool :=
  decide (clampScalar (ray.direction.dot intersection.normal) (-1) 1 ≥ 0 ∧
    (object.material.transmittance = 0 ∨ object.material.refraction.norm = 0))

/-- The accepted hit of an object on a ray: its intersection without a limit on
the distance, when it is front-facing or on a transparent material. -/
def acceptedHit (lm : Libm K) (ray : Ray K) (object : Object K) : Option (Intersection K) :=
  (object.intersect lm ray INFINITE).filter (fun hit => !hitSkipped ray object hit)

/-- The limit `max_distance` acts on an object as a filter on the distance of its
intersection: hits have a distance in [0, INFINITE], and with a limit in that
range the object gives its hit when the distance is within the limit. -/
def Object.DistanceLimited (lm : Libm K) (ray : Ray K) (object : Object K) : Prop :=
  (∀ hit, object.intersect lm ray INFINITE = some hit →
    0 ≤ hit.distance ∧ hit.distance ≤ INFINITE) ∧
  ∀ max_distance : K, 0 ≤ max_distance → max_distance ≤ INFINITE →
    object.intersect lm ray max_distance =
      (object.intersect lm ray INFINITE).filter (fun hit => decide (hit.distance ≤ max_distance))

/-- Two objects whose accepted hits on a ray have different distances. -/
def DistinctHits (lm : Libm K) (ray : Ray K) (a b : Object K) : Prop :=
  ∀ ha hb, acceptedHit lm ray a = some ha → acceptedHit lm ray b = some hb →
    ha.distance ≠ hb.distance

/-- The accepted hit with the smallest distance among the objects. -/
def NearestAccepted (lm : Libm K) (ray : Ray K) (objects : List (Object K)) (object : Object K)
    (hit : Intersection K) : Prop :=
  object ∈ objects ∧ acceptedHit lm ray object = some hit ∧
    ∀ o ∈ objects, ∀ h, acceptedHit lm ray o = some h → hit.distance ≤ h.distance

/-- The unit triangle raised to the plane `z = 1/2`. -/
def raisedUnitTriangle : Triangle K :=
  ⟨⟨⟨0, 0, 1 / 2⟩, ⟨0, 0, 1⟩, ⟨0, 0⟩⟩, ⟨⟨1, 0, 1 / 2⟩, ⟨0, 0, 1⟩, ⟨1, 0⟩⟩,
    ⟨⟨0, 1, 1 / 2⟩, ⟨0, 0, 1⟩, ⟨0, 1⟩⟩⟩

/-- A new object: the raised unit triangle with the material `matte`. -/
def raisedTriangle : Object K := ⟨matte, Picture.default, Primitive.triangle raisedUnitTriangle⟩

/-- The intersection of `downRay` with the raised unit triangle. -/
def raisedHit : Intersection K :=
  ⟨1 / 2, ⟨1 / 4, 1 / 4, 1 / 2⟩, ⟨0, 0, 1⟩, ⟨1 / 4, 1 / 4⟩, ⟨1 / 2, 1 / 4⟩⟩

/-- A scene with the matte unit triangle first and the raised triangle, which
hides it from above, second. -/
def stackedScene : Scene K :=
  { emptyScene with m_objects := [matteTriangle, raisedTriangle], m_lights := [lamp] }

/-- The three phases of two workers on a picture of 4294967295 lines: no worker
has ended; one has ended and the counter has wrapped to 0, the other is passed
the lines again; both have ended. -/
def Workers.Wrapped (height : Nat) (s : Workers) : Prop :=
  (s.finished = [] ∧ s.m_NextLine = s.lines.length ∧ s.lines.length ≤ height ∧
    s.lines.map Prod.snd = List.range s.lines.length) ∨
  (∃ t, t < 2 ∧ s.finished = [t] ∧ s.m_NextLine ≤ height ∧
    s.lines.map Prod.snd = List.range height ++ List.range s.m_NextLine) ∨
  (∃ t u, t < 2 ∧ u < 2 ∧ t ≠ u ∧ s.finished = [u, t] ∧
    s.lines.map Prod.snd = List.range height ++ List.range height)

/-- The contract of exact sine and cosine that the rotations use: the
Pythagorean identity, and the symmetries under a change of sign. -/
def TrigExact (lm : Libm K) : Prop :=
  ∀ a : K, lm.sin a * lm.sin a + lm.cos a * lm.cos a = 1 ∧ lm.sin (-a) = -lm.sin a ∧
    lm.cos (-a) = lm.cos a

/-- The components of the vector of a `scale` tag are not zero; other tags
carry no condition. -/
def TransformTag.Invertible : TransformTag K → Prop
  | .scale v => v.x ≠ 0 ∧ v.y ≠ 0 ∧ v.z ≠ 0
  | _ => True

/-- The two matrices of a `TransformInfo` are inverse to each other. -/
def TransformInfo.Inverse (t : TransformInfo K) : Prop :=
  t.w2oVector.mul t.o2wVector = Matrix34.identity ∧
  t.o2wVector.mul t.w2oVector = Matrix34.identity

/-- A ray from `(0, 0, 1)` that meets the plane `z = 0` at the angle with
cosine 4/5. -/
def slantRay : Ray K := ⟨⟨0, 0, 1⟩, ⟨3 / 5, 0, -4 / 5⟩⟩

/-- The intersection of `slantRay` with the plane `z = 0`, with normal along
the z axis. -/
def slantHit : Intersection K := ⟨5 / 4, ⟨3 / 4, 0, 0⟩, ⟨0, 0, 1⟩, ⟨0, 0⟩, ⟨0, 0⟩⟩

section FloorScalars

variable [FloorRing K]

/-- The body of `PhotonMapper::castRay` with the Fresnel coefficient taken from
the function `fresnel` and the recursive calls from `recurse`: what the photon
mapper does if its coefficient is the one of `fresnel`. -/
def PhotonMapper.castRayWith (lm : Libm K) (scene : Scene K)
    (fresnel : Material K → K → K → K)
    (recurse : List (Object K) → Ray K → Nat → K → Color K → Option (List (Object K)))
    (objects : List (Object K)) (ray : Ray K) (recursion : Nat) (wavelength : K)
    (rad : Color K) : Option (List (Object K)) :=
  if recursion > scene.m_camera.m_maxBounces then some objects
  else
    match nearestHit lm ray objects 0 INFINITE none with
    | none => some objects
    | some (index, nearestIntersection) =>
      match objects[index]? with
      | none => some objects
      | some nearestObject =>
        if nearestObject.material.refraction.norm ≤ 0 then
          if recursion > 0 then
            some (objects.set index
              (nearestObject.addPhoton scene.m_photonMapTextureSize
                nearestIntersection.photonCoordinate rad))
          else some objects
        else
          let material := nearestObject.material
          let point := nearestIntersection.point
          let normal := nearestIntersection.normal
          let cos_angle_ray_normal := clampScalar (ray.direction.dot normal) (-1) 1
          let outside : Bool := !decide (cos_angle_ray_normal > 0)
          let kr : K := fresnel material cos_angle_ray_normal wavelength
          let afterRefraction : Option (List (Object K)) :=
            if kr < 1 then
              let refractionIndex0 := material.refraction.re + wavelength * material.dispersion
              let cos_angle_ray_normalTurned :=
                if outside = true then cos_angle_ray_normal * -1 else cos_angle_ray_normal
              let refractionIndex :=
                if outside = true then 1 / refractionIndex0 else refractionIndex0
              let normalTurned := if outside = true then normal else normal.scale (-1)
              let k := 1 - refractionIndex * refractionIndex *
                (1 - cos_angle_ray_normalTurned * cos_angle_ray_normalTurned)
              if k ≥ 0 then
                let refractionVector := (ray.direction.scale refractionIndex).add
                  (normalTurned.scale
                    (refractionIndex * cos_angle_ray_normalTurned - lm.sqrt k))
                let refractionRay := (Ray.new lm point refractionVector).addOffset
                  (normal.scale (if outside = true then -EPSILON else EPSILON))
                recurse objects refractionRay (u32Add recursion 1) wavelength
                  (rad.scale (1 - kr))
              else some objects
            else some objects
          match afterRefraction with
          | none => none
          | some objects2 =>
            let reflectionVector :=
              ray.direction.sub ((normal.scale cos_angle_ray_normal).scale 2)
            let mirrorRay := (Ray.new lm point reflectionVector).addOffset
              (normal.scale (if outside = true then EPSILON else -EPSILON))
            recurse objects2 mirrorRay (u32Add recursion 1) wavelength (rad.scale kr)

end FloorScalars

/-- A ray from `(1/4, 1/4, 0)` along the x axis: it lies in the plane of
`unitTriangle`. -/
def inPlaneRay : Ray K := ⟨⟨1 / 4, 1 / 4, 0⟩, ⟨1, 0, 0⟩⟩

/-- The key-frame list of the text `1;2(0)`: both key-frames are at the time
0. -/
def zeroSpanFrames : List (KeyFrame ℚ) :=
  [⟨1, none, none⟩, ⟨2, none, some 0⟩]

/-- A texture of two pixels in one line: red on the left, green on the right. -/
def stripeTexture : Picture K := ⟨⟨2, 1⟩, [⟨1, 0, 0, 1⟩, ⟨0, 1, 0, 1⟩]⟩

/-- A ray from the origin, the centre of `unitJulia`, along the x axis. -/
def centreRay : Ray K := ⟨⟨0, 0, 0⟩, ⟨1, 0, 0⟩⟩

/-- A triangle in the plane `x = 1/4`, which contains `downRay`. -/
def wallTriangle : Triangle K :=
  ⟨⟨⟨1 / 4, 0, 0⟩, ⟨1, 0, 0⟩, ⟨0, 0⟩⟩, ⟨⟨1 / 4, 1, 0⟩, ⟨1, 0, 0⟩, ⟨1, 0⟩⟩,
    ⟨⟨1 / 4, 0, 2⟩, ⟨1, 0, 0⟩, ⟨0, 1⟩⟩⟩

/-- A vector of the length `65 * 2^122`, which is more than `2^128`; its
components are `float`s. -/
def longVector : Vector3 K := ⟨39 * 2 ^ 122, 0, 52 * 2 ^ 122⟩

/-! # Theorems -/

/-! ## Square root and vector lemmas -/

theorem sqrt_mul_self_of_exact {lm : Libm K} (h : SqrtExact lm) {y : K} (hy : 0 ≤ y) :
    lm.sqrt (y * y) = y := by
  obtain ⟨h0, h1⟩ := h (y * y) (mul_self_nonneg y)
  exact (mul_self_inj h0 hy).mp h1

theorem sqrt_one_of_exact {lm : Libm K} (h : SqrtExact lm) : lm.sqrt 1 = 1 := by
  have := sqrt_mul_self_of_exact h (zero_le_one (α := K))
  simpa using this

@[simp] theorem Matrix34.identity_mulVec (v : Vector3 K) :
    (Matrix34.identity : Matrix34 K).mulVec v = v := by
  cases v; simp [Matrix34.identity, Matrix34.mulVec]

@[simp] theorem Matrix34.identity_mulWithoutTranslate (v : Vector3 K) :
    (Matrix34.identity : Matrix34 K).mulWithoutTranslate v = v := by
  cases v; simp [Matrix34.identity, Matrix34.mulWithoutTranslate]

theorem Vector3.normalized_of_unit {lm : Libm K} (h : SqrtExact lm) (d : Vector3 K)
    (hd : d.dot d = 1) : d.normalized lm = d := by
  have hlen : d.length lm = 1 := by
    unfold Vector3.length
    unfold Vector3.dot at hd
    rw [hd]; exact sqrt_one_of_exact h
  cases d
  simp only [Vector3.normalized, hlen]
  simp

theorem Vector3.length_scale_of_unit {lm : Libm K} (h : SqrtExact lm) (o d : Vector3 K)
    (hd : d.dot d = 1) {t : K} (ht : 0 ≤ t) :
    (o.sub (o.add (d.scale t))).length lm = t := by
  unfold Vector3.dot at hd
  have : (o.x - (o.x + d.x * t)) * (o.x - (o.x + d.x * t)) +
      (o.y - (o.y + d.y * t)) * (o.y - (o.y + d.y * t)) +
      (o.z - (o.z + d.z * t)) * (o.z - (o.z + d.z * t)) = t * t := by
    have e : (o.x - (o.x + d.x * t)) * (o.x - (o.x + d.x * t)) +
      (o.y - (o.y + d.y * t)) * (o.y - (o.y + d.y * t)) +
      (o.z - (o.z + d.z * t)) * (o.z - (o.z + d.z * t)) =
      (d.x * d.x + d.y * d.y + d.z * d.z) * (t * t) := by ring
    rw [e, hd, one_mul]
  simp only [Vector3.length, Vector3.sub, Vector3.add, Vector3.scale]
  rw [this]
  exact sqrt_mul_self_of_exact h ht

theorem SphereRoot_iff (c : Vector3 K) (r : K) (ray : Ray K)
    (hd : ray.direction.dot ray.direction = 1) (t : K) :
    SphereRoot c r ray t ↔
      (t + (ray.origin.sub c).dot ray.direction) * (t + (ray.origin.sub c).dot ray.direction) =
        (ray.origin.sub c).dot ray.direction * (ray.origin.sub c).dot ray.direction -
          ((ray.origin.sub c).dot (ray.origin.sub c) - r * r) := by
  obtain ⟨⟨ox, oy, oz⟩, ⟨dx, dy, dz⟩⟩ := ray
  obtain ⟨cx, cy, cz⟩ := c
  simp only [SphereRoot, Vector3.dot, Vector3.sub, Vector3.add, Vector3.scale] at hd ⊢
  have e : (ox + dx * t - cx) * (ox + dx * t - cx) + (oy + dy * t - cy) * (oy + dy * t - cy) +
      (oz + dz * t - cz) * (oz + dz * t - cz) =
      (ox - cx) * (ox - cx) + (oy - cy) * (oy - cy) + (oz - cz) * (oz - cz) +
        2 * t * ((ox - cx) * dx + (oy - cy) * dy + (oz - cz) * dz) +
        t * t * (dx * dx + dy * dy + dz * dz) := by ring
  rw [e, hd]
  constructor
  · intro h; linear_combination h
  · intro h; linear_combination h

theorem Sphere.hitAt_identity {lm : Libm K} (hlm : SqrtExact lm) (c : Vector3 K) (r : K)
    (ray : Ray K) (hd : ray.direction.dot ray.direction = 1) {t : K} (ht : 0 ≤ t) :
    ((⟨c, r, Matrix34.identity, Matrix34.identity, Matrix34.identity⟩ : Sphere K).hitAt lm ray
        ray.origin ray.direction t).distance = t ∧
    ((⟨c, r, Matrix34.identity, Matrix34.identity, Matrix34.identity⟩ : Sphere K).hitAt lm ray
        ray.origin ray.direction t).point = ray.origin.add (ray.direction.scale t) := by
  simp only [Sphere.hitAt, Matrix34.identity_mulVec]
  exact ⟨Vector3.length_scale_of_unit hlm _ _ hd ht, trivial⟩

theorem Sphere.intersect_identity_eq {lm : Libm K} (hlm : SqrtExact lm) (c : Vector3 K) (r : K)
    (ray : Ray K) (hd : ray.direction.dot ray.direction = 1) (max_distance : K)
    (hmax : 0 ≤ max_distance) :
    Sphere.intersect lm ⟨c, r, Matrix34.identity, Matrix34.identity, Matrix34.identity⟩ ray
        max_distance =
      (let s : Sphere K := ⟨c, r, Matrix34.identity, Matrix34.identity, Matrix34.identity⟩
       let b := (ray.origin.sub c).dot ray.direction
       let h := b * b - ((ray.origin.sub c).dot (ray.origin.sub c) - r * r)
       if h < 0 then none
       else if -b - lm.sqrt h > max_distance then none
       else if -b - lm.sqrt h < 0 then
         if -b + lm.sqrt h < 0 ∨ -b + lm.sqrt h > max_distance then none
         else some (s.hitAt lm ray ray.origin ray.direction (-b + lm.sqrt h))
       else some (s.hitAt lm ray ray.origin ray.direction (-b - lm.sqrt h))) := by
  have hmaxd : (if max_distance ≠ INFINITE then
      (ray.origin.sub (ray.origin.add (ray.direction.scale max_distance))).length lm
      else INFINITE) = max_distance := by
    split_ifs with h
    · exact Vector3.length_scale_of_unit hlm _ _ hd hmax
    · exact (not_not.mp h).symm
  simp only [Sphere.intersect, Matrix34.identity_mulVec, Matrix34.identity_mulWithoutTranslate,
    Vector3.normalized_of_unit hlm _ hd, hmaxd]

/-- C1. `Sphere::intersect` with identity transforms, for a ray with unit
direction and `max_distance >= 0`: a hit is returned exactly when the equation
`|o + t*d - c|^2 = r^2` has a root `t` with `0 <= t <= max_distance`; the
distance of a returned hit is the smallest such root and its point is
`o + t*d`. -/
theorem Sphere.intersect_identity_spec (lm : Libm K) (hlm : SqrtExact lm) (c : Vector3 K) (r : K)
    (ray : Ray K) (hd : ray.direction.dot ray.direction = 1) (max_distance : K)
    (hmax : 0 ≤ max_distance) :
    ((Sphere.intersect lm ⟨c, r, Matrix34.identity, Matrix34.identity, Matrix34.identity⟩ ray
        max_distance).isSome ↔
      ∃ t : K, 0 ≤ t ∧ t ≤ max_distance ∧ SphereRoot c r ray t) ∧
    ∀ hit : Intersection K,
      Sphere.intersect lm ⟨c, r, Matrix34.identity, Matrix34.identity, Matrix34.identity⟩ ray
          max_distance = some hit →
        (0 ≤ hit.distance ∧ hit.distance ≤ max_distance ∧ SphereRoot c r ray hit.distance) ∧
        (∀ t : K, 0 ≤ t → t ≤ max_distance → SphereRoot c r ray t → hit.distance ≤ t) ∧
        hit.point = ray.origin.add (ray.direction.scale hit.distance) := by
  rw [Sphere.intersect_identity_eq hlm c r ray hd max_distance hmax]
  simp only [SphereRoot_iff c r ray hd]
  generalize (ray.origin.sub c).dot ray.direction = b
  generalize b * b - ((ray.origin.sub c).dot (ray.origin.sub c) - r * r) = h
  by_cases hh : h < 0
  · simp only [hh, if_true, Option.isSome_none, Bool.false_eq_true, false_iff]
    refine ⟨?_, fun hit hhit => by cases hhit⟩
    rintro ⟨t, -, -, ht⟩
    have := mul_self_nonneg (t + b)
    rw [ht] at this
    exact absurd hh (not_lt.mpr this)
  · have hh0 : 0 ≤ h := not_lt.mp hh
    obtain ⟨hs0, hs1⟩ := hlm h hh0
    generalize lm.sqrt h = sq at hs0 hs1
    have roots : ∀ t : K, (t + b) * (t + b) = h ↔ t = -b - sq ∨ t = -b + sq := by
      intro t
      rw [← hs1]
      constructor
      · intro e
        rcases mul_self_eq_mul_self_iff.mp e with e1 | e1
        · right; linear_combination e1
        · left; linear_combination e1
      · rintro (e | e) <;> rw [e] <;> ring
    simp only [hh, if_false]
    by_cases h1 : -b - sq > max_distance
    · simp only [h1, if_true, Option.isSome_none, Bool.false_eq_true, false_iff]
      refine ⟨?_, fun hit hhit => by cases hhit⟩
      rintro ⟨t, -, ht1, ht⟩
      rcases (roots t).mp ht with e | e
      · rw [e] at ht1; exact absurd h1 (not_lt.mpr ht1)
      · rw [e] at ht1
        have : -b - sq ≤ -b + sq := by linarith
        exact absurd h1 (not_lt.mpr (le_trans this ht1))
    · simp only [h1, if_false]
      have h1le : -b - sq ≤ max_distance := not_lt.mp h1
      by_cases h2 : -b - sq < 0
      · simp only [h2, if_true]
        by_cases h3 : -b + sq < 0 ∨ -b + sq > max_distance
        · simp only [h3, if_true, Option.isSome_none, Bool.false_eq_true, false_iff]
          refine ⟨?_, fun hit hhit => by cases hhit⟩
          rintro ⟨t, ht0, ht1, ht⟩
          rcases (roots t).mp ht with e | e
          · rw [e] at ht0; exact absurd h2 (not_lt.mpr ht0)
          · rw [e] at ht0 ht1
            rcases h3 with h3 | h3
            · exact absurd h3 (not_lt.mpr ht0)
            · exact absurd h3 (not_lt.mpr ht1)
        · simp only [h3, if_false, Option.isSome_some, true_iff]
          have h3a : 0 ≤ -b + sq := not_lt.mp (fun h => h3 (Or.inl h))
          have h3b : -b + sq ≤ max_distance := not_lt.mp (fun h => h3 (Or.inr h))
          obtain ⟨hdist, hpoint⟩ := Sphere.hitAt_identity hlm c r ray hd h3a
          refine ⟨⟨-b + sq, h3a, h3b, (roots _).mpr (Or.inr rfl)⟩, ?_⟩
          intro hit hhit
          obtain rfl := Option.some.inj hhit
          rw [hdist]
          refine ⟨⟨h3a, h3b, (roots _).mpr (Or.inr rfl)⟩, ?_, hpoint⟩
          intro t ht0 _ ht
          rcases (roots t).mp ht with e | e
          · rw [e] at ht0; exact absurd h2 (not_lt.mpr ht0)
          · exact le_of_eq e.symm
      · simp only [h2, if_false, Option.isSome_some, true_iff]
        have h2a : 0 ≤ -b - sq := not_lt.mp h2
        obtain ⟨hdist, hpoint⟩ := Sphere.hitAt_identity hlm c r ray hd h2a
        refine ⟨⟨-b - sq, h2a, h1le, (roots _).mpr (Or.inl rfl)⟩, ?_⟩
        intro hit hhit
        obtain rfl := Option.some.inj hhit
        rw [hdist]
        refine ⟨⟨h2a, h1le, (roots _).mpr (Or.inl rfl)⟩, ?_, hpoint⟩
        intro t _ _ ht
        rcases (roots t).mp ht with e | e
        · exact le_of_eq e.symm
        · rw [e]; linarith

theorem Triangle.intersect_eq (lm : Libm K) (t : Triangle K) (ray : Ray K) (max_distance : K) :
    t.intersect lm ray max_distance =
      if t.mtWeight1 ray < -EPSILON ∨ t.mtWeight1 ray > 1 then none
      else if t.mtWeight2 ray < -EPSILON ∨ t.mtWeight1 ray + t.mtWeight2 ray > 1 then none
      else if t.mtDistance ray < 0 ∨ t.mtDistance ray > max_distance then none
      else some
        { distance := t.mtDistance ray
          point := ray.origin.add (ray.direction.scale (t.mtDistance ray))
          normal :=
            (((t.v0.normal.scale (1 - (t.mtWeight1 ray + t.mtWeight2 ray))).add
              (t.v1.normal.scale (t.mtWeight1 ray))).add
              (t.v2.normal.scale (t.mtWeight2 ray))).normalized lm
          textureCoordinate :=
            ((t.v0.textureCoordinate.scale (1 - (t.mtWeight1 ray + t.mtWeight2 ray))).add
              (t.v1.textureCoordinate.scale (t.mtWeight1 ray))).add
              (t.v2.textureCoordinate.scale (t.mtWeight2 ray))
          photonCoordinate := ⟨1 - (t.mtWeight1 ray + t.mtWeight2 ray), t.mtWeight1 ray⟩ } := by
  rfl

/-- C2. Whenever `Triangle::intersect` returns a hit for a ray not parallel to
the triangle's plane, the hit point is `w0*p0 + w1*p1 + w2*p2` with `(w0, w1)`
the returned photon coordinate and `w2 = 1 - w0 - w1`. -/
theorem Triangle.intersect_point_barycentric (lm : Libm K) (t : Triangle K) (ray : Ray K)
    (max_distance : K)
    (hpar : ray.direction.dot
      ((t.v1.position.sub t.v0.position).cross (t.v2.position.sub t.v0.position)) ≠ 0)
    (hit : Intersection K) (hhit : t.intersect lm ray max_distance = some hit) :
    hit.point =
      ((t.v0.position.scale hit.photonCoordinate.x).add
        (t.v1.position.scale hit.photonCoordinate.y)).add
        (t.v2.position.scale (1 - hit.photonCoordinate.x - hit.photonCoordinate.y)) := by
  rw [Triangle.intersect_eq] at hhit
  split_ifs at hhit
  obtain rfl := Option.some.inj hhit
  obtain ⟨⟨⟨ax, ay, az⟩, n0, uv0⟩, ⟨⟨bx, b_y, bz⟩, n1, uv1⟩, ⟨⟨cx, cy, cz⟩, n2, uv2⟩⟩ := t
  obtain ⟨⟨ox, oy, oz⟩, ⟨dx, dy, dz⟩⟩ := ray
  simp only [Vector3.dot, Vector3.cross, Vector3.sub] at hpar
  have ha : (bx - ax) * (dy * (cz - az) - dz * (cy - ay)) +
      (b_y - ay) * (dz * (cx - ax) - dx * (cz - az)) +
      (bz - az) * (dx * (cy - ay) - dy * (cx - ax)) ≠ 0 := by
    intro h0
    apply hpar
    linear_combination -h0
  simp only [Triangle.mtWeight1, Triangle.mtWeight2, Triangle.mtDistance, Vector3.dot,
    Vector3.cross, Vector3.sub, Vector3.add, Vector3.scale, Vector3.mk.injEq]
  refine ⟨?_, ?_, ?_⟩ <;> field_simp <;> ring

/-- C3. `Triangle::intersect` returns a hit exactly when the Moeller-Trumbore
weights `w1`, `w2` and ray parameter `t` satisfy `w1 >= -EPSILON`, `w1 <= 1`,
`w2 >= -EPSILON`, `w1 + w2 <= 1` and `0 <= t <= max_distance`; the returned
distance is `t`. -/
theorem Triangle.intersect_accept_iff (lm : Libm K) (t : Triangle K) (ray : Ray K)
    (max_distance : K) :
    ((t.intersect lm ray max_distance).isSome ↔
      (-EPSILON ≤ t.mtWeight1 ray ∧ t.mtWeight1 ray ≤ 1 ∧ -EPSILON ≤ t.mtWeight2 ray ∧
        t.mtWeight1 ray + t.mtWeight2 ray ≤ 1 ∧
        0 ≤ t.mtDistance ray ∧ t.mtDistance ray ≤ max_distance)) ∧
    ∀ hit : Intersection K, t.intersect lm ray max_distance = some hit →
      hit.distance = t.mtDistance ray := by
  rw [Triangle.intersect_eq]
  constructor
  · split_ifs with h1 h2 h3
    · simp only [Option.isSome_none, Bool.false_eq_true, false_iff]
      rintro ⟨a, b, -⟩
      rcases h1 with h1 | h1
      · exact absurd h1 (not_lt.mpr a)
      · exact absurd h1 (not_lt.mpr b)
    · simp only [Option.isSome_none, Bool.false_eq_true, false_iff]
      rintro ⟨-, -, a, b, -⟩
      rcases h2 with h2 | h2
      · exact absurd h2 (not_lt.mpr a)
      · exact absurd h2 (not_lt.mpr b)
    · simp only [Option.isSome_none, Bool.false_eq_true, false_iff]
      rintro ⟨-, -, -, -, a, b⟩
      rcases h3 with h3 | h3
      · exact absurd h3 (not_lt.mpr a)
      · exact absurd h3 (not_lt.mpr b)
    · simp only [Option.isSome_some, true_iff]
      push_neg at h1 h2 h3
      exact ⟨h1.1, h1.2, h2.1, h2.2, h3.1, h3.2⟩
  · intro hit hhit
    split_ifs at hhit
    obtain rfl := Option.some.inj hhit
    rfl

theorem sumsq_nonneg (x y z : K) : 0 ≤ x * x + y * y + z * z :=
  add_nonneg (add_nonneg (mul_self_nonneg x) (mul_self_nonneg y)) (mul_self_nonneg z)

theorem Sphere.intersect_some_hitAt (lm : Libm K) (s : Sphere K) (ray : Ray K)
    (max_distance : K) (hit : Intersection K) (h : s.intersect lm ray max_distance = some hit) :
    ∃ (o d : Vector3 K) (t : K), hit = s.hitAt lm ray o d t := by
  unfold Sphere.intersect at h
  simp only [] at h
  split_ifs at h <;> exact ⟨_, _, _, (Option.some.inj h).symm⟩

theorem Vector3.normalized_dot_self {lm : Libm K} (hlm : SqrtExact lm) (v : Vector3 K)
    (hv : v ≠ ⟨0, 0, 0⟩) : (v.normalized lm).dot (v.normalized lm) = 1 := by
  obtain ⟨x, y, z⟩ := v
  have hnn : 0 ≤ x * x + y * y + z * z := sumsq_nonneg x y z
  obtain ⟨h0, h1⟩ := hlm _ hnn
  have hpos : x * x + y * y + z * z ≠ 0 := by
    intro h
    apply hv
    have hx : x = 0 := by nlinarith [mul_self_nonneg x, mul_self_nonneg y, mul_self_nonneg z]
    have hy : y = 0 := by nlinarith [mul_self_nonneg x, mul_self_nonneg y, mul_self_nonneg z]
    have hz : z = 0 := by nlinarith [mul_self_nonneg x, mul_self_nonneg y, mul_self_nonneg z]
    rw [hx, hy, hz]
  have hlen : lm.sqrt (x * x + y * y + z * z) ≠ 0 := by
    intro h
    rw [h, mul_zero] at h1
    exact hpos h1.symm
  simp only [Vector3.normalized, Vector3.length, if_neg hlen, Vector3.dot]
  field_simp
  linear_combination -h1

theorem Sphere.sphere_hit_distance {lm : Libm K} (hlm : SqrtExact lm) (s : Sphere K) (ray : Ray K)
    (max_distance : K) (hit : Intersection K) (h : s.intersect lm ray max_distance = some hit) :
    IsEuclideanDistance hit.point ray.origin hit.distance := by
  have key : ∀ (o d : Vector3 K) (t : K),
      IsEuclideanDistance (s.hitAt lm ray o d t).point ray.origin (s.hitAt lm ray o d t).distance := by
    intro o d t
    simp only [Sphere.hitAt, IsEuclideanDistance, Vector3.length]
    obtain ⟨h0, h1⟩ := hlm _ (sumsq_nonneg
      (ray.origin.sub (s.m_object2World.mulVec (o.add (d.scale t)))).x
      (ray.origin.sub (s.m_object2World.mulVec (o.add (d.scale t)))).y
      (ray.origin.sub (s.m_object2World.mulVec (o.add (d.scale t)))).z)
    refine ⟨h0, ?_⟩
    rw [h1]
    simp only [Vector3.dot, Vector3.sub]
    ring
  obtain ⟨o, d, t, rfl⟩ := Sphere.intersect_some_hitAt lm s ray max_distance hit h
  exact key o d t

theorem Triangle.triangle_hit_distance (lm : Libm K) (t : Triangle K) (ray : Ray K)
    (hd : ray.direction.dot ray.direction = 1)
    (max_distance : K) (hit : Intersection K) (h : t.intersect lm ray max_distance = some hit) :
    IsEuclideanDistance hit.point ray.origin hit.distance := by
  rw [Triangle.intersect_eq] at h
  split_ifs at h with h1 h2 h3
  obtain rfl := Option.some.inj h
  push_neg at h3
  refine ⟨h3.1, ?_⟩
  obtain ⟨⟨ox, oy, oz⟩, ⟨dx, dy, dz⟩⟩ := ray
  simp only [Vector3.dot, Vector3.sub, Vector3.add, Vector3.scale] at hd ⊢
  generalize t.mtDistance _ = u
  linear_combination (-(u * u)) * hd

theorem Julia.intersect_some {lm : Libm K} (j : Julia K) (ray : Ray K)
    (max_distance : K) (hit : Intersection K) (h : j.intersect lm ray max_distance = some hit) :
    hit.distance = (hit.point.sub ray.origin).length lm ∧
      ¬ (hit.distance < EPSILON ∨ hit.distance > max_distance) := by
  unfold Julia.intersect at h
  simp only [] at h
  split at h
  · cases h
  · split_ifs at h
    all_goals
      obtain rfl := Option.some.inj h
      refine ⟨rfl, ?_⟩
      assumption

/-- In the field embedding, where every quotient is a number: for each
primitive kind and every ray built from a non-zero direction, the distance of a
returned hit is the Euclidean distance between the ray origin and the returned
hit point.  The hits with NaN values that the code reports after a division of
zero by zero are no hits of this embedding. -/
theorem Primitive.intersect_distance_euclidean (lm : Libm K) (hlm : SqrtExact lm)
    (p : Primitive K) (origin direction : Vector3 K) (hdir : direction ≠ ⟨0, 0, 0⟩)
    (max_distance : K) (hit : Intersection K)
    (h : p.intersect lm (Ray.new lm origin direction) max_distance = some hit) :
    IsEuclideanDistance hit.point origin hit.distance := by
  cases p with
  | sphere s => exact Sphere.sphere_hit_distance hlm s _ max_distance hit h
  | triangle t =>
    exact Triangle.triangle_hit_distance lm t _
      (Vector3.normalized_dot_self hlm direction hdir) max_distance hit h
  | julia j =>
    obtain ⟨h1, -⟩ := Julia.intersect_some j _ max_distance hit h
    obtain ⟨h0, h2⟩ := hlm _ (sumsq_nonneg (hit.point.sub origin).x (hit.point.sub origin).y
      (hit.point.sub origin).z)
    rw [h1]
    exact ⟨h0, h2⟩

/-- The last test of `Julia::intersect` in the field embedding: a hit whose
distance is a number has `EPSILON <= distance <= max_distance`. -/
theorem Julia.intersect_distance_bounds (lm : Libm K) (j : Julia K) (ray : Ray K)
    (max_distance : K) (hit : Intersection K)
    (h : j.intersect lm ray max_distance = some hit) :
    EPSILON ≤ hit.distance ∧ hit.distance ≤ max_distance := by
  obtain ⟨-, h2⟩ := Julia.intersect_some j ray max_distance hit h
  push_neg at h2
  exact h2

theorem animateLoop_cons_advance (T : K) (kf : KeyFrame K)
    (rest : List (Except String (KeyFrame K))) (value time : K) (easeType : Char) (t : K)
    (ht : kf.explicitTime.getD 1 = t) (h0 : 0 ≤ t) (h1 : t ≤ 1) (hT : t < T) (hord : time ≤ t) :
    animateLoop T (.ok kf :: rest) false value time easeType =
      animateLoop T rest false kf.targetValue t (kf.easeTag.getD easeType) := by
  obtain ⟨v, tag, et⟩ := kf
  subst ht
  cases et <;> cases tag <;>
    simp only [animateLoop, Option.getD_some, Option.getD_none, Bool.false_eq_true, if_false,
      false_or] at h0 h1 hT hord ⊢ <;>
    rw [if_neg (by push_neg; exact ⟨h0, h1⟩), if_pos hT, if_neg (not_lt.mpr hord)]

theorem animateLoop_cons_start (T : K) (kf : KeyFrame K)
    (rest : List (Except String (KeyFrame K))) (t : K)
    (ht : kf.explicitTime.getD 0 = t) (h0 : 0 ≤ t) (h1 : t ≤ 1) :
    animateLoop T (.ok kf :: rest) true 0 0 'l' =
      animateLoop T rest false kf.targetValue t (kf.easeTag.getD 'l') := by
  obtain ⟨v, tag, et⟩ := kf
  subst ht
  cases et <;> cases tag <;>
    simp only [animateLoop, Option.getD_some, Option.getD_none, if_true, true_or] at h0 h1 ⊢ <;>
    rw [if_neg (by push_neg; exact ⟨h0, h1⟩), if_neg (not_lt.mpr h0)]

theorem keyTime_of_getElem (frames : List (KeyFrame K)) (k : Nat) (h : k < frames.length) :
    keyTime frames k = (frames[k]).explicitTime.getD (if k = 0 then 0 else 1) := by
  unfold keyTime
  rw [List.getElem?_eq_getElem h]

theorem keyValue_of_getElem (frames : List (KeyFrame K)) (k : Nat) (h : k < frames.length) :
    keyValue frames k = (frames[k]).targetValue := by
  unfold keyValue
  rw [List.getElem?_eq_getElem h]

theorem keyEase_zero_of_getElem (frames : List (KeyFrame K)) (h : 0 < frames.length) :
    keyEase frames 0 = (frames[0]).easeTag.getD 'l' := by
  unfold keyEase keyTag
  rw [List.getElem?_eq_getElem h]

theorem keyEase_succ_of_getElem (frames : List (KeyFrame K)) (k : Nat)
    (h : k + 1 < frames.length) :
    keyEase frames (k + 1) = (frames[k + 1]).easeTag.getD (keyEase frames k) := by
  rw [keyEase]
  unfold keyTag
  rw [List.getElem?_eq_getElem h]

/-- While the scene time lies after the key-frames `1..j`, and the key-frames
`0..j` are in range and in order, the loop of `animateScalar` walks over them
and reaches key-frame `j + 1` with key-frame `j` as its state. -/
theorem animateKeyFrames_advance (T : K) (frames : List (KeyFrame K)) :
    ∀ j : Nat, j < frames.length →
      (∀ i, i ≤ j → 0 ≤ keyTime frames i ∧ keyTime frames i ≤ 1) →
      (∀ i, i < j → keyTime frames i ≤ keyTime frames (i + 1)) →
      (∀ i, 1 ≤ i → i ≤ j → keyTime frames i < T) →
      animateKeyFrames T frames =
        animateLoop T ((frames.drop (j + 1)).map Except.ok) false (keyValue frames j)
          (keyTime frames j) (keyEase frames j) := by
  intro j
  induction j with
  | zero =>
    intro hj hrange _ _
    have hr := hrange 0 (le_refl 0)
    unfold animateKeyFrames
    conv_lhs => rw [← List.drop_zero frames, List.drop_eq_getElem_cons hj]
    rw [List.map_cons, keyValue_of_getElem frames 0 hj, keyEase_zero_of_getElem frames hj]
    refine animateLoop_cons_start T _ _ _ ?_ hr.1 hr.2
    rw [keyTime_of_getElem frames 0 hj]; simp
  | succ j ih =>
    intro hj hrange hmono hlt
    have hj' : j < frames.length := Nat.lt_of_succ_lt hj
    rw [ih hj' (fun i hi => hrange i (Nat.le_succ_of_le hi))
      (fun i hi => hmono i (Nat.lt_succ_of_lt hi))
      (fun i h1 hi => hlt i h1 (Nat.le_succ_of_le hi))]
    have hr := hrange (j + 1) (le_refl _)
    rw [List.drop_eq_getElem_cons hj, List.map_cons, keyValue_of_getElem frames (j + 1) hj,
      keyEase_succ_of_getElem frames j hj]
    refine animateLoop_cons_advance T _ _ _ _ _ _ ?_ hr.1 hr.2
      (hlt (j + 1) (Nat.succ_le_succ (Nat.zero_le j)) (le_refl _)) (hmono j (Nat.lt_succ_self j))
    rw [keyTime_of_getElem frames (j + 1) hj]; simp

theorem animateLoop_cons_interpolate (T : K) (kf : KeyFrame K)
    (rest : List (Except String (KeyFrame K))) (value time : K) (easeType : Char) (t : K)
    (ht : kf.explicitTime.getD 1 = t) (h0 : 0 ≤ t) (h1 : t ≤ 1) (hT : T ≤ t) (hreached : time ≤ T) :
    animateLoop T (.ok kf :: rest) false value time easeType =
      match ease (kf.easeTag.getD easeType) ((T - time) / (t - time)) with
      | .error e => .error e
      | .ok f => .ok (f * (kf.targetValue - value) + value) := by
  obtain ⟨v, tag, et⟩ := kf
  subst ht
  cases et <;> cases tag <;>
    simp only [animateLoop, Option.getD_some, Option.getD_none, Bool.false_eq_true, if_false,
      false_or] at h0 h1 hT hreached ⊢ <;>
    rw [if_neg (by push_neg; exact ⟨h0, h1⟩), if_neg (not_lt.mpr hT), if_neg (not_lt.mpr hreached)]

theorem animateLoop_cons_before (T : K) (kf : KeyFrame K)
    (rest : List (Except String (KeyFrame K))) (value time : K) (easeType : Char) (t : K)
    (ht : kf.explicitTime.getD 1 = t) (h0 : 0 ≤ t) (h1 : t ≤ 1) (hT : T ≤ t) (hbefore : T < time) :
    animateLoop T (.ok kf :: rest) false value time easeType = .ok value := by
  obtain ⟨v, tag, et⟩ := kf
  subst ht
  cases et <;> cases tag <;>
    simp only [animateLoop, Option.getD_some, Option.getD_none, Bool.false_eq_true, if_false,
      false_or] at h0 h1 hT ⊢ <;>
    rw [if_neg (by push_neg; exact ⟨h0, h1⟩), if_neg (not_lt.mpr hT), if_pos hbefore]

theorem isEaseChar_cases {c : Char} (h : isEaseChar c = true) :
    c = 'l' ∨ c = 'i' ∨ c = 'o' ∨ c = 'b' := by
  simpa [isEaseChar, or_assoc] using h

theorem ease_ok {c : Char} (h : isEaseChar c = true) (x : K) : ∃ f : K, ease c x = .ok f := by
  rcases isEaseChar_cases h with rfl | rfl | rfl | rfl
  · exact ⟨_, rfl⟩
  · exact ⟨_, rfl⟩
  · exact ⟨_, rfl⟩
  · exact ⟨_, rfl⟩

theorem ease_zero {c : Char} (h : isEaseChar c = true) : ease c (0 : K) = .ok 0 := by
  rcases isEaseChar_cases h with rfl | rfl | rfl | rfl
  · rfl
  · show Except.ok ((0 : K) ^ 3) = _
    norm_num
  · show Except.ok (1 - (1 - (0 : K)) ^ 3) = _
    norm_num
  · show Except.ok (if (0 : K) < 1 / 2 then ((0 : K) * 2) ^ 3 / 2 else 1 - ((1 - 0) * 2) ^ 3 / 2) = _
    norm_num

theorem keyEase_isEaseChar (frames : List (KeyFrame K))
    (htags : ∀ k c, keyTag frames k = some c → isEaseChar c = true) (k : Nat) :
    isEaseChar (keyEase frames k) = true := by
  induction k with
  | zero =>
    rw [keyEase]
    cases h : keyTag frames 0 with
    | none => rfl
    | some c => exact htags 0 c h
  | succ k ih =>
    rw [keyEase]
    cases h : keyTag frames (k + 1) with
    | none => exact ih
    | some c => exact htags (k + 1) c h

theorem keyTime_mono (frames : List (KeyFrame K))
    (hmono : ∀ k, k + 1 < frames.length → keyTime frames k ≤ keyTime frames (k + 1)) :
    ∀ j, j < frames.length → ∀ i, i ≤ j → keyTime frames i ≤ keyTime frames j := by
  intro j
  induction j with
  | zero =>
    intro _ i hi
    rw [Nat.le_zero.mp hi]
  | succ j ih =>
    intro hj i hi
    rcases Nat.lt_or_eq_of_le hi with h | h
    · exact le_trans (ih (Nat.lt_of_succ_lt hj) i (Nat.lt_succ_iff.mp h)) (hmono j hj)
    · rw [h]

/-- The value in the segment between key-frames `k` and `k + 1`. -/
theorem animateKeyFrames_segment (T : K) (frames : List (KeyFrame K)) (k : Nat)
    (hk : k + 1 < frames.length)
    (hrange : ∀ i, i ≤ k + 1 → 0 ≤ keyTime frames i ∧ keyTime frames i ≤ 1)
    (hmono : ∀ i, i < k → keyTime frames i ≤ keyTime frames (i + 1))
    (hlt : ∀ i, 1 ≤ i → i ≤ k → keyTime frames i < T)
    (hk0 : keyTime frames k ≤ T) (hk1 : T ≤ keyTime frames (k + 1)) :
    animateKeyFrames T frames =
      match ease (keyEase frames (k + 1))
          ((T - keyTime frames k) / (keyTime frames (k + 1) - keyTime frames k)) with
      | .error e => .error e
      | .ok f => .ok (f * (keyValue frames (k + 1) - keyValue frames k) + keyValue frames k) := by
  rw [animateKeyFrames_advance T frames k (Nat.lt_of_succ_lt hk)
    (fun i hi => hrange i (Nat.le_succ_of_le hi)) hmono hlt]
  have hr := hrange (k + 1) (le_refl _)
  rw [List.drop_eq_getElem_cons hk, List.map_cons, keyValue_of_getElem frames (k + 1) hk,
    keyEase_succ_of_getElem frames k hk]
  refine animateLoop_cons_interpolate T _ _ _ _ _ _ ?_ hr.1 hr.2 hk1 hk0
  rw [keyTime_of_getElem frames (k + 1) hk]; simp

/-- The value after the last key-frame. -/
theorem animateKeyFrames_after_last (T : K) (frames : List (KeyFrame K))
    (hn : 1 ≤ frames.length)
    (hrange : ∀ i, i < frames.length → 0 ≤ keyTime frames i ∧ keyTime frames i ≤ 1)
    (hmono : ∀ i, i + 1 < frames.length → keyTime frames i ≤ keyTime frames (i + 1))
    (hlt : ∀ i, 1 ≤ i → i < frames.length → keyTime frames i < T) :
    animateKeyFrames T frames = .ok (keyValue frames (frames.length - 1)) := by
  have hlast : frames.length - 1 < frames.length := Nat.sub_lt hn (Nat.lt_succ_self 0)
  rw [animateKeyFrames_advance T frames (frames.length - 1) hlast
    (fun i hi => hrange i (Nat.lt_of_le_of_lt hi hlast))
    (fun i hi => hmono i (by omega))
    (fun i h1 hi => hlt i h1 (Nat.lt_of_le_of_lt hi hlast))]
  have : frames.length - 1 + 1 = frames.length := Nat.sub_add_cancel hn
  rw [this, List.drop_length]
  rfl

/-- The value at or before the first key-frame. -/
theorem animateKeyFrames_before_first (T : K) (frames : List (KeyFrame K))
    (hn : 1 ≤ frames.length)
    (hrange : ∀ i, i < frames.length → 0 ≤ keyTime frames i ∧ keyTime frames i ≤ 1)
    (hincr : ∀ i, i + 1 < frames.length → keyTime frames i < keyTime frames (i + 1))
    (htags : ∀ k c, keyTag frames k = some c → isEaseChar c = true)
    (hT : T ≤ keyTime frames 0) :
    animateKeyFrames T frames = .ok (keyValue frames 0) := by
  have h0 : 0 < frames.length := hn
  rw [animateKeyFrames_advance T frames 0 h0 (fun i hi => hrange i (by omega))
    (fun i hi => absurd hi (Nat.not_lt_zero i)) (fun i h1 hi => by omega)]
  by_cases h1 : 1 < frames.length
  · have hr := hrange 1 h1
    have hlt01 := hincr 0 h1
    rw [List.drop_eq_getElem_cons h1, List.map_cons]
    have ht : (frames[0 + 1]).explicitTime.getD 1 = keyTime frames 1 := by
      rw [keyTime_of_getElem frames 1 h1]; simp
    rcases lt_or_eq_of_le hT with hlt | heq
    · exact animateLoop_cons_before T _ _ _ _ _ _ ht hr.1 hr.2
        (le_trans hT (le_of_lt hlt01)) hlt
    · rw [animateLoop_cons_interpolate T _ _ _ _ _ _ ht hr.1 hr.2
        (le_trans hT (le_of_lt hlt01)) (le_of_eq heq.symm)]
      have hz : (T - keyTime frames 0) / (keyTime frames 1 - keyTime frames 0) = 0 := by
        rw [heq, sub_self, zero_div]
      have he : isEaseChar ((frames[0 + 1]).easeTag.getD (keyEase frames 0)) = true := by
        have := keyEase_isEaseChar frames htags 1
        rwa [keyEase_succ_of_getElem frames 0 h1] at this
      rw [hz, ease_zero he]
      simp
  · have : frames.length = 1 := by omega
    have hd : List.drop (0 + 1) frames = [] := by
      rw [List.drop_eq_nil_iff]; omega
    rw [hd]
    rfl

theorem animateLoop_cons_range_error (T : K) (kf : KeyFrame K)
    (rest : List (Except String (KeyFrame K))) (start : Bool) (value time : K) (easeType : Char)
    (hbad : kf.explicitTime.getD (if start = true then 0 else 1) < 0 ∨
      1 < kf.explicitTime.getD (if start = true then 0 else 1)) :
    animateLoop T (.ok kf :: rest) start value time easeType = .error "invalid animation time" := by
  obtain ⟨v, tag, et⟩ := kf
  cases et <;> cases tag <;>
    simp only [animateLoop, Option.getD_some, Option.getD_none] at hbad ⊢ <;>
    rw [if_pos hbad]

theorem animateLoop_cons_order_error (T : K) (kf : KeyFrame K)
    (rest : List (Except String (KeyFrame K))) (value time : K) (easeType : Char) (t : K)
    (ht : kf.explicitTime.getD 1 = t) (h0 : 0 ≤ t) (h1 : t ≤ 1) (hT : t < T) (hord : t < time) :
    animateLoop T (.ok kf :: rest) false value time easeType =
      .error "animation time not in increasing order" := by
  obtain ⟨v, tag, et⟩ := kf
  subst ht
  cases et <;> cases tag <;>
    simp only [animateLoop, Option.getD_some, Option.getD_none, Bool.false_eq_true, if_false,
      false_or] at h0 h1 hT hord ⊢ <;>
    rw [if_neg (by push_neg; exact ⟨h0, h1⟩), if_pos hT, if_pos hord]

/-- C6. `animateScalar` on a key-frame list with `n >= 1` key-frames whose
times are strictly increasing and within `[0,1]`: the result is `v_0` if
`T <= t_0`, `v_(n-1)` if `T > t_(n-1)`, and for the `k` with
`t_k < T <= t_(k+1)` it is
`ease(e, (T - t_k)/(t_(k+1) - t_k)) * (v_(k+1) - v_k) + v_k` with `e` the most
recent explicit easing tag at or before key-frame `k + 1` (default `l`). -/
theorem animateKeyFrames_piecewise (T : K) (frames : List (KeyFrame K))
    (hn : 1 ≤ frames.length)
    (hrange : ∀ k, k < frames.length → 0 ≤ keyTime frames k ∧ keyTime frames k ≤ 1)
    (hincr : ∀ k, k + 1 < frames.length → keyTime frames k < keyTime frames (k + 1))
    (htags : ∀ k c, keyTag frames k = some c → isEaseChar c = true) :
    (T ≤ keyTime frames 0 → animateKeyFrames T frames = .ok (keyValue frames 0)) ∧
    (keyTime frames (frames.length - 1) < T →
      animateKeyFrames T frames = .ok (keyValue frames (frames.length - 1))) ∧
    (∀ k, k + 1 < frames.length → keyTime frames k < T → T ≤ keyTime frames (k + 1) →
      ∃ f : K,
        ease (keyEase frames (k + 1))
          ((T - keyTime frames k) / (keyTime frames (k + 1) - keyTime frames k)) = .ok f ∧
        animateKeyFrames T frames =
          .ok (f * (keyValue frames (k + 1) - keyValue frames k) + keyValue frames k)) := by
  have hmono : ∀ i, i + 1 < frames.length → keyTime frames i ≤ keyTime frames (i + 1) :=
    fun i hi => le_of_lt (hincr i hi)
  refine ⟨animateKeyFrames_before_first T frames hn hrange hincr htags, ?_, ?_⟩
  · intro hlast
    refine animateKeyFrames_after_last T frames hn hrange hmono ?_
    intro i _ hi
    exact lt_of_le_of_lt (keyTime_mono frames hmono (frames.length - 1)
      (Nat.sub_lt hn (Nat.lt_succ_self 0)) i (by omega)) hlast
  · intro k hk hk0 hk1
    obtain ⟨f, hf⟩ := ease_ok (keyEase_isEaseChar frames htags (k + 1))
      ((T - keyTime frames k) / (keyTime frames (k + 1) - keyTime frames k))
    refine ⟨f, hf, ?_⟩
    rw [animateKeyFrames_segment T frames k hk (fun i hi => hrange i (by omega))
      (fun i hi => hmono i (by omega))
      (fun i _ hi => lt_of_le_of_lt (keyTime_mono frames hmono k (Nat.lt_of_succ_lt hk) i hi) hk0)
      (le_of_lt hk0) hk1, hf]

/-- C9 (amended). When the evaluation reaches key-frame `j` (the key-frames
before it are in range and in order, and those after the first lie before the
scene time `T`), it fails with a parse error if the time of key-frame `j` is
outside `[0,1]`, and also if that time is smaller than the time of key-frame
`j - 1` and smaller than `T`. -/
theorem animateKeyFrames_error_when_reached (T : K) (frames : List (KeyFrame K)) (j : Nat)
    (hj : j < frames.length)
    (hrange : ∀ i, i < j → 0 ≤ keyTime frames i ∧ keyTime frames i ≤ 1)
    (hmono : ∀ i, i + 1 < j → keyTime frames i ≤ keyTime frames (i + 1))
    (hreach : ∀ i, 1 ≤ i → i < j → keyTime frames i < T)
    (hbad : (keyTime frames j < 0 ∨ 1 < keyTime frames j) ∨
      (1 ≤ j ∧ keyTime frames j < keyTime frames (j - 1) ∧ keyTime frames j < T)) :
    ∃ e : String, animateKeyFrames T frames = .error e := by
  cases j with
  | zero =>
    rcases hbad with hbad | ⟨h1, -⟩
    · refine ⟨"invalid animation time", ?_⟩
      unfold animateKeyFrames
      conv_lhs => rw [← List.drop_zero frames, List.drop_eq_getElem_cons hj]
      rw [List.map_cons]
      refine animateLoop_cons_range_error T _ _ true 0 0 'l' ?_
      rw [keyTime_of_getElem frames 0 hj] at hbad
      simpa using hbad
    · omega
  | succ j =>
    rw [animateKeyFrames_advance T frames j (Nat.lt_of_succ_lt hj)
      (fun i hi => hrange i (by omega)) (fun i hi => hmono i (by omega))
      (fun i h1 hi => hreach i h1 (by omega))]
    rw [List.drop_eq_getElem_cons hj, List.map_cons]
    have ht : (frames[j + 1]).explicitTime.getD 1 = keyTime frames (j + 1) := by
      rw [keyTime_of_getElem frames (j + 1) hj]; simp
    by_cases hr : keyTime frames (j + 1) < 0 ∨ 1 < keyTime frames (j + 1)
    · refine ⟨_, animateLoop_cons_range_error T _ _ false _ _ _ ?_⟩
      rw [← ht] at hr
      simpa using hr
    · rcases hbad with hbad | ⟨-, hord, hT⟩
      · exact absurd hbad hr
      · push_neg at hr
        exact ⟨_, animateLoop_cons_order_error T _ _ _ _ _ _ ht hr.1 hr.2 hT
          (by simpa using hord)⟩

theorem regexMatches_example :
    regexMatches ("0.0; 1.0(l); 0.0".toList.length + 1) true "0.0; 1.0(l); 0.0".toList =
      [⟨['0', '.', '0'], [], [], []⟩, ⟨['1', '.', '0'], ['l'], [], []⟩,
        ⟨['0', '.', '0'], [], [], []⟩] := by
  decide

theorem stof_zero_text : stof ['0', '.', '0'] = some 0 := by
  have h : scanDecimal ['0', '.', '0'] = some ⟨false, 0, 1, 0⟩ := by decide
  simp only [stof, h, Option.map_some', Decimal.value]
  norm_num

theorem stof_one_text : stof ['1', '.', '0'] = some 1 := by
  have h : scanDecimal ['1', '.', '0'] = some ⟨false, 10, 1, 0⟩ := by decide
  simp only [stof, h, Option.map_some', Decimal.value]
  norm_num

/-- On the text `0.0; 1.0(l); 0.0` the animated value at scene time `T` in
`[0,1]` is `T` itself: the second key-frame has the default time 1. -/
theorem animateScalar_example (T : ℚ) (h0 : 0 ≤ T) (h1 : T ≤ 1) :
    animateScalar T "0.0; 1.0(l); 0.0".toList = .ok T := by
  unfold animateScalar
  rw [regexMatches_example]
  simp only [List.map_cons, List.map_nil, readKeyFrame, stof_zero_text, stof_one_text,
    List.head?_nil, List.head?_cons, ne_eq, not_true_eq_false, if_false]
  rw [animateLoop_cons_start T _ _ 0 (by rfl) (le_refl 0) zero_le_one]
  rw [animateLoop_cons_interpolate T _ _ _ _ _ 1 (by rfl) zero_le_one (le_refl 1) h1 h0]
  simp [ease]

/-- C7, as stated, fails: at `T = 0.25` the text `0.0; 1.0(l); 0.0` gives 0.25,
not 0.5. -/
theorem animateScalar_example_counterexample :
    animateScalar (1 / 4 : ℚ) "0.0; 1.0(l); 0.0".toList = .ok (1 / 4) ∧
      animateScalar (1 / 4 : ℚ) "0.0; 1.0(l); 0.0".toList ≠ .ok (1 / 2) := by
  have h := animateScalar_example (1 / 4) (by norm_num) (by norm_num)
  refine ⟨h, ?_⟩
  rw [h]
  intro e
  have := Except.ok.inj e
  norm_num at this

/-- C7 (amended). Evaluating the key-frame text `0.0; 1.0(l); 0.0` at scene
times 0, 0.25, 0.5, 0.75 and 1 yields 0, 0.25, 0.5, 0.75 and 1. -/
theorem animateScalar_example_values :
    animateScalar (0 : ℚ) "0.0; 1.0(l); 0.0".toList = .ok 0 ∧
    animateScalar (1 / 4 : ℚ) "0.0; 1.0(l); 0.0".toList = .ok (1 / 4) ∧
    animateScalar (1 / 2 : ℚ) "0.0; 1.0(l); 0.0".toList = .ok (1 / 2) ∧
    animateScalar (3 / 4 : ℚ) "0.0; 1.0(l); 0.0".toList = .ok (3 / 4) ∧
    animateScalar (1 : ℚ) "0.0; 1.0(l); 0.0".toList = .ok 1 :=
  ⟨animateScalar_example 0 (by norm_num) (by norm_num),
   animateScalar_example (1 / 4) (by norm_num) (by norm_num),
   animateScalar_example (1 / 2) (by norm_num) (by norm_num),
   animateScalar_example (3 / 4) (by norm_num) (by norm_num),
   animateScalar_example 1 (by norm_num) (by norm_num)⟩

/-- C9, as stated, fails: in the list of `0;1(0.5);2(0.3)` the last time is
smaller than the one before it, yet at scene time 1/4 the evaluation returns
the value 1/2 and no error. -/
theorem animateKeyFrames_ill_ordered_counterexample :
    keyTime illOrderedFrames 2 < keyTime illOrderedFrames 1 ∧
    animateKeyFrames (1 / 4 : ℚ) illOrderedFrames = .ok (1 / 2) := by
  constructor
  · simp only [keyTime, illOrderedFrames, List.getElem?_cons_succ, List.getElem?_cons_zero,
      Option.getD_some]
    norm_num
  · unfold animateKeyFrames illOrderedFrames
    simp only [List.map_cons, List.map_nil]
    rw [animateLoop_cons_start _ _ _ 0 (by rfl) (le_refl 0) zero_le_one]
    rw [animateLoop_cons_interpolate _ _ _ _ _ _ (1 / 2) (by rfl) (by norm_num) (by norm_num)
      (by norm_num) (by norm_num)]
    simp [ease]
    norm_num

/-- C10. `calcFresnel` at normal incidence (`cosI = 1` or `cosI = -1`) for a
material with real refraction index `eta` other than -1 and
`wavelength * dispersion = 0` equals `((eta - 1)/(eta + 1))^2`.  Of the library
it needs `sqrtf(0) = 0` and that the complex square root of 1 is 1. -/
theorem calcFresnel_normal_incidence (lm : Libm K) (hs0 : lm.sqrt 0 = 0)
    (hc1 : lm.csqrt ⟨1, 0⟩ = ⟨1, 0⟩) (material : Material K) (eta : K)
    (href : material.refraction = ⟨eta, 0⟩) (hne : eta ≠ -1) (wavelength : K)
    (hdisp : wavelength * material.dispersion = 0) (cosI : K) (hcos : cosI = 1 ∨ cosI = -1) :
    calcFresnel lm material cosI wavelength = ((eta - 1) / (eta + 1)) ^ 2 := by
  have hne' : eta + 1 ≠ 0 := fun h => hne (by linear_combination h)
  have hsq : lm.sqrt (max 0 (1 - cosI * cosI)) = 0 := by
    have : 1 - cosI * cosI = 0 := by rcases hcos with h | h <;> rw [h] <;> ring
    rw [this, max_self, hs0]
  have habs : |cosI| = 1 := by
    rcases hcos with h | h <;> rw [h] <;> simp
  have hcost : ∀ z : Cplx K, lm.csqrt ((⟨1, 0⟩ : Cplx K).sub ((z.scale 0).mul (z.scale 0))) =
      ⟨1, 0⟩ := by
    intro z
    have : (⟨1, 0⟩ : Cplx K).sub ((z.scale 0).mul (z.scale 0)) = ⟨1, 0⟩ := by
      simp [Cplx.sub, Cplx.mul, Cplx.scale]
    rw [this, hc1]
  have hnorm : ∀ z : Cplx K, (z.scale 0).norm < 1 := by
    intro z
    simp [Cplx.scale, Cplx.norm]
  have hdiv : ∀ x y : K, y ≠ 0 → ((⟨x, 0⟩ : Cplx K).div ⟨y, 0⟩).norm = (x / y) ^ 2 := by
    intro x y hy
    simp only [Cplx.div, Cplx.norm, mul_zero, add_zero, zero_mul, sub_zero, zero_div]
    field_simp
    ring
  have e1 : ((⟨eta, 0⟩ : Cplx K).scale 1).sub ((⟨1, 0⟩ : Cplx K).mul ⟨1, 0⟩) = ⟨eta - 1, 0⟩ := by
    simp [Cplx.scale, Cplx.mul, Cplx.sub]
  have e2 : ((⟨eta, 0⟩ : Cplx K).scale 1).add ((⟨1, 0⟩ : Cplx K).mul ⟨1, 0⟩) = ⟨eta + 1, 0⟩ := by
    simp [Cplx.scale, Cplx.mul, Cplx.add]
  have e3 : ((⟨1, 0⟩ : Cplx K).scale 1).sub ((⟨eta, 0⟩ : Cplx K).mul ⟨1, 0⟩) = ⟨1 - eta, 0⟩ := by
    simp [Cplx.scale, Cplx.mul, Cplx.sub]
  have e4 : ((⟨1, 0⟩ : Cplx K).scale 1).add ((⟨eta, 0⟩ : Cplx K).mul ⟨1, 0⟩) = ⟨1 + eta, 0⟩ := by
    simp [Cplx.scale, Cplx.mul, Cplx.add]
  have hne2 : 1 + eta ≠ 0 := by rwa [add_comm]
  unfold calcFresnel
  simp only [hsq, habs, hcost, hnorm, if_true, href, hdisp, Cplx.addReal, add_zero]
  rcases hcos with h | h
  · have hpos : cosI > 0 := by rw [h]; exact zero_lt_one
    simp only [hpos, if_true, e1, e2, e3, e4, hdiv _ _ hne', hdiv _ _ hne2]
    field_simp
    ring
  · have hneg : ¬ cosI > 0 := by rw [h]; norm_num
    simp only [hneg, if_false, e1, e2, e3, e4, hdiv _ _ hne', hdiv _ _ hne2]
    field_simp
    ring

theorem unitTriangle_downRay_hit (lm : Libm K) :
    ∃ hit : Intersection K, (unitTriangle : Triangle K).intersect lm downRay 10 = some hit := by
  have w1 : (unitTriangle : Triangle K).mtWeight1 downRay = 1 / 4 := by
    simp [Triangle.mtWeight1, unitTriangle, downRay, Vector3.dot, Vector3.cross, Vector3.sub]
  have w2 : (unitTriangle : Triangle K).mtWeight2 downRay = 1 / 4 := by
    simp [Triangle.mtWeight2, unitTriangle, downRay, Vector3.dot, Vector3.cross, Vector3.sub]
  have wt : (unitTriangle : Triangle K).mtDistance downRay = 1 := by
    simp [Triangle.mtDistance, unitTriangle, downRay, Vector3.dot, Vector3.cross, Vector3.sub]
  have c1 : ¬ ((1 : K) / 4 < -EPSILON ∨ (1 : K) / 4 > 1) := by norm_num [EPSILON]
  have c2 : ¬ ((1 : K) / 4 < -EPSILON ∨ (1 : K) / 4 + 1 / 4 > 1) := by norm_num [EPSILON]
  have c3 : ¬ ((1 : K) < 0 ∨ (1 : K) > 10) := by norm_num
  rw [Triangle.intersect_eq]
  simp only [w1, w2, wt, c1, c2, c3, if_false]
  exact ⟨_, rfl⟩

/-! ## The Fresnel coefficient -/

theorem Cplx.norm_nonneg (z : Cplx K) : 0 ≤ z.norm :=
  add_nonneg (mul_self_nonneg _) (mul_self_nonneg _)

theorem Cplx.norm_div (z w : Cplx K) : (z.div w).norm = z.norm / w.norm := by
  simp only [Cplx.div, Cplx.norm]
  by_cases h : w.re * w.re + w.im * w.im = 0
  · simp [h]
  · field_simp
    ring

/-- When the real part of `a * conj b` is non-negative, the quotient
`(a - b)/(a + b)` has squared magnitude at most 1. -/
theorem Cplx.norm_quotient_le_one (a b : Cplx K) (h : 0 ≤ a.re * b.re + a.im * b.im) :
    ((a.sub b).div (a.add b)).norm ≤ 1 := by
  rw [Cplx.norm_div]
  apply div_le_one_of_le₀ _ (Cplx.norm_nonneg _)
  simp only [Cplx.norm, Cplx.sub, Cplx.add]
  nlinarith [h]

theorem root_squares_bound (N k2 A B T : K) (hN : 0 < N) (hk2 : 0 ≤ k2) (hA : 0 ≤ A)
    (hB : 0 ≤ B) (hT : 0 ≤ T) (hAB : A * B = N * k2 * (T * T))
    (hre : A - B = 1 - (N - k2) * T) : k2 * B ≤ N * A := by
  by_contra hcon
  have h1 : N * A < k2 * B := not_le.mp hcon
  have hkB : 0 < k2 * B := lt_of_le_of_lt (mul_nonneg (le_of_lt hN) hA) h1
  have hkpos : 0 < k2 := by
    rcases eq_or_lt_of_le hk2 with h | h
    · rw [← h, zero_mul] at hkB; exact absurd hkB (lt_irrefl 0)
    · exact h
  have hBpos : 0 < B := by
    rcases eq_or_lt_of_le hB with h | h
    · rw [← h, mul_zero] at hkB; exact absurd hkB (lt_irrefl 0)
    · exact h
  have hkT : 0 ≤ k2 * T := mul_nonneg hk2 hT
  have hnT : 0 ≤ N * T := mul_nonneg (le_of_lt hN) hT
  have step1 : A ≤ k2 * T := by
    by_contra hc
    have hc' : k2 * T < A := not_le.mp hc
    have hxpos : 0 < A := lt_of_le_of_lt hkT hc'
    have e1 : N * A * A < k2 * B * A := mul_lt_mul_of_pos_right h1 hxpos
    have e2 : k2 * B * A = N * ((k2 * T) * (k2 * T)) := by linear_combination k2 * hAB
    have e3 : (k2 * T) * (k2 * T) < A * A := mul_lt_mul'' hc' hc' hkT hkT
    have e4 : N * ((k2 * T) * (k2 * T)) < N * (A * A) := mul_lt_mul_of_pos_left e3 hN
    linarith
  have step2 : N * T < B := by
    by_contra hc
    have hc' : B ≤ N * T := not_lt.mp hc
    have e1 : N * A * B < k2 * B * B := mul_lt_mul_of_pos_right h1 hBpos
    have e2 : N * A * B = k2 * ((N * T) * (N * T)) := by linear_combination N * hAB
    have e3 : B * B ≤ (N * T) * (N * T) := mul_le_mul hc' hc' hB hnT
    have e4 : k2 * (B * B) ≤ k2 * ((N * T) * (N * T)) := mul_le_mul_of_nonneg_left e3 hk2
    linarith
  linarith

/-- The algebra behind the Fresnel bound: a root `x + i*y` with `x >= 0` of
`1 - T * conj(eta)^2` or of `1 - T * eta^2` (with `eta = n + i*k`, `n > 0`,
`T >= 0`) satisfies `|k*y| <= n*x`. -/
theorem principal_root_dominates (n k x y T : K) (hn : 0 < n) (hx : 0 ≤ x) (hT : 0 ≤ T)
    (hre : x * x - y * y = 1 - (n * n - k * k) * T)
    (him : (x * y) * (x * y) = (n * k * T) * (n * k * T)) :
    |k * y| ≤ n * x := by
  have hnx : 0 ≤ n * x := mul_nonneg (le_of_lt hn) hx
  have hAB : (x * x) * (y * y) = (n * n) * (k * k) * (T * T) := by linear_combination him
  have h := root_squares_bound (n * n) (k * k) (x * x) (y * y) T (mul_pos hn hn)
    (mul_self_nonneg k) (mul_self_nonneg x) (mul_self_nonneg y) hT hAB hre
  have hsq : (k * y) ^ 2 ≤ (n * x) ^ 2 := by
    have e1 : (k * y) ^ 2 = k * k * (y * y) := by ring
    have e2 : (n * x) ^ 2 = n * n * (x * x) := by ring
    rw [e1, e2]; exact h
  exact abs_le.mpr (abs_le_of_sq_le_sq' hsq hnx)

theorem calcFresnel_nonneg (lm : Libm K) (material : Material K) (cosI wavelength : K) :
    0 ≤ calcFresnel lm material cosI wavelength := by
  unfold calcFresnel
  simp only []
  split_ifs <;> first
    | exact div_nonneg (add_nonneg (Cplx.norm_nonneg _) (Cplx.norm_nonneg _)) (by norm_num)
    | exact zero_le_one

theorem calcFresnel_le_one (lm : Libm K) (hc : CsqrtPrincipal lm) (material : Material K)
    (cosI wavelength : K)
    (hpos : 0 < material.refraction.re + wavelength * material.dispersion) :
    calcFresnel lm material cosI wavelength ≤ 1 := by
  have habs : 0 ≤ |cosI| := abs_nonneg cosI
  unfold calcFresnel
  simp only [Cplx.addReal]
  generalize material.refraction.re + wavelength * material.dispersion = n at hpos
  generalize material.refraction.im = k
  generalize lm.sqrt (max 0 (1 - cosI * cosI)) = s
  generalize |cosI| = c at habs
  have half : ∀ p q : K, p ≤ 1 → q ≤ 1 → (p + q) / 2 ≤ 1 := by
    intro p q hp hq
    linarith
  by_cases hcos : cosI > 0
  · simp only [hcos, if_true]
    split_ifs
    · obtain ⟨hw, hx⟩ :=
        hc ((⟨1, 0⟩ : Cplx K).sub ((((⟨n, k⟩ : Cplx K).div ⟨1, 0⟩).scale s).mul
          (((⟨n, k⟩ : Cplx K).div ⟨1, 0⟩).scale s)))
      generalize lm.csqrt ((⟨1, 0⟩ : Cplx K).sub ((((⟨n, k⟩ : Cplx K).div ⟨1, 0⟩).scale s).mul
          (((⟨n, k⟩ : Cplx K).div ⟨1, 0⟩).scale s))) = w at hw hx
      obtain ⟨x, y⟩ := w
      simp only [Cplx.mul, Cplx.sub, Cplx.div, Cplx.scale, Cplx.mk.injEq] at hw hx
      obtain ⟨hw1, hw2⟩ := hw
      have hre : x * x - y * y = 1 - (n * n - k * k) * (s * s) := by
        rw [hw1]; ring
      have hxy : x * y = -(n * k * (s * s)) := by
        have : x * y + y * x = 0 - ((n * 1 + k * 0) / (1 * 1 + 0 * 0) * s *
            ((k * 1 - n * 0) / (1 * 1 + 0 * 0) * s) +
            (k * 1 - n * 0) / (1 * 1 + 0 * 0) * s * ((n * 1 + k * 0) / (1 * 1 + 0 * 0) * s)) := hw2
        have e : 0 - ((n * 1 + k * 0) / (1 * 1 + 0 * 0) * s *
            ((k * 1 - n * 0) / (1 * 1 + 0 * 0) * s) +
            (k * 1 - n * 0) / (1 * 1 + 0 * 0) * s * ((n * 1 + k * 0) / (1 * 1 + 0 * 0) * s)) =
            -(2 * (n * k * (s * s))) := by
          simp only [mul_one, mul_zero, add_zero, sub_zero, div_one]
          ring
        rw [e] at this
        linarith
      have him : (x * y) * (x * y) = (n * k * (s * s)) * (n * k * (s * s)) := by
        rw [hxy]; ring
      have hdom := abs_le.mp
        (principal_root_dominates n k x y (s * s) hpos hx (mul_self_nonneg s) hre him)
      apply half
      · apply Cplx.norm_quotient_le_one
        simp only [Cplx.scale, Cplx.mul]
        exact le_of_le_of_eq (mul_nonneg habs (by linarith [hdom.2] : 0 ≤ n * x - k * y))
          (by ring)
      · apply Cplx.norm_quotient_le_one
        simp only [Cplx.scale, Cplx.mul]
        exact le_of_le_of_eq (mul_nonneg habs (by linarith [hdom.1] : 0 ≤ n * x + k * y))
          (by ring)
    · exact le_refl 1
  · simp only [hcos, if_false]
    split_ifs
    · have hD : n * n + k * k ≠ 0 := by
        have : 0 < n * n + k * k := add_pos_of_pos_of_nonneg (mul_pos hpos hpos) (mul_self_nonneg k)
        exact ne_of_gt this
      obtain ⟨hw, hx⟩ :=
        hc ((⟨1, 0⟩ : Cplx K).sub ((((⟨1, 0⟩ : Cplx K).div ⟨n, k⟩).scale s).mul
          (((⟨1, 0⟩ : Cplx K).div ⟨n, k⟩).scale s)))
      generalize lm.csqrt ((⟨1, 0⟩ : Cplx K).sub ((((⟨1, 0⟩ : Cplx K).div ⟨n, k⟩).scale s).mul
          (((⟨1, 0⟩ : Cplx K).div ⟨n, k⟩).scale s))) = w at hw hx
      obtain ⟨x, y⟩ := w
      simp only [Cplx.mul, Cplx.sub, Cplx.div, Cplx.scale, Cplx.mk.injEq] at hw hx
      obtain ⟨hw1, hw2⟩ := hw
      have hre : x * x - y * y =
          1 - (n * n - k * k) * ((s / (n * n + k * k)) * (s / (n * n + k * k))) := by
        rw [hw1]; field_simp; ring
      have hxy : x * y = n * k * ((s / (n * n + k * k)) * (s / (n * n + k * k))) := by
        have e : x * y + y * x = 2 * (n * k * ((s / (n * n + k * k)) * (s / (n * n + k * k)))) := by
          rw [hw2]; field_simp; ring
        linarith
      have him : (x * y) * (x * y) =
          (n * k * ((s / (n * n + k * k)) * (s / (n * n + k * k)))) *
            (n * k * ((s / (n * n + k * k)) * (s / (n * n + k * k)))) := by
        rw [hxy]
      have hdom := abs_le.mp
        (principal_root_dominates n k x y _ hpos hx (mul_self_nonneg (s / (n * n + k * k))) hre him)
      apply half
      · apply Cplx.norm_quotient_le_one
        simp only [Cplx.scale, Cplx.mul]
        exact le_of_le_of_eq (mul_nonneg habs (by linarith [hdom.1] : 0 ≤ n * x + k * y))
          (by ring)
      · apply Cplx.norm_quotient_le_one
        simp only [Cplx.scale, Cplx.mul]
        exact le_of_le_of_eq (mul_nonneg habs (by linarith [hdom.2] : 0 ≤ n * x - k * y))
          (by ring)
    · exact le_refl 1

/-- C11 (amended). For every material and wavelength whose effective
refraction index `refraction + wavelength * dispersion` has positive real
part, and every `cosI`, the Fresnel coefficient returned by `calcFresnel`
lies in `[0, 1]`, given the principal complex square root. -/
theorem calcFresnel_mem_unit_interval (lm : Libm K) (hc : CsqrtPrincipal lm)
    (material : Material K) (cosI wavelength : K)
    (hpos : 0 < material.refraction.re + wavelength * material.dispersion) :
    0 ≤ calcFresnel lm material cosI wavelength ∧ calcFresnel lm material cosI wavelength ≤ 1 :=
  ⟨calcFresnel_nonneg lm material cosI wavelength,
    calcFresnel_le_one lm hc material cosI wavelength hpos⟩

/-! ## The frame driver -/

/-- C20 (amended). The rendering function is chosen from the frame count, the
sub-frame count and the time attribute: an animation is rendered exactly when
`frames > 1` and no time was given (`time = INFINITE`), otherwise a single
image; motion blur is used exactly when `subFrames > 1`. -/
theorem chooseRenderMode_cases (scene : Scene K) :
    (chooseRenderMode scene = RenderMode.renderImage ↔
      ¬(scene.m_frames > 1 ∧ scene.m_time = INFINITE) ∧ ¬scene.m_subFrames > 1) ∧
    (chooseRenderMode scene = RenderMode.renderImageMotionBlur ↔
      ¬(scene.m_frames > 1 ∧ scene.m_time = INFINITE) ∧ scene.m_subFrames > 1) ∧
    (chooseRenderMode scene = RenderMode.renderVideo ↔
      (scene.m_frames > 1 ∧ scene.m_time = INFINITE) ∧ ¬scene.m_subFrames > 1) ∧
    (chooseRenderMode scene = RenderMode.renderVideoMotionBlur ↔
      (scene.m_frames > 1 ∧ scene.m_time = INFINITE) ∧ scene.m_subFrames > 1) := by
  unfold chooseRenderMode
  by_cases h1 : scene.m_frames > 1 ∧ scene.m_time = INFINITE <;>
    by_cases h2 : scene.m_subFrames > 1 <;> simp [h1, h2]

/-! ## Pictures -/

theorem Color.zero_add_scale_zero (f : K) :
    (Color.zero : Color K).add ((Color.zero : Color K).scale f) = Color.zero := by
  simp [Color.add, Color.scale, Color.zero]

theorem mulAddData_length (as bs : List (Color K)) (f : K) :
    (mulAddData as bs f).length = as.length := by
  induction as generalizing bs with
  | nil => simp [mulAddData]
  | cons a as ih =>
    cases bs with
    | nil => simp [mulAddData]
    | cons b bs => simp [mulAddData, ih]

theorem mulAddData_getD (as bs : List (Color K)) (f : K) (h : as.length = bs.length) (i : Nat) :
    (mulAddData as bs f).getD i Color.zero =
      (as.getD i Color.zero).add ((bs.getD i Color.zero).scale f) := by
  induction as generalizing bs i with
  | nil =>
    cases bs with
    | nil => simp [mulAddData, Color.zero_add_scale_zero]
    | cons b bs => simp at h
  | cons a as ih =>
    cases bs with
    | nil => simp at h
    | cons b bs =>
      cases i with
      | zero => simp [mulAddData]
      | succ i =>
        simp only [mulAddData, List.getD_cons_succ]
        exact ih bs (by simpa using h) i

theorem compositeLoop_spec (f : K) (subs : List (Picture K)) (acc : Picture K)
    (hsubs : ∀ sub ∈ subs, sub.m_data.length = acc.m_data.length) (i : Nat) :
    (subs.foldl (fun picture subPicture => picture.mulAdd subPicture f) acc).m_size = acc.m_size ∧
    let c := (subs.foldl (fun picture subPicture => picture.mulAdd subPicture f) acc).m_data.getD i
      Color.zero
    let a := acc.m_data.getD i Color.zero
    c.r = a.r + (subs.map (fun sub => (sub.m_data.getD i Color.zero).r)).sum * f ∧
    c.g = a.g + (subs.map (fun sub => (sub.m_data.getD i Color.zero).g)).sum * f ∧
    c.b = a.b + (subs.map (fun sub => (sub.m_data.getD i Color.zero).b)).sum * f ∧
    c.a = a.a + (subs.map (fun sub => (sub.m_data.getD i Color.zero).a)).sum * f := by
  induction subs generalizing acc with
  | nil => simp
  | cons s rest ih =>
    have hlen : (acc.mulAdd s f).m_data.length = acc.m_data.length := by
      simp [Picture.mulAdd, mulAddData_length]
    have hs := hsubs s (List.mem_cons_self _ _)
    obtain ⟨h0, h1, h2, h3, h4⟩ := ih (acc.mulAdd s f)
      (fun sub hsub => by rw [hlen]; exact hsubs sub (List.mem_cons_of_mem _ hsub))
    have hget : (acc.mulAdd s f).m_data.getD i Color.zero =
        (acc.m_data.getD i Color.zero).add ((s.m_data.getD i Color.zero).scale f) := by
      simp only [Picture.mulAdd]
      exact mulAddData_getD _ _ f hs.symm i
    simp only [List.foldl_cons, List.map_cons, List.sum_cons]
    refine ⟨by rw [h0]; rfl, ?_, ?_, ?_, ?_⟩
    · rw [h1, hget]; simp only [Color.add, Color.scale]; ring
    · rw [h2, hget]; simp only [Color.add, Color.scale]; ring
    · rw [h3, hget]; simp only [Color.add, Color.scale]; ring
    · rw [h4, hget]; simp only [Color.add, Color.scale]; ring

theorem Picture.new_getD (size : UPoint2) (i : Nat) :
    (Picture.new size : Picture K).m_data.getD i Color.zero = Color.zero := by
  simp only [Picture.new, List.getD_eq_getElem?_getD, List.getElem?_replicate]
  split_ifs <;> rfl

/-- C19. Starting from a new picture of the given size and applying
`mulAdd(sub, 1 / S)` for the `S >= 1` sub-pictures of that size, every pixel of
the result is the arithmetic mean of the corresponding sub-picture pixels, in
each of the four channels; the size of the picture stays. -/
theorem compositeSubPictures_mean (size : UPoint2) (subPictures : List (Picture K))
    (_hS : 1 ≤ subPictures.length)
    (hsize : ∀ sub ∈ subPictures, sub.m_size = size ∧ sub.WellFormed) (pos : UPoint2) :
    (compositeSubPictures size subPictures.length subPictures).size = size ∧
    ((compositeSubPictures size subPictures.length subPictures).get pos).r =
      (subPictures.map (fun sub => (sub.get pos).r)).sum / (subPictures.length : K) ∧
    ((compositeSubPictures size subPictures.length subPictures).get pos).g =
      (subPictures.map (fun sub => (sub.get pos).g)).sum / (subPictures.length : K) ∧
    ((compositeSubPictures size subPictures.length subPictures).get pos).b =
      (subPictures.map (fun sub => (sub.get pos).b)).sum / (subPictures.length : K) ∧
    ((compositeSubPictures size subPictures.length subPictures).get pos).a =
      (subPictures.map (fun sub => (sub.get pos).a)).sum / (subPictures.length : K) := by
  have hlen : ∀ sub ∈ subPictures,
      sub.m_data.length = (Picture.new size : Picture K).m_data.length := by
    intro sub hsub
    obtain ⟨h1, h2⟩ := hsize sub hsub
    rw [h2, h1]; simp [Picture.new]
  obtain ⟨h0, h1, h2, h3, h4⟩ := compositeLoop_spec (1 / (subPictures.length : K)) subPictures
    (Picture.new size) hlen (pos.y * size.x + pos.x)
  have hmap : ∀ (proj : Color K → K),
      subPictures.map (fun sub => proj (sub.get pos)) =
      subPictures.map (fun sub => proj (sub.m_data.getD (pos.y * size.x + pos.x) Color.zero)) := by
    intro proj
    apply List.map_congr_left
    intro sub hsub
    simp only [Picture.get, Picture.datapos, (hsize sub hsub).1]
  have hpos : (compositeSubPictures size subPictures.length subPictures).get pos =
      (subPictures.foldl (fun picture subPicture =>
        picture.mulAdd subPicture (1 / (subPictures.length : K))) (Picture.new size)).m_data.getD
        (pos.y * size.x + pos.x) Color.zero := by
    simp only [Picture.get, Picture.datapos, compositeSubPictures, h0]
    rfl
  refine ⟨h0, ?_, ?_, ?_, ?_⟩
  · rw [hpos, h1, Picture.new_getD, hmap (fun c => c.r)]; simp [Color.zero, div_eq_mul_inv]
  · rw [hpos, h2, Picture.new_getD, hmap (fun c => c.g)]; simp [Color.zero, div_eq_mul_inv]
  · rw [hpos, h3, Picture.new_getD, hmap (fun c => c.b)]; simp [Color.zero, div_eq_mul_inv]
  · rw [hpos, h4, Picture.new_getD, hmap (fun c => c.a)]; simp [Color.zero, div_eq_mul_inv]

theorem u32Sub_one (w : Nat) (h1 : 1 ≤ w) (h2 : w < 4294967296) : u32Sub w 1 = w - 1 := by
  unfold u32Sub; omega

theorem clampU32_zero (v hi : Nat) : clampU32 v 0 hi = min v hi := by
  unfold clampU32
  simp only [Nat.not_lt_zero, if_false]
  split_ifs <;> omega

theorem Picture.get_set_same (p : Picture K) (pos : UPoint2) (c : Color K)
    (h : p.datapos pos < p.m_data.length) : (p.set pos c).get pos = c := by
  simp [Picture.get, Picture.set, Picture.datapos] at h ⊢
  simp [List.getD_eq_getElem?_getD, h]

theorem Picture.get_set_other (p : Picture K) (pos q : UPoint2) (c : Color K)
    (h : p.datapos pos ≠ p.datapos q) : (p.set pos c).get q = p.get q := by
  simp only [Picture.get, Picture.set, Picture.datapos] at h ⊢
  simp [List.getD_eq_getElem?_getD, List.getElem?_set_ne h]

theorem Picture.datapos_lt (p : Picture K) (pos : UPoint2) (hx : pos.x < p.m_size.x)
    (hy : pos.y < p.m_size.y) : p.datapos pos < p.m_size.x * p.m_size.y := by
  unfold Picture.datapos
  calc pos.y * p.m_size.x + pos.x < pos.y * p.m_size.x + p.m_size.x := by omega
    _ = (pos.y + 1) * p.m_size.x := by ring
    _ ≤ p.m_size.y * p.m_size.x := Nat.mul_le_mul_right _ hy
    _ = p.m_size.x * p.m_size.y := by ring

theorem Picture.datapos_inj (p : Picture K) (pos q : UPoint2) (hx : pos.x < p.m_size.x)
    (hq : q.x < p.m_size.x) (h : p.datapos pos = p.datapos q) : pos = q := by
  unfold Picture.datapos at h
  have h1 : (pos.y * p.m_size.x + pos.x) % p.m_size.x = pos.x := by
    rw [Nat.add_comm, Nat.add_mul_mod_self_right]; exact Nat.mod_eq_of_lt hx
  have h2 : (q.y * p.m_size.x + q.x) % p.m_size.x = q.x := by
    rw [Nat.add_comm, Nat.add_mul_mod_self_right]; exact Nat.mod_eq_of_lt hq
  have hxx : pos.x = q.x := by rw [← h1, ← h2, h]
  have hpos : 0 < p.m_size.x := by omega
  have hyy : pos.y = q.y := by
    have : pos.y * p.m_size.x = q.y * p.m_size.x := by omega
    exact Nat.eq_of_mul_eq_mul_right hpos this
  cases pos; cases q; simp_all

section FloorScalars

variable [FloorRing K]

/-! ## The photon texture -/

theorem Object.addPhoton_size (o : Object K) (textureSize : Nat) (pos : Vector2 K)
    (rad : Color K) :
    (o.addPhoton textureSize pos rad).m_photonMap.m_size =
      if o.m_photonMap.empty = true then ⟨textureSize, textureSize⟩ else o.m_photonMap.m_size := by
  unfold Object.addPhoton
  split_ifs <;> simp [Picture.set, Picture.new]

theorem addPhotons_size (textureSize : Nat) (o : Object K) (calls : List (Vector2 K × Color K))
    (h : o.m_photonMap.empty = true ∨ o.m_photonMap.m_size = ⟨textureSize, textureSize⟩) :
    (calls ≠ [] → (addPhotons textureSize o calls).m_photonMap.m_size = ⟨textureSize, textureSize⟩) ∧
    ((addPhotons textureSize o calls).m_photonMap.empty = true ∨
      (addPhotons textureSize o calls).m_photonMap.m_size = ⟨textureSize, textureSize⟩) := by
  induction calls generalizing o with
  | nil => exact ⟨fun h0 => absurd rfl h0, h⟩
  | cons call rest ih =>
    have hstep : (o.addPhoton textureSize call.1 call.2).m_photonMap.m_size =
        ⟨textureSize, textureSize⟩ := by
      rw [Object.addPhoton_size]
      split_ifs with he
      · rfl
      · rcases h with h | h
        · exact absurd h he
        · exact h
    obtain ⟨h1, h2⟩ := ih (o.addPhoton textureSize call.1 call.2) (Or.inr hstep)
    refine ⟨fun _ => ?_, h2⟩
    cases rest with
    | nil => exact hstep
    | cons c r => exact h1 (by simp)

/-- C16. Along every sequence of `addPhoton` calls with the same texture size,
made on a new object (whose photon picture is default-constructed) the photon
picture is empty before the first call and has size textureSize x textureSize
after every call; the same holds from any object whose picture is empty or of
that size.  `getPhoton` on an object with an empty photon picture returns the
zero radiance. -/
theorem addPhotons_size_invariant (textureSize : Nat) (material : Material K)
    (primitive : Primitive K) (calls : List (Vector2 K × Color K)) :
    (Object.mk material Picture.default primitive).m_photonMap.empty = true ∧
    (calls ≠ [] →
      (addPhotons textureSize (Object.mk material Picture.default primitive) calls).m_photonMap.size
        = ⟨textureSize, textureSize⟩) ∧
    (∀ o : Object K,
      o.m_photonMap.empty = true ∨ o.m_photonMap.size = ⟨textureSize, textureSize⟩ →
      (addPhotons textureSize o calls).m_photonMap.empty = true ∨
        (addPhotons textureSize o calls).m_photonMap.size = ⟨textureSize, textureSize⟩) ∧
    (∀ (o : Object K) (pos : Vector2 K), o.m_photonMap.empty = true →
      o.getPhoton pos = Color.zero) := by
  refine ⟨by simp [Picture.default, Picture.empty], ?_, ?_, ?_⟩
  · exact (addPhotons_size textureSize _ calls
      (Or.inl (by simp [Picture.default, Picture.empty]))).1
  · intro o ho
    exact (addPhotons_size textureSize o calls ho).2
  · intro o pos he
    simp [Object.getPhoton, he]

theorem clampedFloor_eq (x : K) (hi : Nat) : min (castU32 x) hi = clampedFloor x hi := by
  unfold castU32 clampedFloor
  rw [← Int.floor_toNat]
  omega

theorem photonTexel_eq_struckTexel (size : UPoint2) (pos : Vector2 K)
    (hx1 : 1 ≤ size.x) (hx2 : size.x < 4294967296) (hy1 : 1 ≤ size.y)
    (hy2 : size.y < 4294967296) : photonTexel size pos = struckTexel size pos := by
  unfold photonTexel struckTexel
  rw [u32Sub_one _ hx1 hx2, u32Sub_one _ hy1 hy2, clampU32_zero, clampU32_zero,
    clampedFloor_eq, clampedFloor_eq]

theorem clampedFloor_le (x : K) (hi : Nat) : clampedFloor x hi ≤ hi := by
  unfold clampedFloor; omega

/-- C15. `Object::addPhoton` with `textureSize >= 1` changes exactly one pixel
of the photon texture (the object's photon picture, allocated with zero pixels
of size textureSize x textureSize if the object was never struck): the pixel
`(clamp(floor(u*(w-1)), 0, w-1), clamp(floor(v*(h-1)), 0, h-1))` becomes its
previous value plus `rad`, every other pixel keeps its value, the size stays,
and `getPhoton` at the same UV returns the new sum.  The UV is taken where the
conversions of `u*(w-1)` and `v*(h-1)` to `u32` are defined. -/
theorem Object.addPhoton_single_pixel (o : Object K) (textureSize : Nat) (pos : Vector2 K)
    (rad : Color K) (hts : 1 ≤ textureSize) (hu32 : textureSize < 4294967296)
    (hmap : o.m_photonMap.WellFormed ∧ o.m_photonMap.m_size.x < 4294967296 ∧
      o.m_photonMap.m_size.y < 4294967296)
    (_hu : -1 < pos.x * (((o.photonTexture textureSize).size.x - 1 : Nat) : K) ∧
      pos.x * (((o.photonTexture textureSize).size.x - 1 : Nat) : K) < 4294967296)
    (_hv : -1 < pos.y * (((o.photonTexture textureSize).size.y - 1 : Nat) : K) ∧
      pos.y * (((o.photonTexture textureSize).size.y - 1 : Nat) : K) < 4294967296) :
    (o.addPhoton textureSize pos rad).m_photonMap.size = (o.photonTexture textureSize).size ∧
    (struckTexel (o.photonTexture textureSize).size pos).x < (o.photonTexture textureSize).size.x ∧
    (struckTexel (o.photonTexture textureSize).size pos).y < (o.photonTexture textureSize).size.y ∧
    (o.addPhoton textureSize pos rad).m_photonMap.get
        (struckTexel (o.photonTexture textureSize).size pos) =
      ((o.photonTexture textureSize).get
        (struckTexel (o.photonTexture textureSize).size pos)).add rad ∧
    (∀ q : UPoint2, q.x < (o.photonTexture textureSize).size.x →
      q.y < (o.photonTexture textureSize).size.y →
      q ≠ struckTexel (o.photonTexture textureSize).size pos →
      (o.addPhoton textureSize pos rad).m_photonMap.get q = (o.photonTexture textureSize).get q) ∧
    (o.m_photonMap.empty = true →
      (o.photonTexture textureSize).get (struckTexel (o.photonTexture textureSize).size pos) =
        Color.zero) ∧
    (o.addPhoton textureSize pos rad).getPhoton pos =
      ((o.photonTexture textureSize).get
        (struckTexel (o.photonTexture textureSize).size pos)).add rad := by
  obtain ⟨hwf, hsx, hsy⟩ := hmap
  have hadd : (o.addPhoton textureSize pos rad).m_photonMap =
      (o.photonTexture textureSize).set (photonTexel (o.photonTexture textureSize).size pos)
        (((o.photonTexture textureSize).get
          (photonTexel (o.photonTexture textureSize).size pos)).add rad) := rfl
  have hB : (o.photonTexture textureSize).WellFormed ∧
      1 ≤ (o.photonTexture textureSize).m_size.x ∧
      (o.photonTexture textureSize).m_size.x < 4294967296 ∧
      1 ≤ (o.photonTexture textureSize).m_size.y ∧
      (o.photonTexture textureSize).m_size.y < 4294967296 := by
    unfold Object.photonTexture
    split_ifs with he
    · simp [Picture.WellFormed, Picture.new, hts, hu32]
    · simp only [Picture.empty, Bool.or_eq_true, decide_eq_true_eq, not_or] at he
      exact ⟨hwf, by omega, hsx, by omega, hsy⟩
  have hzero : o.m_photonMap.empty = true → ∀ q, (o.photonTexture textureSize).get q =
      Color.zero := by
    intro he q
    simp only [Object.photonTexture, he, if_true, Picture.get]
    exact Picture.new_getD _ _
  generalize o.photonTexture textureSize = B at hadd hB hzero ⊢
  obtain ⟨hBwf, hx1, hx2, hy1, hy2⟩ := hB
  have htexel : photonTexel B.size pos = struckTexel B.size pos :=
    photonTexel_eq_struckTexel B.size pos hx1 hx2 hy1 hy2
  rw [htexel] at hadd
  have htx : (struckTexel B.size pos).x < B.m_size.x := by
    have := clampedFloor_le (pos.x * ((B.size.x - 1 : Nat) : K)) (B.size.x - 1)
    simp only [struckTexel, Picture.size] at this ⊢
    omega
  have hty : (struckTexel B.size pos).y < B.m_size.y := by
    have := clampedFloor_le (pos.y * ((B.size.y - 1 : Nat) : K)) (B.size.y - 1)
    simp only [struckTexel, Picture.size] at this ⊢
    omega
  have hin : B.datapos (struckTexel B.size pos) < B.m_data.length := by
    rw [hBwf]; exact Picture.datapos_lt B _ htx hty
  have hsame : (o.addPhoton textureSize pos rad).m_photonMap.get (struckTexel B.size pos) =
      (B.get (struckTexel B.size pos)).add rad := by
    rw [hadd]; exact Picture.get_set_same B _ _ hin
  have hsize : (o.addPhoton textureSize pos rad).m_photonMap.size = B.size := by
    rw [hadd]; rfl
  refine ⟨hsize, htx, hty, hsame, ?_, ?_, ?_⟩
  · intro q hqx hqy hne
    rw [hadd]
    apply Picture.get_set_other
    intro heq
    exact hne (Picture.datapos_inj B _ _ htx hqx heq).symm
  · intro he
    exact hzero he _
  · unfold Object.getPhoton
    have hne : (o.addPhoton textureSize pos rad).m_photonMap.empty = false := by
      have h1 : (o.addPhoton textureSize pos rad).m_photonMap.m_size = B.m_size := hsize
      simp only [Picture.empty, h1]
      simp only [Bool.or_eq_false_iff, decide_eq_false_iff_not]
      omega
    rw [hne]
    simp only [Bool.false_eq_true, if_false]
    rw [hsize, htexel]
    exact hsame

end FloorScalars

/-- At head-on incidence from outside (`cosI = -1`) a material with real
refraction index `eta` other than -1 and `wavelength * dispersion = 0` has the
Fresnel coefficient `((eta - 1)/(eta + 1))^2`. -/
theorem calcFresnel_head_on (lm : Libm K) (hs0 : lm.sqrt 0 = 0)
    (hc1 : lm.csqrt ⟨1, 0⟩ = ⟨1, 0⟩) (material : Material K) (eta : K)
    (href : material.refraction = ⟨eta, 0⟩) (hne : eta ≠ -1) (wavelength : K)
    (hdisp : wavelength * material.dispersion = 0) :
    calcFresnel lm material (-1) wavelength = ((eta - 1) / (eta + 1)) ^ 2 := by
  have hne1 : eta + 1 ≠ 0 := fun h => hne (by linear_combination h)
  have hne2 : 1 + eta ≠ 0 := by rwa [add_comm]
  have hsq : lm.sqrt (max 0 (1 - (-1 : K) * (-1))) = 0 := by
    have : 1 - (-1 : K) * (-1) = 0 := by ring
    rw [this, max_self, hs0]
  have habs : |(-1 : K)| = 1 := by simp
  have hcost : ∀ z : Cplx K, lm.csqrt ((⟨1, 0⟩ : Cplx K).sub ((z.scale 0).mul (z.scale 0))) =
      ⟨1, 0⟩ := by
    intro z
    have : (⟨1, 0⟩ : Cplx K).sub ((z.scale 0).mul (z.scale 0)) = ⟨1, 0⟩ := by
      simp [Cplx.sub, Cplx.mul, Cplx.scale]
    rw [this, hc1]
  have hnorm : ∀ z : Cplx K, (z.scale 0).norm < 1 := by
    intro z
    simp [Cplx.scale, Cplx.norm]
  have hdiv : ∀ x y : K, y ≠ 0 → ((⟨x, 0⟩ : Cplx K).div ⟨y, 0⟩).norm = (x / y) ^ 2 := by
    intro x y hy
    simp only [Cplx.div, Cplx.norm, mul_zero, add_zero, zero_mul, sub_zero, zero_div]
    field_simp
    ring
  have e1 : ((⟨eta, 0⟩ : Cplx K).scale 1).sub ((⟨1, 0⟩ : Cplx K).mul ⟨1, 0⟩) = ⟨eta - 1, 0⟩ := by
    simp [Cplx.scale, Cplx.mul, Cplx.sub]
  have e2 : ((⟨eta, 0⟩ : Cplx K).scale 1).add ((⟨1, 0⟩ : Cplx K).mul ⟨1, 0⟩) = ⟨eta + 1, 0⟩ := by
    simp [Cplx.scale, Cplx.mul, Cplx.add]
  have e3 : ((⟨1, 0⟩ : Cplx K).scale 1).sub ((⟨eta, 0⟩ : Cplx K).mul ⟨1, 0⟩) = ⟨1 - eta, 0⟩ := by
    simp [Cplx.scale, Cplx.mul, Cplx.sub]
  have e4 : ((⟨1, 0⟩ : Cplx K).scale 1).add ((⟨eta, 0⟩ : Cplx K).mul ⟨1, 0⟩) = ⟨1 + eta, 0⟩ := by
    simp [Cplx.scale, Cplx.mul, Cplx.add]
  have hneg : ¬ (-1 : K) > 0 := by norm_num
  unfold calcFresnel
  simp only [hsq, habs, hcost, hnorm, if_true, href, hdisp, Cplx.addReal, add_zero, hneg,
    if_false, e1, e2, e3, e4, hdiv _ _ hne1, hdiv _ _ hne2]
  field_simp
  ring

/-! ## The photon mapper -/

theorem PI_pos : (0 : K) < PI := by
  unfold PI; positivity

theorem scanAngles_count (limit step : K) (m : Nat) :
    ∀ (fuel : Nat) (x : K), (∀ k : Nat, k < m → x + (k : K) * step < limit) →
      ¬ (x + (m : K) * step < limit) → m < fuel →
      ∃ l, scanAngles fuel limit step x = some l ∧ l.length = m := by
  induction m with
  | zero =>
    intro fuel x _ hlast hfuel
    obtain ⟨f, rfl⟩ : ∃ f, fuel = f + 1 := ⟨fuel - 1, by omega⟩
    have hx : ¬ x < limit := by simpa using hlast
    exact ⟨[], by simp [scanAngles, hx], rfl⟩
  | succ m ih =>
    intro fuel x hin hlast hfuel
    obtain ⟨f, rfl⟩ : ∃ f, fuel = f + 1 := ⟨fuel - 1, by omega⟩
    have hx : x < limit := by simpa using hin 0 (Nat.succ_pos m)
    obtain ⟨l, hl, hlen⟩ := ih f (x + step)
      (fun k hk => by
        have := hin (k + 1) (Nat.succ_lt_succ hk)
        push_cast at this
        linarith)
      (fun h => hlast (by push_cast; linarith))
      (by omega)
    exact ⟨x :: l, by simp [scanAngles, hx, hl], by simp [hlen]⟩

theorem scanAngles_full_turn (N : Nat) (hN : 1 ≤ N) (fuel : Nat) (hfuel : N < fuel) :
    ∃ l, scanAngles fuel (2 * PI) (2 * PI / (N : K)) 0 = some l ∧ l.length = N := by
  have hNpos : (0 : K) < (N : K) := by exact_mod_cast hN
  have hpi : (0 : K) < 2 * PI := by linarith [PI_pos (K := K)]
  have key : ∀ k : Nat, (0 + (k : K) * (2 * PI / (N : K)) < 2 * PI) ↔ k < N := by
    intro k
    have e : 0 + (k : K) * (2 * PI / (N : K)) = ((k : K) / (N : K)) * (2 * PI) := by
      field_simp
    rw [e]
    constructor
    · intro h
      have h1 : (k : K) / (N : K) < 1 := by
        by_contra hc
        have hc2 : 1 ≤ (k : K) / (N : K) := not_lt.mp hc
        have := mul_le_mul_of_nonneg_right hc2 (le_of_lt hpi)
        linarith
      rw [div_lt_one hNpos] at h1
      exact_mod_cast h1
    · intro h
      have h1 : (k : K) / (N : K) < 1 := by
        rw [div_lt_one hNpos]; exact_mod_cast h
      have := mul_lt_mul_of_pos_right h1 hpi
      linarith
  exact scanAngles_count (2 * PI) (2 * PI / (N : K)) N fuel 0
    (fun k hk => (key k).mpr hk) (fun h => absurd ((key N).mp h) (lt_irrefl N)) hfuel

theorem scanAngles_half_turn (N : Nat) (hN : 1 ≤ N) (fuel : Nat) (hfuel : N < fuel) :
    ∃ l, scanAngles fuel PI (2 * PI / (N : K)) 0 = some l ∧ l.length = (N + 1) / 2 := by
  have hNpos : (0 : K) < (N : K) := by exact_mod_cast hN
  have hpi : (0 : K) < PI := PI_pos
  have key : ∀ k : Nat, (0 + (k : K) * (2 * PI / (N : K)) < PI) ↔ 2 * k < N := by
    intro k
    have e : 0 + (k : K) * (2 * PI / (N : K)) = ((2 * k : Nat) : K) / (N : K) * PI := by
      push_cast
      field_simp
      ring
    rw [e]
    constructor
    · intro h
      have h1 : ((2 * k : Nat) : K) / (N : K) < 1 := by
        by_contra hc
        have hc2 : 1 ≤ ((2 * k : Nat) : K) / (N : K) := not_lt.mp hc
        have := mul_le_mul_of_nonneg_right hc2 (le_of_lt hpi)
        linarith
      rw [div_lt_one hNpos] at h1
      exact_mod_cast h1
    · intro h
      have h1 : ((2 * k : Nat) : K) / (N : K) < 1 := by
        rw [div_lt_one hNpos]; exact_mod_cast h
      have := mul_lt_mul_of_pos_right h1 hpi
      linarith
  exact scanAngles_count PI (2 * PI / (N : K)) ((N + 1) / 2) fuel 0
    (fun k hk => (key k).mpr (by omega)) (fun h => by have := (key _).mp h; omega) (by omega)

theorem length_flatMap_const {α β : Type} (l : List α) (f : α → List β) (n : Nat)
    (h : ∀ a, (f a).length = n) : (l.flatMap f).length = l.length * n := by
  induction l with
  | nil => simp
  | cons a l ih =>
    simp only [List.flatMap_cons, List.length_append, List.length_cons, h a, ih]
    ring

/-- For every point light and every integer scan-step count
`N >= 1` the two scan loops of `PhotonMapper::generate` construct exactly
`N * ceil(N / 2)` primary rays from that light: `N` values of phi in
`[0, 2*pi)` times `ceil(N / 2)` values of theta in `[0, pi)`, both in steps of
`2*pi/N`. -/
theorem PhotonMapper.primaryRays_length (lm : Libm K) (scene : Scene K) (light : Light K)
    (N : Nat) (hN : 1 ≤ N) (hsteps : scene.m_photonMapScanSteps = (N : K)) (fuel : Nat)
    (hfuel : N < fuel) :
    ∃ phis thetas rays,
      scanAngles fuel (2 * PI) (2 * PI / scene.m_photonMapScanSteps) 0 = some phis ∧
      scanAngles fuel PI (2 * PI / scene.m_photonMapScanSteps) 0 = some thetas ∧
      phis.length = N ∧ thetas.length = (N + 1) / 2 ∧
      PhotonMapper.primaryRays lm scene fuel light = some rays ∧
      rays.length = N * ((N + 1) / 2) := by
  obtain ⟨phis, hphi, hpl⟩ := scanAngles_full_turn (K := K) N hN fuel hfuel
  obtain ⟨thetas, hth, htl⟩ := scanAngles_half_turn (K := K) N hN fuel hfuel
  have hrays : PhotonMapper.primaryRays lm scene fuel light =
      some (phis.flatMap (fun phi => thetas.map (fun theta =>
        Ray.new lm light.m_position
          ⟨lm.sin theta * lm.cos phi, lm.sin theta * lm.sin phi, lm.cos theta⟩))) := by
    unfold PhotonMapper.primaryRays
    simp only [hsteps, hphi, hth]
  refine ⟨phis, thetas, _, by rw [hsteps]; exact hphi, by rw [hsteps]; exact hth, hpl, htl,
    hrays, ?_⟩
  rw [length_flatMap_const _ _ thetas.length (fun a => by simp), hpl, htl]

theorem scanAngles_terminates (limit step : K) (n : Nat) :
    ∀ (fuel : Nat) (x : K), limit - x ≤ (n : K) * step → n < fuel →
      ∃ l, scanAngles fuel limit step x = some l := by
  induction n with
  | zero =>
    intro fuel x hx hfuel
    obtain ⟨f, rfl⟩ : ∃ f, fuel = f + 1 := ⟨fuel - 1, by omega⟩
    have hx2 : ¬ x < limit := by
      simp only [Nat.cast_zero, zero_mul] at hx
      linarith
    exact ⟨[], by simp [scanAngles, hx2]⟩
  | succ n ih =>
    intro fuel x hx hfuel
    obtain ⟨f, rfl⟩ : ∃ f, fuel = f + 1 := ⟨fuel - 1, by omega⟩
    by_cases hlt : x < limit
    · obtain ⟨l, hl⟩ := ih f (x + step) (by push_cast at hx; linarith) (by omega)
      exact ⟨x :: l, by simp [scanAngles, hlt, hl]⟩
    · exact ⟨[], by simp [scanAngles, hlt]⟩

section FloorScalars

variable [FloorRing K]

theorem scanAngles_terminates_from_zero (limit step : K) (hstep : 0 < step) :
    ∃ fuel0, ∀ fuel, fuel0 ≤ fuel → ∃ l, scanAngles fuel limit step 0 = some l := by
  obtain ⟨n, hn⟩ := exists_nat_ge (limit / step)
  refine ⟨n + 1, fun fuel hfuel => ?_⟩
  apply scanAngles_terminates limit step n fuel 0 _ (by omega)
  rw [div_le_iff₀ hstep] at hn
  linarith

theorem PhotonMapper.castRay_diffuse (lm : Libm K) (scene : Scene K) (fuel : Nat)
    (objects : List (Object K)) (hdiff : ∀ o ∈ objects, o.material.refraction.norm = 0)
    (ray : Ray K) (wavelength : K) (rad : Color K) :
    PhotonMapper.castRay lm scene (fuel + 1) objects ray 0 wavelength rad = some objects := by
  unfold PhotonMapper.castRay
  simp only [gt_iff_lt, Nat.not_lt_zero, if_false]
  cases hnear : nearestHit lm ray objects 0 INFINITE none with
  | none => rfl
  | some hit =>
    obtain ⟨index, nearestIntersection⟩ := hit
    simp only []
    cases hobj : objects[index]? with
    | none => rfl
    | some nearestObject =>
      have hmem : nearestObject ∈ objects := List.getElem?_mem hobj
      have h0 : nearestObject.material.refraction.norm ≤ 0 := le_of_eq (hdiff _ hmem)
      simp only [h0, if_true]

theorem HSVtoRGB_hue (h : K) (hh : h ∈ (dispersionHues : List K)) :
    ∃ tint, HSVtoRGB h 100 100 = some tint := by
  have hc : ¬ (h > 360 ∨ h < 0 ∨ (100 : K) > 100 ∨ (100 : K) < 0 ∨ (100 : K) > 100 ∨
      (100 : K) < 0) := by
    simp only [dispersionHues, List.mem_cons, List.mem_singleton, List.not_mem_nil, or_false] at hh
    rcases hh with h | h | h | h | h | h | h | h <;> rw [h] <;> norm_num
  unfold HSVtoRGB
  rw [if_neg hc]
  exact ⟨_, rfl⟩

theorem PhotonMapper.dispersionRays_diffuse (lm : Libm K) (scene : Scene K) (fuel : Nat)
    (objects : List (Object K)) (hdiff : ∀ o ∈ objects, o.material.refraction.norm = 0)
    (lightRay : Ray K) (hues : List K) (hhues : ∀ h ∈ hues, h ∈ (dispersionHues : List K)) :
    PhotonMapper.dispersionRays lm scene (fuel + 1) lightRay hues objects = some objects := by
  induction hues with
  | nil => rfl
  | cons h rest ih =>
    obtain ⟨tint, ht⟩ := HSVtoRGB_hue h (hhues h (List.mem_cons_self _ _))
    unfold PhotonMapper.dispersionRays
    simp only [ht, PhotonMapper.castRay_diffuse lm scene fuel objects hdiff]
    exact ih (fun h2 hh2 => hhues h2 (List.mem_cons_of_mem _ hh2))

theorem PhotonMapper.castPrimary_diffuse (lm : Libm K) (scene : Scene K) (fuel : Nat)
    (objects : List (Object K)) (hdiff : ∀ o ∈ objects, o.material.refraction.norm = 0)
    (lightRay : Ray K) :
    PhotonMapper.castPrimary lm scene (fuel + 1) objects lightRay = some objects := by
  unfold PhotonMapper.castPrimary
  split_ifs
  · exact PhotonMapper.dispersionRays_diffuse lm scene fuel objects hdiff lightRay _
      (fun h hh => hh)
  · exact PhotonMapper.castRay_diffuse lm scene fuel objects hdiff _ _ _

theorem PhotonMapper.castAll_diffuse (lm : Libm K) (scene : Scene K) (fuel : Nat)
    (objects : List (Object K)) (hdiff : ∀ o ∈ objects, o.material.refraction.norm = 0)
    (rays : List (Ray K)) :
    PhotonMapper.castAll lm scene (fuel + 1) rays objects = some objects := by
  induction rays with
  | nil => rfl
  | cons r rest ih =>
    unfold PhotonMapper.castAll
    simp only [PhotonMapper.castPrimary_diffuse lm scene fuel objects hdiff]
    exact ih

theorem PhotonMapper.generateLights_diffuse (lm : Libm K) (scene : Scene K) (fuel : Nat)
    (objects : List (Object K)) (hdiff : ∀ o ∈ objects, o.material.refraction.norm = 0)
    (lights : List (Light K)) :
    (∀ objects2, PhotonMapper.generateLights lm scene fuel lights objects = some objects2 →
      objects2 = objects) ∧
    ((∀ light ∈ lights, light.m_type ≠ LightType.Parallel →
        ∃ rays, PhotonMapper.primaryRays lm scene (fuel + 1) light = some rays) →
      PhotonMapper.generateLights lm scene (fuel + 1) lights objects = some objects) := by
  induction lights with
  | nil => exact ⟨fun o h => by simpa [PhotonMapper.generateLights] using h.symm, fun _ => rfl⟩
  | cons light rest ih =>
    constructor
    · intro objects2 h
      unfold PhotonMapper.generateLights at h
      split_ifs at h with hp
      · exact ih.1 objects2 h
      · cases hr : PhotonMapper.primaryRays lm scene fuel light with
        | none => simp [hr] at h
        | some rays =>
          simp only [hr] at h
          cases fuel with
          | zero =>
            simp only [PhotonMapper.primaryRays, scanAngles] at hr
            exact absurd hr (by simp)
          | succ f =>
            rw [PhotonMapper.castAll_diffuse lm scene f objects hdiff] at h
            exact ih.1 objects2 h
    · intro hrays
      unfold PhotonMapper.generateLights
      split_ifs with hp
      · exact ih.2 (fun l hl => hrays l (List.mem_cons_of_mem _ hl))
      · obtain ⟨rays, hr⟩ := hrays light (List.mem_cons_self _ _) hp
        simp only [hr, PhotonMapper.castAll_diffuse lm scene fuel objects hdiff]
        exact ih.2 (fun l hl => hrays l (List.mem_cons_of_mem _ hl))

theorem PhotonMapper.primaryRays_terminates (lm : Libm K) (scene : Scene K)
    (hsteps : 0 < scene.m_photonMapScanSteps) :
    ∃ fuel0, ∀ fuel, fuel0 ≤ fuel → ∀ light : Light K,
      ∃ rays, PhotonMapper.primaryRays lm scene fuel light = some rays := by
  have hstep : 0 < 2 * PI / scene.m_photonMapScanSteps :=
    div_pos (by linarith [PI_pos (K := K)]) hsteps
  obtain ⟨f1, h1⟩ := scanAngles_terminates_from_zero (2 * PI) _ hstep
  obtain ⟨f2, h2⟩ := scanAngles_terminates_from_zero PI _ hstep
  refine ⟨max f1 f2, fun fuel hfuel light => ?_⟩
  obtain ⟨phis, hphi⟩ := h1 fuel (le_trans (le_max_left _ _) hfuel)
  obtain ⟨thetas, hth⟩ := h2 fuel (le_trans (le_max_right _ _) hfuel)
  unfold PhotonMapper.primaryRays
  simp only [hphi, hth]
  exact ⟨_, rfl⟩

/-- C18. In a scene whose objects all have a refraction index of zero
magnitude, `PhotonMapper::generate` deposits no photon: whenever it returns,
the scene (with every object's photon picture) is unchanged, whatever the
lights and the scan-step count; and for a positive scan-step count it does
return (every sufficient fuel gives the unchanged scene). -/
theorem PhotonMapper.generate_diffuse_unchanged (lm : Libm K) (scene : Scene K)
    (hdiff : ∀ o ∈ scene.m_objects, o.material.refraction.norm = 0) :
    (∀ fuel scene2, PhotonMapper.generate lm scene fuel = some scene2 → scene2 = scene) ∧
    (0 < scene.m_photonMapScanSteps →
      ∃ fuel0, ∀ fuel, fuel0 ≤ fuel → PhotonMapper.generate lm scene fuel = some scene) := by
  constructor
  · intro fuel scene2 h
    unfold PhotonMapper.generate at h
    cases hg : PhotonMapper.generateLights lm scene fuel scene.m_lights scene.m_objects with
    | none => simp [hg] at h
    | some objects =>
      simp only [hg, Option.some.injEq] at h
      have := (PhotonMapper.generateLights_diffuse lm scene fuel scene.m_objects hdiff
        scene.m_lights).1 objects hg
      rw [← h, this]
  · intro hsteps
    obtain ⟨f0, h0⟩ := PhotonMapper.primaryRays_terminates lm scene hsteps
    refine ⟨f0 + 1, fun fuel hfuel => ?_⟩
    obtain ⟨f, rfl⟩ : ∃ f, fuel = f + 1 := ⟨fuel - 1, by omega⟩
    unfold PhotonMapper.generate
    rw [(PhotonMapper.generateLights_diffuse lm scene f scene.m_objects hdiff scene.m_lights).2
      (fun light _ _ => h0 (f + 1) (by omega) light)]

end FloorScalars

/-! ## The renderer on a scene without objects -/

section FloorScalars

variable [FloorRing K]

theorem castRay_no_objects (lm : Libm K) (scene : Scene K) (hobj : scene.m_objects = [])
    (fuel : Nat) (ray : Ray K) (wavelength : K) :
    castRay lm scene (fuel + 1) ray 0 wavelength = some scene.m_background := by
  unfold castRay
  simp only [gt_iff_lt, Nat.not_lt_zero, if_false, hobj, castRayObjects]

theorem subPixelRow_no_objects (lm : Libm K) (scene : Scene K) (hobj : scene.m_objects = [])
    (hdisp : scene.m_dispersionMode = false) (inst : Instance K) (fuel : Nat)
    (rnd : Nat → Nat → Nat → Nat → Vector2 K) (x y : Nat) (rayX rayY : K)
    (initialRayCount subY : Nat) (count : Nat) :
    ∀ (subX : Nat) (radiance : Color K),
      subPixelRow lm scene inst (fuel + 1) rnd x y rayX rayY initialRayCount subY count subX
          radiance =
        some (radiance.add (scene.m_background.scale (count : K))) := by
  induction count with
  | zero =>
    intro subX radiance
    simp [subPixelRow, Color.add, Color.scale]
  | succ count ih =>
    intro subX radiance
    unfold subPixelRow
    simp only [subPixelRadiance, hdisp, Bool.false_eq_true, if_false,
      castRay_no_objects lm scene hobj, ih]
    simp only [Color.add, Color.scale, Option.some.injEq, Color.mk.injEq]
    push_cast
    refine ⟨by ring, by ring, by ring, by ring⟩

theorem subPixelGrid_no_objects (lm : Libm K) (scene : Scene K) (hobj : scene.m_objects = [])
    (hdisp : scene.m_dispersionMode = false) (inst : Instance K) (fuel : Nat)
    (rnd : Nat → Nat → Nat → Nat → Vector2 K) (x y : Nat) (rayX rayY : K)
    (initialRayCount : Nat) (count : Nat) :
    ∀ (subY : Nat) (radiance : Color K),
      subPixelGrid lm scene inst (fuel + 1) rnd x y rayX rayY initialRayCount count subY
          radiance =
        some (radiance.add (scene.m_background.scale ((count : K) * (initialRayCount : K)))) := by
  induction count with
  | zero =>
    intro subY radiance
    simp [subPixelGrid, Color.add, Color.scale]
  | succ count ih =>
    intro subY radiance
    unfold subPixelGrid
    simp only [subPixelRow_no_objects lm scene hobj hdisp, ih]
    simp only [Color.add, Color.scale, Option.some.injEq, Color.mk.injEq]
    push_cast
    refine ⟨by ring, by ring, by ring, by ring⟩

theorem Picture.set_size (p : Picture K) (pos : UPoint2) (c : Color K) :
    (p.set pos c).m_size = p.m_size := rfl

theorem Picture.set_wellFormed (p : Picture K) (pos : UPoint2) (c : Color K)
    (h : p.WellFormed) : (p.set pos c).WellFormed := by
  unfold Picture.WellFormed at h ⊢
  simp [Picture.set, h]

theorem HSVtoRGB_alpha (H S V : K) (tint : Color K) (h : HSVtoRGB H S V = some tint) :
    tint.a = 1 := by
  unfold HSVtoRGB at h
  by_cases hc : H > 360 ∨ H < 0 ∨ S > 100 ∨ S < 0 ∨ V > 100 ∨ V < 0
  · rw [if_pos hc] at h
    exact absurd h (by simp)
  · rw [if_neg hc] at h
    simp only [Option.some.injEq] at h
    rw [← h]
    rfl

theorem dispersionRays_no_objects_alpha (lm : Libm K) (scene : Scene K)
    (hobj : scene.m_objects = []) (fuel : Nat) (ray : Ray K) (hues : List K)
    (hhues : ∀ h ∈ hues, h ∈ (dispersionHues : List K)) :
    ∀ radiance : Color K, ∃ c, dispersionRays lm scene (fuel + 1) ray hues radiance = some c ∧
      c.a = radiance.a + (hues.length : K) * (scene.m_background.a / 4) := by
  induction hues with
  | nil =>
    intro radiance
    exact ⟨radiance, rfl, by simp⟩
  | cons h rest ih =>
    intro radiance
    obtain ⟨tint, ht⟩ := HSVtoRGB_hue h (hhues h (List.mem_cons_self _ _))
    have ha := HSVtoRGB_alpha _ _ _ tint ht
    unfold dispersionRays
    simp only [castRay_no_objects lm scene hobj, ht]
    obtain ⟨c, hc1, hc2⟩ := ih (fun h2 hh2 => hhues h2 (List.mem_cons_of_mem _ hh2))
      (radiance.add ((scene.m_background.mul tint).divScalar 4))
    refine ⟨c, hc1, ?_⟩
    rw [hc2]
    simp only [Color.add, Color.mul, Color.divScalar, ha, List.length_cons]
    push_cast
    ring

theorem subPixelRadiance_dispersion_alpha (lm : Libm K) (scene : Scene K)
    (hobj : scene.m_objects = []) (hdisp : scene.m_dispersionMode = true) (inst : Instance K)
    (fuel : Nat) (rayX rayY : K) (initialRayCount subX subY : Nat) (jitter : Vector2 K)
    (radiance : Color K) (X : Option (Color K))
    (hX : subPixelRadiance lm scene inst (fuel + 1) rayX rayY initialRayCount subX subY jitter
      radiance = X) :
    ∃ c, X = some c ∧ c.a = radiance.a + 2 * scene.m_background.a := by
  unfold subPixelRadiance at hX
  simp only [hdisp, if_true] at hX
  obtain ⟨c, hc1, hc2⟩ := dispersionRays_no_objects_alpha lm scene hobj fuel _ dispersionHues
    (fun h hh => hh) radiance
  rw [hc1] at hX
  refine ⟨c, hX.symm, ?_⟩
  rw [hc2]
  simp only [dispersionHues, List.length_cons, List.length_nil]
  push_cast
  ring

/-! ## The tints of the dispersion mode -/

theorem fmod_two_of_lt_two (x : K) (h0 : 0 ≤ x) (h2 : x < 2) : fmod x 2 = x := by
  have hq : ⌊x / 2⌋ = 0 := by
    rw [Int.floor_eq_iff]
    constructor
    · simp only [Int.cast_zero]
      positivity
    · simp only [Int.cast_zero, zero_add]
      rw [div_lt_one (by norm_num)]
      exact h2
  have hpos : (0 : K) ≤ x / 2 := by positivity
  simp only [fmod, truncScalar, if_pos hpos, hq, Int.cast_zero, mul_zero, sub_zero]

theorem fmod_two_of_lt_four (x : K) (h0 : 2 ≤ x) (h2 : x < 4) : fmod x 2 = x - 2 := by
  have hq : ⌊x / 2⌋ = 1 := by
    rw [Int.floor_eq_iff]
    constructor
    · simp only [Int.cast_one]
      rw [le_div_iff₀ (by norm_num)]
      linarith
    · simp only [Int.cast_one]
      rw [div_lt_iff₀ (by norm_num)]
      linarith
  have hpos : (0 : K) ≤ x / 2 := by positivity
  simp only [fmod, truncScalar, if_pos hpos, hq, Int.cast_one, mul_one]

theorem fmod_two_of_lt_six (x : K) (h0 : 4 ≤ x) (h2 : x < 6) : fmod x 2 = x - 4 := by
  have hq : ⌊x / 2⌋ = 2 := by
    rw [Int.floor_eq_iff]
    constructor
    · simp only [Int.cast_ofNat]
      rw [le_div_iff₀ (by norm_num)]
      linarith
    · simp only [Int.cast_ofNat]
      rw [div_lt_iff₀ (by norm_num)]
      linarith
  have hpos : (0 : K) ≤ x / 2 := by positivity
  simp only [fmod, truncScalar, if_pos hpos, hq, Int.cast_ofNat]
  ring

/-- Truncation toward zero of a number strictly between -1 and 1 gives 0. -/
theorem truncScalar_of_abs_lt_one (x : K) (h0 : -1 < x) (h1 : x < 1) : truncScalar x = 0 := by
  unfold truncScalar
  split_ifs with h
  · have : ⌊x⌋ = 0 := by
      rw [Int.floor_eq_iff]
      exact ⟨by simpa using h, by simpa using h1⟩
    rw [this, Int.cast_zero]
  · have : ⌈x⌉ = 0 := by
      rw [Int.ceil_eq_iff]
      exact ⟨by simpa using h0, by simpa using le_of_lt (not_le.mp h)⟩
    rw [this, Int.cast_zero]

/-- Truncation toward zero of -1 gives -1. -/
theorem truncScalar_neg_one : truncScalar (-1 : K) = -1 := by
  have hneg : ¬ (0 : K) ≤ -1 := by norm_num
  have : ⌈(-1 : K)⌉ = -1 := by
    rw [Int.ceil_eq_iff]
    constructor <;> norm_num
  simp only [truncScalar, if_neg hneg, this]
  norm_num

/-- The eight tints of the dispersion mode. With the absolute value taken of
the truncated argument, every tint but the first is saturated in two
channels. -/
theorem HSVtoRGB_dispersionHues :
    (dispersionHues : List K).map (fun h => HSVtoRGB h 100 100) =
      [some ⟨1, 0, 0, 1⟩, some ⟨1, 1, 0, 1⟩, some ⟨1, 1, 0, 1⟩, some ⟨0, 1, 1, 1⟩,
       some ⟨0, 1, 1, 1⟩, some ⟨0, 1, 1, 1⟩, some ⟨1, 0, 1, 1⟩, some ⟨1, 0, 1, 1⟩] := by
  have hr : ∀ h : K, 0 ≤ h → h ≤ 360 →
      ¬ (h > 360 ∨ h < 0 ∨ (100 : K) > 100 ∨ (100 : K) < 0 ∨ (100 : K) > 100 ∨ (100 : K) < 0) := by
    intro h h0 h1
    push_neg
    exact ⟨h1, h0, le_refl _, by norm_num, le_refl _, by norm_num⟩
  have f0 : fmod ((0 : K) / 60) 2 = 0 := by
    rw [fmod_two_of_lt_two _ (by norm_num) (by norm_num)]; norm_num
  have f45 : fmod ((45 : K) / 60) 2 = 3 / 4 := by
    rw [fmod_two_of_lt_two _ (by norm_num) (by norm_num)]; norm_num
  have f90 : fmod ((90 : K) / 60) 2 = 3 / 2 := by
    rw [fmod_two_of_lt_two _ (by norm_num) (by norm_num)]; norm_num
  have f135 : fmod ((135 : K) / 60) 2 = 1 / 4 := by
    rw [fmod_two_of_lt_four _ (by norm_num) (by norm_num)]; norm_num
  have f180 : fmod ((180 : K) / 60) 2 = 1 := by
    rw [fmod_two_of_lt_four _ (by norm_num) (by norm_num)]; norm_num
  have f225 : fmod ((225 : K) / 60) 2 = 7 / 4 := by
    rw [fmod_two_of_lt_four _ (by norm_num) (by norm_num)]; norm_num
  have f270 : fmod ((270 : K) / 60) 2 = 1 / 2 := by
    rw [fmod_two_of_lt_six _ (by norm_num) (by norm_num)]; norm_num
  have f315 : fmod ((315 : K) / 60) 2 = 5 / 4 := by
    rw [fmod_two_of_lt_six _ (by norm_num) (by norm_num)]; norm_num
  have a1 : |truncScalar ((0 : K) - 1)| = 1 := by
    rw [zero_sub, truncScalar_neg_one]; norm_num
  have a2 : |truncScalar ((3 / 4 : K) - 1)| = 0 := by
    rw [truncScalar_of_abs_lt_one _ (by norm_num) (by norm_num)]; norm_num
  have a3 : |truncScalar ((3 / 2 : K) - 1)| = 0 := by
    rw [truncScalar_of_abs_lt_one _ (by norm_num) (by norm_num)]; norm_num
  have a4 : |truncScalar ((1 / 4 : K) - 1)| = 0 := by
    rw [truncScalar_of_abs_lt_one _ (by norm_num) (by norm_num)]; norm_num
  have a5 : |truncScalar ((1 : K) - 1)| = 0 := by
    rw [truncScalar_of_abs_lt_one _ (by norm_num) (by norm_num)]; norm_num
  have a6 : |truncScalar ((7 / 4 : K) - 1)| = 0 := by
    rw [truncScalar_of_abs_lt_one _ (by norm_num) (by norm_num)]; norm_num
  have a7 : |truncScalar ((1 / 2 : K) - 1)| = 0 := by
    rw [truncScalar_of_abs_lt_one _ (by norm_num) (by norm_num)]; norm_num
  have a8 : |truncScalar ((5 / 4 : K) - 1)| = 0 := by
    rw [truncScalar_of_abs_lt_one _ (by norm_num) (by norm_num)]; norm_num
  simp only [dispersionHues, List.map_cons, List.map_nil, HSVtoRGB,
    if_neg (hr 0 (by norm_num) (by norm_num)), if_neg (hr 45 (by norm_num) (by norm_num)),
    if_neg (hr 90 (by norm_num) (by norm_num)), if_neg (hr 135 (by norm_num) (by norm_num)),
    if_neg (hr 180 (by norm_num) (by norm_num)), if_neg (hr 225 (by norm_num) (by norm_num)),
    if_neg (hr 270 (by norm_num) (by norm_num)), if_neg (hr 315 (by norm_num) (by norm_num)),
    f0, f45, f90, f135, f180, f225, f270, f315, a1, a2, a3, a4, a5, a6, a7, a8, Color.rgb]
  norm_num

/-- The loop over the hues of `raytraceLine` on a ray for which `castRay`
returns the same radiance `c` at every wavelength: it adds 5/4 of `c` in red,
green and blue and twice its alpha. -/
theorem dispersionRays_constant (lm : Libm K) (scene : Scene K) (fuel : Nat) (ray : Ray K)
    (c radiance : Color K)
    (hc : ∀ wavelength : K, castRay lm scene fuel ray 0 wavelength = some c) :
    dispersionRays lm scene fuel ray dispersionHues radiance =
      some ⟨radiance.r + 5 / 4 * c.r, radiance.g + 5 / 4 * c.g, radiance.b + 5 / 4 * c.b,
        radiance.a + 2 * c.a⟩ := by
  have htints := HSVtoRGB_dispersionHues (K := K)
  simp only [dispersionHues, List.map_cons, List.map_nil, List.cons.injEq, and_true] at htints
  obtain ⟨h1, h2, h3, h4, h5, h6, h7, h8⟩ := htints
  simp only [dispersionHues, dispersionRays, hc, h1, h2, h3, h4, h5, h6, h7, h8, Color.add,
    Color.mul, Color.divScalar, Option.some.injEq, Color.mk.injEq]
  refine ⟨by ring, by ring, by ring, by ring⟩

/-- C40, evaluated at the eight hues of the dispersion mode. The tints
`HSVtoRGB(h, 100, 100)` for `h = 0, 45, ..., 315` are red, yellow, yellow, cyan,
cyan, cyan, magenta and magenta, each saturated, because `abs` truncates its
argument; a quarter of their sum is `(5/4, 5/4, 5/4)` with alpha 2, not
`(1, 1, 1)`. On a ray for which `castRay` returns the same radiance
`c` at every wavelength, the loop over the hues of `raytraceLine` adds 5/4 of
`c` in red, green and blue, and the photon radiances
`HSVtoRGB(h, 100, 100) * factor / 4` of `PhotonMapper::generate` sum to
5/4 of `factor`. -/
theorem dispersion_tints_saturated :
    (dispersionHues : List K).map (fun h => HSVtoRGB h 100 100) =
      [some ⟨1, 0, 0, 1⟩, some ⟨1, 1, 0, 1⟩, some ⟨1, 1, 0, 1⟩, some ⟨0, 1, 1, 1⟩,
       some ⟨0, 1, 1, 1⟩, some ⟨0, 1, 1, 1⟩, some ⟨1, 0, 1, 1⟩, some ⟨1, 0, 1, 1⟩] ∧
    (((dispersionHues : List K).filterMap (fun h => HSVtoRGB h 100 100)).map
      (fun tint => tint.divScalar 4)).foldl Color.add Color.zero = ⟨5 / 4, 5 / 4, 5 / 4, 2⟩ ∧
    (∀ (lm : Libm K) (scene : Scene K) (fuel : Nat) (ray : Ray K) (c radiance : Color K),
      (∀ wavelength : K, castRay lm scene fuel ray 0 wavelength = some c) →
      dispersionRays lm scene fuel ray dispersionHues radiance =
        some ⟨radiance.r + 5 / 4 * c.r, radiance.g + 5 / 4 * c.g, radiance.b + 5 / 4 * c.b,
          radiance.a + 2 * c.a⟩) ∧
    ∀ factor : K,
      (((dispersionHues : List K).filterMap (fun h => HSVtoRGB h 100 100)).map
        (fun tint => (tint.scale factor).divScalar 4)).foldl Color.add Color.zero =
          ⟨5 / 4 * factor, 5 / 4 * factor, 5 / 4 * factor, 2 * factor⟩ ∧
      (Color.rgb 1 1 1).scale factor = ⟨factor, factor, factor, factor⟩ := by
  have htints := HSVtoRGB_dispersionHues (K := K)
  refine ⟨htints, ?_, ?_, ?_⟩
  · simp only [dispersionHues, List.map_cons, List.map_nil, List.cons.injEq, and_true] at htints
    obtain ⟨h1, h2, h3, h4, h5, h6, h7, h8⟩ := htints
    simp only [dispersionHues, List.filterMap_cons, List.filterMap_nil, h1, h2, h3, h4, h5, h6,
      h7, h8, List.map_cons, List.map_nil, List.foldl_cons, List.foldl_nil, Color.add,
      Color.divScalar, Color.zero, Color.mk.injEq]
    refine ⟨by norm_num, by norm_num, by norm_num, by norm_num⟩
  · intro lm scene fuel ray c radiance hc
    exact dispersionRays_constant lm scene fuel ray c radiance hc
  · intro factor
    simp only [dispersionHues, List.map_cons, List.map_nil, List.cons.injEq, and_true] at htints
    obtain ⟨h1, h2, h3, h4, h5, h6, h7, h8⟩ := htints
    constructor
    · simp only [dispersionHues, List.filterMap_cons, List.filterMap_nil, h1, h2, h3, h4, h5, h6,
        h7, h8, List.map_cons, List.map_nil, List.foldl_cons, List.foldl_nil, Color.add,
        Color.divScalar, Color.scale, Color.zero, Color.mk.injEq]
      refine ⟨by ring, by ring, by ring, by ring⟩
    · simp only [Color.rgb, Color.scale, Color.mk.injEq]
      refine ⟨by ring, by ring, by ring, by ring⟩

/-- On a scene without objects, `raytraceLine` gives no picture when the `u32`
product `n * n` is 0. -/
theorem raytracePixels_zero_divisor (lm : Libm K) (scene : Scene K)
    (hobj : scene.m_objects = []) (hdisp : scene.m_dispersionMode = false) (inst : Instance K)
    (fuel : Nat) (rnd : Nat → Nat → Nat → Nat → Vector2 K) (y : Nat) (rayY : K) (n : Nat)
    (hu : u32Mul n n = 0) (count x : Nat) (rayX : K) (picture : Picture K) :
    raytracePixels lm scene inst (fuel + 1) rnd y rayY n (count + 1) x rayX picture = none := by
  conv_lhs => unfold raytracePixels
  simp only [subPixelGrid_no_objects lm scene hobj hdisp, if_pos hu]

/-- On a picture of one pixel a single worker makes the one call
`raytraceLine(0)`. -/
theorem raytrace_one_line (lm : Libm K) (scene : Scene K) (fuel : Nat)
    (rnd : Nat → Nat → Nat → Nat → Vector2 K) (hres : scene.m_camera.m_resolution = ⟨1, 1⟩) :
    raytrace lm scene fuel rnd [0, 0] =
      raytraceLine lm scene (Instance.new lm scene (Picture.new ⟨1, 1⟩)) fuel rnd
        (Picture.new ⟨1, 1⟩) 0 := by
  have hy : ∀ size : UPoint2, (Instance.new lm scene (Picture.new size)).m_picSize = size :=
    fun _ => rfl
  have hl : (Workers.run 1 [0, 0]).lines.map Prod.snd = [0] := by decide
  unfold raytrace
  simp only [hy, hres, hl, raytraceLines]
  cases raytraceLine lm scene (Instance.new lm scene (Picture.new ⟨1, 1⟩)) fuel rnd
    (Picture.new ⟨1, 1⟩) 0 <;> rfl

/-- With the supersampling factor 65536 the `u32` product `n * n` is 0: the
factor of line 110 is `1.0f / 0`, an infinity, and the embedding gives no
picture. -/
theorem raytrace_supersampling_overflow (lm : Libm K)
    (rnd : Nat → Nat → Nat → Nat → Vector2 K) :
    u32Mul 65536 65536 = 0 ∧ raytrace lm (overflowScene : Scene K) 1 rnd [0, 0] = none := by
  have hu : u32Mul 65536 65536 = 0 := by decide
  refine ⟨hu, ?_⟩
  have hn : (overflowScene : Scene K).m_camera.m_superSamplingPerAxis = 65536 := rfl
  have hx : (Instance.new lm (overflowScene : Scene K) (Picture.new ⟨1, 1⟩)).m_picSize.x =
      0 + 1 := rfl
  rw [raytrace_one_line lm overflowScene 1 rnd rfl]
  unfold raytraceLine
  rw [hn, hx]
  exact raytracePixels_zero_divisor lm overflowScene rfl rfl _ 0 rnd 0 _ 65536 hu 0 0 _ _

end FloorScalars

/-! ## Termination of the ray caster -/

section FloorScalars

variable [FloorRing K]

theorem hitRadiance_isSome (lm : Libm K) (scene : Scene K)
    (recurse : Ray K → Nat → K → Option (Color K)) (recursion : Nat)
    (hrec : ∀ (ray : Ray K) (wavelength : K),
      ∃ c, recurse ray (u32Add recursion 1) wavelength = some c)
    (ray : Ray K) (wavelength : K) (object : Object K) (intersection : Intersection K)
    (cos : K) :
    ∃ c, hitRadiance lm scene recurse ray recursion wavelength object intersection cos =
      some c := by
  have hrefr : ∃ c, calcRefraction lm recurse ray intersection object.material cos recursion
      wavelength = some c := by
    unfold calcRefraction
    simp only []
    split_ifs <;> first | exact hrec _ _ | exact ⟨_, rfl⟩
  have hrefl : ∃ c, calcReflection lm recurse ray intersection cos recursion wavelength =
      some c := by
    unfold calcReflection
    exact hrec _ _
  obtain ⟨c1, h1⟩ := hrefr
  obtain ⟨c2, h2⟩ := hrefl
  unfold hitRadiance
  simp only [h1, h2]
  split_ifs <;> exact ⟨_, rfl⟩

theorem castRayObjects_isSome (lm : Libm K) (scene : Scene K)
    (recurse : Ray K → Nat → K → Option (Color K)) (recursion : Nat)
    (hrec : ∀ (ray : Ray K) (wavelength : K),
      ∃ c, recurse ray (u32Add recursion 1) wavelength = some c)
    (ray : Ray K) (wavelength : K) (objects : List (Object K)) :
    ∀ (rad : Color K) (max_distance : K),
      ∃ c, castRayObjects lm scene recurse ray recursion wavelength objects rad max_distance =
        some c := by
  induction objects with
  | nil => exact fun rad _ => ⟨rad, rfl⟩
  | cons object rest ih =>
    intro rad max_distance
    unfold castRayObjects
    cases hint : object.intersect lm ray max_distance with
    | none => exact ih rad max_distance
    | some intersection =>
      simp only []
      split_ifs
      · exact ih rad max_distance
      · obtain ⟨c, hc⟩ := hitRadiance_isSome lm scene recurse recursion hrec ray wavelength object
          intersection (clampScalar (ray.direction.dot intersection.normal) (-1) 1)
        rw [hc]
        exact ih c intersection.distance

/-- For a bounce limit below 4294967295 `castRay` returns for every ray,
starting depth and wavelength: the fuel `maxBounces + 2 - depth` suffices. -/
theorem castRay_terminates (lm : Libm K) (scene : Scene K)
    (hmax : scene.m_camera.m_maxBounces < 4294967295) :
    ∀ (fuel recursion : Nat), scene.m_camera.m_maxBounces + 1 - recursion < fuel →
      ∀ (ray : Ray K) (wavelength : K), ∃ c, castRay lm scene fuel ray recursion wavelength =
        some c := by
  intro fuel
  induction fuel with
  | zero => intro recursion h; omega
  | succ fuel ih =>
    intro recursion h ray wavelength
    unfold castRay
    split_ifs with hgt
    · exact ⟨_, rfl⟩
    · have hu : u32Add recursion 1 = recursion + 1 := by
        unfold u32Add
        apply Nat.mod_eq_of_lt
        omega
      exact castRayObjects_isSome lm scene _ recursion
        (fun r w => by rw [hu]; exact ih (recursion + 1) (by omega) r w) ray wavelength _ _ _

theorem castRay_beyond_limit (lm : Libm K) (scene : Scene K) (fuel : Nat) (ray : Ray K)
    (recursion : Nat) (wavelength : K) (h : recursion > scene.m_camera.m_maxBounces) :
    castRay lm scene (fuel + 1) ray recursion wavelength = some Color.zero := by
  unfold castRay
  rw [if_pos h]

end FloorScalars

theorem floorMirror_upRay (lm : Libm K) (max_distance : K) :
    (floorMirror : Object K).intersect lm upRay max_distance = none := by
  have w1 : (floorTriangle : Triangle K).mtWeight1 upRay = 1 / 4 := by
    simp [Triangle.mtWeight1, floorTriangle, upRay, Vector3.dot, Vector3.cross, Vector3.sub]
    norm_num
  have w2 : (floorTriangle : Triangle K).mtWeight2 upRay = 1 / 2 := by
    simp [Triangle.mtWeight2, floorTriangle, upRay, Vector3.dot, Vector3.cross, Vector3.sub]
    norm_num
  have wt : (floorTriangle : Triangle K).mtDistance upRay = -EPSILON := by
    simp [Triangle.mtDistance, floorTriangle, upRay, Vector3.dot, Vector3.cross, Vector3.sub]
    ring
  have c1 : ¬ ((1 : K) / 4 < -EPSILON ∨ (1 : K) / 4 > 1) := by norm_num [EPSILON]
  have c2 : ¬ ((1 : K) / 2 < -EPSILON ∨ (1 : K) / 4 + 1 / 2 > 1) := by norm_num [EPSILON]
  have c3 : (-EPSILON : K) < 0 ∨ (-EPSILON : K) > max_distance := Or.inl (by norm_num [EPSILON])
  show (floorTriangle : Triangle K).intersect lm upRay max_distance = none
  rw [Triangle.intersect_eq]
  simp only [w1, w2, wt, c1, c2, c3, if_false, if_true]

theorem unit_z_normalized (lm : Libm K) (hs1 : lm.sqrt 1 = 1) (z : K) (hz : z * z = 1) :
    (⟨0, 0, z⟩ : Vector3 K).normalized lm = ⟨0, 0, z⟩ := by
  have hl : (⟨0, 0, z⟩ : Vector3 K).length lm = 1 := by
    simp only [Vector3.length, mul_zero, zero_add, hz, hs1]
  simp only [Vector3.normalized, hl, one_ne_zero, if_false, div_one]

theorem ceilingMirror_upRay (lm : Libm K) (hs1 : lm.sqrt 1 = 1) :
    ∃ hit : Intersection K, (ceilingMirror : Object K).intersect lm upRay INFINITE = some hit ∧
      hit.point = ⟨0, 0, 1⟩ ∧ hit.normal = ⟨0, 0, -1⟩ := by
  have w1 : (ceilingTriangle : Triangle K).mtWeight1 upRay = 1 / 4 := by
    simp [Triangle.mtWeight1, ceilingTriangle, upRay, Vector3.dot, Vector3.cross, Vector3.sub]
    norm_num
  have w2 : (ceilingTriangle : Triangle K).mtWeight2 upRay = 1 / 2 := by
    simp [Triangle.mtWeight2, ceilingTriangle, upRay, Vector3.dot, Vector3.cross, Vector3.sub]
    norm_num
  have wt : (ceilingTriangle : Triangle K).mtDistance upRay = 1 - EPSILON := by
    simp [Triangle.mtDistance, ceilingTriangle, upRay, Vector3.dot, Vector3.cross, Vector3.sub]
    ring
  have c1 : ¬ ((1 : K) / 4 < -EPSILON ∨ (1 : K) / 4 > 1) := by norm_num [EPSILON]
  have c2 : ¬ ((1 : K) / 2 < -EPSILON ∨ (1 : K) / 4 + 1 / 2 > 1) := by norm_num [EPSILON]
  have c3 : ¬ ((1 - EPSILON : K) < 0 ∨ (1 - EPSILON : K) > INFINITE) := by
    norm_num [EPSILON, INFINITE]
  have hn : ((((ceilingTriangle : Triangle K).v0.normal.scale (1 - (1 / 4 + 1 / 2))).add
      ((ceilingTriangle : Triangle K).v1.normal.scale (1 / 4))).add
      ((ceilingTriangle : Triangle K).v2.normal.scale (1 / 2))) = ⟨0, 0, -1⟩ := by
    simp only [ceilingTriangle, Vector3.scale, Vector3.add, Vector3.mk.injEq]
    refine ⟨by ring, by ring, by ring⟩
  show ∃ hit : Intersection K,
    (ceilingTriangle : Triangle K).intersect lm upRay INFINITE = some hit ∧ _
  rw [Triangle.intersect_eq]
  simp only [w1, w2, wt, c1, c2, c3, if_false, hn]
  refine ⟨_, rfl, ?_, unit_z_normalized lm hs1 (-1) (by ring)⟩
  simp only [upRay, Vector3.add, Vector3.scale, Vector3.mk.injEq]
  refine ⟨by ring, by ring, by ring⟩

theorem floorMirror_bounceRay (lm : Libm K) (hs1 : lm.sqrt 1 = 1) :
    ∃ hit : Intersection K, (floorMirror : Object K).intersect lm bounceRay INFINITE = some hit ∧
      hit.point = ⟨0, 0, 0⟩ ∧ hit.normal = ⟨0, 0, 1⟩ := by
  have w1 : (floorTriangle : Triangle K).mtWeight1 bounceRay = 1 / 4 := by
    simp [Triangle.mtWeight1, floorTriangle, bounceRay, Vector3.dot, Vector3.cross, Vector3.sub]
    norm_num
  have w2 : (floorTriangle : Triangle K).mtWeight2 bounceRay = 1 / 2 := by
    simp [Triangle.mtWeight2, floorTriangle, bounceRay, Vector3.dot, Vector3.cross, Vector3.sub]
    norm_num
  have wt : (floorTriangle : Triangle K).mtDistance bounceRay = 1 - EPSILON := by
    simp [Triangle.mtDistance, floorTriangle, bounceRay, Vector3.dot, Vector3.cross, Vector3.sub]
    ring
  have c1 : ¬ ((1 : K) / 4 < -EPSILON ∨ (1 : K) / 4 > 1) := by norm_num [EPSILON]
  have c2 : ¬ ((1 : K) / 2 < -EPSILON ∨ (1 : K) / 4 + 1 / 2 > 1) := by norm_num [EPSILON]
  have c3 : ¬ ((1 - EPSILON : K) < 0 ∨ (1 - EPSILON : K) > INFINITE) := by
    norm_num [EPSILON, INFINITE]
  have hn : ((((floorTriangle : Triangle K).v0.normal.scale (1 - (1 / 4 + 1 / 2))).add
      ((floorTriangle : Triangle K).v1.normal.scale (1 / 4))).add
      ((floorTriangle : Triangle K).v2.normal.scale (1 / 2))) = ⟨0, 0, 1⟩ := by
    simp only [floorTriangle, Vector3.scale, Vector3.add, Vector3.mk.injEq]
    refine ⟨by ring, by ring, by ring⟩
  show ∃ hit : Intersection K,
    (floorTriangle : Triangle K).intersect lm bounceRay INFINITE = some hit ∧ _
  rw [Triangle.intersect_eq]
  simp only [w1, w2, wt, c1, c2, c3, if_false, hn]
  refine ⟨_, rfl, ?_, unit_z_normalized lm hs1 1 (by ring)⟩
  simp only [bounceRay, Vector3.add, Vector3.scale, Vector3.mk.injEq]
  refine ⟨by ring, by ring, by ring⟩

section FloorScalars

variable [FloorRing K]

/-- A head-on hit on a mirror whose reflected ray never returns never returns
either. -/
theorem hitRadiance_mirror_none (lm : Libm K) (hs0 : lm.sqrt 0 = 0)
    (hc1 : lm.csqrt ⟨1, 0⟩ = ⟨1, 0⟩) (scene : Scene K)
    (recurse : Ray K → Nat → K → Option (Color K)) (ray : Ray K) (recursion : Nat)
    (wavelength : K) (object : Object K) (hit : Intersection K)
    (hmat : object.m_material = mirror)
    (hrec : recurse ((Ray.new lm hit.point
        (ray.direction.sub ((hit.normal.scale (-1)).scale 2))).addOffset
        (hit.normal.scale EPSILON)) (u32Add recursion 1) wavelength = none) :
    hitRadiance lm scene recurse ray recursion wavelength object hit (-1) = none := by
  have hkr : calcFresnel lm (mirror : Material K) (-1) wavelength = ((3 / 2 - 1) / (3 / 2 + 1)) ^ 2 :=
    calcFresnel_head_on lm hs0 hc1 mirror (3 / 2) rfl (by norm_num) wavelength (mul_zero _)
  have hkr2 : ((3 / 2 - 1 : K) / (3 / 2 + 1)) ^ 2 = 1 / 25 := by norm_num
  rw [hkr2] at hkr
  have hrefl : calcReflection lm recurse ray hit (-1) recursion wavelength = none := by
    unfold calcReflection
    have h1 : decide ((-1 : K) ≤ 0) = true := by simp
    simp only [h1, if_true]
    exact hrec
  have ht : (mirror : Material K).transmittance = 0 := rfl
  have hr : (mirror : Material K).reflectance = 1 := rfl
  have hn : (mirror : Material K).refraction.norm > 0 := by
    simp only [mirror, Cplx.norm]
    norm_num
  unfold hitRadiance
  simp only [Object.material, hmat, ht, hr, hn, hkr, hrefl]
  norm_num

theorem clampScalar_neg_one : clampScalar (-1 : K) (-1) 1 = -1 := by
  unfold clampScalar
  norm_num

/-- With the bounce limit 4294967295 the ray caster never returns for the ray
between the two facing mirrors: every fuel is insufficient. -/
theorem castRay_mirrorScene_none (lm : Libm K) (hs0 : lm.sqrt 0 = 0) (hs1 : lm.sqrt 1 = 1)
    (hc1 : lm.csqrt ⟨1, 0⟩ = ⟨1, 0⟩) (wavelength : K) :
    ∀ (fuel recursion : Nat), recursion < 4294967296 →
      castRay lm (mirrorScene : Scene K) fuel upRay recursion wavelength = none ∧
      castRay lm (mirrorScene : Scene K) fuel bounceRay recursion wavelength = none := by
  intro fuel
  induction fuel with
  | zero => exact fun _ _ => ⟨rfl, rfl⟩
  | succ fuel ih =>
    intro recursion hrec
    have hmax : (mirrorScene : Scene K).m_camera.m_maxBounces = 4294967295 := rfl
    have hobjs : (mirrorScene : Scene K).m_objects = [floorMirror, ceilingMirror] := rfl
    have hguard : ¬ recursion > (mirrorScene : Scene K).m_camera.m_maxBounces := by
      rw [hmax]; omega
    have hnext : u32Add recursion 1 < 4294967296 := by
      unfold u32Add
      exact Nat.mod_lt _ (by norm_num)
    obtain ⟨ihup, ihdown⟩ := ih (u32Add recursion 1) hnext
    constructor
    · obtain ⟨hit, hhit, hp, hn⟩ := ceilingMirror_upRay lm hs1
      have hcos : clampScalar ((upRay : Ray K).direction.dot hit.normal) (-1) 1 = -1 := by
        rw [hn]
        have : (upRay : Ray K).direction.dot ⟨0, 0, -1⟩ = -1 := by
          simp [upRay, Vector3.dot]
        rw [this, clampScalar_neg_one]
      have hmirror : (Ray.new lm hit.point
          ((upRay : Ray K).direction.sub ((hit.normal.scale (-1)).scale 2))).addOffset
          (hit.normal.scale EPSILON) = bounceRay := by
        rw [hp, hn]
        have hv : (upRay : Ray K).direction.sub (((⟨0, 0, -1⟩ : Vector3 K).scale (-1)).scale 2) =
            ⟨0, 0, -1⟩ := by
          simp only [upRay, Vector3.sub, Vector3.scale, Vector3.mk.injEq]
          refine ⟨by ring, by ring, by ring⟩
        rw [hv]
        simp only [Ray.new, unit_z_normalized lm hs1 (-1) (by ring), Ray.addOffset, bounceRay,
          Vector3.add, Vector3.scale, Ray.mk.injEq, Vector3.mk.injEq]
        refine ⟨⟨by ring, by ring, by ring⟩, trivial⟩
      have hrad := hitRadiance_mirror_none lm hs0 hc1 mirrorScene
        (castRay lm mirrorScene fuel) upRay recursion wavelength ceilingMirror hit rfl
        (by rw [hmirror]; exact ihdown)
      unfold castRay
      simp only [hguard, if_false, hobjs, castRayObjects, floorMirror_upRay, hhit, hcos, hrad]
      norm_num
    · obtain ⟨hit, hhit, hp, hn⟩ := floorMirror_bounceRay lm hs1
      have hcos : clampScalar ((bounceRay : Ray K).direction.dot hit.normal) (-1) 1 = -1 := by
        rw [hn]
        have : (bounceRay : Ray K).direction.dot ⟨0, 0, 1⟩ = -1 := by
          simp [bounceRay, Vector3.dot]
        rw [this, clampScalar_neg_one]
      have hmirror : (Ray.new lm hit.point
          ((bounceRay : Ray K).direction.sub ((hit.normal.scale (-1)).scale 2))).addOffset
          (hit.normal.scale EPSILON) = upRay := by
        rw [hp, hn]
        have hv : (bounceRay : Ray K).direction.sub (((⟨0, 0, 1⟩ : Vector3 K).scale (-1)).scale 2) =
            ⟨0, 0, 1⟩ := by
          simp only [bounceRay, Vector3.sub, Vector3.scale, Vector3.mk.injEq]
          refine ⟨by ring, by ring, by ring⟩
        rw [hv]
        simp only [Ray.new, unit_z_normalized lm hs1 1 (by ring), Ray.addOffset, upRay,
          Vector3.add, Vector3.scale, Ray.mk.injEq, Vector3.mk.injEq]
        refine ⟨⟨by ring, by ring, by ring⟩, trivial⟩
      have hrad := hitRadiance_mirror_none lm hs0 hc1 mirrorScene
        (castRay lm mirrorScene fuel) bounceRay recursion wavelength floorMirror hit rfl
        (by rw [hmirror]; exact ihup)
      unfold castRay
      simp only [hguard, if_false, hobjs, castRayObjects, hhit, hcos, hrad]
      norm_num

end FloorScalars

/-! ## Phong shading of a single light -/

section FloorScalars

variable [FloorRing K]

end FloorScalars

theorem axis_z_normalized (lm : Libm K) (hlm : SqrtExact lm) (z : K) (hz : 0 < z) :
    (⟨0, 0, z⟩ : Vector3 K).normalized lm = ⟨0, 0, 1⟩ := by
  have hl : (⟨0, 0, z⟩ : Vector3 K).length lm = z := by
    simp only [Vector3.length, mul_zero, zero_add]
    exact sqrt_mul_self_of_exact hlm (le_of_lt hz)
  simp only [Vector3.normalized, hl, ne_of_gt hz, if_false, zero_div, div_self (ne_of_gt hz)]

section FloorScalars

variable [FloorRing K]

end FloorScalars

/-! ## Replacing the file name of a path -/

theorem find_first_of_eq_none (s set : List Char) :
    find_first_of s set = none ↔ ∀ c ∈ s, c ∉ set := by
  induction s with
  | nil => simp [find_first_of]
  | cons c rest ih =>
    unfold find_first_of
    by_cases hc : c ∈ set
    · simp [hc]
    · simp only [hc, if_false, List.mem_cons, forall_eq_or_imp, not_false_eq_true, true_and]
      rw [← ih]
      cases find_first_of rest set <;> simp

theorem find_first_of_singleton (set : List Char) (c : Char) :
    find_first_of set [c] ≠ none ↔ c ∈ set := by
  rw [Ne, find_first_of_eq_none]
  simp only [List.mem_singleton, not_forall, not_not]
  constructor
  · rintro ⟨x, hx, rfl⟩
    exact hx
  · intro h
    exact ⟨c, h, rfl⟩

theorem find_last_of_none (s set : List Char) (h : find_last_of s set = none) :
    ∀ c ∈ s, c ∉ set := by
  induction s with
  | nil => simp
  | cons c rest ih =>
    unfold find_last_of at h
    cases hr : find_last_of rest set with
    | some i => simp [hr] at h
    | none =>
      simp only [hr] at h
      by_cases hc : c ∈ set
      · simp [hc] at h
      · intro x hx
        rcases List.mem_cons.mp hx with rfl | hx
        · exact hc
        · exact ih hr x hx

theorem find_last_of_some (s set : List Char) (i : Nat) (h : find_last_of s set = some i) :
    ∃ c, s.take (i + 1) = s.take i ++ [c] ∧ c ∈ set ∧ ∀ x ∈ s.drop (i + 1), x ∉ set := by
  induction s generalizing i with
  | nil => simp [find_last_of] at h
  | cons c rest ih =>
    unfold find_last_of at h
    cases hr : find_last_of rest set with
    | some j =>
      simp only [hr, Option.some.injEq] at h
      subst h
      obtain ⟨d, h1, h2, h3⟩ := ih j hr
      refine ⟨d, ?_, h2, ?_⟩
      · simp only [List.take_succ_cons, List.cons_append, h1]
      · simpa using h3
    | none =>
      simp only [hr] at h
      by_cases hc : c ∈ set
      · simp only [hc, if_true, Option.some.injEq] at h
        subst h
        refine ⟨c, by simp, hc, ?_⟩
        simpa using find_last_of_none rest set hr
      · simp [hc] at h

/-- C22. For every path, a non-empty replacement that starts with a colon, a
slash or a backslash, or that contains a colon anywhere, is returned
unchanged by `replace_filename`. -/
theorem replace_filename_absolute (path replacement : List Char) (_hne : replacement ≠ [])
    (habs : front replacement ∈ DIR_SEPARATORS ∨ ':' ∈ replacement) :
    replace_filename path replacement = replacement := by
  unfold replace_filename
  by_cases h1 : find_first_of DIR_SEPARATORS [front replacement] ≠ none
  · rw [if_pos h1]
  · rw [if_neg h1]
    have h2 : find_first_of replacement DRIVE_SEPARATORS ≠ none := by
      rw [Ne, find_first_of_eq_none]
      rcases habs with h | h
      · exact absurd ((find_first_of_singleton _ _).mpr h) h1
      · intro hall
        exact hall ':' h (by simp [DRIVE_SEPARATORS])
    rw [if_pos h2]

/-- C21. For every path and every non-empty replacement that does not start
with a colon, a slash or a backslash and contains no colon, the result of
`replace_filename` is the prefix of the path up to and including its last
colon, slash or backslash (empty when the path has none) followed by the
replacement: the path splits as `pre ++ rest` where `rest` has no separator
and `pre` is empty or ends in a separator, and the result is
`pre ++ replacement`. -/
theorem replace_filename_relative (path replacement : List Char) (_hne : replacement ≠ [])
    (hfront : front replacement ∉ DIR_SEPARATORS) (hcolon : ':' ∉ replacement) :
    ∃ pre rest : List Char, path = pre ++ rest ∧ (∀ c ∈ rest, c ∉ DIR_SEPARATORS) ∧
      (pre = [] ∨ ∃ init c, pre = init ++ [c] ∧ c ∈ DIR_SEPARATORS) ∧
      replace_filename path replacement = pre ++ replacement := by
  have h1 : ¬ find_first_of DIR_SEPARATORS [front replacement] ≠ none := by
    rw [find_first_of_singleton]
    exact hfront
  have h2 : ¬ find_first_of replacement DRIVE_SEPARATORS ≠ none := by
    rw [Ne, not_not, find_first_of_eq_none]
    intro c hc hmem
    have : c = ':' := by simpa [DRIVE_SEPARATORS] using hmem
    exact hcolon (this ▸ hc)
  unfold replace_filename
  rw [if_neg h1, if_neg h2]
  cases hl : find_last_of path DIR_SEPARATORS with
  | none =>
    exact ⟨[], path, rfl, find_last_of_none path _ hl, Or.inl rfl, by simp⟩
  | some i =>
    obtain ⟨c, hc1, hc2, hc3⟩ := find_last_of_some path _ i hl
    exact ⟨path.take (i + 1), path.drop (i + 1), (List.take_append_drop _ _).symm, hc3,
      Or.inr ⟨path.take i, c, hc1, hc2⟩, rfl⟩

/-! ## Rays, matrices and the camera -/

/-- With an exact length that does not overflow: for every origin `o` and
every non-zero vector `d`, the direction stored by `Ray(o, d)` has Euclidean
length 1 and is a positive multiple of `d`; `addOffset` afterwards changes only
the origin (to `o + offset`) and leaves the direction, which is still of
length 1. -/
theorem Ray.new_direction_unit (lm : Libm K) (hlm : SqrtExact lm) (o d offset : Vector3 K)
    (hd : d ≠ ⟨0, 0, 0⟩) :
    (Ray.new lm o d).direction.length lm = 1 ∧
    (∃ k : K, 0 < k ∧ (Ray.new lm o d).direction = d.scale k) ∧
    (Ray.new lm o d).origin = o ∧
    ((Ray.new lm o d).addOffset offset).origin = o.add offset ∧
    ((Ray.new lm o d).addOffset offset).direction = (Ray.new lm o d).direction ∧
    ((Ray.new lm o d).addOffset offset).direction.length lm = 1 := by
  have hdot := Vector3.normalized_dot_self hlm d hd
  have hlen : (d.normalized lm).length lm = 1 := by
    unfold Vector3.length
    unfold Vector3.dot at hdot
    rw [hdot]
    exact sqrt_one_of_exact hlm
  have hmul : ∃ k : K, 0 < k ∧ d.normalized lm = d.scale k := by
    obtain ⟨x, y, z⟩ := d
    have hnn : 0 ≤ x * x + y * y + z * z := sumsq_nonneg x y z
    obtain ⟨h0, h1⟩ := hlm _ hnn
    have hne : lm.sqrt (x * x + y * y + z * z) ≠ 0 := by
      intro h
      rw [h, mul_zero] at h1
      apply hd
      have hx : x = 0 := by nlinarith [mul_self_nonneg x, mul_self_nonneg y, mul_self_nonneg z]
      have hy : y = 0 := by nlinarith [mul_self_nonneg x, mul_self_nonneg y, mul_self_nonneg z]
      have hz : z = 0 := by nlinarith [mul_self_nonneg x, mul_self_nonneg y, mul_self_nonneg z]
      rw [hx, hy, hz]
    refine ⟨1 / lm.sqrt (x * x + y * y + z * z),
      one_div_pos.mpr (lt_of_le_of_ne h0 (Ne.symm hne)), ?_⟩
    simp only [Vector3.normalized, Vector3.length, hne, if_false, Vector3.scale,
      Vector3.mk.injEq]
    refine ⟨by ring, by ring, by ring⟩
  exact ⟨hlen, hmul, rfl, rfl, rfl, hlen⟩

/-- C24. The product of `Matrix34` composes the transformations: for all
matrices `A`, `B` and every vector `v`, `(A * B) * v = A * (B * v)` and
`(A * B).mulWithoutTranslate(v) =
A.mulWithoutTranslate(B.mulWithoutTranslate(v))`. -/
theorem Matrix34.mul_composes (A B : Matrix34 K) (v : Vector3 K) :
    (A.mul B).mulVec v = A.mulVec (B.mulVec v) ∧
    (A.mul B).mulWithoutTranslate v = A.mulWithoutTranslate (B.mulWithoutTranslate v) := by
  constructor
  · simp only [Matrix34.mul, Matrix34.mulVec, Vector3.mk.injEq]
    refine ⟨by ring, by ring, by ring⟩
  · simp only [Matrix34.mul, Matrix34.mulWithoutTranslate, Vector3.mk.injEq]
    refine ⟨by ring, by ring, by ring⟩

theorem Camera.recalculateCamera_consistent (lm : Libm K) (c : Camera K) :
    (Camera.recalculateCamera lm c).Consistent lm :=
  ⟨rfl, rfl⟩

theorem Camera.call_consistent (lm : Libm K) (c : Camera K) (h : c.Consistent lm)
    (call : CameraCall K) : (c.call lm call).Consistent lm := by
  cases call with
  | setPosition p => exact Camera.recalculateCamera_consistent lm _
  | setLookAt p => exact Camera.recalculateCamera_consistent lm _
  | setUpVector v => exact Camera.recalculateCamera_consistent lm _
  | setFocusPoint p => exact Camera.recalculateCamera_consistent lm _
  | setFieldOfViewAngle fov => exact h
  | setResolution resolution => exact h
  | setMaxBounces n => exact h
  | setSuperSamplingPerAxis v => exact h
  | setLensSize size => exact h

/-- C25. After construction and after every sequence of setter calls the
camera's `cameraTransformation()` equals `Matrix34::lookAt(position, lookAt,
up)` and its `focusDistance()` equals the length of `focusPoint - position`,
for the current values of those members. -/
theorem Camera.calls_consistent (lm : Libm K) (calls : List (CameraCall K)) :
    (calls.foldl (Camera.call lm) (Camera.new lm)).cameraTransformation =
      Matrix34.lookAt lm (calls.foldl (Camera.call lm) (Camera.new lm)).m_position
        (calls.foldl (Camera.call lm) (Camera.new lm)).m_lookAt
        (calls.foldl (Camera.call lm) (Camera.new lm)).m_upVector ∧
    (calls.foldl (Camera.call lm) (Camera.new lm)).focusDistance =
      ((calls.foldl (Camera.call lm) (Camera.new lm)).m_focusPoint.sub
        (calls.foldl (Camera.call lm) (Camera.new lm)).m_position).length lm := by
  have key : ∀ (cs : List (CameraCall K)) (c : Camera K), c.Consistent lm →
      (cs.foldl (Camera.call lm) c).Consistent lm := by
    intro cs
    induction cs with
    | nil => exact fun c h => h
    | cons call rest ih => exact fun c h => ih _ (Camera.call_consistent lm c h call)
  exact key calls (Camera.new lm) (Camera.recalculateCamera_consistent lm _)

/-! ## The sphere under transformations -/

theorem Sphere.intersect_finite_some (lm : Libm K) (s : Sphere K) (ray : Ray K)
    (max_distance : K) (hfin : max_distance ≠ INFINITE) (hit : Intersection K)
    (h : s.intersect lm ray max_distance = some hit) :
    ∃ t : K, 0 ≤ t ∧
      t ≤ ((s.m_world2Object.mulVec ray.origin).sub
        (s.m_world2Object.mulVec (ray.origin.add (ray.direction.scale max_distance)))).length lm ∧
      hit = s.hitAt lm ray (s.m_world2Object.mulVec ray.origin)
        ((s.m_world2Object.mulWithoutTranslate ray.direction).normalized lm) t := by
  unfold Sphere.intersect at h
  simp only [hfin, ne_eq, not_false_eq_true, if_true] at h
  split_ifs at h with h1 h2 h3 h4
  · exact ⟨_, le_of_not_lt (fun hh => h4 (Or.inl hh)), le_of_not_lt (fun hh => h4 (Or.inr hh)),
      (Option.some.inj h).symm⟩
  · exact ⟨_, le_of_not_lt h3, le_of_not_lt h2, (Option.some.inj h).symm⟩

theorem Matrix34.mulVec_affine (m : Matrix34 K) (o d : Vector3 K) (k : K) :
    (m.mulVec o).add ((m.mulWithoutTranslate d).scale k) = m.mulVec (o.add (d.scale k)) := by
  simp only [Matrix34.mulVec, Matrix34.mulWithoutTranslate, Vector3.add, Vector3.scale,
    Vector3.mk.injEq]
  refine ⟨by ring, by ring, by ring⟩

theorem Vector3.length_sub_self (lm : Libm K) (hlm : SqrtExact lm) (o : Vector3 K) :
    (o.sub o).length lm = 0 := by
  have h := sqrt_mul_self_of_exact hlm (le_refl (0 : K))
  simp only [Vector3.length, Vector3.sub, sub_self, mul_zero, add_zero]
  simpa using h

/-- C30 (amended). For every sphere whose `object2World` transformation is the
inverse of its `world2Object` transformation (non-uniform scaling included),
every ray (its direction of length 1, or zero) and every finite
`max_distance >= 0`, any hit that `Sphere::intersect` returns has a
world-space distance between 0 and `max_distance`, and its point lies on the
ray: `point = origin + distance * direction`. -/
theorem Sphere.intersect_transformed (lm : Libm K) (hlm : SqrtExact lm) (s : Sphere K)
    (hinv : ∀ v : Vector3 K, s.m_object2World.mulVec (s.m_world2Object.mulVec v) = v)
    (ray : Ray K)
    (hd : ray.direction.dot ray.direction = 1 ∨ ray.direction = ⟨0, 0, 0⟩)
    (max_distance : K) (hfin : max_distance ≠ INFINITE) (hmax : 0 ≤ max_distance)
    (hit : Intersection K) (h : s.intersect lm ray max_distance = some hit) :
    0 ≤ hit.distance ∧ hit.distance ≤ max_distance ∧
    hit.point = ray.origin.add (ray.direction.scale hit.distance) := by
  obtain ⟨t, ht0, htmax, rfl⟩ := Sphere.intersect_finite_some lm s ray max_distance hfin hit h
  obtain ⟨o, d⟩ := ray
  simp only [Sphere.hitAt] at *
  -- the length `n` of the transformed direction
  have hnn : 0 ≤ (s.m_world2Object.mulWithoutTranslate d).dot
      (s.m_world2Object.mulWithoutTranslate d) := by
    simp only [Vector3.dot]; exact sumsq_nonneg _ _ _
  obtain ⟨hn0, hn1⟩ := hlm _ hnn
  have hlen : (s.m_world2Object.mulWithoutTranslate d).length lm =
      lm.sqrt ((s.m_world2Object.mulWithoutTranslate d).dot
        (s.m_world2Object.mulWithoutTranslate d)) := rfl
  generalize hn : lm.sqrt ((s.m_world2Object.mulWithoutTranslate d).dot
      (s.m_world2Object.mulWithoutTranslate d)) = n at hn0 hn1 hlen
  by_cases hnz : n = 0
  · -- the transformed direction vanishes: the hit is at the origin of the ray
    have hdir : (s.m_world2Object.mulWithoutTranslate d).normalized lm = ⟨0, 0, 0⟩ := by
      simp only [Vector3.normalized, hlen, hnz, if_true]
    have hp : (s.m_world2Object.mulVec o).add ((⟨0, 0, 0⟩ : Vector3 K).scale t) =
        s.m_world2Object.mulVec o := by
      simp [Vector3.add, Vector3.scale]
    rw [hdir, hp, hinv, Vector3.length_sub_self lm hlm]
    refine ⟨le_refl 0, hmax, ?_⟩
    simp [Vector3.add, Vector3.scale]
  · have hnpos : 0 < n := lt_of_le_of_ne hn0 (Ne.symm hnz)
    have hdir : (s.m_world2Object.mulWithoutTranslate d).normalized lm =
        (s.m_world2Object.mulWithoutTranslate d).scale (1 / n) := by
      simp only [Vector3.normalized, hlen, hnz, if_false, Vector3.scale, Vector3.mk.injEq]
      refine ⟨by ring, by ring, by ring⟩
    have hp : (s.m_world2Object.mulVec o).add
        (((s.m_world2Object.mulWithoutTranslate d).scale (1 / n)).scale t) =
        s.m_world2Object.mulVec (o.add (d.scale (t / n))) := by
      rw [← Matrix34.mulVec_affine]
      simp only [Vector3.add, Vector3.scale, Vector3.mk.injEq]
      refine ⟨by ring, by ring, by ring⟩
    rw [hdir, hp, hinv]
    have htn : 0 ≤ t / n := div_nonneg ht0 (le_of_lt hnpos)
    -- the ray direction cannot be zero here
    have hunit : d.dot d = 1 := by
      rcases hd with hd | hd
      · exact hd
      · exfalso
        apply hnz
        have hz : (s.m_world2Object.mulWithoutTranslate d).dot
            (s.m_world2Object.mulWithoutTranslate d) = 0 := by
          rw [hd]
          simp [Matrix34.mulWithoutTranslate, Vector3.dot]
        rw [hz] at hn
        rw [← hn]
        have := sqrt_mul_self_of_exact hlm (le_refl (0 : K))
        simpa using this
    rw [Vector3.length_scale_of_unit hlm o d hunit htn]
    -- the limit in object space is `max_distance * n`
    have hobjmax : ((s.m_world2Object.mulVec o).sub
        (s.m_world2Object.mulVec (o.add (d.scale max_distance)))).length lm =
        max_distance * n := by
      have e : ((s.m_world2Object.mulVec o).sub
          (s.m_world2Object.mulVec (o.add (d.scale max_distance)))) =
          (s.m_world2Object.mulWithoutTranslate d).scale (-max_distance) := by
        simp only [Matrix34.mulVec, Matrix34.mulWithoutTranslate, Vector3.add, Vector3.scale,
          Vector3.sub, Vector3.mk.injEq]
        refine ⟨by ring, by ring, by ring⟩
      rw [e]
      have e2 : ((s.m_world2Object.mulWithoutTranslate d).scale (-max_distance)).length lm =
          lm.sqrt ((max_distance * n) * (max_distance * n)) := by
        simp only [Vector3.length, Vector3.scale]
        congr 1
        simp only [Vector3.dot] at hn1
        have : (max_distance * n) * (max_distance * n) =
            max_distance * max_distance * (n * n) := by ring
        rw [this, hn1]
        ring
      rw [e2]
      exact sqrt_mul_self_of_exact hlm (mul_nonneg hmax (le_of_lt hnpos))
    rw [hobjmax] at htmax
    refine ⟨htn, ?_, rfl⟩
    rw [div_le_iff₀ hnpos]
    exact htmax

theorem axis_z_length (lm : Libm K) (hlm : SqrtExact lm) (z : K) :
    (⟨0, 0, z⟩ : Vector3 K).length lm = |z| := by
  simp only [Vector3.length, mul_zero, zero_add]
  rw [← abs_mul_abs_self z]
  exact sqrt_mul_self_of_exact hlm (abs_nonneg z)

/-- With `max_distance = -1` the sphere `nearSphere` still returns the hit at
distance 1/2 on `zRay`. -/
theorem nearSphere_negative_max (lm : Libm K) (hlm : SqrtExact lm) :
    ∃ hit : Intersection K, (nearSphere : Sphere K).intersect lm zRay (-1) = some hit ∧
      hit.distance = 1 / 2 := by
  have hs1 := sqrt_one_of_exact hlm
  have hfin : (-1 : K) ≠ INFINITE := by norm_num [INFINITE]
  have hdir : ((Matrix34.identity : Matrix34 K).mulWithoutTranslate
      (zRay : Ray K).direction).normalized lm = ⟨0, 0, 1⟩ := by
    rw [Matrix34.identity_mulWithoutTranslate]
    exact unit_z_normalized lm hs1 1 (by ring)
  have hmaxv : (((Matrix34.identity : Matrix34 K).mulVec (zRay : Ray K).origin).sub
      ((Matrix34.identity : Matrix34 K).mulVec
        ((zRay : Ray K).origin.add ((zRay : Ray K).direction.scale (-1))))).length lm = 1 := by
    rw [Matrix34.identity_mulVec, Matrix34.identity_mulVec]
    have e : (zRay : Ray K).origin.sub
        ((zRay : Ray K).origin.add ((zRay : Ray K).direction.scale (-1))) = ⟨0, 0, 1⟩ := by
      simp [zRay, Vector3.sub, Vector3.add, Vector3.scale]
    rw [e, axis_z_length lm hlm]
    simp
  have hrc : ((Matrix34.identity : Matrix34 K).mulVec (zRay : Ray K).origin).sub
      (nearSphere : Sphere K).m_center = ⟨0, 0, -(3 / 2)⟩ := by
    rw [Matrix34.identity_mulVec]
    simp [zRay, nearSphere, Vector3.sub]
  have hb : (⟨0, 0, -(3 / 2)⟩ : Vector3 K).dot ⟨0, 0, 1⟩ = -(3 / 2) := by
    simp [Vector3.dot]
  have hh : (-(3 / 2) : K) * -(3 / 2) -
      ((⟨0, 0, -(3 / 2)⟩ : Vector3 K).dot ⟨0, 0, -(3 / 2)⟩ -
        (nearSphere : Sphere K).m_radius * (nearSphere : Sphere K).m_radius) = 1 := by
    simp only [Vector3.dot, nearSphere]
    norm_num
  have hw2o : (nearSphere : Sphere K).m_world2Object = Matrix34.identity := rfl
  unfold Sphere.intersect
  simp only [hw2o, hfin, ne_eq, not_false_eq_true, if_true, hdir, hmaxv, hrc, hb, hh, hs1]
  norm_num
  simp only [Sphere.hitAt, nearSphere, Matrix34.identity_mulVec]
  exact Vector3.length_scale_of_unit hlm _ ⟨0, 0, 1⟩ (by simp [Vector3.dot]) (by norm_num)

theorem stretchedSphere_inverse (v : Vector3 K) :
    (stretchedSphere : Sphere K).m_object2World.mulVec
      ((stretchedSphere : Sphere K).m_world2Object.mulVec v) = v := by
  obtain ⟨x, y, z⟩ := v
  simp only [stretchedSphere, Matrix34.mulVec, Vector3.mk.injEq]
  refine ⟨by ring, by ring, by ring⟩

/-- The stretched sphere is hit by `farRay` within the distance 10. -/
theorem stretchedSphere_hit (lm : Libm K) (hlm : SqrtExact lm) :
    ∃ hit : Intersection K, (stretchedSphere : Sphere K).intersect lm farRay 10 = some hit := by
  have hs1 := sqrt_one_of_exact hlm
  have hfin : (10 : K) ≠ INFINITE := by norm_num [INFINITE]
  have ho : (stretchedSphere : Sphere K).m_world2Object.mulVec (farRay : Ray K).origin =
      ⟨0, 0, -2⟩ := by
    simp only [stretchedSphere, farRay, Matrix34.mulVec, Vector3.mk.injEq]
    norm_num
  have hdir : ((stretchedSphere : Sphere K).m_world2Object.mulWithoutTranslate
      (farRay : Ray K).direction).normalized lm = ⟨0, 0, 1⟩ := by
    have e : (stretchedSphere : Sphere K).m_world2Object.mulWithoutTranslate
        (farRay : Ray K).direction = ⟨0, 0, 1 / 2⟩ := by
      simp only [stretchedSphere, farRay, Matrix34.mulWithoutTranslate, Vector3.mk.injEq]
      norm_num
    rw [e]
    exact axis_z_normalized lm hlm _ (by norm_num)
  have hmaxv : (((⟨0, 0, -2⟩ : Vector3 K)).sub
      ((stretchedSphere : Sphere K).m_world2Object.mulVec
        ((farRay : Ray K).origin.add ((farRay : Ray K).direction.scale 10)))).length lm = 5 := by
    have e : ((⟨0, 0, -2⟩ : Vector3 K)).sub
        ((stretchedSphere : Sphere K).m_world2Object.mulVec
          ((farRay : Ray K).origin.add ((farRay : Ray K).direction.scale 10))) = ⟨0, 0, -5⟩ := by
      simp only [stretchedSphere, farRay, Matrix34.mulVec, Vector3.sub, Vector3.add,
        Vector3.scale, Vector3.mk.injEq]
      norm_num
    rw [e, axis_z_length lm hlm]
    norm_num
  have hrc : (⟨0, 0, -2⟩ : Vector3 K).sub (stretchedSphere : Sphere K).m_center =
      ⟨0, 0, -2⟩ := by
    simp [stretchedSphere, Vector3.sub]
  have hb : (⟨0, 0, -2⟩ : Vector3 K).dot ⟨0, 0, 1⟩ = -2 := by
    simp [Vector3.dot]
  have hh : (-2 : K) * -2 -
      ((⟨0, 0, -2⟩ : Vector3 K).dot ⟨0, 0, -2⟩ -
        (stretchedSphere : Sphere K).m_radius * (stretchedSphere : Sphere K).m_radius) = 1 := by
    simp only [Vector3.dot, stretchedSphere]
    norm_num
  unfold Sphere.intersect
  simp only [ho, hfin, ne_eq, not_false_eq_true, if_true, hdir, hmaxv, hrc, hb, hh, hs1]
  norm_num

/-! ## The PNG filter round trip -/

theorem castU8_sub_add (c p : Nat) (hc : c < 256) (hp : p < 256) :
    castU8 ((castU8 ((c : Int) - p) : Int) + p) = c := by
  unfold castU8
  omega

theorem UColor.sub_add_cancel (c p : UColor) (hc : c.IsBytes) (hp : p.IsBytes) :
    (c.sub p).add p = c := by
  obtain ⟨c1, c2, c3, c4⟩ := c
  obtain ⟨p1, p2, p3, p4⟩ := p
  obtain ⟨h1, h2, h3, h4⟩ := hc
  obtain ⟨g1, g2, g3, g4⟩ := hp
  simp only [UColor.sub, UColor.add, UColor.mk.injEq]
  exact ⟨castU8_sub_add _ _ h1 g1, castU8_sub_add _ _ h2 g2, castU8_sub_add _ _ h3 g3,
    castU8_sub_add _ _ h4 g4⟩

theorem decodePixel_encoded (filterType : PNGFilterType) (color prev pl plp : UColor)
    (hc : color.IsBytes) (hp : prev.IsBytes) (rest : List Nat) :
    decodePixel true filterType.toU8 prev pl plp
      ((if filterType = PNGFilterType.None then color else color.sub prev).rgba ++ rest) =
      some (color, rest) := by
  cases filterType with
  | None =>
    simp [decodePixel, UColor.rgba, PNGFilterType.toU8]
  | Sub =>
    have h := UColor.sub_add_cancel color prev hc hp
    simp only [reduceCtorEq, if_false, UColor.rgba, PNGFilterType.toU8, List.cons_append,
      List.nil_append, decodePixel, if_true]
    rw [show (⟨(color.sub prev).r, (color.sub prev).g, (color.sub prev).b, (color.sub prev).a⟩ :
      UColor) = color.sub prev from rfl, h]

section FloorScalars

variable [FloorRing K]

theorem clampScalar_unit (v : K) : 0 ≤ clampScalar v 0 1 ∧ clampScalar v 0 1 ≤ 1 := by
  unfold clampScalar
  split_ifs with h1 h2
  · exact ⟨le_refl 0, zero_le_one⟩
  · exact ⟨zero_le_one, le_refl 1⟩
  · exact ⟨le_of_not_lt h1, le_of_not_lt h2⟩

theorem scale_byte (v : K) : ⌊clampScalar v 0 1 * 255⌋₊ < 256 := by
  obtain ⟨h0, h1⟩ := clampScalar_unit v
  rw [Nat.floor_lt (mul_nonneg h0 (by norm_num))]
  push_cast
  nlinarith

theorem Color.scaleOut_isBytes (c : Color K) (gain : K) : (c.scaleOut gain).IsBytes :=
  ⟨scale_byte _, scale_byte _, scale_byte _, scale_byte _⟩

theorem decodeLine_filterLine (picture : Picture K) (gain : K) (filterType : PNGFilterType)
    (y : Nat) (n : Nat) :
    ∀ (x : Nat) (prev : UColor) (rest : List Nat) (pic : Picture K) (prevLine : List UColor)
      (plp : UColor), prev.IsBytes → pic.WellFormed → x + n ≤ pic.m_size.x →
      y < pic.m_size.y →
      ∃ pic2 prevLine2,
        decodeLine true filterType.toU8 y n x
          (filterLine picture gain filterType y n x prev ++ rest) pic prevLine prev plp =
          some (rest, pic2, prevLine2) ∧
        pic2.WellFormed ∧ pic2.m_size = pic.m_size ∧
        ∀ q : UPoint2, q.x < pic.m_size.x → q.y < pic.m_size.y →
          pic2.get q = if q.y = y ∧ x ≤ q.x ∧ q.x < x + n then quantized picture gain q
            else pic.get q := by
  induction n with
  | zero =>
    intro x prev rest pic prevLine plp _ hwf _ _
    refine ⟨pic, prevLine, rfl, hwf, rfl, ?_⟩
    intro q _ _
    have : ¬ (q.y = y ∧ x ≤ q.x ∧ q.x < x + 0) := by omega
    simp only [this, if_false]
  | succ n ih =>
    intro x prev rest pic prevLine plp hprev hwf hx hy
    have hcol := Color.scaleOut_isBytes (picture.get ⟨x, y⟩) gain
    obtain ⟨pic2, prevLine2, h1, h2, h3, h4⟩ := ih (x + 1) ((picture.get ⟨x, y⟩).scaleOut gain)
      rest (pic.set ⟨x, y⟩ (Color.ofUColor ((picture.get ⟨x, y⟩).scaleOut gain)))
      (prevLine.set x ((picture.get ⟨x, y⟩).scaleOut gain)) (prevLine.getD x ⟨0, 0, 0, 0⟩) hcol
      (Picture.set_wellFormed _ _ _ hwf) (by rw [Picture.set_size]; omega)
      (by rw [Picture.set_size]; exact hy)
    refine ⟨pic2, prevLine2, ?_, h2, by rw [h3, Picture.set_size], ?_⟩
    · unfold filterLine decodeLine
      simp only [List.append_assoc]
      rw [decodePixel_encoded filterType _ prev _ _ hcol hprev]
      exact h1
    · intro q hqx hqy
      rw [Picture.set_size] at h4
      rw [h4 q hqx hqy]
      have hxlt : x < pic.m_size.x := by omega
      have hin : pic.datapos ⟨x, y⟩ < pic.m_data.length := by
        rw [hwf]; exact Picture.datapos_lt pic _ hxlt hy
      by_cases hq : q = ⟨x, y⟩
      · have hqx' : q.x = x := by rw [hq]
        have hqy' : q.y = y := by rw [hq]
        have c1 : ¬ (q.y = y ∧ x + 1 ≤ q.x ∧ q.x < x + 1 + n) := by omega
        have c2 : q.y = y ∧ x ≤ q.x ∧ q.x < x + (n + 1) := by omega
        rw [if_neg c1, if_pos c2]
        have hget : (pic.set ⟨x, y⟩ (Color.ofUColor ((picture.get ⟨x, y⟩).scaleOut gain))).get q =
            Color.ofUColor ((picture.get ⟨x, y⟩).scaleOut gain) := by
          rw [hq]
          exact Picture.get_set_same pic _ _ hin
        rw [hget, hq]
        rfl
      · have hne : ¬ (q.y = y ∧ q.x = x) := by
          intro hh
          apply hq
          cases q
          simp_all
        rw [Picture.get_set_other pic _ _ _
          (fun heq => hq (Picture.datapos_inj pic _ _ hxlt hqx heq).symm)]
        by_cases c1 : q.y = y ∧ x + 1 ≤ q.x ∧ q.x < x + 1 + n
        · have c2 : q.y = y ∧ x ≤ q.x ∧ q.x < x + (n + 1) := by omega
          rw [if_pos c1, if_pos c2]
        · have c2 : ¬ (q.y = y ∧ x ≤ q.x ∧ q.x < x + (n + 1)) := by
            intro hh
            by_cases h5 : q.x = x
            · exact hne ⟨hh.1, h5⟩
            · exact c1 (by omega)
          rw [if_neg c1, if_neg c2]

theorem decodeLines_filterLines (picture : Picture K) (gain : K) (filterType : PNGFilterType)
    (n : Nat) :
    ∀ (y : Nat) (pic : Picture K) (prevLine : List UColor), pic.WellFormed →
      pic.m_size = picture.m_size → y + n = pic.m_size.y →
      ∃ pic2,
        decodeLines true picture.m_size.x n y (filterLines picture gain filterType n y) pic
          prevLine = some pic2 ∧
        pic2.m_size = pic.m_size ∧
        ∀ q : UPoint2, q.x < pic.m_size.x → q.y < pic.m_size.y →
          pic2.get q = if y ≤ q.y then quantized picture gain q else pic.get q := by
  induction n with
  | zero =>
    intro y pic prevLine _ _ hy
    refine ⟨pic, rfl, rfl, ?_⟩
    intro q _ hqy
    have : ¬ y ≤ q.y := by omega
    simp only [this, if_false]
  | succ n ih =>
    intro y pic prevLine hwf hsize hy
    obtain ⟨pic2, prevLine2, h1, h2, h3, h4⟩ := decodeLine_filterLine picture gain filterType y
      picture.m_size.x 0 ⟨0, 0, 0, 0⟩ (filterLines picture gain filterType n (y + 1)) pic prevLine
      ⟨0, 0, 0, 0⟩ (by simp [UColor.IsBytes]) hwf (by rw [hsize]; omega) (by omega)
    obtain ⟨pic3, g1, g2, g3⟩ := ih (y + 1) pic2 prevLine2 h2 (by rw [h3]; exact hsize)
      (by rw [h3]; omega)
    refine ⟨pic3, ?_, by rw [g2, h3], ?_⟩
    · unfold filterLines decodeLines
      simp only [Picture.size]
      rw [h1]
      exact g1
    · intro q hqx hqy
      rw [h3] at g3
      rw [g3 q hqx hqy, h4 q hqx hqy]
      by_cases c1 : y + 1 ≤ q.y
      · have c2 : y ≤ q.y := by omega
        rw [if_pos c1, if_pos c2]
      · by_cases c3 : q.y = y
        · have c2 : y ≤ q.y := by omega
          have c4 : q.y = y ∧ 0 ≤ q.x ∧ q.x < 0 + picture.m_size.x := by
            rw [← hsize]; omega
          rw [if_neg c1, if_pos c2, if_pos c4]
        · have c2 : ¬ y ≤ q.y := by omega
          have c4 : ¬ (q.y = y ∧ 0 ≤ q.x ∧ q.x < 0 + picture.m_size.x) := fun hh => c3 hh.1
          rw [if_neg c1, if_neg c2, if_neg c4]

/-- C26. For every picture, gain and filter type `None` or `Sub`,
`decodePngData` with colour type 6 applied to the filtered scan-line bytes of
`writeAPNGFrame` returns a picture of the same size whose pixel at every
position is `Color(p.scaleOut(gain))` for the original pixel `p`; each 8-bit
channel of `p.scaleOut(gain)` is `floor(clamp(c * gain, 0, 1) * 255)`, a
value below 256. -/
theorem decodePngData_filteredData (picture : Picture K) (gain : K)
    (filterType : PNGFilterType) (bitDepth compressionMethod filterMethod interlaceMethod : Nat) :
    ∃ decoded : Picture K,
      decodePngData ⟨picture.size.x, picture.size.y, bitDepth, 6, compressionMethod, filterMethod,
          interlaceMethod⟩ (filteredData picture gain filterType) = some decoded ∧
      decoded.size = picture.size ∧
      (∀ q : UPoint2, q.x < picture.size.x → q.y < picture.size.y →
        decoded.get q = Color.ofUColor ((picture.get q).scaleOut gain)) ∧
      ∀ p : Color K,
        p.scaleOut gain = ⟨⌊clampScalar (p.r * gain) 0 1 * 255⌋₊,
          ⌊clampScalar (p.g * gain) 0 1 * 255⌋₊, ⌊clampScalar (p.b * gain) 0 1 * 255⌋₊,
          ⌊clampScalar (p.a * gain) 0 1 * 255⌋₊⟩ ∧ (p.scaleOut gain).IsBytes := by
  have hwf : (Picture.new ⟨picture.m_size.x, picture.m_size.y⟩ : Picture K).WellFormed := by
    simp [Picture.WellFormed, Picture.new]
  obtain ⟨pic, h1, h2, h3⟩ := decodeLines_filterLines picture gain filterType picture.m_size.y 0
    (Picture.new ⟨picture.m_size.x, picture.m_size.y⟩)
    (List.replicate picture.m_size.x ⟨0, 0, 0, 0⟩) hwf rfl (by simp [Picture.new])
  refine ⟨pic, ?_, h2, ?_, fun p => ⟨rfl, Color.scaleOut_isBytes p gain⟩⟩
  · unfold decodePngData filteredData
    simp only [Picture.size, decide_True]
    exact h1
  · intro q hqx hqy
    rw [h3 q hqx hqy]
    simp only [Nat.zero_le, if_true]
    rfl

end FloorScalars

/-! ## Scheduling of the scan lines -/

theorem nodup_length_le (l : List Nat) (n : Nat) (hn : l.Nodup) (hl : ∀ t ∈ l, t < n) :
    l.length ≤ n := by
  have h1 : l.toFinset ⊆ Finset.range n := by
    intro t ht
    rw [List.mem_toFinset] at ht
    exact Finset.mem_range.mpr (hl t ht)
  have h2 := Finset.card_le_card h1
  rw [List.toFinset_card_of_nodup hn, Finset.card_range] at h2
  exact h2

theorem Workers.fetch_inv (height threads : Nat) (hbound : height + threads ≤ 4294967296)
    (s : Workers) (t : Nat) (ht : t < threads) (h : s.Inv height threads) :
    (s.fetch height t).Inv height threads := by
  obtain ⟨h1, h2, h3, h4, h5, h6⟩ := h
  unfold Workers.fetch
  by_cases hfin : t ∈ s.finished
  · rw [if_pos hfin]
    exact ⟨h1, h2, h3, h4, h5, h6⟩
  · rw [if_neg hfin]
    have hnd : (t :: s.finished).Nodup := List.nodup_cons.mpr ⟨hfin, h1⟩
    have hlt : ∀ u ∈ t :: s.finished, u < threads := by
      intro u hu
      rcases List.mem_cons.mp hu with rfl | hu
      · exact ht
      · exact h2 u hu
    have hcard := nodup_length_le _ threads hnd hlt
    simp only [List.length_cons] at hcard
    have hsmall : s.lines.length + s.finished.length < 4294967296 := by omega
    have hcounter : s.m_NextLine = s.lines.length + s.finished.length := by
      rw [h3]; exact Nat.mod_eq_of_lt hsmall
    simp only []
    by_cases hy : s.m_NextLine < height
    · rw [if_pos hy]
      have hF : s.finished = [] := by
        by_contra hne
        have := h6 hne
        omega
      refine ⟨h1, h2, ?_, ?_, ?_, ?_⟩
      · simp only [u32Add, List.length_append, List.length_singleton, hcounter]
        congr 1
        omega
      · simp only [List.map_append, List.map_cons, List.map_nil, List.length_append,
          List.length_singleton, List.range_succ, h4]
        rw [hcounter, hF]
        simp
      · simp only [List.length_append, List.length_singleton]
        rw [hcounter, hF] at hy
        simp at hy
        omega
      · intro hne
        exact absurd hF hne
    · rw [if_neg hy]
      refine ⟨hnd, hlt, ?_, h4, h5, ?_⟩
      · simp only [u32Add, List.length_cons, hcounter]
        congr 1
      · intro _
        show s.lines.length = height
        by_cases hF : s.finished = []
        · rw [hcounter, hF] at hy
          simp at hy
          omega
        · exact h6 hF

theorem Workers.run_inv (height threads : Nat) (hbound : height + threads ≤ 4294967296)
    (schedule : List Nat) (hsched : ∀ t ∈ schedule, t < threads) :
    (Workers.run height schedule).Inv height threads := by
  unfold Workers.run
  have key : ∀ (l : List Nat) (s : Workers), (∀ t ∈ l, t < threads) → s.Inv height threads →
      (l.foldl (Workers.fetch height) s).Inv height threads := by
    intro l
    induction l with
    | nil => exact fun s _ h => h
    | cons t rest ih =>
      intro s hl h
      exact ih _ (fun u hu => hl u (List.mem_cons_of_mem _ hu))
        (Workers.fetch_inv height threads hbound s t (hl t (List.mem_cons_self _ _)) h)
  apply key schedule _ hsched
  refine ⟨List.nodup_nil, by simp [Workers.start], ?_, ?_, ?_, ?_⟩ <;> simp [Workers.start]

/-- Scan-line scheduling while the counter cannot wrap (`height + threads <=
2^32`): in every execution in which all `threads >= 1` workers have ended,
the lines passed to `raytraceLine` are `0, 1, ..., height - 1`, each exactly
once, in this order of the `fetch_add` operations. -/
theorem Workers.run_lines (height threads : Nat) (hthreads : 1 ≤ threads)
    (hbound : height + threads ≤ 4294967296) (schedule : List Nat)
    (hsched : ∀ t ∈ schedule, t < threads)
    (hdone : ∀ t, t < threads → t ∈ (Workers.run height schedule).finished) :
    (Workers.run height schedule).lines.map Prod.snd = List.range height := by
  obtain ⟨_, _, _, h4, _, h6⟩ := Workers.run_inv height threads hbound schedule hsched
  have hne : (Workers.run height schedule).finished ≠ [] := by
    intro h
    have := hdone 0 (by omega)
    rw [h] at this
    exact absurd this (List.not_mem_nil _)
  rw [h4, h6 hne]

/-- A worker that runs alone from a counter at 0 takes the lines
`0, 1, ..., k - 1`. -/
theorem Workers.fetch_alone (height : Nat) (hheight : height < 4294967296) (t : Nat) (k : Nat) :
    ∀ (s : Workers), s.m_NextLine = 0 → t ∉ s.finished → k ≤ height →
      (List.replicate k t).foldl (Workers.fetch height) s =
        ⟨k, s.finished, s.lines ++ (List.range k).map (fun y => (t, y))⟩ := by
  induction k with
  | zero =>
    intro s h0 _ _
    obtain ⟨c, f, l⟩ := s
    simp only [] at h0
    simp [h0]
  | succ k ih =>
    intro s h0 hfin hk
    rw [List.replicate_succ', List.foldl_append, ih s h0 hfin (by omega)]
    simp only [List.foldl_cons, List.foldl_nil, Workers.fetch, hfin, if_false]
    have hlt : k < height := by omega
    rw [if_pos hlt]
    have hu : u32Add k 1 = k + 1 := by
      unfold u32Add
      exact Nat.mod_eq_of_lt (by omega)
    simp only [hu, List.range_succ, List.map_append, List.map_cons, List.map_nil,
      List.append_assoc]

/-- A worker that runs alone from a counter at 0 until its loop ends, for the
largest `u32` height: the counter is back at 0 when it ends. -/
theorem Workers.fetch_alone_wraps (height : Nat) (hheight : u32Add height 1 = 0)
    (hlt : height < 4294967296) (t : Nat) (s : Workers) (h0 : s.m_NextLine = 0)
    (hfin : t ∉ s.finished) :
    (List.replicate (height + 1) t).foldl (Workers.fetch height) s =
      ⟨0, t :: s.finished, s.lines ++ (List.range height).map (fun y => (t, y))⟩ := by
  rw [List.replicate_succ', List.foldl_append,
    Workers.fetch_alone height hlt t height s h0 hfin (le_refl _)]
  simp only [List.foldl_cons, List.foldl_nil, Workers.fetch, hfin, if_false, lt_irrefl, hheight]

/-- With a picture height of 4294967295 lines and two workers, of which the
second starts when the first has ended, every line is passed to
`raytraceLine` twice: the counter wraps to 0 when the first worker ends. -/
theorem Workers.run_wraps (height : Nat) (hheight : u32Add height 1 = 0)
    (hlt : height < 4294967296) :
    Workers.run height (List.replicate (height + 1) 0 ++ List.replicate (height + 1) 1) =
      ⟨0, [1, 0],
        (List.range height).map (fun y => (0, y)) ++ (List.range height).map (fun y => (1, y))⟩ := by
  unfold Workers.run
  rw [List.foldl_append, Workers.fetch_alone_wraps height hheight hlt 0 Workers.start rfl
    (by simp [Workers.start])]
  rw [Workers.fetch_alone_wraps height hheight hlt 1 _ rfl (by simp [Workers.start])]
  simp [Workers.start]

/-- C27, evaluated at the input on which the code leaves the claim: a picture
of 4294967295 lines and two workers, the first running until its loop ends
before the second starts. The `u32` counter wraps to 0 with the last
`fetch_add` of the first worker, and the second worker is passed every line
again: each line is passed to `raytraceLine` twice. -/
theorem Workers.run_counter_wraps :
    Workers.run 4294967295
        (List.replicate (4294967295 + 1) 0 ++ List.replicate (4294967295 + 1) 1) =
      ⟨0, [1, 0], (List.range 4294967295).map (fun y => (0, y)) ++
        (List.range 4294967295).map (fun y => (1, y))⟩ :=
  Workers.run_wraps 4294967295 (by decide) (by decide)

/-- Two workers on a picture of two lines, taking turns: the lines 0 and 1 are
each taken once and both workers end. -/
theorem Workers.run_lines_example :
    Workers.run 2 [0, 1, 0, 1] = ⟨4, [1, 0], [(0, 0), (1, 1)]⟩ ∧
    (Workers.run 2 [0, 1, 0, 1]).lines.map Prod.snd = List.range 2 :=
  ⟨by decide, Workers.run_lines 2 2 (by decide) (by decide) [0, 1, 0, 1] (by decide)
    (by decide)⟩

/-! ## The picture of a scene without objects -/

section FloorScalars

variable [FloorRing K]

end FloorScalars

/-! ## The mesh loader -/

theorem Mesh.Point.le_refl (p : Mesh.Point) : p.le p := ⟨Nat.le_refl _, Nat.le_refl _, Nat.le_refl _⟩

theorem Mesh.Point.le_trans {p q r : Mesh.Point} (h1 : p.le q) (h2 : q.le r) : p.le r :=
  ⟨Nat.le_trans h1.1 h2.1, Nat.le_trans h1.2.1 h2.2.1, Nat.le_trans h1.2.2 h2.2.2⟩

theorem Mesh.maxPoint_le (max : Mesh.Point) (q : Option Mesh.Point) :
    max.le (Mesh.maxPoint max q) := by
  cases q with
  | none => exact Mesh.Point.le_refl _
  | some p => exact ⟨Nat.le_max_left _ _, Nat.le_max_left _ _, Nat.le_max_left _ _⟩

theorem Mesh.le_maxPoint (max p : Mesh.Point) : p.le (Mesh.maxPoint max (some p)) :=
  ⟨Nat.le_max_right _ _, Nat.le_max_right _ _, Nat.le_max_right _ _⟩

/-- A point that the lambda of `Mesh::load` reads without error has vertex and
normal indices of at least 1. -/
theorem Mesh.parsePoint_pos (ex : Extract K) (stext : List Char) (p : Mesh.Point)
    (h : Mesh.parsePoint ex stext = some p) : 1 ≤ p.vertex ∧ 1 ≤ p.normal := by
  unfold Mesh.parsePoint at h
  split at h
  · exact absurd h (by simp)
  · split at h
    · exact absurd h (by simp)
    · split_ifs at h with h1
      split at h
      split at h
      · exact absurd h (by simp)
      · split at h
        · exact absurd h (by simp)
        · split_ifs at h with h2
          simp only [Option.some.injEq] at h
          subst h
          push_neg at h1 h2
          exact ⟨Nat.one_le_iff_ne_zero.mpr h1.2, Nat.one_le_iff_ne_zero.mpr h2.2⟩

/-- The new `max` of a face line bounds the old one and every point of the line
that was read without error. -/
theorem Mesh.loadFace_max (ex : Extract K) (max : Mesh.Point) (w0 w1 w2 : List Char) :
    max.le (Mesh.loadFace ex max w0 w1 w2).2 ∧
    ∀ w ∈ [w0, w1, w2], ∀ p, Mesh.parsePoint ex w = some p →
      p.le (Mesh.loadFace ex max w0 w1 w2).2 := by
  simp only [Mesh.loadFace]
  refine ⟨Mesh.Point.le_trans (Mesh.maxPoint_le _ _)
    (Mesh.Point.le_trans (Mesh.maxPoint_le _ _) (Mesh.maxPoint_le _ _)), ?_⟩
  intro w hw p hp
  simp only [List.mem_cons, List.mem_singleton, List.not_mem_nil, or_false] at hw
  rcases hw with rfl | rfl | rfl
  · rw [hp]
    exact Mesh.Point.le_trans (Mesh.le_maxPoint _ _)
      (Mesh.Point.le_trans (Mesh.maxPoint_le _ _) (Mesh.maxPoint_le _ _))
  · rw [hp]
    exact Mesh.Point.le_trans (Mesh.le_maxPoint _ _) (Mesh.maxPoint_le _ _)
  · rw [hp]
    exact Mesh.le_maxPoint _ _

/-- The face of a face line, when there is one, consists of the three points
read from its words. -/
theorem Mesh.loadFace_face (ex : Extract K) (max : Mesh.Point) (w0 w1 w2 : List Char)
    (face : Mesh.Face) (h : (Mesh.loadFace ex max w0 w1 w2).1 = some face) :
    Mesh.parsePoint ex w0 = some face.p0 ∧ Mesh.parsePoint ex w1 = some face.p1 ∧
    Mesh.parsePoint ex w2 = some face.p2 := by
  simp only [Mesh.loadFace] at h
  split at h
  · rename_i a b c h0 h1 h2
    simp only [Option.some.injEq] at h
    subst h
    exact ⟨h0, h1, h2⟩
  · exact absurd h (by simp)

/-- One line of the file: `max` and the three arrays only grow. -/
theorem Mesh.loadLine_mono (ex : Extract K) (st : Mesh K × Mesh.Point) (sline : List Char) :
    st.2.le (Mesh.loadLine ex st sline).2 ∧
    st.1.m_vertices.length ≤ (Mesh.loadLine ex st sline).1.m_vertices.length ∧
    st.1.m_textureCoords.length ≤ (Mesh.loadLine ex st sline).1.m_textureCoords.length ∧
    st.1.m_normals.length ≤ (Mesh.loadLine ex st sline).1.m_normals.length := by
  unfold Mesh.loadLine
  split
  · exact ⟨Mesh.Point.le_refl _, le_refl _, le_refl _, le_refl _⟩
  · split_ifs
    · split
      · exact ⟨Mesh.Point.le_refl _, le_refl _, le_refl _, le_refl _⟩
      · exact ⟨Mesh.Point.le_refl _, by simp, le_refl _, le_refl _⟩
    · split
      · exact ⟨Mesh.Point.le_refl _, le_refl _, le_refl _, le_refl _⟩
      · exact ⟨Mesh.Point.le_refl _, le_refl _, by simp, le_refl _⟩
    · split
      · exact ⟨Mesh.Point.le_refl _, le_refl _, le_refl _, le_refl _⟩
      · exact ⟨Mesh.Point.le_refl _, le_refl _, le_refl _, by simp⟩
    · split
      · exact ⟨Mesh.Point.le_refl _, le_refl _, le_refl _, le_refl _⟩
      · rename_i w0 w1 w2 _
        have hmax := (Mesh.loadFace_max ex st.2 w0 w1 w2).1
        split
        · rename_i max hface
          rw [hface] at hmax
          exact ⟨hmax, le_refl _, le_refl _, le_refl _⟩
        · rename_i face max hface
          rw [hface] at hmax
          exact ⟨hmax, le_refl _, le_refl _, le_refl _⟩
    · exact ⟨Mesh.Point.le_refl _, le_refl _, le_refl _, le_refl _⟩

/-- One line of the file keeps the invariant of the stored faces. -/
theorem Mesh.loadLine_facesBounded (ex : Extract K) (st : Mesh K × Mesh.Point)
    (sline : List Char) (h : Mesh.FacesBounded st) :
    Mesh.FacesBounded (Mesh.loadLine ex st sline) := by
  have hmono := (Mesh.loadLine_mono ex st sline).1
  have hold : ∀ st2 : Mesh K × Mesh.Point, st2.1.m_faces = st.1.m_faces → st.2.le st2.2 →
      Mesh.FacesBounded st2 := by
    intro st2 hf hle face hface p hp
    rw [hf] at hface
    obtain ⟨a, b, c⟩ := h face hface p hp
    exact ⟨a, b, Mesh.Point.le_trans c hle⟩
  revert hmono
  unfold Mesh.loadLine
  split
  · exact fun hmono => hold _ rfl hmono
  · split_ifs
    · split
      · exact fun hmono => hold _ rfl hmono
      · exact fun hmono => hold _ rfl hmono
    · split
      · exact fun hmono => hold _ rfl hmono
      · exact fun hmono => hold _ rfl hmono
    · split
      · exact fun hmono => hold _ rfl hmono
      · exact fun hmono => hold _ rfl hmono
    · split
      · exact fun hmono => hold _ rfl hmono
      · rename_i w0 w1 w2 _
        have hmax := (Mesh.loadFace_max ex st.2 w0 w1 w2).2
        have hpts := Mesh.loadFace_face ex st.2 w0 w1 w2
        split
        · exact fun hmono => hold _ rfl hmono
        · rename_i face max hface
          rw [hface] at hmax hpts
          obtain ⟨hp0, hp1, hp2⟩ := hpts face rfl
          intro hmono f hf p hp
          simp only [List.mem_append, List.mem_singleton] at hf
          rcases hf with hf | rfl
          · obtain ⟨a, b, c⟩ := h f hf p hp
            exact ⟨a, b, Mesh.Point.le_trans c hmono⟩
          · simp only [Mesh.Face.points, List.mem_cons, List.mem_singleton, List.not_mem_nil,
              or_false] at hp
            rcases hp with rfl | rfl | rfl
            · exact ⟨(Mesh.parsePoint_pos ex w0 _ hp0).1, (Mesh.parsePoint_pos ex w0 _ hp0).2,
                hmax w0 (by simp) _ hp0⟩
            · exact ⟨(Mesh.parsePoint_pos ex w1 _ hp1).1, (Mesh.parsePoint_pos ex w1 _ hp1).2,
                hmax w1 (by simp) _ hp1⟩
            · exact ⟨(Mesh.parsePoint_pos ex w2 _ hp2).1, (Mesh.parsePoint_pos ex w2 _ hp2).2,
                hmax w2 (by simp) _ hp2⟩
    · exact fun hmono => hold _ rfl hmono

/-- After a face line, `max` bounds every point of the line that was read without
error. -/
theorem Mesh.loadLine_faceWord (ex : Extract K) (st : Mesh K × Mesh.Point)
    (sline w : List Char) (hw : Mesh.FaceWord ex sline w) (p : Mesh.Point)
    (hp : Mesh.parsePoint ex w = some p) : p.le (Mesh.loadLine ex st sline).2 := by
  obtain ⟨line, w0, w1, w2, hcmd, hwords, hmem⟩ := hw
  have hmax := (Mesh.loadFace_max ex st.2 w0 w1 w2).2 w hmem p hp
  unfold Mesh.loadLine
  rw [hcmd]
  simp only [hwords]
  rw [if_neg (by decide), if_neg (by decide), if_neg (by decide), if_pos trivial]
  split
  · rename_i max hface
    rw [hface] at hmax
    exact hmax
  · rename_i face max hface
    rw [hface] at hmax
    exact hmax

theorem Mesh.foldl_loadLine_mono (ex : Extract K) (lines : List (List Char)) :
    ∀ st : Mesh K × Mesh.Point,
      st.2.le (lines.foldl (Mesh.loadLine ex) st).2 := by
  induction lines with
  | nil => exact fun st => Mesh.Point.le_refl _
  | cons l rest ih =>
    intro st
    exact Mesh.Point.le_trans (Mesh.loadLine_mono ex st l).1 (ih _)

theorem Mesh.foldl_loadLine_facesBounded (ex : Extract K) (lines : List (List Char)) :
    ∀ st : Mesh K × Mesh.Point, Mesh.FacesBounded st →
      Mesh.FacesBounded (lines.foldl (Mesh.loadLine ex) st) := by
  induction lines with
  | nil => exact fun st h => h
  | cons l rest ih =>
    intro st h
    exact ih _ (Mesh.loadLine_facesBounded ex st l h)

theorem Mesh.foldl_loadLine_faceWord (ex : Extract K) (lines : List (List Char))
    (sline w : List Char) (hw : Mesh.FaceWord ex sline w) (p : Mesh.Point)
    (hp : Mesh.parsePoint ex w = some p) :
    ∀ st : Mesh K × Mesh.Point, sline ∈ lines →
      p.le (lines.foldl (Mesh.loadLine ex) st).2 := by
  induction lines with
  | nil => exact fun st h => absurd h (List.not_mem_nil _)
  | cons l rest ih =>
    intro st h
    by_cases hrest : sline ∈ rest
    · exact ih _ hrest
    · rcases List.mem_cons.mp h with rfl | h
      · exact Mesh.Point.le_trans (Mesh.loadLine_faceWord ex st sline w hw p hp)
          (Mesh.foldl_loadLine_mono ex rest _)
      · exact absurd h hrest

theorem mapM_isSome {α β : Type} (f : α → Option β) (l : List α)
    (h : ∀ x ∈ l, (f x).isSome = true) : (l.mapM f).isSome = true := by
  induction l with
  | nil => rfl
  | cons a rest ih =>
    have ha := h a (List.mem_cons_self _ _)
    have hr := ih (fun x hx => h x (List.mem_cons_of_mem _ hx))
    obtain ⟨b, hb⟩ := Option.isSome_iff_exists.mp ha
    obtain ⟨bs, hbs⟩ := Option.isSome_iff_exists.mp hr
    rw [List.mapM_cons, hb, hbs]
    rfl

theorem u32Sub_one_lt (i n : Nat) (h1 : 1 ≤ i) (h2 : i ≤ n) : u32Sub i 1 < n := by
  unfold u32Sub
  have : (i + 4294967296 - 1) % 4294967296 = (i - 1) % 4294967296 := by
    have : i + 4294967296 - 1 = (i - 1) + 4294967296 := by omega
    rw [this, Nat.add_mod_right]
  rw [this]
  exact lt_of_le_of_lt (Nat.mod_le _ _) (by omega)

/-- A point within the ranges of the three arrays never makes
`Mesh::createObjects` index outside them. -/
theorem Mesh.createVertex_isSome (m : Mesh K) (vertices normals : List (Vector3 K))
    (p : Mesh.Point) (hv1 : 1 ≤ p.vertex) (hv : p.vertex ≤ vertices.length)
    (hn1 : 1 ≤ p.normal) (hn : p.normal ≤ normals.length)
    (ht : p.textureCoord ≤ m.m_textureCoords.length) :
    (m.createVertex vertices normals p).isSome = true := by
  unfold Mesh.createVertex
  have h1 := u32Sub_one_lt p.vertex vertices.length hv1 hv
  have h2 := u32Sub_one_lt p.normal normals.length hn1 hn
  rw [List.getElem?_eq_getElem h1, List.getElem?_eq_getElem h2]
  by_cases h0 : p.textureCoord > 0
  · rw [if_pos h0, List.getElem?_eq_getElem (u32Sub_one_lt _ _ h0 ht)]
    rfl
  · rw [if_neg h0]
    rfl

/-- C28. Whenever `Mesh::load` succeeds, every stored face point has its vertex
index in [1, number of vertices], its normal index in [1, number of normals]
and its texture index in [0, number of texture coordinates], and
`Mesh::createObjects` never indexes one of its three arrays out of range, for
every material and every pair of transformations. A file with a face line (the
command `f` followed by three words) one of whose points, read without error,
has an index above the respective count of the file makes `load` fail. This
holds for every behaviour of the stream extraction operators. -/
theorem Mesh.load_indices_in_range (ex : Extract K) (lines : List (List Char)) :
    (∀ m : Mesh K, Mesh.load ex lines = some m →
      (∀ face ∈ m.m_faces, ∀ p ∈ face.points,
        1 ≤ p.vertex ∧ p.vertex ≤ m.m_vertices.length ∧
        1 ≤ p.normal ∧ p.normal ≤ m.m_normals.length ∧
        p.textureCoord ≤ m.m_textureCoords.length) ∧
      ∀ (lm : Libm K) (material : Material K) (verticesTransform normalsTransform : Matrix34 K),
        (m.createObjects lm material verticesTransform normalsTransform).isSome = true) ∧
    ((∃ sline ∈ lines, ∃ w p, Mesh.FaceWord ex sline w ∧ Mesh.parsePoint ex w = some p ∧
        (p.vertex > (Mesh.loadLines ex lines).1.m_vertices.length ∨
         p.normal > (Mesh.loadLines ex lines).1.m_normals.length ∨
         p.textureCoord > (Mesh.loadLines ex lines).1.m_textureCoords.length)) →
      Mesh.load ex lines = none) := by
  have hrange : ∀ m : Mesh K, Mesh.load ex lines = some m →
      ∀ face ∈ m.m_faces, ∀ p ∈ face.points,
        1 ≤ p.vertex ∧ p.vertex ≤ m.m_vertices.length ∧
        1 ≤ p.normal ∧ p.normal ≤ m.m_normals.length ∧
        p.textureCoord ≤ m.m_textureCoords.length := by
    intro m hload face hface p hp
    have hinv : Mesh.FacesBounded (Mesh.loadLines ex lines) :=
      Mesh.foldl_loadLine_facesBounded ex lines _
        (fun f hf => absurd hf (List.not_mem_nil _))
    unfold Mesh.load at hload
    simp only [] at hload
    split_ifs at hload with hcheck
    simp only [Option.some.injEq] at hload
    subst hload
    obtain ⟨a, b, c1, c2, c3⟩ := hinv face hface p hp
    push_neg at hcheck
    exact ⟨a, Nat.le_trans c1 (by omega), b, Nat.le_trans c3 (by omega),
      Nat.le_trans c2 (by omega)⟩
  refine ⟨fun m hload => ⟨hrange m hload, ?_⟩, ?_⟩
  · intro lm material verticesTransform normalsTransform
    unfold Mesh.createObjects
    apply mapM_isSome
    intro face hface
    have hpts := hrange m hload face hface
    have hv : ∀ p ∈ face.points, (m.createVertex
        (m.m_vertices.map (fun p => verticesTransform.mulVec p))
        (m.m_normals.map (fun n => (normalsTransform.mulVec n).normalized lm)) p).isSome
          = true := by
      intro p hp
      obtain ⟨a, b, c, d, e⟩ := hpts p hp
      exact Mesh.createVertex_isSome m _ _ p a (by simpa using b) c (by simpa using d) e
    obtain ⟨v0, h0⟩ := Option.isSome_iff_exists.mp (hv face.p0 (by simp [Mesh.Face.points]))
    obtain ⟨v1, h1⟩ := Option.isSome_iff_exists.mp (hv face.p1 (by simp [Mesh.Face.points]))
    obtain ⟨v2, h2⟩ := Option.isSome_iff_exists.mp (hv face.p2 (by simp [Mesh.Face.points]))
    simp only [Mesh.createObject, h0, h1, h2, Option.isSome_some]
  · rintro ⟨sline, hmem, w, p, hw, hp, hout⟩
    have hle := Mesh.foldl_loadLine_faceWord ex lines sline w hw p hp
      (⟨[], [], [], []⟩, ⟨0, 0, 0⟩) hmem
    unfold Mesh.load
    simp only []
    rw [if_pos]
    obtain ⟨a, b, c⟩ := hle
    unfold Mesh.loadLines at hout ⊢
    rcases hout with h | h | h
    · exact Or.inr (Or.inr (by omega))
    · exact Or.inl (by omega)
    · exact Or.inr (Or.inl (by omega))

/-! ## Nearest-hit selection -/

/-- What the loop of `castRay` sees of an object under a limit: nothing, a hit
that it passes over, or the accepted hit of the object, within the limit. -/
theorem intersect_limited_cases (lm : Libm K) (ray : Ray K) (object : Object K)
    (hlim : object.DistanceLimited lm ray) (max_distance : K) (h0 : 0 ≤ max_distance)
    (h1 : max_distance ≤ INFINITE) :
    object.intersect lm ray max_distance = none ∧
      (∀ h, acceptedHit lm ray object = some h → max_distance < h.distance) ∨
    ∃ hit, object.intersect lm ray max_distance = some hit ∧
      object.intersect lm ray INFINITE = some hit ∧ hit.distance ≤ max_distance ∧
      0 ≤ hit.distance ∧ hit.distance ≤ INFINITE := by
  have hf := hlim.2 max_distance h0 h1
  cases hinf : object.intersect lm ray INFINITE with
  | none =>
    left
    rw [hinf] at hf
    refine ⟨by simpa using hf, ?_⟩
    intro h hacc
    simp [acceptedHit, hinf] at hacc
  | some hit =>
    rw [hinf] at hf
    by_cases hd : hit.distance ≤ max_distance
    · right
      refine ⟨hit, ?_, rfl, hd, hlim.1 hit hinf⟩
      rw [hf]
      simp [Option.filter, hd]
    · left
      refine ⟨?_, ?_⟩
      · rw [hf]
        simp [Option.filter, hd]
      · intro h hacc
        simp only [acceptedHit, hinf, Option.filter] at hacc
        split_ifs at hacc
        simp only [Option.some.injEq] at hacc
        subst hacc
        exact lt_of_not_le hd

section FloorScalars

variable [FloorRing K]

/-- The loop of `castRay` over objects whose accepted hits all lie beyond the
limit leaves `rad` as it is. -/
theorem castRayObjects_beyond (lm : Libm K) (scene : Scene K)
    (recurse : Ray K → Nat → K → Option (Color K)) (ray : Ray K) (recursion : Nat)
    (wavelength : K) (objects : List (Object K))
    (hlim : ∀ o ∈ objects, o.DistanceLimited lm ray) :
    ∀ (rad : Color K) (max_distance : K), 0 ≤ max_distance → max_distance ≤ INFINITE →
      (∀ o ∈ objects, ∀ h, acceptedHit lm ray o = some h → max_distance < h.distance) →
      castRayObjects lm scene recurse ray recursion wavelength objects rad max_distance =
        some rad := by
  induction objects with
  | nil => exact fun rad _ _ _ _ => rfl
  | cons object rest ih =>
    intro rad max_distance h0 h1 hfar
    have hrest := ih (fun o ho => hlim o (List.mem_cons_of_mem _ ho)) rad max_distance h0 h1
      (fun o ho => hfar o (List.mem_cons_of_mem _ ho))
    unfold castRayObjects
    rcases intersect_limited_cases lm ray object (hlim object (List.mem_cons_self _ _))
      max_distance h0 h1 with ⟨hnone, _⟩ | ⟨hit, hsome, hinf, hd, _, _⟩
    · rw [hnone]
      exact hrest
    · rw [hsome]
      simp only []
      by_cases hskip : clampScalar (ray.direction.dot hit.normal) (-1) 1 ≥ 0 ∧
          (object.material.transmittance = 0 ∨ object.material.refraction.norm = 0)
      · rw [if_pos hskip]
        exact hrest
      · exfalso
        have hacc : acceptedHit lm ray object = some hit := by
          simp only [acceptedHit, hinf, Option.filter, hitSkipped]
          simp [hskip]
        exact absurd hd (not_le.mpr (hfar object (List.mem_cons_self _ _) hit hacc))

/-- The loop of `castRay` over objects of which one has an accepted hit within
the limit that is nearer than the accepted hits of all the others: the result is
the radiance computed at that hit. -/
theorem castRayObjects_nearest (lm : Libm K) (scene : Scene K)
    (recurse : Ray K → Nat → K → Option (Color K)) (ray : Ray K) (recursion : Nat)
    (hrec : ∀ (ray : Ray K) (wavelength : K),
      ∃ c, recurse ray (u32Add recursion 1) wavelength = some c)
    (wavelength : K) (object : Object K) (hit : Intersection K)
    (hacc : acceptedHit lm ray object = some hit) (hobj : object.DistanceLimited lm ray)
    (post : List (Object K)) (hpost : ∀ o ∈ post, o.DistanceLimited lm ray)
    (hpostfar : ∀ o ∈ post, ∀ h, acceptedHit lm ray o = some h → hit.distance < h.distance)
    (pre : List (Object K)) (hpre : ∀ o ∈ pre, o.DistanceLimited lm ray)
    (hprefar : ∀ o ∈ pre, ∀ h, acceptedHit lm ray o = some h → hit.distance < h.distance) :
    ∀ (rad : Color K) (max_distance : K), max_distance ≤ INFINITE →
      hit.distance ≤ max_distance →
      castRayObjects lm scene recurse ray recursion wavelength (pre ++ object :: post) rad
          max_distance =
        hitRadiance lm scene recurse ray recursion wavelength object hit
          (clampScalar (ray.direction.dot hit.normal) (-1) 1) := by
  have hinf : object.intersect lm ray INFINITE = some hit ∧ hitSkipped ray object hit = false := by
    simp only [acceptedHit] at hacc
    cases h : object.intersect lm ray INFINITE with
    | none => rw [h] at hacc; simp at hacc
    | some x =>
      rw [h] at hacc
      simp only [Option.filter] at hacc
      split_ifs at hacc with hx
      simp only [Option.some.injEq] at hacc
      subst hacc
      exact ⟨rfl, by simpa using hx⟩
  have hrange := hobj.1 hit hinf.1
  induction pre with
  | nil =>
    intro rad max_distance h1 hd
    have h0 : 0 ≤ max_distance := le_trans hrange.1 hd
    simp only [List.nil_append]
    unfold castRayObjects
    have hsome : object.intersect lm ray max_distance = some hit := by
      rw [hobj.2 max_distance h0 h1, hinf.1]
      simp [Option.filter, hd]
    rw [hsome]
    simp only []
    have hskip : ¬(clampScalar (ray.direction.dot hit.normal) (-1) 1 ≥ 0 ∧
        (object.material.transmittance = 0 ∨ object.material.refraction.norm = 0)) := by
      have := hinf.2
      simp only [hitSkipped, decide_eq_false_iff_not] at this
      exact this
    rw [if_neg hskip]
    obtain ⟨c, hc⟩ := hitRadiance_isSome lm scene recurse recursion hrec ray wavelength object hit
      (clampScalar (ray.direction.dot hit.normal) (-1) 1)
    rw [hc]
    simp only []
    exact castRayObjects_beyond lm scene recurse ray recursion wavelength post hpost c hit.distance
      hrange.1 hrange.2 hpostfar
  | cons o rest ih =>
    intro rad max_distance h1 hd
    have h0 : 0 ≤ max_distance := le_trans hrange.1 hd
    have ih2 := ih (fun p hp => hpre p (List.mem_cons_of_mem _ hp))
      (fun p hp => hprefar p (List.mem_cons_of_mem _ hp))
    simp only [List.cons_append]
    unfold castRayObjects
    rcases intersect_limited_cases lm ray o (hpre o (List.mem_cons_self _ _))
      max_distance h0 h1 with ⟨hnone, _⟩ | ⟨ohit, hsome, hoinf, hod, _, holim⟩
    · rw [hnone]
      exact ih2 rad max_distance h1 hd
    · rw [hsome]
      simp only []
      by_cases hskip : clampScalar (ray.direction.dot ohit.normal) (-1) 1 ≥ 0 ∧
          (o.material.transmittance = 0 ∨ o.material.refraction.norm = 0)
      · rw [if_pos hskip]
        exact ih2 rad max_distance h1 hd
      · rw [if_neg hskip]
        have hoacc : acceptedHit lm ray o = some ohit := by
          simp only [acceptedHit, hoinf, Option.filter, hitSkipped]
          simp [hskip]
        have hlt := hprefar o (List.mem_cons_self _ _) ohit hoacc
        obtain ⟨c, hc⟩ := hitRadiance_isSome lm scene recurse recursion hrec ray wavelength o ohit
          (clampScalar (ray.direction.dot ohit.normal) (-1) 1)
        rw [hc]
        simp only []
        exact ih2 c ohit.distance holim (le_of_lt hlt)

end FloorScalars

/-- Triangles limit the distance as a filter, on every ray. -/
theorem Object.triangle_distanceLimited (lm : Libm K) (ray : Ray K) (object : Object K)
    (t : Triangle K) (ht : object.m_object = Primitive.triangle t) :
    object.DistanceLimited lm ray := by
  have hint : ∀ m, object.intersect lm ray m = t.intersect lm ray m := by
    intro m
    simp only [Object.intersect, ht, Primitive.intersect]
  constructor
  · intro hit hhit
    rw [hint, Triangle.intersect_eq] at hhit
    split_ifs at hhit with h1 h2 h3
    simp only [Option.some.injEq] at hhit
    subst hhit
    push_neg at h3
    exact h3
  · intro max_distance _ hmax
    rw [hint, hint, Triangle.intersect_eq, Triangle.intersect_eq]
    by_cases h1 : t.mtWeight1 ray < -EPSILON ∨ t.mtWeight1 ray > 1
    · rw [if_pos h1, if_pos h1]
      rfl
    · rw [if_neg h1, if_neg h1]
      by_cases h2 : t.mtWeight2 ray < -EPSILON ∨ t.mtWeight1 ray + t.mtWeight2 ray > 1
      · rw [if_pos h2, if_pos h2]
        rfl
      · rw [if_neg h2, if_neg h2]
        by_cases h3 : t.mtDistance ray < 0 ∨ t.mtDistance ray > max_distance
        · rw [if_pos h3]
          by_cases h4 : t.mtDistance ray < 0 ∨ t.mtDistance ray > INFINITE
          · rw [if_pos h4]
            rfl
          · rw [if_neg h4]
            push_neg at h4
            have : ¬ t.mtDistance ray ≤ max_distance := by
              rcases h3 with h3 | h3
              · exact absurd h4.1 (not_le.mpr h3)
              · exact not_le.mpr h3
            simp [Option.filter, this]
        · rw [if_neg h3]
          push_neg at h3
          have h4 : ¬(t.mtDistance ray < 0 ∨ t.mtDistance ray > INFINITE) := by
            push_neg
            exact ⟨h3.1, le_trans h3.2 hmax⟩
          rw [if_neg h4]
          simp [Option.filter, h3.2]

/-- The accepted hit of a triangle has the distance of the Moller-Trumbore
formula. -/
theorem acceptedHit_triangle_distance (lm : Libm K) (ray : Ray K) (object : Object K)
    (t : Triangle K) (ht : object.m_object = Primitive.triangle t) (hit : Intersection K)
    (h : acceptedHit lm ray object = some hit) : hit.distance = t.mtDistance ray := by
  simp only [acceptedHit, Object.intersect, ht, Primitive.intersect] at h
  cases hi : t.intersect lm ray INFINITE with
  | none => rw [hi] at h; simp at h
  | some x =>
    rw [hi] at h
    simp only [Option.filter] at h
    split_ifs at h
    simp only [Option.some.injEq] at h
    subst h
    exact (Triangle.intersect_accept_iff lm t ray INFINITE).2 x hi

theorem DistinctHits.symm (lm : Libm K) (ray : Ray K) (a b : Object K)
    (h : DistinctHits lm ray a b) : DistinctHits lm ray b a :=
  fun hb ha h1 h2 heq => h ha hb h2 h1 heq.symm

/-- Among objects of which one has an accepted hit, one accepted hit has the
smallest distance. -/
theorem exists_nearestAccepted (lm : Libm K) (ray : Ray K) (objects : List (Object K))
    (h : ∃ o ∈ objects, ∃ hit, acceptedHit lm ray o = some hit) :
    ∃ object hit, NearestAccepted lm ray objects object hit := by
  induction objects with
  | nil =>
    obtain ⟨o, ho, _⟩ := h
    exact absurd ho (List.not_mem_nil _)
  | cons a rest ih =>
    by_cases hrest : ∃ o ∈ rest, ∃ hit, acceptedHit lm ray o = some hit
    · obtain ⟨object, hit, hmem, hacc, hmin⟩ := ih hrest
      cases ha : acceptedHit lm ray a with
      | none =>
        refine ⟨object, hit, List.mem_cons_of_mem _ hmem, hacc, ?_⟩
        intro o ho h' ho'
        rcases List.mem_cons.mp ho with rfl | ho
        · rw [ha] at ho'
          exact absurd ho' (by simp)
        · exact hmin o ho h' ho'
      | some ahit =>
        by_cases hle : ahit.distance ≤ hit.distance
        · refine ⟨a, ahit, List.mem_cons_self _ _, ha, ?_⟩
          intro o ho h' ho'
          rcases List.mem_cons.mp ho with rfl | ho
          · rw [ha] at ho'
            simp only [Option.some.injEq] at ho'
            rw [ho']
          · exact le_trans hle (hmin o ho h' ho')
        · refine ⟨object, hit, List.mem_cons_of_mem _ hmem, hacc, ?_⟩
          intro o ho h' ho'
          rcases List.mem_cons.mp ho with rfl | ho
          · rw [ha] at ho'
            simp only [Option.some.injEq] at ho'
            rw [← ho']
            exact le_of_lt (lt_of_not_le hle)
          · exact hmin o ho h' ho'
    · obtain ⟨o, ho, hit, hacc⟩ := h
      rcases List.mem_cons.mp ho with rfl | ho
      · refine ⟨o, hit, List.mem_cons_self _ _, hacc, ?_⟩
        intro o' ho' h' hacc'
        rcases List.mem_cons.mp ho' with rfl | ho'
        · rw [hacc] at hacc'
          simp only [Option.some.injEq] at hacc'
          rw [hacc']
        · exact absurd ⟨o', ho', h', hacc'⟩ hrest
      · exact absurd ⟨o, ho, hit, hacc⟩ hrest

/-- With pairwise distinct distances, the nearest accepted hit splits the list
of the objects into those before and those after its object, which all have
farther accepted hits. -/
theorem NearestAccepted.split (lm : Libm K) (ray : Ray K) (objects : List (Object K))
    (hdistinct : objects.Pairwise (DistinctHits lm ray)) (object : Object K)
    (hit : Intersection K) (h : NearestAccepted lm ray objects object hit) :
    ∃ pre post, objects = pre ++ object :: post ∧
      (∀ o ∈ pre, ∀ h, acceptedHit lm ray o = some h → hit.distance < h.distance) ∧
      (∀ o ∈ post, ∀ h, acceptedHit lm ray o = some h → hit.distance < h.distance) := by
  obtain ⟨hmem, hacc, hmin⟩ := h
  obtain ⟨pre, post, rfl⟩ := List.append_of_mem hmem
  rw [List.pairwise_append] at hdistinct
  obtain ⟨_, hpost, hcross⟩ := hdistinct
  rw [List.pairwise_cons] at hpost
  refine ⟨pre, post, rfl, ?_, ?_⟩
  · intro o ho h hoacc
    have hne := hcross o ho object (List.mem_cons_self _ _) h hit hoacc hacc
    exact lt_of_le_of_ne (hmin o (List.mem_append_left _ ho) h hoacc) (Ne.symm hne)
  · intro o ho h hoacc
    have hne := hpost.1 o ho hit h hacc hoacc
    exact lt_of_le_of_ne
      (hmin o (List.mem_append_right _ (List.mem_cons_of_mem _ ho)) h hoacc) hne

section FloorScalars

variable [FloorRing K]

/-- The loop of `castRay` from the background and without limit, over objects
with pairwise distinct accepted distances: the background when no object has an
accepted hit, else the radiance computed at the nearest accepted hit. -/
theorem castRayObjects_selects (lm : Libm K) (scene : Scene K)
    (recurse : Ray K → Nat → K → Option (Color K)) (ray : Ray K) (recursion : Nat)
    (hrec : ∀ (ray : Ray K) (wavelength : K),
      ∃ c, recurse ray (u32Add recursion 1) wavelength = some c)
    (wavelength : K) (objects : List (Object K))
    (hlim : ∀ o ∈ objects, o.DistanceLimited lm ray)
    (hdistinct : objects.Pairwise (DistinctHits lm ray)) :
    ((∀ o ∈ objects, acceptedHit lm ray o = none) →
      castRayObjects lm scene recurse ray recursion wavelength objects scene.m_background
        INFINITE = some scene.m_background) ∧
    ∀ object hit, NearestAccepted lm ray objects object hit →
      castRayObjects lm scene recurse ray recursion wavelength objects scene.m_background
          INFINITE =
        hitRadiance lm scene recurse ray recursion wavelength object hit
          (clampScalar (ray.direction.dot hit.normal) (-1) 1) := by
  have hinf : (0 : K) ≤ INFINITE := by norm_num [INFINITE]
  constructor
  · intro hnone
    apply castRayObjects_beyond lm scene recurse ray recursion wavelength objects hlim _ _ hinf
      (le_refl _)
    intro o ho h hacc
    rw [hnone o ho] at hacc
    exact absurd hacc (by simp)
  · intro object hit hnear
    obtain ⟨pre, post, rfl, hpre, hpost⟩ := hnear.split lm ray objects hdistinct object hit
    have hobj := hlim object (List.mem_append_right _ (List.mem_cons_self _ _))
    have hhit : object.intersect lm ray INFINITE = some hit := by
      have hacc := hnear.2.1
      simp only [acceptedHit] at hacc
      cases h : object.intersect lm ray INFINITE with
      | none => rw [h] at hacc; simp at hacc
      | some x =>
        rw [h] at hacc
        simp only [Option.filter] at hacc
        split_ifs at hacc
        simp only [Option.some.injEq] at hacc
        rw [hacc]
    exact castRayObjects_nearest lm scene recurse ray recursion hrec wavelength object hit
      hnear.2.1 hobj post
      (fun o ho => hlim o (List.mem_append_right _ (List.mem_cons_of_mem _ ho))) hpost pre
      (fun o ho => hlim o (List.mem_append_left _ ho)) hpre scene.m_background INFINITE
      (le_refl _) (hobj.1 hit hhit).2

/-- The loop of `castRay` gives the same result on every order of objects with
pairwise distinct accepted distances. -/
theorem castRayObjects_perm (lm : Libm K) (scene : Scene K)
    (recurse : Ray K → Nat → K → Option (Color K)) (ray : Ray K) (recursion : Nat)
    (hrec : ∀ (ray : Ray K) (wavelength : K),
      ∃ c, recurse ray (u32Add recursion 1) wavelength = some c)
    (wavelength : K) (objects : List (Object K))
    (hlim : ∀ o ∈ objects, o.DistanceLimited lm ray)
    (hdistinct : objects.Pairwise (DistinctHits lm ray))
    (reordered : List (Object K)) (hperm : reordered.Perm objects) :
    castRayObjects lm scene recurse ray recursion wavelength reordered scene.m_background
        INFINITE =
      castRayObjects lm scene recurse ray recursion wavelength objects scene.m_background
        INFINITE := by
  have hlim2 : ∀ o ∈ reordered, o.DistanceLimited lm ray :=
    fun o ho => hlim o (hperm.mem_iff.mp ho)
  have hdistinct2 : reordered.Pairwise (DistinctHits lm ray) :=
    (hperm.pairwise_iff (fun {a b} h => DistinctHits.symm lm ray a b h)).mpr hdistinct
  have h1 := castRayObjects_selects lm scene recurse ray recursion hrec wavelength objects hlim
    hdistinct
  have h2 := castRayObjects_selects lm scene recurse ray recursion hrec wavelength reordered
    hlim2 hdistinct2
  by_cases hany : ∃ o ∈ objects, ∃ hit, acceptedHit lm ray o = some hit
  · obtain ⟨object, hit, hnear⟩ := exists_nearestAccepted lm ray objects hany
    have hnear2 : NearestAccepted lm ray reordered object hit :=
      ⟨hperm.mem_iff.mpr hnear.1, hnear.2.1,
        fun o ho => hnear.2.2 o (hperm.mem_iff.mp ho)⟩
    rw [h1.2 object hit hnear, h2.2 object hit hnear2]
  · have hnone : ∀ o ∈ objects, acceptedHit lm ray o = none := by
      intro o ho
      cases h : acceptedHit lm ray o with
      | none => rfl
      | some hit => exact absurd ⟨o, ho, hit, h⟩ hany
    rw [h1.1 hnone, h2.1 (fun o ho => hnone o (hperm.mem_iff.mp ho))]

/-- Nearest-hit selection in `castRay` in the field embedding, where every
distance is a number, for a scene with a bounce limit below the largest `u32`
value, a ray, a depth of at most `maxBounces` and fuel for the recursion.
When the objects limit the distance as a filter and their
accepted hits (front-facing, or on a transparent material) have pairwise
distinct distances, `castRay` returns a radiance; it is the background when no
object has an accepted hit, and otherwise the radiance computed at the accepted
hit with the smallest distance alone; and the loop over the objects gives this
same radiance on every order of the objects. -/
theorem castRay_nearest_accepted_hit (lm : Libm K) (scene : Scene K) (ray : Ray K)
    (recursion : Nat) (wavelength : K) (fuel : Nat)
    (hbounces : scene.m_camera.m_maxBounces < 4294967295)
    (hdepth : recursion ≤ scene.m_camera.m_maxBounces)
    (hfuel : scene.m_camera.m_maxBounces < fuel + recursion)
    (hlim : ∀ o ∈ scene.m_objects, o.DistanceLimited lm ray)
    (hdistinct : scene.m_objects.Pairwise (DistinctHits lm ray)) :
    (∃ rad, castRay lm scene (fuel + 1) ray recursion wavelength = some rad) ∧
    ((∀ o ∈ scene.m_objects, acceptedHit lm ray o = none) →
      castRay lm scene (fuel + 1) ray recursion wavelength = some scene.m_background) ∧
    (∀ object hit, NearestAccepted lm ray scene.m_objects object hit →
      castRay lm scene (fuel + 1) ray recursion wavelength =
        hitRadiance lm scene (castRay lm scene fuel) ray recursion wavelength object hit
          (clampScalar (ray.direction.dot hit.normal) (-1) 1)) ∧
    ∀ reordered : List (Object K), reordered.Perm scene.m_objects →
      castRayObjects lm scene (castRay lm scene fuel) ray recursion wavelength reordered
          scene.m_background INFINITE =
        castRay lm scene (fuel + 1) ray recursion wavelength := by
  have hrec : ∀ (r : Ray K) (w : K),
      ∃ c, castRay lm scene fuel r (u32Add recursion 1) w = some c := by
    intro r w
    have hu : u32Add recursion 1 = recursion + 1 := by
      unfold u32Add
      exact Nat.mod_eq_of_lt (by omega)
    rw [hu]
    exact castRay_terminates lm scene hbounces fuel (recursion + 1) (by omega) r w
  have hcast : castRay lm scene (fuel + 1) ray recursion wavelength =
      castRayObjects lm scene (castRay lm scene fuel) ray recursion wavelength scene.m_objects
        scene.m_background INFINITE := by
    rw [castRay, if_neg (by omega)]
  have hsel := castRayObjects_selects lm scene (castRay lm scene fuel) ray recursion hrec
    wavelength scene.m_objects hlim hdistinct
  refine ⟨?_, ?_, ?_, ?_⟩
  · rw [hcast]
    exact castRayObjects_isSome lm scene _ recursion hrec ray wavelength scene.m_objects _ _
  · intro hnone
    rw [hcast]
    exact hsel.1 hnone
  · intro object hit hnear
    rw [hcast]
    exact hsel.2 object hit hnear
  · intro reordered hperm
    rw [hcast]
    exact castRayObjects_perm lm scene (castRay lm scene fuel) ray recursion hrec wavelength
      scene.m_objects hlim hdistinct reordered hperm

end FloorScalars

/-- The limit enters `Julia::intersect` only in the last test: the object has
one candidate hit, at a distance of at least `EPSILON`, which is returned
when it is within the limit. -/
theorem Julia.intersect_shape (lm : Libm K) (j : Julia K) (ray : Ray K) :
    ∃ cand : Option (Intersection K), (∀ hit, cand = some hit → EPSILON ≤ hit.distance) ∧
      ∀ max_distance : K, j.intersect lm ray max_distance =
        cand.filter (fun hit => decide (hit.distance ≤ max_distance)) := by
  unfold Julia.intersect
  simp only []
  generalize Julia.jumpToBoundingSphere lm _ _ = jump
  cases jump with
  | none => exact ⟨none, fun hit h => absurd h (by simp), fun _ => rfl⟩
  | some p =>
    simp only []
    generalize j.searchLoop lm _ _ _ _ _ = r
    by_cases hconv : r.2 ≥ JULIA_INTERSECT_SEARCH_CONVERGENCE_LIMIT
    · refine ⟨none, fun hit h => absurd h (by simp), fun _ => ?_⟩
      rw [if_pos hconv]
      rfl
    · simp only [if_neg hconv]
      generalize Vector3.length lm _ = dist
      generalize Vector3.normalized lm _ = normal
      generalize j.m_object2World.mulVec _ = point
      by_cases heps : dist < EPSILON
      · refine ⟨none, fun hit h => absurd h (by simp), fun _ => ?_⟩
        rw [if_pos (Or.inl heps)]
        rfl
      · refine ⟨some ⟨dist, point, normal, ⟨0, 0⟩, ⟨0, 0⟩⟩, ?_, ?_⟩
        · intro hit h
          simp only [Option.some.injEq] at h
          subst h
          exact not_lt.mp heps
        · intro max_distance
          by_cases hmax : dist ≤ max_distance
          · rw [if_neg (by push_neg; exact ⟨not_lt.mp heps, hmax⟩)]
            simp [Option.filter, hmax]
          · rw [if_pos (Or.inr (not_le.mp hmax))]
            simp [Option.filter, hmax]

/-- Julia sets limit the distance as a filter, on every ray. -/
theorem Object.julia_distanceLimited (lm : Libm K) (ray : Ray K) (object : Object K)
    (j : Julia K) (hj : object.m_object = Primitive.julia j) :
    object.DistanceLimited lm ray := by
  have hint : ∀ m, object.intersect lm ray m = j.intersect lm ray m := by
    intro m
    simp only [Object.intersect, hj, Primitive.intersect]
  have heps : (0 : K) ≤ EPSILON := by norm_num [EPSILON]
  obtain ⟨cand, hcand, hshape⟩ := Julia.intersect_shape lm j ray
  constructor
  · intro hit hhit
    rw [hint, hshape] at hhit
    cases cand with
    | none => simp at hhit
    | some x =>
      simp only [Option.filter] at hhit
      split_ifs at hhit with h
      simp only [Option.some.injEq] at hhit
      subst hhit
      exact ⟨le_trans heps (hcand x rfl), by simpa using h⟩
  · intro max_distance _ hmax
    rw [hint, hint, hshape, hshape]
    cases cand with
    | none => rfl
    | some x =>
      by_cases h1 : x.distance ≤ max_distance
      · simp [Option.filter, h1, le_trans h1 hmax]
      · by_cases h2 : x.distance ≤ INFINITE
        · simp [Option.filter, h1, h2]
        · simp [Option.filter, h1, h2]

/-- Spheres with identity transformations limit the distance as a filter, on
rays with a direction of length 1 and with an exact square root. -/
theorem Object.sphere_distanceLimited (lm : Libm K) (hlm : SqrtExact lm) (ray : Ray K)
    (hd : ray.direction.dot ray.direction = 1) (object : Object K) (c : Vector3 K) (r : K)
    (hs : object.m_object =
      Primitive.sphere ⟨c, r, Matrix34.identity, Matrix34.identity, Matrix34.identity⟩) :
    object.DistanceLimited lm ray := by
  have hinf : (0 : K) ≤ INFINITE := by norm_num [INFINITE]
  have hint : ∀ m, 0 ≤ m → object.intersect lm ray m = _ := fun m hm => by
    simp only [Object.intersect, hs, Primitive.intersect]
    exact Sphere.intersect_identity_eq hlm c r ray hd m hm
  have hdist : ∀ t, 0 ≤ t →
      ((⟨c, r, Matrix34.identity, Matrix34.identity, Matrix34.identity⟩ : Sphere K).hitAt lm ray
        ray.origin ray.direction t).distance = t :=
    fun t ht => (Sphere.hitAt_identity hlm c r ray hd ht).1
  constructor
  · intro hit hhit
    rw [hint INFINITE hinf] at hhit
    simp only [] at hhit
    split_ifs at hhit with h1 h2 h3 h4
    · simp only [Option.some.injEq] at hhit
      subst hhit
      push_neg at h4
      rw [hdist _ h4.1]
      exact h4
    · simp only [Option.some.injEq] at hhit
      subst hhit
      push_neg at h2 h3
      rw [hdist _ h3]
      exact ⟨h3, h2⟩
  · intro max_distance hmax0 hmax
    rw [hint INFINITE hinf, hint max_distance hmax0]
    simp only []
    by_cases h1 : (ray.origin.sub c).dot ray.direction * (ray.origin.sub c).dot ray.direction -
        ((ray.origin.sub c).dot (ray.origin.sub c) - r * r) < 0
    · rw [if_pos h1, if_pos h1]
      rfl
    · rw [if_neg h1, if_neg h1]
      generalize -(ray.origin.sub c).dot ray.direction - lm.sqrt _ = d1
      generalize -(ray.origin.sub c).dot ray.direction + lm.sqrt _ = d2
      by_cases h2 : d1 > INFINITE
      · rw [if_pos h2, if_pos (lt_of_le_of_lt hmax h2)]
        rfl
      · rw [if_neg h2]
        by_cases h3 : d1 < 0
        · rw [if_pos h3, if_neg (not_lt.mpr (le_trans (le_of_lt h3) hmax0)), if_pos h3]
          by_cases h4 : d2 < 0 ∨ d2 > INFINITE
          · rw [if_pos h4]
            have : d2 < 0 ∨ d2 > max_distance := by
              rcases h4 with h4 | h4
              · exact Or.inl h4
              · exact Or.inr (lt_of_le_of_lt hmax h4)
            rw [if_pos this]
            rfl
          · rw [if_neg h4]
            push_neg at h4
            by_cases h5 : d2 ≤ max_distance
            · rw [if_neg (by push_neg; exact ⟨h4.1, h5⟩)]
              simp [Option.filter, hdist d2 h4.1, h5]
            · rw [if_pos (Or.inr (not_le.mp h5))]
              simp [Option.filter, hdist d2 h4.1, h5]
        · by_cases h5 : d1 ≤ max_distance
          · rw [if_neg (not_lt.mpr h5), if_neg h3, if_neg h3]
            simp [Option.filter, hdist d1 (not_lt.mp h3), h5]
          · rw [if_pos (not_le.mp h5), if_neg h3]
            simp [Option.filter, hdist d1 (not_lt.mp h3), h5]

theorem any_perm {α : Type} (p : α → Bool) (l1 l2 : List α) (h : l1.Perm l2) :
    l1.any p = l2.any p := by
  rw [Bool.eq_iff_iff, List.any_eq_true, List.any_eq_true]
  exact ⟨fun ⟨x, hx, hp⟩ => ⟨x, h.mem_iff.mp hx, hp⟩, fun ⟨x, hx, hp⟩ => ⟨x, h.mem_iff.mpr hx, hp⟩⟩

/-- The shadow test does not depend on the order of the objects. -/
theorem lightVisible_perm (lm : Libm K) (objects reordered : List (Object K))
    (h : reordered.Perm objects) (lightRay : Ray K) (lightDistance : K) :
    lightVisible lm reordered lightRay lightDistance =
      lightVisible lm objects lightRay lightDistance := by
  unfold lightVisible
  rw [any_perm _ _ _ h]

theorem calcPhongLights_perm (lm : Libm K) (objects reordered : List (Object K))
    (h : reordered.Perm objects) (ray : Ray K) (point normal : Vector3 K)
    (material : Material K) (materialColor : Color K) (lights : List (Light K)) :
    ∀ rad : Color K,
      calcPhongLights lm reordered ray point normal material materialColor lights rad =
        calcPhongLights lm objects ray point normal material materialColor lights rad := by
  induction lights with
  | nil => exact fun rad => rfl
  | cons light rest ih =>
    intro rad
    unfold calcPhongLights
    simp only [lightVisible_perm lm objects reordered h, ih]

section FloorScalars

variable [FloorRing K]

/-- The radiance computed at a hit depends on the scene through `calcPhong` and
on the recursion through the calls one level deeper. -/
theorem hitRadiance_congr (lm : Libm K) (scene1 scene2 : Scene K)
    (recurse1 recurse2 : Ray K → Nat → K → Option (Color K)) (recursion : Nat)
    (hrec : ∀ (r : Ray K) (w : K),
      recurse1 r (u32Add recursion 1) w = recurse2 r (u32Add recursion 1) w)
    (hphong : ∀ (r : Ray K) (i : Intersection K) (m : Material K),
      calcPhong lm scene1 r i m = calcPhong lm scene2 r i m)
    (ray : Ray K) (wavelength : K) (object : Object K) (intersection : Intersection K)
    (cos : K) :
    hitRadiance lm scene1 recurse1 ray recursion wavelength object intersection cos =
      hitRadiance lm scene2 recurse2 ray recursion wavelength object intersection cos := by
  have hrefr : calcRefraction lm recurse1 ray intersection object.material cos recursion
      wavelength = calcRefraction lm recurse2 ray intersection object.material cos recursion
      wavelength := by
    unfold calcRefraction
    simp only [hrec]
  have hrefl : calcReflection lm recurse1 ray intersection cos recursion wavelength =
      calcReflection lm recurse2 ray intersection cos recursion wavelength := by
    unfold calcReflection
    simp only [hrec]
  unfold hitRadiance
  simp only [hrefr, hrefl, hphong]

theorem castRayObjects_congr (lm : Libm K) (scene1 scene2 : Scene K)
    (recurse1 recurse2 : Ray K → Nat → K → Option (Color K)) (recursion : Nat)
    (hrec : ∀ (r : Ray K) (w : K),
      recurse1 r (u32Add recursion 1) w = recurse2 r (u32Add recursion 1) w)
    (hphong : ∀ (r : Ray K) (i : Intersection K) (m : Material K),
      calcPhong lm scene1 r i m = calcPhong lm scene2 r i m)
    (ray : Ray K) (wavelength : K) (objects : List (Object K)) :
    ∀ (rad : Color K) (max_distance : K),
      castRayObjects lm scene1 recurse1 ray recursion wavelength objects rad max_distance =
        castRayObjects lm scene2 recurse2 ray recursion wavelength objects rad max_distance := by
  induction objects with
  | nil => exact fun _ _ => rfl
  | cons object rest ih =>
    intro rad max_distance
    unfold castRayObjects
    simp only [hitRadiance_congr lm scene1 scene2 recurse1 recurse2 recursion hrec hphong, ih]

/-- The result of `castRay` does not depend on the order of the objects in the
scene, when on every ray the objects limit the distance as a filter and have
accepted hits at pairwise distinct distances. -/
theorem castRay_object_order (lm : Libm K) (scene : Scene K)
    (hbounces : scene.m_camera.m_maxBounces < 4294967295)
    (hlim : ∀ ray : Ray K, ∀ o ∈ scene.m_objects, o.DistanceLimited lm ray)
    (hdistinct : ∀ ray : Ray K, scene.m_objects.Pairwise (DistinctHits lm ray))
    (reordered : List (Object K)) (hperm : reordered.Perm scene.m_objects) :
    ∀ (fuel recursion : Nat), scene.m_camera.m_maxBounces + 1 - recursion < fuel →
      ∀ (ray : Ray K) (wavelength : K),
        castRay lm { scene with m_objects := reordered } fuel ray recursion wavelength =
          castRay lm scene fuel ray recursion wavelength := by
  have hphong : ∀ (r : Ray K) (i : Intersection K) (m : Material K),
      calcPhong lm { scene with m_objects := reordered } r i m = calcPhong lm scene r i m := by
    intro r i m
    unfold calcPhong
    simp only [calcPhongLights_perm lm scene.m_objects reordered hperm]
  intro fuel
  induction fuel with
  | zero => intro recursion h; omega
  | succ fuel ih =>
    intro recursion h ray wavelength
    unfold castRay
    by_cases hgt : recursion > scene.m_camera.m_maxBounces
    · rw [if_pos hgt, if_pos hgt]
    · rw [if_neg hgt, if_neg hgt]
      have hu : u32Add recursion 1 = recursion + 1 := by
        unfold u32Add
        exact Nat.mod_eq_of_lt (by omega)
      have hrec : ∀ (r : Ray K) (w : K),
          castRay lm { scene with m_objects := reordered } fuel r (u32Add recursion 1) w =
            castRay lm scene fuel r (u32Add recursion 1) w := by
        intro r w
        rw [hu]
        exact ih (recursion + 1) (by omega) r w
      have htotal : ∀ (r : Ray K) (w : K),
          ∃ c, castRay lm scene fuel r (u32Add recursion 1) w = some c := by
        intro r w
        rw [hu]
        exact castRay_terminates lm scene hbounces fuel (recursion + 1) (by omega) r w
      rw [castRayObjects_congr lm _ scene _ (castRay lm scene fuel) recursion hrec hphong]
      exact castRayObjects_perm lm scene (castRay lm scene fuel) ray recursion htotal wavelength
        scene.m_objects (hlim ray) (hdistinct ray) reordered hperm

end FloorScalars

theorem raisedTriangle_downRay_hit_eq (lm : Libm K) (hs1 : lm.sqrt 1 = 1) :
    (raisedUnitTriangle : Triangle K).intersect lm downRay INFINITE = some raisedHit := by
  have w1 : (raisedUnitTriangle : Triangle K).mtWeight1 downRay = 1 / 4 := by
    simp [Triangle.mtWeight1, raisedUnitTriangle, downRay, Vector3.dot, Vector3.cross,
      Vector3.sub]
  have w2 : (raisedUnitTriangle : Triangle K).mtWeight2 downRay = 1 / 4 := by
    simp [Triangle.mtWeight2, raisedUnitTriangle, downRay, Vector3.dot, Vector3.cross,
      Vector3.sub]
  have wt : (raisedUnitTriangle : Triangle K).mtDistance downRay = 1 / 2 := by
    simp [Triangle.mtDistance, raisedUnitTriangle, downRay, Vector3.dot, Vector3.cross,
      Vector3.sub]
    norm_num
  have c1 : ¬ ((1 : K) / 4 < -EPSILON ∨ (1 : K) / 4 > 1) := by norm_num [EPSILON]
  have c2 : ¬ ((1 : K) / 4 < -EPSILON ∨ (1 : K) / 4 + 1 / 4 > 1) := by norm_num [EPSILON]
  have c3 : ¬ ((1 : K) / 2 < 0 ∨ (1 : K) / 2 > INFINITE) := by norm_num [INFINITE]
  have hn : ((((raisedUnitTriangle : Triangle K).v0.normal.scale (1 - (1 / 4 + 1 / 4))).add
      ((raisedUnitTriangle : Triangle K).v1.normal.scale (1 / 4))).add
      ((raisedUnitTriangle : Triangle K).v2.normal.scale (1 / 4))) = ⟨0, 0, 1⟩ := by
    simp only [raisedUnitTriangle, Vector3.scale, Vector3.add, Vector3.mk.injEq]
    refine ⟨by ring, by ring, by ring⟩
  rw [Triangle.intersect_eq]
  simp only [w1, w2, wt, c1, c2, c3, if_false, hn, unit_z_normalized lm hs1 1 (by ring)]
  simp only [raisedHit, downRay, raisedUnitTriangle, Vector3.add, Vector3.scale, Vector2.add,
    Vector2.scale, Option.some.injEq, Intersection.mk.injEq, Vector3.mk.injEq,
    Vector2.mk.injEq]
  norm_num

/-- In the stacked scene the accepted hits of `downRay` have the distances 1 and
1/2. -/
theorem stackedScene_distinct (lm : Libm K) :
    (stackedScene : Scene K).m_objects.Pairwise (DistinctHits lm downRay) := by
  have wt1 : (unitTriangle : Triangle K).mtDistance downRay = 1 := by
    simp [Triangle.mtDistance, unitTriangle, downRay, Vector3.dot, Vector3.cross, Vector3.sub]
  have wt2 : (raisedUnitTriangle : Triangle K).mtDistance downRay = 1 / 2 := by
    simp [Triangle.mtDistance, raisedUnitTriangle, downRay, Vector3.dot, Vector3.cross,
      Vector3.sub]
    norm_num
  simp only [stackedScene, List.pairwise_cons, List.mem_singleton, List.not_mem_nil,
    forall_eq, IsEmpty.forall_iff, implies_true, List.Pairwise.nil, and_true]
  intro ha hb h1 h2
  rw [acceptedHit_triangle_distance lm downRay matteTriangle unitTriangle rfl ha h1,
    acceptedHit_triangle_distance lm downRay raisedTriangle raisedUnitTriangle rfl hb h2, wt1, wt2]
  norm_num

theorem stackedScene_limited (lm : Libm K) (ray : Ray K) :
    ∀ o ∈ (stackedScene : Scene K).m_objects, o.DistanceLimited lm ray := by
  intro o ho
  simp only [stackedScene, List.mem_cons, List.mem_singleton, List.not_mem_nil, or_false] at ho
  rcases ho with rfl | rfl
  · exact Object.triangle_distanceLimited lm ray _ unitTriangle rfl
  · exact Object.triangle_distanceLimited lm ray _ raisedUnitTriangle rfl

/-- In the stacked scene the nearest accepted hit of `downRay` is on the raised
triangle, the second object of the scene. -/
theorem stackedScene_nearest (lm : Libm K) (hs1 : lm.sqrt 1 = 1) :
    NearestAccepted lm downRay (stackedScene : Scene K).m_objects raisedTriangle raisedHit := by
  have hcos : clampScalar ((downRay : Ray K).direction.dot (raisedHit : Intersection K).normal)
      (-1) 1 = -1 := by
    have : (downRay : Ray K).direction.dot (raisedHit : Intersection K).normal = -1 := by
      simp [downRay, raisedHit, Vector3.dot]
    rw [this]
    simp [clampScalar]
  have hacc : acceptedHit lm downRay (raisedTriangle : Object K) = some raisedHit := by
    have hint : (raisedTriangle : Object K).intersect lm downRay INFINITE = some raisedHit :=
      raisedTriangle_downRay_hit_eq lm hs1
    simp only [acceptedHit, hint, Option.filter, hitSkipped, hcos]
    norm_num
  have wt1 : (unitTriangle : Triangle K).mtDistance downRay = 1 := by
    simp [Triangle.mtDistance, unitTriangle, downRay, Vector3.dot, Vector3.cross, Vector3.sub]
  refine ⟨by simp [stackedScene], hacc, ?_⟩
  intro o ho h hoacc
  simp only [stackedScene, List.mem_cons, List.mem_singleton, List.not_mem_nil, or_false] at ho
  rcases ho with rfl | rfl
  · rw [acceptedHit_triangle_distance lm downRay matteTriangle unitTriangle rfl h hoacc, wt1]
    simp only [raisedHit]
    norm_num
  · rw [hacc] at hoacc
    simp only [Option.some.injEq] at hoacc
    rw [hoacc]

theorem Workers.fetch_wrapped (height : Nat) (hheight : u32Add height 1 = 0)
    (hlt : height < 4294967296) (s : Workers) (t : Nat) (ht : t < 2)
    (h : s.Wrapped height) : (s.fetch height t).Wrapped height := by
  have hsucc : ∀ k, k < height → u32Add k 1 = k + 1 := by
    intro k hk
    unfold u32Add
    exact Nat.mod_eq_of_lt (by omega)
  unfold Workers.fetch
  by_cases hfin : t ∈ s.finished
  · rw [if_pos hfin]
    exact h
  · rw [if_neg hfin]
    simp only []
    rcases h with ⟨hF, hc, hL, hlines⟩ | ⟨t0, ht0, hF, hc, hlines⟩ |
      ⟨t0, t1, ht0, ht1, hne, hF, hlines⟩
    · by_cases hy : s.m_NextLine < height
      · rw [if_pos hy]
        left
        refine ⟨hF, ?_, ?_, ?_⟩
        · simp only [List.length_append, List.length_singleton]
          rw [hsucc _ hy, hc]
        · simp only [List.length_append, List.length_singleton]
          omega
        · simp only [List.map_append, List.map_cons, List.map_nil, List.length_append,
            List.length_singleton, List.range_succ, hlines, hc]
      · rw [if_neg hy]
        right; left
        have hk : s.m_NextLine = height := by omega
        refine ⟨t, ht, by simp [hF], ?_, ?_⟩
        · simp only [hk, hheight]
          exact Nat.zero_le _
        · simp only [hk, hheight, List.range_zero, List.append_nil, hlines]
          rw [← hc, hk]
    · by_cases hy : s.m_NextLine < height
      · rw [if_pos hy]
        right; left
        refine ⟨t0, ht0, hF, ?_, ?_⟩
        · simp only [hsucc _ hy]
          omega
        · simp only [List.map_append, List.map_cons, List.map_nil, hlines, hsucc _ hy,
            List.range_succ, List.append_assoc]
      · rw [if_neg hy]
        right; right
        have hk : s.m_NextLine = height := by omega
        refine ⟨t0, t, ht0, ht, ?_, by simp [hF], ?_⟩
        · intro heq
          rw [hF, heq] at hfin
          exact hfin (List.mem_singleton_self _)
        · simp only [hlines, hk]
    · exfalso
      rw [hF] at hfin
      simp only [List.mem_cons, List.mem_singleton, List.not_mem_nil, or_false, not_or] at hfin
      omega

/-- Two workers on a picture of 4294967295 lines, in every order of their
`fetch_add` operations: when both have ended, every line has been passed to
`raytraceLine` twice. -/
theorem Workers.run_wraps_always (height : Nat) (hheight : u32Add height 1 = 0)
    (hlt : height < 4294967296) (schedule : List Nat) (hsched : ∀ t ∈ schedule, t < 2)
    (hdone : ∀ t, t < 2 → t ∈ (Workers.run height schedule).finished) :
    (Workers.run height schedule).lines.map Prod.snd =
      List.range height ++ List.range height := by
  have key : ∀ (l : List Nat) (s : Workers), (∀ t ∈ l, t < 2) → s.Wrapped height →
      (l.foldl (Workers.fetch height) s).Wrapped height := by
    intro l
    induction l with
    | nil => exact fun s _ h => h
    | cons t rest ih =>
      intro s hl h
      exact ih _ (fun u hu => hl u (List.mem_cons_of_mem _ hu))
        (Workers.fetch_wrapped height hheight hlt s t (hl t (List.mem_cons_self _ _)) h)
  have hinv : (Workers.run height schedule).Wrapped height :=
    key schedule _ hsched (Or.inl ⟨rfl, rfl, Nat.zero_le _, rfl⟩)
  have h0 := hdone 0 (by omega)
  have h1 := hdone 1 (by omega)
  rcases hinv with ⟨hF, _⟩ | ⟨t0, _, hF, _⟩ | ⟨_, _, _, _, _, _, hlines⟩
  · rw [hF] at h0
    exact absurd h0 (List.not_mem_nil _)
  · rw [hF] at h0 h1
    simp only [List.mem_singleton] at h0 h1
    omega
  · exact hlines

/-! ## The times of the sub-frames -/

/-- C38. Sub-frame times of `renderVideoMotionBlur`: for `F >= 1` frames,
`S >= 2` sub-frames, frame `f < F` and sub-frame `s < S`, the scene time
`(f + s/(S-1)) / F` lies in `[0, 1]`; the first sub-frame is at `f/F`, the
last at `(f+1)/F`, which is the time of the first sub-frame of frame `f + 1`
(whatever the sub-frame count of that frame). -/
theorem subFrameTime_spec (F S f s : Nat) (hF : 1 ≤ F) (hS : 2 ≤ S) (hS32 : S < 4294967296)
    (hf : f < F) (hs : s < S) :
    (0 : K) ≤ subFrameTime F S f s ∧ subFrameTime F S f s ≤ (1 : K) ∧
    subFrameTime F S f 0 = (f : K) / (F : K) ∧
    subFrameTime F S f (S - 1) = ((f : K) + 1) / (F : K) ∧
    ∀ S2 : Nat, 2 ≤ S2 → S2 < 4294967296 →
      (subFrameTime F S f (S - 1) : K) = subFrameTime F S2 (f + 1) 0 := by
  have hu : ∀ n : Nat, 2 ≤ n → n < 4294967296 → u32Sub n 1 = n - 1 :=
    fun n h1 h2 => u32Sub_one n (by omega) h2
  have hFpos : (0 : K) < (F : K) := by exact_mod_cast hF
  have hSpos : (0 : K) < ((S - 1 : Nat) : K) := by
    have : 0 < S - 1 := by omega
    exact_mod_cast this
  have hfrac0 : (0 : K) ≤ (s : K) / ((S - 1 : Nat) : K) :=
    div_nonneg (Nat.cast_nonneg _) (le_of_lt hSpos)
  have hfrac1 : (s : K) / ((S - 1 : Nat) : K) ≤ 1 := by
    rw [div_le_one hSpos]
    have : s ≤ S - 1 := by omega
    exact_mod_cast this
  have hlast : ((S - 1 : Nat) : K) / ((S - 1 : Nat) : K) = 1 := div_self (ne_of_gt hSpos)
  have hf1 : (f : K) + 1 ≤ (F : K) := by
    have : f + 1 ≤ F := hf
    exact_mod_cast this
  refine ⟨?_, ?_, ?_, ?_, ?_⟩
  · unfold subFrameTime
    rw [hu S hS hS32]
    exact div_nonneg (add_nonneg (Nat.cast_nonneg _) hfrac0) (le_of_lt hFpos)
  · unfold subFrameTime
    rw [hu S hS hS32, div_le_one hFpos]
    linarith
  · unfold subFrameTime
    simp
  · unfold subFrameTime
    rw [hu S hS hS32, hlast]
  · intro S2 h2 h32
    unfold subFrameTime
    rw [hu S hS hS32, hlast]
    simp

/-! ## The transformations of the scene parser -/

theorem Matrix34.mul_assoc3 (A B C : Matrix34 K) : (A.mul B).mul C = A.mul (B.mul C) := by
  simp only [Matrix34.mul, Matrix34.mk.injEq]
  refine ⟨by ring, by ring, by ring, by ring, by ring, by ring, by ring, by ring, by ring,
    by ring, by ring, by ring⟩

theorem Matrix34.identity_mul (A : Matrix34 K) : (Matrix34.identity : Matrix34 K).mul A = A := by
  obtain ⟨a, b, c, d, e, f, g, h, i, j, k, l⟩ := A
  simp only [Matrix34.mul, Matrix34.identity, Matrix34.mk.injEq]
  refine ⟨by ring, by ring, by ring, by ring, by ring, by ring, by ring, by ring, by ring,
    by ring, by ring, by ring⟩

theorem Matrix34.mul_identity (A : Matrix34 K) : A.mul (Matrix34.identity : Matrix34 K) = A := by
  obtain ⟨a, b, c, d, e, f, g, h, i, j, k, l⟩ := A
  simp only [Matrix34.mul, Matrix34.identity, Matrix34.mk.injEq]
  refine ⟨by ring, by ring, by ring, by ring, by ring, by ring, by ring, by ring, by ring,
    by ring, by ring, by ring⟩

/-- Appending a matrix on the right of `o2w` and its inverse on the left of
`w2o` keeps the two inverse to each other. -/
theorem Matrix34.inverse_step (W O E F : Matrix34 K)
    (h1 : W.mul O = Matrix34.identity) (h2 : O.mul W = Matrix34.identity)
    (e1 : F.mul E = Matrix34.identity) (e2 : E.mul F = Matrix34.identity) :
    (F.mul W).mul (O.mul E) = Matrix34.identity ∧
    (O.mul E).mul (F.mul W) = Matrix34.identity := by
  constructor
  · rw [Matrix34.mul_assoc3, ← Matrix34.mul_assoc3 W O E, h1, Matrix34.identity_mul, e1]
  · rw [Matrix34.mul_assoc3, ← Matrix34.mul_assoc3 E F W, e2, Matrix34.identity_mul, h2]

theorem Matrix34.translation_inverse (v : Vector3 K) :
    (Matrix34.translation (v.scale (-1))).mul (Matrix34.translation v) = Matrix34.identity ∧
    (Matrix34.translation v).mul (Matrix34.translation (v.scale (-1))) = Matrix34.identity := by
  constructor <;>
  · simp only [Matrix34.mul, Matrix34.translation, Matrix34.identity, Vector3.scale,
      Matrix34.mk.injEq]
    refine ⟨by ring, by ring, by ring, by ring, by ring, by ring, by ring, by ring, by ring,
      by ring, by ring, by ring⟩

theorem Matrix34.scale_inverse (v : Vector3 K) (hx : v.x ≠ 0) (hy : v.y ≠ 0) (hz : v.z ≠ 0) :
    (Matrix34.scale (Vector3.scalarDiv 1 v)).mul (Matrix34.scale v) = Matrix34.identity ∧
    (Matrix34.scale v).mul (Matrix34.scale (Vector3.scalarDiv 1 v)) = Matrix34.identity := by
  constructor <;>
  · simp only [Matrix34.mul, Matrix34.scale, Matrix34.identity, Vector3.scalarDiv,
      Matrix34.mk.injEq]
    refine ⟨by field_simp, by ring, by ring, by ring, by ring, by field_simp, by ring, by ring,
      by ring, by ring, by field_simp, by ring⟩

theorem Matrix34.rotationX_inverse (lm : Libm K) (hlm : TrigExact lm) (theta : K) :
    (Matrix34.rotationX lm (-theta * 2 * PI / 360)).mul
        (Matrix34.rotationX lm (theta * 2 * PI / 360)) = Matrix34.identity ∧
    (Matrix34.rotationX lm (theta * 2 * PI / 360)).mul
        (Matrix34.rotationX lm (-theta * 2 * PI / 360)) = Matrix34.identity := by
  have e : -theta * 2 * PI / 360 = -(theta * 2 * PI / 360) := by ring
  obtain ⟨h1, h2, h3⟩ := hlm (theta * 2 * PI / 360)
  rw [e]
  constructor <;>
  · simp only [Matrix34.mul, Matrix34.rotationX, Matrix34.identity, h2, h3, Matrix34.mk.injEq]
    refine ⟨by ring, by ring, by ring, by ring, by ring, by linear_combination h1, by ring,
      by ring, by ring, by ring, by linear_combination h1, by ring⟩

theorem Matrix34.rotationY_inverse (lm : Libm K) (hlm : TrigExact lm) (theta : K) :
    (Matrix34.rotationY lm (-theta * 2 * PI / 360)).mul
        (Matrix34.rotationY lm (theta * 2 * PI / 360)) = Matrix34.identity ∧
    (Matrix34.rotationY lm (theta * 2 * PI / 360)).mul
        (Matrix34.rotationY lm (-theta * 2 * PI / 360)) = Matrix34.identity := by
  have e : -theta * 2 * PI / 360 = -(theta * 2 * PI / 360) := by ring
  obtain ⟨h1, h2, h3⟩ := hlm (theta * 2 * PI / 360)
  rw [e]
  constructor <;>
  · simp only [Matrix34.mul, Matrix34.rotationY, Matrix34.identity, h2, h3, Matrix34.mk.injEq]
    refine ⟨by linear_combination h1, by ring, by ring, by ring, by ring, by ring, by ring,
      by ring, by ring, by ring, by linear_combination h1, by ring⟩

theorem Matrix34.rotationZ_inverse (lm : Libm K) (hlm : TrigExact lm) (theta : K) :
    (Matrix34.rotationZ lm (-theta * 2 * PI / 360)).mul
        (Matrix34.rotationZ lm (theta * 2 * PI / 360)) = Matrix34.identity ∧
    (Matrix34.rotationZ lm (theta * 2 * PI / 360)).mul
        (Matrix34.rotationZ lm (-theta * 2 * PI / 360)) = Matrix34.identity := by
  have e : -theta * 2 * PI / 360 = -(theta * 2 * PI / 360) := by ring
  obtain ⟨h1, h2, h3⟩ := hlm (theta * 2 * PI / 360)
  rw [e]
  constructor <;>
  · simp only [Matrix34.mul, Matrix34.rotationZ, Matrix34.identity, h2, h3, Matrix34.mk.injEq]
    refine ⟨by linear_combination h1, by ring, by ring, by ring, by ring,
      by linear_combination h1, by ring, by ring, by ring, by ring, by ring, by ring⟩

/-- One tag of `<transform>` keeps the two matrices inverse to each other. -/
theorem transformStep_inverse (lm : Libm K) (hlm : TrigExact lm) (t : TransformInfo K)
    (tag : TransformTag K) (htag : tag.Invertible) (h : t.Inverse) :
    (transformStep lm t tag).Inverse := by
  cases tag with
  | translate v =>
    obtain ⟨e1, e2⟩ := Matrix34.translation_inverse v
    exact Matrix34.inverse_step _ _ _ _ h.1 h.2 e1 e2
  | scale v =>
    obtain ⟨e1, e2⟩ := Matrix34.scale_inverse v htag.1 htag.2.1 htag.2.2
    exact Matrix34.inverse_step _ _ _ _ h.1 h.2 e1 e2
  | rotateX theta =>
    obtain ⟨e1, e2⟩ := Matrix34.rotationX_inverse lm hlm theta
    exact Matrix34.inverse_step _ _ _ _ h.1 h.2 e1 e2
  | rotateY theta =>
    obtain ⟨e1, e2⟩ := Matrix34.rotationY_inverse lm hlm theta
    exact Matrix34.inverse_step _ _ _ _ h.1 h.2 e1 e2
  | rotateZ theta =>
    obtain ⟨e1, e2⟩ := Matrix34.rotationZ_inverse lm hlm theta
    exact Matrix34.inverse_step _ _ _ _ h.1 h.2 e1 e2

theorem foldl_transformStep_inverse (lm : Libm K) (hlm : TrigExact lm)
    (tags : List (TransformTag K)) (htags : ∀ tag ∈ tags, tag.Invertible) :
    ∀ t : TransformInfo K, t.Inverse → (tags.foldl (transformStep lm) t).Inverse := by
  induction tags with
  | nil => exact fun t h => h
  | cons tag rest ih =>
    intro t h
    exact ih (fun x hx => htags x (List.mem_cons_of_mem _ hx)) _
      (transformStep_inverse lm hlm t tag (htags tag (List.mem_cons_self _ _)) h)

/-- C39. The transform invariant of the scene parser: for every sequence of
`translate`, `scale` (all components non-zero), `rotateX`, `rotateY` and
`rotateZ` tags, after every tag the matrices built by `tag_transform` satisfy
`w2oVector * o2wVector = identity` (and `o2wVector * w2oVector = identity`):
world-to-object is the exact inverse of object-to-world. Sine and cosine are
exact. -/
theorem tag_transform_inverse (lm : Libm K) (hlm : TrigExact lm) (tags : List (TransformTag K))
    (htags : ∀ tag ∈ tags, tag.Invertible) (n : Nat) :
    (tag_transform lm (tags.take n)).w2oVector.mul (tag_transform lm (tags.take n)).o2wVector =
      Matrix34.identity ∧
    (tag_transform lm (tags.take n)).o2wVector.mul (tag_transform lm (tags.take n)).w2oVector =
      Matrix34.identity :=
  foldl_transformStep_inverse lm hlm (tags.take n)
    (fun tag h => htags tag (List.mem_of_mem_take h)) TransformInfo.new
    ⟨Matrix34.identity_mul _, Matrix34.identity_mul _⟩

/-! ## The direction of the refraction ray -/

/-- The vector of `refractionVector` is the one from which `calcRefraction`
builds its ray, when `refractionK` is not negative. -/
theorem calcRefraction_eq (lm : Libm K) (recurse : Ray K → Nat → K → Option (Color K))
    (ray : Ray K) (intersection : Intersection K) (material : Material K)
    (cos_angle_ray_normal : K) (recursion : Nat) (wavelength : K) :
    calcRefraction lm recurse ray intersection material cos_angle_ray_normal recursion
        wavelength =
      if refractionK material cos_angle_ray_normal wavelength ≥ 0 then
        recurse
          ((Ray.new lm intersection.point
            (refractionVector lm ray intersection material cos_angle_ray_normal
              wavelength)).addOffset
            (intersection.normal.scale (if cos_angle_ray_normal ≤ 0 then -EPSILON else EPSILON)))
          (u32Add recursion 1) wavelength
      else some Color.zero := by
  unfold calcRefraction refractionK refractionVector
  by_cases h : cos_angle_ray_normal ≤ 0
  · simp only [h, decide_True, if_true]
  · simp only [h, decide_False, if_false, Bool.false_eq_true]

/-- C32. The refraction direction is a unit vector: for a ray direction `d` and
a normal `n` of length 1, `cosI = d . n`, and a refraction index with
`k = 1 - eta^2 * (1 - cosI^2) >= 0`, the vector
`d * eta + n' * (eta * cos' - sqrt(k))` that `calcRefraction` computes has
length exactly 1 before the constructor of `Ray` normalises it, and it is `d`
when the refraction index is 1. The square root is exact. -/
theorem refractionVector_unit (lm : Libm K) (hlm : SqrtExact lm) (ray : Ray K)
    (intersection : Intersection K) (material : Material K) (cos_angle_ray_normal wavelength : K)
    (hd : ray.direction.dot ray.direction = 1)
    (hn : intersection.normal.dot intersection.normal = 1)
    (hcos : cos_angle_ray_normal = ray.direction.dot intersection.normal)
    (hk : refractionK material cos_angle_ray_normal wavelength ≥ 0) :
    (refractionVector lm ray intersection material cos_angle_ray_normal wavelength).length lm = 1 ∧
    (refractionVector lm ray intersection material cos_angle_ray_normal wavelength).dot
      (refractionVector lm ray intersection material cos_angle_ray_normal wavelength) = 1 ∧
    (material.refraction.re + wavelength * material.dispersion = 1 →
      refractionVector lm ray intersection material cos_angle_ray_normal wavelength =
        ray.direction) ∧
    ∀ (recurse : Ray K → Nat → K → Option (Color K)) (recursion : Nat),
      calcRefraction lm recurse ray intersection material cos_angle_ray_normal recursion
          wavelength =
        recurse
          ((Ray.new lm intersection.point
            (refractionVector lm ray intersection material cos_angle_ray_normal
              wavelength)).addOffset
            (intersection.normal.scale (if cos_angle_ray_normal ≤ 0 then -EPSILON else EPSILON)))
          (u32Add recursion 1) wavelength := by
  have hdot : (refractionVector lm ray intersection material cos_angle_ray_normal wavelength).dot
      (refractionVector lm ray intersection material cos_angle_ray_normal wavelength) = 1 := by
    obtain ⟨hs0, hs⟩ := hlm _ hk
    revert hs hs0
    unfold refractionVector refractionK
    obtain ⟨o, ⟨dx, dy, dz⟩⟩ := ray
    obtain ⟨dist, p, ⟨nx, ny, nz⟩, tc, pc⟩ := intersection
    simp only [Vector3.dot] at hd hn hcos
    by_cases h : cos_angle_ray_normal ≤ 0
    · simp only [h, decide_True, if_true, Vector3.dot, Vector3.add, Vector3.scale]
      intro _ hs
      generalize lm.sqrt _ = s at hs ⊢
      generalize material.refraction.re + wavelength * material.dispersion = idx at hs ⊢
      linear_combination (1 / idx) ^ 2 * hd + (1 / idx * (cos_angle_ray_normal * -1) - s) ^ 2 * hn +
        -(2 * (1 / idx) * (1 / idx * (cos_angle_ray_normal * -1) - s)) * hcos + hs
    · simp only [h, decide_False, if_false, Bool.false_eq_true, Vector3.dot, Vector3.add,
        Vector3.scale]
      intro _ hs
      generalize lm.sqrt _ = s at hs ⊢
      generalize material.refraction.re + wavelength * material.dispersion = idx at hs ⊢
      linear_combination idx ^ 2 * hd + (idx * cos_angle_ray_normal - s) ^ 2 * hn +
        2 * idx * (idx * cos_angle_ray_normal - s) * hcos + hs
  refine ⟨?_, hdot, ?_, ?_⟩
  · have := hdot
    simp only [Vector3.dot] at this
    simp only [Vector3.length]
    rw [this]
    exact sqrt_one_of_exact hlm
  · intro hidx
    unfold refractionVector
    simp only [hidx]
    obtain ⟨o, ⟨dx, dy, dz⟩⟩ := ray
    obtain ⟨dist, p, ⟨nx, ny, nz⟩, tc, pc⟩ := intersection
    by_cases h : cos_angle_ray_normal ≤ 0
    · have hc : (0 : K) ≤ cos_angle_ray_normal * -1 := by linarith
      have hsq : lm.sqrt (1 - 1 / 1 * (1 / 1) *
          (1 - cos_angle_ray_normal * -1 * (cos_angle_ray_normal * -1))) =
          cos_angle_ray_normal * -1 := by
        have e : (1 : K) - 1 / 1 * (1 / 1) *
            (1 - cos_angle_ray_normal * -1 * (cos_angle_ray_normal * -1)) =
            cos_angle_ray_normal * -1 * (cos_angle_ray_normal * -1) := by ring
        rw [e]
        exact sqrt_mul_self_of_exact hlm hc
      simp only [h, decide_True, if_true, hsq, Vector3.add, Vector3.scale, Vector3.mk.injEq]
      refine ⟨by ring, by ring, by ring⟩
    · have hc : (0 : K) ≤ cos_angle_ray_normal := le_of_lt (not_le.mp h)
      have hsq : lm.sqrt (1 - 1 * 1 * (1 - cos_angle_ray_normal * cos_angle_ray_normal)) =
          cos_angle_ray_normal := by
        have e : (1 : K) - 1 * 1 * (1 - cos_angle_ray_normal * cos_angle_ray_normal) =
            cos_angle_ray_normal * cos_angle_ray_normal := by ring
        rw [e]
        exact sqrt_mul_self_of_exact hlm hc
      simp only [h, decide_False, if_false, Bool.false_eq_true, hsq, Vector3.add, Vector3.scale,
        Vector3.mk.injEq]
      refine ⟨by ring, by ring, by ring⟩
  · intro recurse recursion
    rw [calcRefraction_eq, if_pos hk]

/-! ## The Fresnel coefficient of the photon mapper -/

section FloorScalars

variable [FloorRing K]

/-- The photon mapper computes its Fresnel coefficient by `PhotonMapper.kr`. -/
theorem PhotonMapper.castRay_kr (lm : Libm K) (scene : Scene K) (fuel : Nat)
    (objects : List (Object K)) (ray : Ray K) (recursion : Nat) (wavelength : K)
    (rad : Color K) :
    PhotonMapper.castRay lm scene (fuel + 1) objects ray recursion wavelength rad =
      PhotonMapper.castRayWith lm scene (PhotonMapper.kr lm) (PhotonMapper.castRay lm scene fuel)
        objects ray recursion wavelength rad := by
  rw [PhotonMapper.castRay]
  rfl

/-- C33. The Fresnel coefficient that `PhotonMapper::castRay` computes inline
equals `calcFresnel(material, cosI, wavelength)` of the renderer, for every
material, cosine and wavelength; so the photon mapper behaves as if it called
`calcFresnel`. -/
theorem PhotonMapper.kr_eq_calcFresnel (lm : Libm K) :
    (∀ (material : Material K) (cos_angle_ray_normal wavelength : K),
      PhotonMapper.kr lm material cos_angle_ray_normal wavelength =
        calcFresnel lm material cos_angle_ray_normal wavelength) ∧
    ∀ (scene : Scene K) (fuel : Nat) (objects : List (Object K)) (ray : Ray K)
      (recursion : Nat) (wavelength : K) (rad : Color K),
      PhotonMapper.castRay lm scene (fuel + 1) objects ray recursion wavelength rad =
        PhotonMapper.castRayWith lm scene (calcFresnel lm) (PhotonMapper.castRay lm scene fuel)
          objects ray recursion wavelength rad := by
  have h : ∀ (material : Material K) (c w : K),
      PhotonMapper.kr lm material c w = calcFresnel lm material c w := fun _ _ _ => rfl
  refine ⟨h, ?_⟩
  intro scene fuel objects ray recursion wavelength rad
  rw [PhotonMapper.castRay_kr]
  have hf : PhotonMapper.kr lm = calcFresnel lm := by
    funext m c w
    exact h m c w
  rw [hf]

end FloorScalars

/-! ## Triangle::intersect on rays parallel to the plane -/

/-- With a divisor other than zero the IEEE division is the division of the
numbers. -/
theorem IEEE.div_of_ne (negZero : Bool) (x y : K) (hy : y ≠ 0) :
    IEEE.div negZero x y = IEEE.num (x / y) := by
  simp only [IEEE.div, if_pos hy]

/-- Zero divided by zero is NaN. -/
theorem IEEE.div_zero_zero (negZero : Bool) : IEEE.div negZero (0 : K) 0 = IEEE.nan := by
  simp [IEEE.div]

/-- A number other than zero divided by zero is an infinity. -/
theorem IEEE.div_zero_cases (negZero : Bool) (x : K) (hx : x ≠ 0) :
    IEEE.div negZero x 0 = IEEE.posInf ∨ IEEE.div negZero x 0 = IEEE.negInf := by
  simp only [IEEE.div, ne_eq, not_true_eq_false, if_false, if_neg hx]
  split_ifs
  · exact Or.inl rfl
  · exact Or.inr rfl

/-- On a ray that is not parallel to the plane of the triangle, the embedding
with the IEEE division reports a hit exactly when `Triangle.intersect` does,
with the same weights and the same distance. -/
theorem Triangle.intersectIEEE_of_ne (lm : Libm K) (negZero : Bool) (t : Triangle K)
    (ray : Ray K) (max_distance : K)
    (h : (t.v1.position.sub t.v0.position).dot
      (ray.direction.cross (t.v2.position.sub t.v0.position)) ≠ 0) :
    t.intersectIEEE negZero ray (IEEE.num max_distance) =
      (t.intersect lm ray max_distance).map fun i =>
        ⟨IEEE.num (t.mtWeight1 ray), IEEE.num (t.mtWeight2 ray), IEEE.num i.distance⟩ := by
  rw [Triangle.intersect_eq]
  simp only [Triangle.intersectIEEE, IEEE.div_of_ne negZero _ _ h, IEEE.lt, IEEE.add,
    Bool.or_eq_true, decide_eq_true_eq]
  simp only [Triangle.mtWeight1, Triangle.mtWeight2, Triangle.mtDistance, gt_iff_lt]
  split_ifs <;> rfl

/-- A ray parallel to the plane of the triangle whose origin is not in this
plane is no hit, whenever `max_distance` is a number: the distance is an
infinity. -/
theorem Triangle.intersectIEEE_off_plane (negZero : Bool) (t : Triangle K) (ray : Ray K)
    (max_distance : K)
    (h : (t.v1.position.sub t.v0.position).dot
      (ray.direction.cross (t.v2.position.sub t.v0.position)) = 0)
    (hoff : (t.v2.position.sub t.v0.position).dot
      ((ray.origin.sub t.v0.position).cross (t.v1.position.sub t.v0.position)) ≠ 0) :
    t.intersectIEEE negZero ray (IEEE.num max_distance) = none := by
  simp only [Triangle.intersectIEEE, h]
  rcases IEEE.div_zero_cases negZero _ hoff with e | e
  · rw [e]
    simp only [IEEE.lt, Bool.or_true, if_true, Bool.false_or]
    split_ifs <;> rfl
  · rw [e]
    simp only [IEEE.lt, Bool.true_or, if_true]
    split_ifs <;> rfl

/-- A ray in the plane of a triangle with three corners not on one line
(`approach_rate = 0`, origin in the plane) is reported as a hit, for every
`max_distance`: the three quotients are `0 / 0`, and no comparison with NaN
holds. -/
theorem Triangle.intersectIEEE_in_plane (negZero : Bool) (t : Triangle K) (ray : Ray K)
    (max_distance : IEEE K)
    (hN : ((t.v1.position.sub t.v0.position).cross (t.v2.position.sub t.v0.position)).dot
      ((t.v1.position.sub t.v0.position).cross (t.v2.position.sub t.v0.position)) ≠ 0)
    (h : (t.v1.position.sub t.v0.position).dot
      (ray.direction.cross (t.v2.position.sub t.v0.position)) = 0)
    (hin : (t.v2.position.sub t.v0.position).dot
      ((ray.origin.sub t.v0.position).cross (t.v1.position.sub t.v0.position)) = 0) :
    t.intersectIEEE negZero ray max_distance = some ⟨IEEE.nan, IEEE.nan, IEEE.nan⟩ := by
  have h1 : (ray.origin.sub t.v0.position).dot
      (ray.direction.cross (t.v2.position.sub t.v0.position)) = 0 := by
    refine (mul_eq_zero.mp ?_).resolve_right hN
    generalize t.v1.position.sub t.v0.position = e1 at *
    generalize t.v2.position.sub t.v0.position = e2 at *
    generalize ray.origin.sub t.v0.position = s at *
    generalize ray.direction = d at *
    obtain ⟨e1x, e1y, e1z⟩ := e1
    obtain ⟨e2x, e2y, e2z⟩ := e2
    obtain ⟨sx, sy, sz⟩ := s
    obtain ⟨dx, dy, dz⟩ := d
    simp only [Vector3.dot, Vector3.cross] at h hin ⊢
    linear_combination
      ((e1y * e2z - e1z * e2y) * (dy * e2z - dz * e2y) +
        (e1z * e2x - e1x * e2z) * (dz * e2x - dx * e2z) +
        (e1x * e2y - e1y * e2x) * (dx * e2y - dy * e2x)) * hin -
      (sx * ((e1z * e2x - e1x * e2z) * e2z - (e1x * e2y - e1y * e2x) * e2y) +
        sy * ((e1x * e2y - e1y * e2x) * e2x - (e1y * e2z - e1z * e2y) * e2z) +
        sz * ((e1y * e2z - e1z * e2y) * e2y - (e1z * e2x - e1x * e2z) * e2x)) * h
  have h2 : ray.direction.dot
      ((ray.origin.sub t.v0.position).cross (t.v1.position.sub t.v0.position)) = 0 := by
    refine (mul_eq_zero.mp ?_).resolve_right hN
    generalize t.v1.position.sub t.v0.position = e1 at *
    generalize t.v2.position.sub t.v0.position = e2 at *
    generalize ray.origin.sub t.v0.position = s at *
    generalize ray.direction = d at *
    obtain ⟨e1x, e1y, e1z⟩ := e1
    obtain ⟨e2x, e2y, e2z⟩ := e2
    obtain ⟨sx, sy, sz⟩ := s
    obtain ⟨dx, dy, dz⟩ := d
    simp only [Vector3.dot, Vector3.cross] at h hin ⊢
    linear_combination
      ((e1y * e2z - e1z * e2y) * (e1y * dz - e1z * dy) +
        (e1z * e2x - e1x * e2z) * (e1z * dx - e1x * dz) +
        (e1x * e2y - e1y * e2x) * (e1x * dy - e1y * dx)) * hin +
      (sx * ((e1z * e2x - e1x * e2z) * e1z - (e1x * e2y - e1y * e2x) * e1y) +
        sy * ((e1x * e2y - e1y * e2x) * e1x - (e1y * e2z - e1z * e2y) * e1z) +
        sz * ((e1y * e2z - e1z * e2y) * e1y - (e1z * e2x - e1x * e2z) * e1x)) * h
  simp only [Triangle.intersectIEEE, h, h1, h2, hin, IEEE.div_zero_zero, IEEE.lt, IEEE.add,
    Bool.or_self, Bool.false_eq_true, if_false]

/-! ## The grid of the sub-pixels -/

section FloorScalars

variable [FloorRing K]

/-- The target of the ray of `subPixelRadiance` is displaced from the centre of
the pixel by `targetDisplacement`. -/
theorem subPixelRadiance_target (lm : Libm K) (scene : Scene K) (inst : Instance K) (fuel : Nat)
    (rayX rayY : K) (initialRayCount subX subY : Nat) (jitter : Vector2 K) (radiance : Color K) :
    subPixelRadiance lm scene inst fuel rayX rayY initialRayCount subX subY jitter radiance =
      (let targetOnImagePlane := (⟨rayX, rayY, -1⟩ : Vector3 K).addVector2
          (targetDisplacement inst initialRayCount subX subY)
       let targetOnFocusPlane := inst.m_cameraTransformation.mulVec
          (targetOnImagePlane.scale scene.m_camera.m_focusDistance)
       let originDisplacement : Vector2 K :=
          ((subDisplacement initialRayCount subX subY).add
            (jitter.scale (1 / (initialRayCount : K)))).scale scene.m_camera.m_lensSize
       let rayOrigin :=
          (inst.m_cameraTransformation.mulVec ⟨0, 0, 0⟩).addVector2 originDisplacement
       let ray := Ray.new lm rayOrigin (targetOnFocusPlane.sub rayOrigin)
       if scene.m_dispersionMode = true then
         dispersionRays lm scene fuel ray dispersionHues radiance
       else
         match castRay lm scene fuel ray 0 0 with
         | none => none
         | some c => some (radiance.add c)) :=
  rfl

end FloorScalars

/-- The components of `subDisplacement` for `n >= 1` sub-pixels per axis lie in
`[-(n-1)/(n+1), (n-1)/(n+1)]`, strictly inside `(-1, 1)`. -/
theorem subDisplacement_bound (n subX subY : Nat) (hn : 1 ≤ n) (hn32 : n < 4294967295)
    (hx : subX < n) (hy : subY < n) :
    |(subDisplacement n subX subY : Vector2 K).x| ≤ ((n : K) - 1) / ((n : K) + 1) ∧
    |(subDisplacement n subX subY : Vector2 K).y| ≤ ((n : K) - 1) / ((n : K) + 1) ∧
    ((n : K) - 1) / ((n : K) + 1) < 1 := by
  have hu : ∀ s : Nat, s ≤ n → u32Add s 1 = s + 1 := by
    intro s hs
    unfold u32Add
    exact Nat.mod_eq_of_lt (by omega)
  have hnpos : (0 : K) < (n : K) + 1 := by positivity
  have key : ∀ s : Nat, s < n →
      |2 * ((s + 1 : Nat) : K) / ((n + 1 : Nat) : K) - 1| ≤ ((n : K) - 1) / ((n : K) + 1) := by
    intro s hs
    have hs1 : (1 : K) ≤ ((s + 1 : Nat) : K) := by
      have : 1 ≤ s + 1 := by omega
      exact_mod_cast this
    have hs2 : ((s + 1 : Nat) : K) ≤ (n : K) := by
      have : s + 1 ≤ n := hs
      exact_mod_cast this
    have e : 2 * ((s + 1 : Nat) : K) / ((n + 1 : Nat) : K) - 1 =
        (2 * ((s + 1 : Nat) : K) - ((n : K) + 1)) / ((n : K) + 1) := by
      push_cast
      field_simp
    rw [e, abs_div, abs_of_pos hnpos, div_le_div_iff_of_pos_right hnpos, abs_le]
    constructor <;> linarith
  refine ⟨?_, ?_, ?_⟩
  · simp only [subDisplacement]
    rw [hu subX (le_of_lt hx), hu n (le_refl _)]
    exact key subX hx
  · simp only [subDisplacement]
    rw [hu subY (le_of_lt hy), hu n (le_refl _)]
    exact key subY hy
  · rw [div_lt_one hnpos]
    linarith

/-! ## The divisor of the interpolation -/

/-- When the loop of `animateScalar` reaches its interpolation branch, its
result is the interpolation with the operands of `interpolationOf`. -/
theorem animateLoop_of_interpolation (T : K) (l : List (Except String (KeyFrame K))) :
    ∀ (start : Bool) (value time : K) (easeType : Char) (ip : Interpolation K),
      interpolationOf T l start value time easeType = some ip →
      animateLoop T l start value time easeType =
        match ease ip.easeType (ip.elapsed / ip.span) with
        | .error e => .error e
        | .ok f => .ok (f * (ip.targetValue - ip.value) + ip.value) := by
  induction l with
  | nil =>
    intro start value time easeType ip h
    simp [interpolationOf] at h
  | cons x rest ih =>
    intro start value time easeType ip h
    cases x with
    | error e => simp [interpolationOf] at h
    | ok kf =>
      obtain ⟨v, tag, et⟩ := kf
      cases start <;> cases et <;>
        simp only [interpolationOf, animateLoop, Bool.false_eq_true, if_false, if_true,
          false_or, true_or] at h ⊢ <;>
        split_ifs at h ⊢ <;>
        first
          | exact ih _ _ _ _ ip h
          | (simp only [Option.some.injEq] at h; subst h; rfl)

/-- From a state whose `time` lies before the scene time, the divisor of the
interpolation is positive. -/
theorem interpolationOf_span_pos (T : K) (l : List (Except String (KeyFrame K))) :
    ∀ (value time : K) (easeType : Char) (ip : Interpolation K), time < T →
      interpolationOf T l false value time easeType = some ip → 0 < ip.span := by
  induction l with
  | nil =>
    intro value time easeType ip _ h
    simp [interpolationOf] at h
  | cons x rest ih =>
    intro value time easeType ip ht h
    cases x with
    | error e => simp [interpolationOf] at h
    | ok kf =>
      obtain ⟨v, tag, et⟩ := kf
      cases et <;>
        simp only [interpolationOf, Bool.false_eq_true, if_false, false_or] at h <;>
        split_ifs at h with c1 c2 c3 c4
      · exact ih _ _ _ ip c2 h
      · simp only [Option.some.injEq] at h
        subst h
        have := not_lt.mp c2
        show 0 < _ - time
        linarith
      · exact ih _ _ _ ip c2 h
      · simp only [Option.some.injEq] at h
        subst h
        have := not_lt.mp c2
        show 0 < _ - time
        linarith

/-- The divisor `targetTime - time` of the interpolation of `animateScalar` is
never negative, and it is zero in one case only: the first two key-frames are
both at the scene time, where the dividend is zero as well. -/
theorem interpolationOf_span (T : K) (frames : List (KeyFrame K)) (ip : Interpolation K)
    (h : interpolationOf T (frames.map Except.ok) true 0 0 'l' = some ip) :
    0 ≤ ip.span ∧
    (ip.span = 0 → ip.elapsed = 0 ∧ keyTime frames 0 = T ∧ keyTime frames 1 = T) := by
  match frames, h with
  | [], h => simp [interpolationOf] at h
  | kf0 :: rest, h =>
    simp only [List.map_cons] at h
    unfold interpolationOf at h
    simp only [true_or, if_true] at h
    split_ifs at h with c1 c2
    have ht0 : keyTime (kf0 :: rest) 0 = kf0.explicitTime.getD 0 := by
      simp [keyTime]
    have hstate : (match kf0.explicitTime with
        | some t => t
        | none => (0 : K)) = kf0.explicitTime.getD 0 := by
      cases kf0.explicitTime <;> rfl
    rw [hstate] at h
    by_cases hlt : kf0.explicitTime.getD 0 < T
    · have hpos := interpolationOf_span_pos T _ _ _ _ ip hlt h
      exact ⟨le_of_lt hpos, fun h0 => absurd h0 (ne_of_gt hpos)⟩
    · match rest, h with
      | [], h => simp [interpolationOf] at h
      | kf1 :: rest2, h =>
        simp only [List.map_cons] at h
        unfold interpolationOf at h
        simp only [Bool.false_eq_true, false_or, if_false] at h
        have ht1 : keyTime (kf0 :: kf1 :: rest2) 1 = kf1.explicitTime.getD 1 := by
          simp [keyTime]
        have hstate1 : (match kf1.explicitTime with
            | some t => t
            | none => (1 : K)) = kf1.explicitTime.getD 1 := by
          cases kf1.explicitTime <;> rfl
        rw [hstate1] at h
        split_ifs at h with d1 d2 d3 d4
        · exfalso
          have := not_lt.mp d3
          have := not_lt.mp hlt
          linarith
        · simp only [Option.some.injEq] at h
          subst h
          have e1 := not_lt.mp d2
          have e2 := not_lt.mp d4
          have e3 := not_lt.mp hlt
          have hT : kf0.explicitTime.getD 0 = T := le_antisymm e2 e3
          refine ⟨?_, ?_⟩
          · show 0 ≤ _ - _
            linarith
          · intro h0
            have h0 : kf1.explicitTime.getD 1 - kf0.explicitTime.getD 0 = 0 := h0
            refine ⟨?_, ?_, ?_⟩
            · show T - _ = 0
              rw [hT, sub_self]
            · rw [ht0, hT]
            · rw [ht1]
              linarith

/-! ## The repeat mode of the textures -/

section FloorScalars

variable [FloorRing K]

/-- Embedded `modff` has the period 1 on the non-negative numbers. -/
theorem modff_add_nat (x : K) (hx : 0 ≤ x) (i : Nat) : modff (x + (i : K)) = modff x := by
  have hxi : 0 ≤ x + (i : K) := add_nonneg hx (Nat.cast_nonneg i)
  simp only [modff, truncScalar, if_pos hx, if_pos hxi]
  rw [Int.floor_add_nat]
  push_cast
  ring

/-- The repeat mode of the textures on non-negative coordinates: a shift of a
texture coordinate `(u, v)` with `u, v >= 0` by natural numbers `(i, j)` does not
change the colour of `calcTexturePixelColorWithAntiAliasing`. -/
theorem calcTexture_repeat_nonneg (texture : Picture K) (u v : K) (hu : 0 ≤ u) (hv : 0 ≤ v)
    (i j : Nat) :
    calcTexturePixelColorWithAntiAliasing texture ⟨u + (i : K), v + (j : K)⟩ =
      calcTexturePixelColorWithAntiAliasing texture ⟨u, v⟩ := by
  unfold calcTexturePixelColorWithAntiAliasing
  simp only [modff_add_nat u hu i, modff_add_nat v hv j]

end FloorScalars

/-! ## Monotony of the easing functions -/

/-- No comparison with NaN holds. -/
theorem IEEE.nan_compare (x : IEEE K) :
    (IEEE.nan : IEEE K).lt x = false ∧ x.lt IEEE.nan = false ∧
    (IEEE.nan : IEEE K).le x = false ∧ x.le IEEE.nan = false ∧
    (IEEE.nan : IEEE K).eq x = false ∧ x.eq IEEE.nan = false := by
  cases x <;> simp [IEEE.lt, IEEE.le, IEEE.eq]

/-- A limit `max_distance` that is NaN limits nothing: `Triangle::intersect`
reports what it reports without a limit. -/
theorem Triangle.intersectIEEE_limit_nan (negZero : Bool) (t : Triangle K) (ray : Ray K) :
    t.intersectIEEE negZero ray IEEE.nan = t.intersectIEEE negZero ray IEEE.posInf := by
  have h : ∀ x : IEEE K, (IEEE.nan : IEEE K).lt x = (IEEE.posInf : IEEE K).lt x := by
    intro x
    cases x <;> rfl
  simp only [Triangle.intersectIEEE, h]

/-- In the Julia set with `c = 0` the loop of `estimateDistance` from the
centre ends with `d2 = 0` and `m2 = 0`, after every number of iterations but
0. -/
theorem Julia.estimateDistanceLoop_centre (j : Julia K) (hc : j.m_c = ⟨0, 0, 0, 0⟩) (n : Nat) :
    j.estimateDistanceLoop n ⟨0, 0, 0, 0⟩ 0 0 = (0, 0) ∧
    j.estimateDistanceLoop (n + 1) ⟨0, 0, 0, 0⟩ 1 0 = (0, 0) := by
  have hz : ((⟨0, 0, 0, 0⟩ : Quaternion K).mul ⟨0, 0, 0, 0⟩).add j.m_c = ⟨0, 0, 0, 0⟩ := by
    rw [hc]
    simp [Quaternion.mul, Quaternion.add]
  have hm : (⟨0, 0, 0, 0⟩ : Quaternion K).squaredLength = 0 := by
    simp [Quaternion.squaredLength]
  have hnot : ¬ ((0 : K) > 10000000000) := by norm_num
  have h1 : ∀ n, j.estimateDistanceLoop n ⟨0, 0, 0, 0⟩ 0 0 = (0, 0) := by
    intro n
    induction n with
    | zero => rfl
    | succ n ih =>
      unfold Julia.estimateDistanceLoop
      simp only [hz, hm, if_neg hnot, mul_zero, zero_mul, ih]
  refine ⟨h1 n, ?_⟩
  unfold Julia.estimateDistanceLoop
  simp only [hz, hm, if_neg hnot, mul_zero, h1 n]

/-- C5, evaluated at the input on which the code leaves the claim: the Julia
set with `c = 0` and the ray that starts at its centre. The first position
tested is the centre; there the loop of `estimateDistance` ends with `m2 = 0`
and `d2 = 0`, and the return statement gives `sqrt(0 / 0) * 0.5 * log(0)`, which
is NaN. No comparison with NaN holds: neither the tests of the search loop on
`distance` nor the final test
`intersectionDistance < EPSILON || intersectionDistance > max_distance`. -/
theorem Julia.estimateDistanceIEEE_centre (lm : Libm K) (n : Nat) (max_distance : IEEE K) :
    (⟨(centreRay : Ray K).origin.x, (centreRay : Ray K).origin.y, (centreRay : Ray K).origin.z,
      (unitJulia : Julia K).m_cutPlane⟩ : Quaternion K) = ⟨0, 0, 0, 0⟩ ∧
    (unitJulia : Julia K).estimateDistanceLoop (n + 1) ⟨0, 0, 0, 0⟩ 1
      (⟨0, 0, 0, 0⟩ : Quaternion K).squaredLength = (0, 0) ∧
    (unitJulia : Julia K).estimateDistanceIEEE lm ⟨0, 0, 0, 0⟩ (n + 1) = IEEE.nan ∧
    (IEEE.nan : IEEE K).lt (IEEE.num JULIA_INTERSECT_SEARCH_CONVERGENCE_LIMIT) = false ∧
    (IEEE.num JULIA_INTERSECT_SEARCH_DIVERGENCE_LIMIT).lt (IEEE.nan : IEEE K) = false ∧
    (IEEE.num JULIA_INTERSECT_SEARCH_CONVERGENCE_LIMIT).le (IEEE.nan : IEEE K) = false ∧
    (IEEE.nan : IEEE K).lt (IEEE.num EPSILON) = false ∧
    max_distance.lt (IEEE.nan : IEEE K) = false := by
  have hm : (⟨0, 0, 0, 0⟩ : Quaternion K).squaredLength = 0 := by
    simp [Quaternion.squaredLength]
  have hloop := (Julia.estimateDistanceLoop_centre (unitJulia : Julia K) rfl n).2
  refine ⟨rfl, by rw [hm]; exact hloop, ?_, rfl, rfl, rfl, rfl, (IEEE.nan_compare _).2.1⟩
  simp only [Julia.estimateDistanceIEEE, hm, hloop, IEEE.div, ne_eq, not_true_eq_false, if_false,
    if_true, IEEE.sqrt, IEEE.mul]

/-! ## The direction of a ray built from a long vector -/

/-- For a vector whose length is below `2^128`, `Vector3.normalizedIEEE` gives
the components of `Vector3.normalized`. -/
theorem Vector3.normalizedIEEE_of_lt (lm : Libm K) (a : Vector3 K)
    (h : a.length lm < 2 ^ 128) :
    Vector3.normalizedIEEE lm a =
      (IEEE.num (a.normalized lm).x, IEEE.num (a.normalized lm).y,
        IEEE.num (a.normalized lm).z) := by
  unfold Vector3.length at h
  simp only [Vector3.normalizedIEEE, hypotIEEE, if_pos h, IEEE.eq, decide_eq_true_eq,
    Vector3.normalized, Vector3.length]
  split_ifs with h0
  · rfl
  · simp only [IEEE.divNum, IEEE.div, ne_eq, h0, not_false_eq_true, if_true]

/-! ## The scan loops in single precision -/

/-- The `float` of the constant `PI` is `0x40490FDB`, that is
`13176795 * 2^-22`. -/
theorem PI32_value : PI32 = 13176795 * 2 ^ 127 := by decide!

/-- More fuel does not change the values of a scan loop that has ended. -/
theorem scanAngles32_succ (fuel : Nat) :
    ∀ (limit step x : Nat) (r : List Nat), scanAngles32 fuel limit step x = some r →
      scanAngles32 (fuel + 1) limit step x = some r := by
  induction fuel with
  | zero =>
    intro limit step x r h
    simp [scanAngles32] at h
  | succ fuel ih =>
    intro limit step x r h
    unfold scanAngles32 at h
    unfold scanAngles32
    split_ifs at h ⊢ with hx
    · cases h2 : scanAngles32 fuel limit step (f32Add x step) with
      | none => simp [h2] at h
      | some rest =>
        rw [ih limit step _ rest h2]
        simpa [h2] using h
    · exact h

/-- More fuel does not change the values of a scan loop that has ended. -/
theorem scanAngles32_mono (fuel fuel2 : Nat) (hf : fuel ≤ fuel2) (limit step x : Nat)
    (r : List Nat) (h : scanAngles32 fuel limit step x = some r) :
    scanAngles32 fuel2 limit step x = some r := by
  induction fuel2 with
  | zero =>
    have : fuel = 0 := by omega
    subst this
    exact h
  | succ n ih =>
    by_cases hn : fuel ≤ n
    · exact scanAngles32_succ n limit step x r (ih hn)
    · have : fuel = n + 1 := by omega
      subst this
      exact h

/-- More fuel does not change the grid of a scan that has ended. -/
theorem PhotonMapper.scanGrid32_mono (scanSteps fuel fuel2 : Nat) (hf : fuel ≤ fuel2)
    (g : List Nat × List Nat) (h : PhotonMapper.scanGrid32 scanSteps fuel = some g) :
    PhotonMapper.scanGrid32 scanSteps fuel2 = some g := by
  unfold PhotonMapper.scanGrid32 at h ⊢
  simp only [] at h ⊢
  cases h1 : scanAngles32 fuel (f32Mul (f32OfNat 2) PI32)
      (f32Div (f32Mul (f32OfNat 2) PI32) (f32OfNat scanSteps)) 0 with
  | none => simp [h1] at h
  | some phis =>
    cases h2 : scanAngles32 fuel PI32
        (f32Div (f32Mul (f32OfNat 2) PI32) (f32OfNat scanSteps)) 0 with
    | none => simp [h1, h2] at h
    | some thetas =>
      rw [scanAngles32_mono fuel fuel2 hf _ _ _ phis h1,
        scanAngles32_mono fuel fuel2 hf _ _ _ thetas h2]
      simpa [h1, h2] using h

/-- The numbers of values of `phi` and `theta` for the scan-step counts 1 to
5. -/
theorem PhotonMapper.scanGrid32_lengths_small :
    (PhotonMapper.scanGrid32 1 6).map (fun g => (g.1.length, g.2.length)) = some (1, 1) ∧
    (PhotonMapper.scanGrid32 2 6).map (fun g => (g.1.length, g.2.length)) = some (2, 1) ∧
    (PhotonMapper.scanGrid32 3 6).map (fun g => (g.1.length, g.2.length)) = some (3, 2) ∧
    (PhotonMapper.scanGrid32 4 6).map (fun g => (g.1.length, g.2.length)) = some (4, 2) ∧
    (PhotonMapper.scanGrid32 5 6).map (fun g => (g.1.length, g.2.length)) = some (5, 3) := by
  refine ⟨by decide!, by decide!, by decide!, by decide!, by decide!⟩

/-- With six scan steps the accumulated `phi` is still below `2 * PI` after six
additions (`0x40C90FDA` against `0x40C90FDB`): the loop over `phi` runs seven
times, and 21 primary rays are cast, not 6 x 3. -/
theorem PhotonMapper.scanGrid32_six :
    (PhotonMapper.scanGrid32 6 8).map (fun g => (g.1.length, g.2.length)) = some (7, 3) ∧
    (PhotonMapper.scanGrid32 6 8).map (fun g => g.1.getLast?) =
      some (some (13176794 * 2 ^ 128)) ∧
    f32Mul (f32OfNat 2) PI32 = 13176795 * 2 ^ 128 ∧
    PhotonMapper.primaryRayCount32 6 8 = some 21 := by
  refine ⟨by decide!, by decide!, by decide!, by decide!⟩

/-- C17 (amended). For a point light and an integer scan-step count `N` from
1 to 5, the two scan loops of `PhotonMapper::generate`, computed in single
precision, take `N` values of `phi` and `ceil(N / 2)` values of `theta`, so
that `N * ceil(N / 2)` primary rays are cast: for every fuel above `N`. -/
theorem PhotonMapper.primaryRayCount32_small (N : Nat) (hN : 1 ≤ N) (hN5 : N ≤ 5) (fuel : Nat)
    (hfuel : N < fuel) :
    ∃ phis thetas, PhotonMapper.scanGrid32 N fuel = some (phis, thetas) ∧
      phis.length = N ∧ thetas.length = (N + 1) / 2 ∧
      PhotonMapper.primaryRayCount32 N fuel = some (N * ((N + 1) / 2)) := by
  have key : ∀ (a b : Nat) (g : Option (List Nat × List Nat)),
      g.map (fun g => (g.1.length, g.2.length)) = some (a, b) →
      ∃ phis thetas, g = some (phis, thetas) ∧ phis.length = a ∧ thetas.length = b := by
    intro a b g hg
    cases g with
    | none => simp at hg
    | some g =>
      simp only [Option.map_some', Option.some.injEq, Prod.mk.injEq] at hg
      exact ⟨g.1, g.2, rfl, hg.1, hg.2⟩
  have hsmall := PhotonMapper.scanGrid32_lengths_small
  have h6 : ∃ phis thetas, PhotonMapper.scanGrid32 N (N + 1) = some (phis, thetas) ∧
      phis.length = N ∧ thetas.length = (N + 1) / 2 := by
    have hfrom : ∀ (a b : Nat), a = N → b = (N + 1) / 2 →
        (PhotonMapper.scanGrid32 N (N + 1)).map (fun g => (g.1.length, g.2.length)) =
          some (a, b) →
        ∃ phis thetas, PhotonMapper.scanGrid32 N (N + 1) = some (phis, thetas) ∧
          phis.length = N ∧ thetas.length = (N + 1) / 2 := by
      intro a b ha hb hg
      subst ha hb
      exact key _ _ _ hg
    interval_cases N
    · exact hfrom 1 1 rfl rfl (by decide!)
    · exact hfrom 2 1 rfl rfl (by decide!)
    · exact hfrom 3 2 rfl rfl (by decide!)
    · exact hfrom 4 2 rfl rfl (by decide!)
    · exact hfrom 5 3 rfl rfl (by decide!)
  obtain ⟨phis, thetas, hg, hp, ht⟩ := h6
  have hg2 := PhotonMapper.scanGrid32_mono N (N + 1) fuel (by omega) _ hg
  refine ⟨phis, thetas, hg2, hp, ht, ?_⟩
  simp only [PhotonMapper.primaryRayCount32, hg2, Option.map_some', hp, ht]

end Scalars

/-! ## Examples over the rational numbers -/

theorem rampFrames_valid :
    (∀ k, k < rampFrames.length → 0 ≤ keyTime rampFrames k ∧ keyTime rampFrames k ≤ 1) ∧
    (∀ k, k + 1 < rampFrames.length → keyTime rampFrames k < keyTime rampFrames (k + 1)) ∧
    (∀ k c, keyTag rampFrames k = some c → isEaseChar c = true) := by
  have t0 : keyTime rampFrames 0 = 0 := by simp [keyTime, rampFrames]
  have t1 : keyTime rampFrames 1 = 1 / 2 := by simp [keyTime, rampFrames]
  have t2 : keyTime rampFrames 2 = 1 := by simp [keyTime, rampFrames]
  refine ⟨?_, ?_, ?_⟩
  · intro k hk
    have : k = 0 ∨ k = 1 ∨ k = 2 := by
      simp only [rampFrames, List.length_cons, List.length_nil] at hk; omega
    rcases this with rfl | rfl | rfl
    · rw [t0]; norm_num
    · rw [t1]; norm_num
    · rw [t2]; norm_num
  · intro k hk
    have : k = 0 ∨ k = 1 := by
      simp only [rampFrames, List.length_cons, List.length_nil] at hk; omega
    rcases this with rfl | rfl
    · rw [t0, t1]; norm_num
    · rw [t1, t2]; norm_num
  · intro k c h
    match k with
    | 0 => simp [keyTag, rampFrames] at h
    | 1 =>
      simp only [keyTag, rampFrames, List.getElem?_cons_succ, List.getElem?_cons_zero,
        Option.some.injEq] at h
      rw [← h]; rfl
    | 2 => simp [keyTag, rampFrames] at h
    | n + 3 => simp [keyTag, rampFrames] at h

/-- Witness of C6: the key-frames of `0;1(l,0.5);0`. -/
theorem animateKeyFrames_piecewise_witness :
    1 ≤ rampFrames.length ∧
    (∀ k, k < rampFrames.length → 0 ≤ keyTime rampFrames k ∧ keyTime rampFrames k ≤ 1) ∧
    (∀ k, k + 1 < rampFrames.length → keyTime rampFrames k < keyTime rampFrames (k + 1)) ∧
    (∀ k c, keyTag rampFrames k = some c → isEaseChar c = true) ∧
    ((1 / 4 : ℚ) ≤ keyTime rampFrames 0 →
      animateKeyFrames (1 / 4 : ℚ) rampFrames = .ok (keyValue rampFrames 0)) ∧
    (keyTime rampFrames (rampFrames.length - 1) < 1 / 4 →
      animateKeyFrames (1 / 4 : ℚ) rampFrames = .ok (keyValue rampFrames (rampFrames.length - 1))) ∧
    (∀ k, k + 1 < rampFrames.length → keyTime rampFrames k < 1 / 4 →
      1 / 4 ≤ keyTime rampFrames (k + 1) →
      ∃ f : ℚ,
        ease (keyEase rampFrames (k + 1))
          ((1 / 4 - keyTime rampFrames k) / (keyTime rampFrames (k + 1) - keyTime rampFrames k)) =
            .ok f ∧
        animateKeyFrames (1 / 4 : ℚ) rampFrames =
          .ok (f * (keyValue rampFrames (k + 1) - keyValue rampFrames k) +
            keyValue rampFrames k)) :=
  ⟨by decide, rampFrames_valid.1, rampFrames_valid.2.1, rampFrames_valid.2.2,
    animateKeyFrames_piecewise (1 / 4) rampFrames (by decide) rampFrames_valid.1
      rampFrames_valid.2.1 rampFrames_valid.2.2⟩

/-- Witness of C9: the key-frames of `0;1(0.5);2(0.3)` at scene time 3/4, where
the evaluation reaches the ill-ordered last key-frame. -/
theorem animateKeyFrames_error_when_reached_witness :
    2 < illOrderedFrames.length ∧
    (∀ i, i < 2 → 0 ≤ keyTime illOrderedFrames i ∧ keyTime illOrderedFrames i ≤ 1) ∧
    (∀ i, i + 1 < 2 → keyTime illOrderedFrames i ≤ keyTime illOrderedFrames (i + 1)) ∧
    (∀ i, 1 ≤ i → i < 2 → keyTime illOrderedFrames i < 3 / 4) ∧
    ((keyTime illOrderedFrames 2 < 0 ∨ 1 < keyTime illOrderedFrames 2) ∨
      (1 ≤ 2 ∧ keyTime illOrderedFrames 2 < keyTime illOrderedFrames (2 - 1) ∧
        keyTime illOrderedFrames 2 < 3 / 4)) ∧
    ∃ e : String, animateKeyFrames (3 / 4 : ℚ) illOrderedFrames = .error e := by
  have t0 : keyTime illOrderedFrames 0 = 0 := by simp [keyTime, illOrderedFrames]
  have t1 : keyTime illOrderedFrames 1 = 1 / 2 := by simp [keyTime, illOrderedFrames]
  have t2 : keyTime illOrderedFrames 2 = 3 / 10 := by simp [keyTime, illOrderedFrames]
  have hlen : 2 < illOrderedFrames.length := by decide
  have hrange : ∀ i, i < 2 → 0 ≤ keyTime illOrderedFrames i ∧ keyTime illOrderedFrames i ≤ 1 := by
    intro i hi
    have : i = 0 ∨ i = 1 := by omega
    rcases this with rfl | rfl
    · rw [t0]; norm_num
    · rw [t1]; norm_num
  have hmono : ∀ i, i + 1 < 2 →
      keyTime illOrderedFrames i ≤ keyTime illOrderedFrames (i + 1) := by
    intro i hi
    have : i = 0 := by omega
    subst this
    rw [t0, t1]; norm_num
  have hreach : ∀ i, 1 ≤ i → i < 2 → keyTime illOrderedFrames i < 3 / 4 := by
    intro i h1 h2
    have : i = 1 := by omega
    subst this
    rw [t1]; norm_num
  have hbad : (keyTime illOrderedFrames 2 < 0 ∨ 1 < keyTime illOrderedFrames 2) ∨
      (1 ≤ 2 ∧ keyTime illOrderedFrames 2 < keyTime illOrderedFrames (2 - 1) ∧
        keyTime illOrderedFrames 2 < 3 / 4) := by
    right
    refine ⟨by decide, ?_, ?_⟩
    · rw [t2, t1]; norm_num
    · rw [t2]; norm_num
  exact ⟨hlen, hrange, hmono, hreach, hbad,
    animateKeyFrames_error_when_reached (3 / 4) illOrderedFrames 2 hlen hrange hmono hreach hbad⟩

/-- Counterexample to C20: a scene with two frames, one sub-frame and the time
attribute 0 is rendered as a single image, not as an animation. -/
theorem chooseRenderMode_counterexample :
    (timedScene : Scene ℚ).m_frames > 1 ∧ (timedScene : Scene ℚ).m_subFrames = 1 ∧
    chooseRenderMode (timedScene : Scene ℚ) = RenderMode.renderImage ∧
    chooseRenderMode (timedScene : Scene ℚ) ≠ RenderMode.renderVideo := by
  have h : chooseRenderMode (timedScene : Scene ℚ) = RenderMode.renderImage := by
    unfold chooseRenderMode
    have ht : ¬ ((timedScene : Scene ℚ).m_frames > 1 ∧ (timedScene : Scene ℚ).m_time = INFINITE) := by
      intro hh
      have h2 : (timedScene : Scene ℚ).m_time = 0 := rfl
      rw [h2] at hh
      simp [INFINITE] at hh
    have hs : ¬ (timedScene : Scene ℚ).m_subFrames > 1 := by
      intro hh
      have h2 : (timedScene : Scene ℚ).m_subFrames = 1 := rfl
      rw [h2] at hh
      exact absurd hh (by decide)
    simp only [ht, hs, if_false]
  refine ⟨by decide, rfl, h, ?_⟩
  rw [h]
  decide

/-- Witness of C19: the mean of a red and a green pixel. -/
theorem compositeSubPictures_mean_witness :
    1 ≤ [(redPixel : Picture ℚ), greenPixel].length ∧
    ((compositeSubPictures ⟨1, 1⟩ 2 [(redPixel : Picture ℚ), greenPixel]).get ⟨0, 0⟩).r = 1 / 2 := by
  refine ⟨by decide, ?_⟩
  have h := (compositeSubPictures_mean ⟨1, 1⟩ [(redPixel : Picture ℚ), greenPixel] (by decide)
    (by
      intro sub hsub
      simp only [List.mem_cons, List.mem_singleton, List.not_mem_nil, or_false] at hsub
      rcases hsub with h | h <;> rw [h] <;> exact ⟨rfl, rfl⟩) ⟨0, 0⟩).2.1
  have hl : [(redPixel : Picture ℚ), greenPixel].length = 2 := rfl
  rw [hl] at h
  rw [h]
  simp [redPixel, greenPixel, Picture.get, Picture.datapos]

/-- Witness of C15: the first photon on a new object with a 4 x 4 texture, at
UV (1/2, 1/2), is stored in pixel (1, 1). -/
theorem Object.addPhoton_single_pixel_witness :
    struckTexel ((glassTriangle : Object ℚ).photonTexture 4).size (⟨1 / 2, 1 / 2⟩ : Vector2 ℚ) =
      ⟨1, 1⟩ ∧
    ((glassTriangle : Object ℚ).addPhoton 4 ⟨1 / 2, 1 / 2⟩ ⟨1, 1, 1, 1⟩).getPhoton ⟨1 / 2, 1 / 2⟩ =
      (Color.zero : Color ℚ).add ⟨1, 1, 1, 1⟩ := by
  have hsize : ((glassTriangle : Object ℚ).photonTexture 4).size = ⟨4, 4⟩ := rfl
  have h := Object.addPhoton_single_pixel (glassTriangle : Object ℚ) 4 ⟨1 / 2, 1 / 2⟩ ⟨1, 1, 1, 1⟩
    (by decide) (by decide)
    ⟨rfl, by decide, by decide⟩
    (by rw [hsize]; norm_num) (by rw [hsize]; norm_num)
  refine ⟨?_, ?_⟩
  · rw [hsize]
    simp only [struckTexel, clampedFloor]
    have e : ⌊(1 / 2 : ℚ) * (((4 - 1 : ℕ) : ℕ) : ℚ)⌋ = 1 := by
      rw [Int.floor_eq_iff]; norm_num
    rw [e]
    rfl
  · rw [h.2.2.2.2.2.2, h.2.2.2.2.2.1 rfl]

/-- The cases of `tests/test_fspolyfill.cpp` (the backslash is the character
of code 92). -/
theorem replace_filename_tests :
    replace_filename "".toList "image.png".toList = "image.png".toList ∧
    replace_filename "scene.xml".toList "image.png".toList = "image.png".toList ∧
    replace_filename "/scene.xml".toList "image.png".toList = "/image.png".toList ∧
    replace_filename "dir/scene.xml".toList "image.png".toList = "dir/image.png".toList ∧
    replace_filename ("/dir/../xx".toList ++ Char.ofNat 92 :: "scene.xml".toList)
        "image.png".toList = "/dir/../xx".toList ++ Char.ofNat 92 :: "image.png".toList ∧
    replace_filename "scene.xml".toList "../image.png".toList = "../image.png".toList ∧
    replace_filename "../scene.xml".toList "../image.png".toList = "../../image.png".toList ∧
    replace_filename "C:scene.xml".toList "image.png".toList = "C:image.png".toList ∧
    replace_filename "xyz/scene.xml".toList "/aa/image.png".toList = "/aa/image.png".toList ∧
    replace_filename "C:scene.xml".toList "D:image.png".toList = "D:image.png".toList ∧
    replace_filename ("C:".toList ++ Char.ofNat 92 :: "scene.xml".toList) "image.png".toList =
      "C:".toList ++ Char.ofNat 92 :: "image.png".toList := by
  refine ⟨?_, ?_, ?_, ?_, ?_, ?_, ?_, ?_, ?_, ?_, ?_⟩ <;> decide

/-- Witness of C21: the path `dir/scene.xml` and the replacement `image.png`. -/
theorem replace_filename_relative_witness :
    "image.png".toList ≠ [] ∧ front "image.png".toList ∉ DIR_SEPARATORS ∧
    ':' ∉ "image.png".toList ∧
    ∃ pre rest : List Char, "dir/scene.xml".toList = pre ++ rest ∧
      (∀ c ∈ rest, c ∉ DIR_SEPARATORS) ∧
      (pre = [] ∨ ∃ init c, pre = init ++ [c] ∧ c ∈ DIR_SEPARATORS) ∧
      replace_filename "dir/scene.xml".toList "image.png".toList = pre ++ "image.png".toList :=
  ⟨by decide, by decide, by decide,
    replace_filename_relative "dir/scene.xml".toList "image.png".toList (by decide) (by decide)
      (by decide)⟩

/-- Witness of C22: the path `xyz/scene.xml` and the replacement
`/aa/image.png`. -/
theorem replace_filename_absolute_witness :
    "/aa/image.png".toList ≠ [] ∧
    (front "/aa/image.png".toList ∈ DIR_SEPARATORS ∨ ':' ∈ "/aa/image.png".toList) ∧
    replace_filename "xyz/scene.xml".toList "/aa/image.png".toList = "/aa/image.png".toList :=
  ⟨by decide, Or.inl (by decide),
    replace_filename_absolute "xyz/scene.xml".toList "/aa/image.png".toList (by decide)
      (Or.inl (by decide))⟩

/-! ## Examples of the mesh loader -/

/-- The loader on a file with one triangle: it is stored with the indices of the
file, and `createObjects` builds its object. -/
theorem Mesh.load_triangleFile :
    (Mesh.load (plainExtract : Extract ℚ) triangleFile).map (fun m => m.m_faces) =
      some [⟨⟨1, 0, 1⟩, ⟨2, 0, 1⟩, ⟨3, 0, 1⟩⟩] ∧
    (Mesh.load (plainExtract : Extract ℚ) triangleFile).map (fun m => m.m_vertices.length) =
      some 3 := by
  decide

/-- The loader fails on a file whose face names the fourth of three vertices. -/
theorem Mesh.load_brokenFile :
    Mesh.load (plainExtract : Extract ℚ) brokenFile = none ∧
    Mesh.FaceWord (plainExtract : Extract ℚ) "f 1//1 2//1 4//1".toList "4//1".toList ∧
    Mesh.parsePoint (plainExtract : Extract ℚ) "4//1".toList = some ⟨4, 0, 1⟩ := by
  refine ⟨?_, ⟨"1//1 2//1 4//1".toList.cons ' ', "1//1".toList, "2//1".toList, "4//1".toList,
    by decide, by decide, by decide⟩, by decide⟩
  have h : (Mesh.load (plainExtract : Extract ℚ) brokenFile).isSome = false := by decide
  exact Option.not_isSome_iff_eq_none.mp (by simp [h])

/-- Witness of C38: 3 frames of 5 sub-frames; sub-frame 2 of frame 1 is at the
time 1/2. -/
theorem subFrameTime_spec_witness :
    1 ≤ 3 ∧ 2 ≤ 5 ∧ 5 < 4294967296 ∧ 1 < 3 ∧ 2 < 5 ∧
    (subFrameTime 3 5 1 2 : ℚ) = 1 / 2 ∧
    (0 : ℚ) ≤ subFrameTime 3 5 1 2 ∧ subFrameTime 3 5 1 2 ≤ (1 : ℚ) ∧
    (subFrameTime 3 5 1 (5 - 1) : ℚ) = ((1 : ℕ) + 1 : ℚ) / (3 : ℕ) := by
  have h := subFrameTime_spec (K := ℚ) 3 5 1 2 (by decide) (by decide) (by decide) (by decide)
    (by decide)
  refine ⟨by decide, by decide, by decide, by decide, by decide, ?_, h.1, h.2.1, h.2.2.2.1⟩
  have hu : u32Sub 5 1 = 4 := by decide
  unfold subFrameTime
  rw [hu]
  norm_num

/-- C31, evaluated at the input on which the code leaves the claim:
`unitTriangle` and the ray from `(1/4, 1/4, 0)` along the x axis, which lies in
the plane of the triangle. `approach_rate` is zero, and `Triangle::intersect`
reports a hit whose weights and distance are NaN, for both signs of the zero
and every `max_distance`. -/
theorem Triangle.intersectIEEE_inPlaneRay :
    ((unitTriangle : Triangle ℚ).v1.position.sub unitTriangle.v0.position).dot
      ((inPlaneRay : Ray ℚ).direction.cross
        (unitTriangle.v2.position.sub unitTriangle.v0.position)) = 0 ∧
    ∀ (negZero : Bool) (max_distance : IEEE ℚ),
      (unitTriangle : Triangle ℚ).intersectIEEE negZero inPlaneRay max_distance =
        some ⟨IEEE.nan, IEEE.nan, IEEE.nan⟩ := by
  refine ⟨by simp [unitTriangle, inPlaneRay, Vector3.sub, Vector3.dot, Vector3.cross], ?_⟩
  intro negZero max_distance
  apply Triangle.intersectIEEE_in_plane <;>
    simp [unitTriangle, inPlaneRay, Vector3.sub, Vector3.dot, Vector3.cross]

/-- C35, evaluated at the input on which the code leaves the claim: the
supersampling factor 4 and the sub-pixel `(0, 0)`. Its `subDisplacement` is
`2 * 1 / 5 - 1 = -3/5` on each axis, so its target lies `3/5` of a pixel size
from the centre of the pixel, beyond the edge of the pixel at `1/2`. -/
theorem subDisplacement_outside_pixel :
    (subDisplacement 4 0 0 : Vector2 ℚ) = ⟨-3 / 5, -3 / 5⟩ ∧
    ∀ inst : Instance ℚ,
      |(targetDisplacement inst 4 0 0).x| = 3 / 5 * |inst.m_pixelSize.x| ∧
      |(targetDisplacement inst 4 0 0).y| = 3 / 5 * |inst.m_pixelSize.y| ∧
      (inst.m_pixelSize.x ≠ 0 → ¬ |(targetDisplacement inst 4 0 0).x| ≤ |inst.m_pixelSize.x| / 2) := by
  have hu1 : u32Add 0 1 = 1 := by decide
  have hu5 : u32Add 4 1 = 5 := by decide
  have hs : (subDisplacement 4 0 0 : Vector2 ℚ) = ⟨-3 / 5, -3 / 5⟩ := by
    simp only [subDisplacement, hu1, hu5]
    norm_num
  refine ⟨hs, ?_⟩
  intro inst
  have hx : |(targetDisplacement inst 4 0 0).x| = 3 / 5 * |inst.m_pixelSize.x| := by
    simp only [targetDisplacement, hs, Vector2.mul]
    rw [abs_mul]
    norm_num [abs_of_neg]
  have hy : |(targetDisplacement inst 4 0 0).y| = 3 / 5 * |inst.m_pixelSize.y| := by
    simp only [targetDisplacement, hs, Vector2.mul]
    rw [abs_mul]
    norm_num [abs_of_neg]
  refine ⟨hx, hy, ?_⟩
  intro hne
  rw [hx]
  have : 0 < |inst.m_pixelSize.x| := abs_pos.mpr hne
  intro hle
  linarith

theorem stof_digit_texts : stof ['0'] = some 0 ∧ stof ['1'] = some 1 ∧ stof ['2'] = some 2 := by
  have h0 : scanDecimal ['0'] = some ⟨false, 0, 0, 0⟩ := by decide
  have h1 : scanDecimal ['1'] = some ⟨false, 1, 0, 0⟩ := by decide
  have h2 : scanDecimal ['2'] = some ⟨false, 2, 0, 0⟩ := by decide
  refine ⟨?_, ?_, ?_⟩
  · simp only [stof, h0, Option.map_some', Decimal.value]; norm_num
  · simp only [stof, h1, Option.map_some', Decimal.value]; norm_num
  · simp only [stof, h2, Option.map_some', Decimal.value]; norm_num

/-- The key-frames that `animateScalar` reads from the text `1;2(0)`. -/
theorem zeroSpanFrames_text :
    (regexMatches ("1;2(0)".toList.length + 1) true "1;2(0)".toList).map
      (readKeyFrame (K := ℚ)) = zeroSpanFrames.map Except.ok := by
  have h : regexMatches ("1;2(0)".toList.length + 1) true "1;2(0)".toList =
      [⟨['1'], [], [], []⟩, ⟨['2'], [], [], ['0']⟩] := by decide
  rw [h]
  simp only [List.map_cons, List.map_nil, readKeyFrame, stof_digit_texts.1, stof_digit_texts.2.1,
    stof_digit_texts.2.2, List.head?_nil, ne_eq, not_true_eq_false, if_false, zeroSpanFrames]
  simp

/-- C36, evaluated at the input on which the code leaves the claim: the
attribute text `1;2(0)` at the scene time 0. Its two key-frames are at the time
0, within `[0, 1]` and in non-decreasing order; the loop of `animateScalar`
reaches the interpolation branch with `m_time - time = 0` and the divisor
`targetTime - time = 0`. -/
theorem interpolationOf_zero_divisor :
    (∀ k, k < zeroSpanFrames.length →
      0 ≤ keyTime zeroSpanFrames k ∧ keyTime zeroSpanFrames k ≤ 1) ∧
    (∀ k, k + 1 < zeroSpanFrames.length →
      keyTime zeroSpanFrames k ≤ keyTime zeroSpanFrames (k + 1)) ∧
    interpolationOf (0 : ℚ)
        ((regexMatches ("1;2(0)".toList.length + 1) true "1;2(0)".toList).map readKeyFrame)
        true 0 0 'l' = some ⟨'l', 0, 0, 2, 1⟩ := by
  have t0 : keyTime zeroSpanFrames 0 = 0 := by simp [keyTime, zeroSpanFrames]
  have t1 : keyTime zeroSpanFrames 1 = 0 := by simp [keyTime, zeroSpanFrames]
  refine ⟨?_, ?_, ?_⟩
  · intro k hk
    have : k = 0 ∨ k = 1 := by
      simp only [zeroSpanFrames, List.length_cons, List.length_nil] at hk; omega
    rcases this with rfl | rfl
    · rw [t0]; norm_num
    · rw [t1]; norm_num
  · intro k hk
    have : k = 0 := by
      simp only [zeroSpanFrames, List.length_cons, List.length_nil] at hk; omega
    subst this
    rw [t0, t1]
  · rw [zeroSpanFrames_text]
    simp only [zeroSpanFrames, List.map_cons, List.map_nil, interpolationOf]
    norm_num

/-- C34, evaluated at the input on which the code leaves the claim: the
texture of a red and a green pixel at the coordinates `(1/2, 0)` and
`(1/2 - 1, 0)`. At `(1/2, 0)` the colour is the mean of red and green. At
`(-1/2, 0)` the fractional part that `modff` returns is `-1/2`, not `1/2`, and
the colour is red. -/
theorem calcTexture_negative_coordinate :
    calcTexturePixelColorWithAntiAliasing (stripeTexture : Picture ℚ) ⟨1 / 2, 0⟩ =
      ⟨1 / 2, 1 / 2, 0, 1⟩ ∧
    calcTexturePixelColorWithAntiAliasing (stripeTexture : Picture ℚ)
      ⟨1 / 2 + ((-1 : Int) : ℚ), 0 + ((0 : Int) : ℚ)⟩ = ⟨1, 0, 0, 1⟩ ∧
    modff (1 / 2 + ((-1 : Int) : ℚ)) = -1 / 2 ∧
    (stripeTexture : Picture ℚ).empty = false := by
  have e : (1 / 2 + ((-1 : Int) : ℚ)) = -1 / 2 := by norm_num
  have e0 : (0 + ((0 : Int) : ℚ)) = 0 := by norm_num
  have fl1 : ⌊(1 / 2 : ℚ)⌋ = 0 := by rw [Int.floor_eq_iff]; norm_num
  have cl1 : ⌈(1 / 2 : ℚ)⌉ = 1 := by rw [Int.ceil_eq_iff]; norm_num
  have cl2 : ⌈(-1 / 2 : ℚ)⌉ = 0 := by rw [Int.ceil_eq_iff]; norm_num
  have nf1 : ⌊(1 / 2 : ℚ)⌋₊ = 0 := by rw [Nat.floor_eq_zero]; norm_num
  have nf2 : ⌊(-1 / 2 : ℚ)⌋₊ = 0 := Nat.floor_of_nonpos (by norm_num)
  have nf3 : ⌊(1 : ℚ)⌋₊ = 1 := Nat.floor_one
  have nf0 : ⌊(0 : ℚ)⌋₊ = 0 := Nat.floor_zero
  have m0 : modff (0 : ℚ) = 0 := by simp [modff, truncScalar]
  have m1 : modff (1 / 2 : ℚ) = 1 / 2 := by
    simp only [modff, truncScalar, fl1]
    norm_num
  have m2 : modff (-1 / 2 : ℚ) = -1 / 2 := by
    have hneg : ¬ (0 : ℚ) ≤ -1 / 2 := by norm_num
    simp only [modff, truncScalar, if_neg hneg, cl2]
    norm_num
  have s1 : u32Sub 2 1 = 1 := by decide
  have s0 : u32Sub 1 1 = 0 := by decide
  have c0 : ceilScalar (0 : ℚ) = 0 := by simp [ceilScalar]
  have c1 : ceilScalar (1 / 2 : ℚ) = 1 := by simp only [ceilScalar, cl1]; norm_num
  have c2 : ceilScalar (-1 / 2 : ℚ) = 0 := by simp only [ceilScalar, cl2]; norm_num
  refine ⟨?_, ?_, ?_, rfl⟩
  · simp only [calcTexturePixelColorWithAntiAliasing, stripeTexture, Picture.size, s1, s0, m0, m1,
      Nat.cast_one, Nat.cast_zero, mul_one, mul_zero, castU32, nf1, nf0, nf3, c0, c1, clampU32,
      Picture.get, Picture.datapos, Color.scale, Color.add, Color.zero]
    norm_num
  · rw [e, e0]
    simp only [calcTexturePixelColorWithAntiAliasing, stripeTexture, Picture.size, s1, s0, m0, m2,
      Nat.cast_one, Nat.cast_zero, mul_one, mul_zero, castU32, nf2, nf0, c0, c2, clampU32,
      Picture.get, Picture.datapos, Color.scale, Color.add, Color.zero]
    norm_num
  · rw [e]
    exact m2

/-- C4, evaluated at the input on which the code leaves the claim:
`unitTriangle` and the ray from `(1/4, 1/4, 0)` along the x axis, which lies in
the plane of the triangle. For both signs of the zero `approach_rate` and every
`max_distance`, `Triangle::intersect` reports a hit whose distance is NaN and
whose point `origin + direction * distance` is NaN in each component; the
distance is equal to no scalar, so not to the length of `point - origin`. -/
theorem Triangle.intersectIEEE_distance_nan (negZero : Bool) (max_distance d : IEEE ℚ) :
    ∃ hit : TriangleHit ℚ,
      (unitTriangle : Triangle ℚ).intersectIEEE negZero inPlaneRay max_distance = some hit ∧
      hit.distance = IEEE.nan ∧
      hit.intersectionPoint inPlaneRay = (IEEE.nan, IEEE.nan, IEEE.nan) ∧
      hit.distance.eq d = false := by
  refine ⟨⟨IEEE.nan, IEEE.nan, IEEE.nan⟩, ?_, rfl, ?_, (IEEE.nan_compare d).2.2.2.2.1⟩
  · apply Triangle.intersectIEEE_in_plane <;>
      simp [unitTriangle, inPlaneRay, Vector3.sub, Vector3.dot, Vector3.cross]
  · simp [TriangleHit.intersectionPoint, IEEE.mul, IEEE.add]

/-- C29, evaluated at the input on which the code leaves the claim: the ray
`downRay` and the triangles `raisedUnitTriangle` (hit at the distance 1/2),
`wallTriangle` (whose plane contains the ray) and `unitTriangle` (hit at the
distance 1). Under every limit `wallTriangle` is reported as a hit with the
distance NaN, which `castRay` stores in `max_distance`. Under the limit 1/2
`unitTriangle` is no hit; under the limit NaN it is a hit, at the distance 1. -/
theorem Triangle.intersectIEEE_after_nan (negZero : Bool) :
    (∀ max_distance : IEEE ℚ,
      (wallTriangle : Triangle ℚ).intersectIEEE negZero downRay max_distance =
        some ⟨IEEE.nan, IEEE.nan, IEEE.nan⟩) ∧
    (raisedUnitTriangle : Triangle ℚ).intersectIEEE negZero downRay (IEEE.num INFINITE) =
      some ⟨IEEE.num (1 / 4), IEEE.num (1 / 4), IEEE.num (1 / 2)⟩ ∧
    (raisedUnitTriangle : Triangle ℚ).intersectIEEE negZero downRay IEEE.nan =
      some ⟨IEEE.num (1 / 4), IEEE.num (1 / 4), IEEE.num (1 / 2)⟩ ∧
    (unitTriangle : Triangle ℚ).intersectIEEE negZero downRay (IEEE.num (1 / 2)) = none ∧
    (unitTriangle : Triangle ℚ).intersectIEEE negZero downRay IEEE.nan =
      some ⟨IEEE.num (1 / 4), IEEE.num (1 / 4), IEEE.num 1⟩ := by
  refine ⟨?_, ?_, ?_, ?_, ?_⟩
  · intro max_distance
    apply Triangle.intersectIEEE_in_plane <;>
      simp [wallTriangle, downRay, Vector3.sub, Vector3.dot, Vector3.cross]
  · simp only [Triangle.intersectIEEE, raisedUnitTriangle, downRay, Vector3.sub, Vector3.dot,
      Vector3.cross, IEEE.div, IEEE.lt, IEEE.add, EPSILON, INFINITE]
    norm_num
  · simp only [Triangle.intersectIEEE, raisedUnitTriangle, downRay, Vector3.sub, Vector3.dot,
      Vector3.cross, IEEE.div, IEEE.lt, IEEE.add, EPSILON]
    norm_num
  · simp only [Triangle.intersectIEEE, unitTriangle, downRay, Vector3.sub, Vector3.dot,
      Vector3.cross, IEEE.div, IEEE.lt, IEEE.add, EPSILON]
    norm_num
  · simp only [Triangle.intersectIEEE, unitTriangle, downRay, Vector3.sub, Vector3.dot,
      Vector3.cross, IEEE.div, IEEE.lt, IEEE.add, EPSILON]
    norm_num

/-- Witness of C17: three scan steps give three values of `phi`, two of
`theta` and six primary rays. -/
theorem PhotonMapper.primaryRayCount32_small_witness :
    1 ≤ 3 ∧ 3 ≤ 5 ∧ 3 < 4 ∧
    ∃ phis thetas, PhotonMapper.scanGrid32 3 4 = some (phis, thetas) ∧
      phis.length = 3 ∧ thetas.length = (3 + 1) / 2 ∧
      PhotonMapper.primaryRayCount32 3 4 = some (3 * ((3 + 1) / 2)) :=
  ⟨by decide, by decide, by decide,
    PhotonMapper.primaryRayCount32_small 3 (by decide) (by decide) 4 (by decide)⟩

/-- Counterexample to C17: with four scan steps `PhotonMapper::generate` casts
8 primary rays for a point light, not 4 x 4 = 16: `theta` advances by the step
of `phi` and takes only the two values below `PI`. -/
theorem PhotonMapper.primaryRayCount32_counterexample :
    (PhotonMapper.scanGrid32 4 5).map (fun g => (g.1.length, g.2.length)) = some (4, 2) ∧
    PhotonMapper.primaryRayCount32 4 5 = some 8 ∧
    PhotonMapper.primaryRayCount32 4 5 ≠ some (4 * 4) := by
  refine ⟨by decide!, by decide!, by decide!⟩

/-! ## Examples over the real numbers -/

theorem sqrtExact_real : SqrtExact (Libm.mk Real.sqrt Real.log
      (fun y x => Complex.arg (Complex.mk x y)) Real.arcsin Real.sin Real.cos Real.tan
      (fun x y => x ^ y)
      (fun z => Cplx.mk (Complex.mk z.re z.im ^ (1 / 2 : ℂ)).re
        (Complex.mk z.re z.im ^ (1 / 2 : ℂ)).im))
    :=
  fun x hx => ⟨Real.sqrt_nonneg x, Real.mul_self_sqrt hx⟩

/-- Witness of C1: the unit sphere centred at `(0,0,5)` and the ray from the
origin along the z axis, with `max_distance = 10`. -/
theorem Sphere.intersect_identity_spec_witness :
    SqrtExact (Libm.mk Real.sqrt Real.log
          (fun y x => Complex.arg (Complex.mk x y)) Real.arcsin Real.sin Real.cos Real.tan
          (fun x y => x ^ y)
          (fun z => Cplx.mk (Complex.mk z.re z.im ^ (1 / 2 : ℂ)).re
            (Complex.mk z.re z.im ^ (1 / 2 : ℂ)).im))
        ∧
    (zRay : Ray ℝ).direction.dot (zRay : Ray ℝ).direction = 1 ∧ (0 : ℝ) ≤ 10 ∧
    (((Sphere.intersect (Libm.mk Real.sqrt Real.log
          (fun y x => Complex.arg (Complex.mk x y)) Real.arcsin Real.sin Real.cos Real.tan
          (fun x y => x ^ y)
          (fun z => Cplx.mk (Complex.mk z.re z.im ^ (1 / 2 : ℂ)).re
            (Complex.mk z.re z.im ^ (1 / 2 : ℂ)).im))
        ⟨⟨0, 0, 5⟩, 1, Matrix34.identity, Matrix34.identity, Matrix34.identity⟩ zRay 10).isSome ↔
      ∃ t : ℝ, 0 ≤ t ∧ t ≤ 10 ∧ SphereRoot ⟨0, 0, 5⟩ 1 zRay t) ∧
    ∀ hit : Intersection ℝ,
      Sphere.intersect (Libm.mk Real.sqrt Real.log
            (fun y x => Complex.arg (Complex.mk x y)) Real.arcsin Real.sin Real.cos Real.tan
            (fun x y => x ^ y)
            (fun z => Cplx.mk (Complex.mk z.re z.im ^ (1 / 2 : ℂ)).re
              (Complex.mk z.re z.im ^ (1 / 2 : ℂ)).im))
          ⟨⟨0, 0, 5⟩, 1, Matrix34.identity, Matrix34.identity, Matrix34.identity⟩ zRay 10 =
            some hit →
        (0 ≤ hit.distance ∧ hit.distance ≤ 10 ∧ SphereRoot ⟨0, 0, 5⟩ 1 zRay hit.distance) ∧
        (∀ t : ℝ, 0 ≤ t → t ≤ 10 → SphereRoot ⟨0, 0, 5⟩ 1 zRay t → hit.distance ≤ t) ∧
        hit.point = (zRay : Ray ℝ).origin.add ((zRay : Ray ℝ).direction.scale hit.distance)) :=
  have hd : (zRay : Ray ℝ).direction.dot (zRay : Ray ℝ).direction = 1 := by
    norm_num [zRay, Vector3.dot]
  ⟨sqrtExact_real, hd, by norm_num,
    Sphere.intersect_identity_spec _ sqrtExact_real ⟨0, 0, 5⟩ 1 zRay hd 10 (by norm_num)⟩

/-- Witness of C2: the ray `downRay` hits `unitTriangle`. -/
theorem Triangle.intersect_point_barycentric_witness :
    (downRay : Ray ℝ).direction.dot
      (((unitTriangle : Triangle ℝ).v1.position.sub (unitTriangle : Triangle ℝ).v0.position).cross
        ((unitTriangle : Triangle ℝ).v2.position.sub (unitTriangle : Triangle ℝ).v0.position)) ≠ 0 ∧
    ∃ hit : Intersection ℝ,
      (unitTriangle : Triangle ℝ).intersect (Libm.mk Real.sqrt Real.log
            (fun y x => Complex.arg (Complex.mk x y)) Real.arcsin Real.sin Real.cos Real.tan
            (fun x y => x ^ y)
            (fun z => Cplx.mk (Complex.mk z.re z.im ^ (1 / 2 : ℂ)).re
              (Complex.mk z.re z.im ^ (1 / 2 : ℂ)).im))
          downRay 10 = some hit ∧
      hit.point =
        (((unitTriangle : Triangle ℝ).v0.position.scale hit.photonCoordinate.x).add
          ((unitTriangle : Triangle ℝ).v1.position.scale hit.photonCoordinate.y)).add
          ((unitTriangle : Triangle ℝ).v2.position.scale
            (1 - hit.photonCoordinate.x - hit.photonCoordinate.y)) := by
  have hpar : (downRay : Ray ℝ).direction.dot
      (((unitTriangle : Triangle ℝ).v1.position.sub (unitTriangle : Triangle ℝ).v0.position).cross
        ((unitTriangle : Triangle ℝ).v2.position.sub (unitTriangle : Triangle ℝ).v0.position)) ≠ 0 := by
    norm_num [downRay, unitTriangle, Vector3.dot, Vector3.cross, Vector3.sub]
  obtain ⟨hit, hhit⟩ := unitTriangle_downRay_hit (K := ℝ) (Libm.mk Real.sqrt Real.log
        (fun y x => Complex.arg (Complex.mk x y)) Real.arcsin Real.sin Real.cos Real.tan
        (fun x y => x ^ y)
        (fun z => Cplx.mk (Complex.mk z.re z.im ^ (1 / 2 : ℂ)).re
          (Complex.mk z.re z.im ^ (1 / 2 : ℂ)).im))
  exact ⟨hpar, hit, hhit,
    Triangle.intersect_point_barycentric _ unitTriangle downRay 10 hpar hit hhit⟩

/-- Witness of C10: glass of refraction index 3/2 at `cosI = -1`. -/
theorem calcFresnel_normal_incidence_witness :
    Real.sqrt 0 = 0 ∧
    (Cplx.mk (Complex.mk 1 0 ^ (1 / 2 : ℂ)).re (Complex.mk 1 0 ^ (1 / 2 : ℂ)).im : Cplx ℝ) =
      ⟨1, 0⟩ ∧
    (glass : Material ℝ).refraction = ⟨3 / 2, 0⟩ ∧ (3 / 2 : ℝ) ≠ -1 ∧
    (0 : ℝ) * (glass : Material ℝ).dispersion = 0 ∧ ((-1 : ℝ) = 1 ∨ (-1 : ℝ) = -1) ∧
    calcFresnel (Libm.mk Real.sqrt Real.log
          (fun y x => Complex.arg (Complex.mk x y)) Real.arcsin Real.sin Real.cos Real.tan
          (fun x y => x ^ y)
          (fun z => Cplx.mk (Complex.mk z.re z.im ^ (1 / 2 : ℂ)).re
            (Complex.mk z.re z.im ^ (1 / 2 : ℂ)).im))
        glass (-1) 0 = ((3 / 2 - 1) / (3 / 2 + 1)) ^ 2 := by
  have hc : (Cplx.mk (Complex.mk 1 0 ^ (1 / 2 : ℂ)).re (Complex.mk 1 0 ^ (1 / 2 : ℂ)).im : Cplx ℝ) =
      ⟨1, 0⟩ := by
    have h1 : Complex.mk 1 0 = 1 := rfl
    rw [h1, Complex.one_cpow]
    simp
  exact ⟨Real.sqrt_zero, hc, rfl, by norm_num, zero_mul _, Or.inr rfl,
    calcFresnel_normal_incidence (Libm.mk Real.sqrt Real.log
          (fun y x => Complex.arg (Complex.mk x y)) Real.arcsin Real.sin Real.cos Real.tan
          (fun x y => x ^ y)
          (fun z => Cplx.mk (Complex.mk z.re z.im ^ (1 / 2 : ℂ)).re
            (Complex.mk z.re z.im ^ (1 / 2 : ℂ)).im))
        Real.sqrt_zero hc glass (3 / 2) rfl (by norm_num) 0
      (zero_mul _) (-1) (Or.inr rfl)⟩

theorem complex_sqrt_principal (Z : ℂ) :
    (Z ^ (1 / 2 : ℂ)) * (Z ^ (1 / 2 : ℂ)) = Z ∧ 0 ≤ (Z ^ (1 / 2 : ℂ)).re := by
  constructor
  · have h := Complex.cpow_nat_inv_pow Z (n := 2) (by norm_num)
    rw [pow_two] at h
    have e : ((2 : ℕ) : ℂ)⁻¹ = (1 / 2 : ℂ) := by norm_num
    rwa [e] at h
  · by_cases hZ : Z = 0
    · rw [hZ, Complex.zero_cpow (by norm_num)]
      simp
    · rw [Complex.cpow_def_of_ne_zero hZ, Complex.exp_re]
      apply mul_nonneg (le_of_lt (Real.exp_pos _))
      apply Real.cos_nonneg_of_neg_pi_div_two_le_of_le
      · have := Complex.neg_pi_lt_arg Z
        simp only [Complex.mul_im, Complex.log_im]
        norm_num
        linarith
      · have := Complex.arg_le_pi Z
        simp only [Complex.mul_im, Complex.log_im]
        norm_num
        linarith

theorem csqrtPrincipal_real : CsqrtPrincipal (Libm.mk Real.sqrt Real.log
      (fun y x => Complex.arg (Complex.mk x y)) Real.arcsin Real.sin Real.cos Real.tan
      (fun x y => x ^ y)
      (fun z => Cplx.mk (Complex.mk z.re z.im ^ (1 / 2 : ℂ)).re
        (Complex.mk z.re z.im ^ (1 / 2 : ℂ)).im)) := by
  intro z
  obtain ⟨h1, h2⟩ := complex_sqrt_principal (Complex.mk z.re z.im)
  refine ⟨?_, h2⟩
  have hre := congrArg Complex.re h1
  have him := congrArg Complex.im h1
  simp only [Complex.mul_re, Complex.mul_im] at hre him
  obtain ⟨a, b⟩ := z
  simp only [Cplx.mul, Cplx.mk.injEq]
  exact ⟨hre, him⟩

/-- Witness of C11: glass (index 3/2) hit at `cosI = -1/2`. -/
theorem calcFresnel_mem_unit_interval_witness :
    0 < (glass : Material ℝ).refraction.re + 0 * (glass : Material ℝ).dispersion ∧
    0 ≤ calcFresnel (Libm.mk Real.sqrt Real.log
          (fun y x => Complex.arg (Complex.mk x y)) Real.arcsin Real.sin Real.cos Real.tan
          (fun x y => x ^ y)
          (fun z => Cplx.mk (Complex.mk z.re z.im ^ (1 / 2 : ℂ)).re
            (Complex.mk z.re z.im ^ (1 / 2 : ℂ)).im))
        glass (-1 / 2) 0 ∧
    calcFresnel (Libm.mk Real.sqrt Real.log
          (fun y x => Complex.arg (Complex.mk x y)) Real.arcsin Real.sin Real.cos Real.tan
          (fun x y => x ^ y)
          (fun z => Cplx.mk (Complex.mk z.re z.im ^ (1 / 2 : ℂ)).re
            (Complex.mk z.re z.im ^ (1 / 2 : ℂ)).im))
        glass (-1 / 2) 0 ≤ 1 := by
  have hpos : 0 < (glass : Material ℝ).refraction.re + 0 * (glass : Material ℝ).dispersion := by
    simp [glass]
  exact ⟨hpos, calcFresnel_mem_unit_interval _ csqrtPrincipal_real glass (-1 / 2) 0 hpos⟩

/-- Counterexample to C11: for the refraction index -2 (real part not
positive) and head-on incidence `calcFresnel` returns 9, outside `[0, 1]`. -/
theorem calcFresnel_mem_unit_interval_counterexample :
    (-1 : ℝ) ≤ -1 ∧ (-1 : ℝ) ≤ 1 ∧
    calcFresnel (Libm.mk Real.sqrt Real.log
          (fun y x => Complex.arg (Complex.mk x y)) Real.arcsin Real.sin Real.cos Real.tan
          (fun x y => x ^ y)
          (fun z => Cplx.mk (Complex.mk z.re z.im ^ (1 / 2 : ℂ)).re
            (Complex.mk z.re z.im ^ (1 / 2 : ℂ)).im))
        negGlass (-1) 0 = 9 ∧
    ¬ calcFresnel (Libm.mk Real.sqrt Real.log
          (fun y x => Complex.arg (Complex.mk x y)) Real.arcsin Real.sin Real.cos Real.tan
          (fun x y => x ^ y)
          (fun z => Cplx.mk (Complex.mk z.re z.im ^ (1 / 2 : ℂ)).re
            (Complex.mk z.re z.im ^ (1 / 2 : ℂ)).im))
        negGlass (-1) 0 ≤ 1 := by
  have hc : (Cplx.mk (Complex.mk 1 0 ^ (1 / 2 : ℂ)).re (Complex.mk 1 0 ^ (1 / 2 : ℂ)).im : Cplx ℝ) =
      ⟨1, 0⟩ := by
    have h1 : Complex.mk 1 0 = 1 := rfl
    rw [h1, Complex.one_cpow]
    simp
  have h := calcFresnel_head_on (Libm.mk Real.sqrt Real.log
          (fun y x => Complex.arg (Complex.mk x y)) Real.arcsin Real.sin Real.cos Real.tan
          (fun x y => x ^ y)
          (fun z => Cplx.mk (Complex.mk z.re z.im ^ (1 / 2 : ℂ)).re
            (Complex.mk z.re z.im ^ (1 / 2 : ℂ)).im))
        Real.sqrt_zero hc negGlass (-2) rfl (by norm_num) 0 (zero_mul _)
  have h9 : ((-2 - 1 : ℝ) / (-2 + 1)) ^ 2 = 9 := by norm_num
  rw [h9] at h
  refine ⟨le_refl _, by norm_num, h, ?_⟩
  rw [h]
  norm_num

/-- Witness of C18: the scene with one matte triangle and one point light. -/
theorem PhotonMapper.generate_diffuse_unchanged_witness :
    (∀ o ∈ (diffuseScene : Scene ℝ).m_objects, o.material.refraction.norm = 0) ∧
    ∃ fuel0, ∀ fuel, fuel0 ≤ fuel →
      PhotonMapper.generate (Libm.mk Real.sqrt Real.log
          (fun y x => Complex.arg (Complex.mk x y)) Real.arcsin Real.sin Real.cos Real.tan
          (fun x y => x ^ y)
          (fun z => Cplx.mk (Complex.mk z.re z.im ^ (1 / 2 : ℂ)).re
            (Complex.mk z.re z.im ^ (1 / 2 : ℂ)).im))
        diffuseScene fuel = some diffuseScene := by
  have hd : ∀ o ∈ (diffuseScene : Scene ℝ).m_objects, o.material.refraction.norm = 0 := by
    intro o ho
    have hm : o = matteTriangle := by simpa [diffuseScene] using ho
    rw [hm]
    simp [matteTriangle, Object.material, matte, Cplx.norm]
  exact ⟨hd, (PhotonMapper.generate_diffuse_unchanged _ diffuseScene hd).2
    (by simp [diffuseScene])⟩

/-- C14, at the failing input. With the bounce limit 4294967295 (no depth
exceeds it and `depth + 1` wraps to 0) `castRay` does not terminate for the ray
between two facing mirrors: no fuel suffices, from depth 0. -/
theorem castRay_mirrorScene_diverges :
    ∀ fuel : Nat,
      castRay (Libm.mk Real.sqrt Real.log
          (fun y x => Complex.arg (Complex.mk x y)) Real.arcsin Real.sin Real.cos Real.tan
          (fun x y => x ^ y)
          (fun z => Cplx.mk (Complex.mk z.re z.im ^ (1 / 2 : ℂ)).re
            (Complex.mk z.re z.im ^ (1 / 2 : ℂ)).im))
        (mirrorScene : Scene ℝ) fuel upRay 0 0 = none := by
  intro fuel
  have hc : (Cplx.mk (Complex.mk 1 0 ^ (1 / 2 : ℂ)).re (Complex.mk 1 0 ^ (1 / 2 : ℂ)).im : Cplx ℝ) =
      ⟨1, 0⟩ := by
    have h1 : Complex.mk 1 0 = 1 := rfl
    rw [h1, Complex.one_cpow]
    simp
  exact (castRay_mirrorScene_none (Libm.mk Real.sqrt Real.log
          (fun y x => Complex.arg (Complex.mk x y)) Real.arcsin Real.sin Real.cos Real.tan
          (fun x y => x ^ y)
          (fun z => Cplx.mk (Complex.mk z.re z.im ^ (1 / 2 : ℂ)).re
            (Complex.mk z.re z.im ^ (1 / 2 : ℂ)).im))
        Real.sqrt_zero Real.sqrt_one hc 0 fuel 0 (by norm_num)).1

/-- Witness of C30: the sphere stretched by 2 along z, hit by the ray from
`(0, 0, -4)` along the z axis within the distance 10. -/
theorem Sphere.intersect_transformed_witness :
    (∀ v : Vector3 ℝ, (stretchedSphere : Sphere ℝ).m_object2World.mulVec
      ((stretchedSphere : Sphere ℝ).m_world2Object.mulVec v) = v) ∧
    (farRay : Ray ℝ).direction.dot (farRay : Ray ℝ).direction = 1 ∧
    (10 : ℝ) ≠ INFINITE ∧ (0 : ℝ) ≤ 10 ∧
    ∃ hit : Intersection ℝ, Sphere.intersect (Libm.mk Real.sqrt Real.log
          (fun y x => Complex.arg (Complex.mk x y)) Real.arcsin Real.sin Real.cos Real.tan
          (fun x y => x ^ y)
          (fun z => Cplx.mk (Complex.mk z.re z.im ^ (1 / 2 : ℂ)).re
            (Complex.mk z.re z.im ^ (1 / 2 : ℂ)).im))
        stretchedSphere farRay 10 = some hit ∧
      0 ≤ hit.distance ∧ hit.distance ≤ 10 ∧
      hit.point = (farRay : Ray ℝ).origin.add ((farRay : Ray ℝ).direction.scale hit.distance) := by
  have hd : (farRay : Ray ℝ).direction.dot (farRay : Ray ℝ).direction = 1 := by
    simp [farRay, Vector3.dot]
  have hfin : (10 : ℝ) ≠ INFINITE := by norm_num [INFINITE]
  obtain ⟨hit, hhit⟩ := stretchedSphere_hit (K := ℝ) _ sqrtExact_real
  exact ⟨stretchedSphere_inverse, hd, hfin, by norm_num, hit, hhit,
    Sphere.intersect_transformed _ sqrtExact_real stretchedSphere stretchedSphere_inverse farRay
      (Or.inl hd) 10 hfin (by norm_num) hit hhit⟩

/-- Counterexample to C30: with identity transformations and the finite
`max_distance = -1` the unit sphere around `(0, 0, 3/2)` returns on the ray
from the origin along z a hit at distance 1/2, which is not `<= -1`. -/
theorem Sphere.intersect_transformed_counterexample :
    (∀ v : Vector3 ℝ, (nearSphere : Sphere ℝ).m_object2World.mulVec
      ((nearSphere : Sphere ℝ).m_world2Object.mulVec v) = v) ∧
    (-1 : ℝ) ≠ INFINITE ∧
    ∃ hit : Intersection ℝ, Sphere.intersect (Libm.mk Real.sqrt Real.log
          (fun y x => Complex.arg (Complex.mk x y)) Real.arcsin Real.sin Real.cos Real.tan
          (fun x y => x ^ y)
          (fun z => Cplx.mk (Complex.mk z.re z.im ^ (1 / 2 : ℂ)).re
            (Complex.mk z.re z.im ^ (1 / 2 : ℂ)).im))
        nearSphere zRay (-1) = some hit ∧
      ¬ hit.distance ≤ -1 := by
  obtain ⟨hit, hhit, hdist⟩ := nearSphere_negative_max (K := ℝ) _ sqrtExact_real
  refine ⟨fun v => ?_, by norm_num [INFINITE], hit, hhit, ?_⟩
  · simp [nearSphere]
  · rw [hdist]
    norm_num

/-- Example of the nearest-hit selection: the stacked scene, in which the ray
from above meets the
matte triangle at distance 1 and then the raised triangle at distance 1/2.
`castRay` returns the radiance computed at the hit on the raised triangle, and
the loop gives the same with the two objects in the other order. -/
theorem castRay_nearest_accepted_hit_witness :
    (stackedScene : Scene ℝ).m_camera.m_maxBounces < 4294967295 ∧
    0 ≤ (stackedScene : Scene ℝ).m_camera.m_maxBounces ∧
    (stackedScene : Scene ℝ).m_camera.m_maxBounces < 9 + 0 ∧
    (raisedHit : Intersection ℝ).distance = 1 / 2 ∧
    (∃ rad, castRay (Libm.mk Real.sqrt Real.log
          (fun y x => Complex.arg (Complex.mk x y)) Real.arcsin Real.sin Real.cos Real.tan
          (fun x y => x ^ y)
          (fun z => Cplx.mk (Complex.mk z.re z.im ^ (1 / 2 : ℂ)).re
            (Complex.mk z.re z.im ^ (1 / 2 : ℂ)).im))
        (stackedScene : Scene ℝ) (9 + 1) downRay 0 0 = some rad) ∧
    castRay (Libm.mk Real.sqrt Real.log
          (fun y x => Complex.arg (Complex.mk x y)) Real.arcsin Real.sin Real.cos Real.tan
          (fun x y => x ^ y)
          (fun z => Cplx.mk (Complex.mk z.re z.im ^ (1 / 2 : ℂ)).re
            (Complex.mk z.re z.im ^ (1 / 2 : ℂ)).im))
        (stackedScene : Scene ℝ) (9 + 1) downRay 0 0 =
      hitRadiance (Libm.mk Real.sqrt Real.log
          (fun y x => Complex.arg (Complex.mk x y)) Real.arcsin Real.sin Real.cos Real.tan
          (fun x y => x ^ y)
          (fun z => Cplx.mk (Complex.mk z.re z.im ^ (1 / 2 : ℂ)).re
            (Complex.mk z.re z.im ^ (1 / 2 : ℂ)).im))
        (stackedScene : Scene ℝ)
        (castRay (Libm.mk Real.sqrt Real.log
          (fun y x => Complex.arg (Complex.mk x y)) Real.arcsin Real.sin Real.cos Real.tan
          (fun x y => x ^ y)
          (fun z => Cplx.mk (Complex.mk z.re z.im ^ (1 / 2 : ℂ)).re
            (Complex.mk z.re z.im ^ (1 / 2 : ℂ)).im)) (stackedScene : Scene ℝ) 9)
        downRay 0 0 raisedTriangle raisedHit
        (clampScalar ((downRay : Ray ℝ).direction.dot (raisedHit : Intersection ℝ).normal)
          (-1) 1) ∧
    castRayObjects (Libm.mk Real.sqrt Real.log
          (fun y x => Complex.arg (Complex.mk x y)) Real.arcsin Real.sin Real.cos Real.tan
          (fun x y => x ^ y)
          (fun z => Cplx.mk (Complex.mk z.re z.im ^ (1 / 2 : ℂ)).re
            (Complex.mk z.re z.im ^ (1 / 2 : ℂ)).im))
        (stackedScene : Scene ℝ)
        (castRay (Libm.mk Real.sqrt Real.log
          (fun y x => Complex.arg (Complex.mk x y)) Real.arcsin Real.sin Real.cos Real.tan
          (fun x y => x ^ y)
          (fun z => Cplx.mk (Complex.mk z.re z.im ^ (1 / 2 : ℂ)).re
            (Complex.mk z.re z.im ^ (1 / 2 : ℂ)).im)) (stackedScene : Scene ℝ) 9)
        downRay 0 0 [raisedTriangle, matteTriangle] (stackedScene : Scene ℝ).m_background
        INFINITE =
      castRay (Libm.mk Real.sqrt Real.log
          (fun y x => Complex.arg (Complex.mk x y)) Real.arcsin Real.sin Real.cos Real.tan
          (fun x y => x ^ y)
          (fun z => Cplx.mk (Complex.mk z.re z.im ^ (1 / 2 : ℂ)).re
            (Complex.mk z.re z.im ^ (1 / 2 : ℂ)).im))
        (stackedScene : Scene ℝ) (9 + 1) downRay 0 0 := by
  have hb : (stackedScene : Scene ℝ).m_camera.m_maxBounces = 8 := rfl
  obtain ⟨h1, _, h3, h4⟩ := castRay_nearest_accepted_hit (Libm.mk Real.sqrt Real.log
          (fun y x => Complex.arg (Complex.mk x y)) Real.arcsin Real.sin Real.cos Real.tan
          (fun x y => x ^ y)
          (fun z => Cplx.mk (Complex.mk z.re z.im ^ (1 / 2 : ℂ)).re
            (Complex.mk z.re z.im ^ (1 / 2 : ℂ)).im))
        (stackedScene : Scene ℝ) downRay 0 0 9 (by rw [hb]; norm_num) (Nat.zero_le _)
        (by rw [hb]; norm_num) (stackedScene_limited _ downRay) (stackedScene_distinct _)
  refine ⟨by rw [hb]; norm_num, Nat.zero_le _, by rw [hb]; norm_num, rfl, h1,
    h3 raisedTriangle raisedHit (stackedScene_nearest _ Real.sqrt_one), ?_⟩
  exact h4 [raisedTriangle, matteTriangle] (List.Perm.swap _ _ _)

theorem trigExact_real : TrigExact (Libm.mk Real.sqrt Real.log
      (fun y x => Complex.arg (Complex.mk x y)) Real.arcsin Real.sin Real.cos Real.tan
      (fun x y => x ^ y)
      (fun z => Cplx.mk (Complex.mk z.re z.im ^ (1 / 2 : ℂ)).re
        (Complex.mk z.re z.im ^ (1 / 2 : ℂ)).im)) := by
  intro a
  refine ⟨?_, Real.sin_neg a, Real.cos_neg a⟩
  have := Real.sin_sq_add_cos_sq a
  simp only [pow_two] at this
  exact this

/-- Witness of C39: a translation, a scaling and a rotation by 30 degrees about
the x axis. -/
theorem tag_transform_inverse_witness :
    (∀ tag ∈ [TransformTag.translate (⟨1, 2, 3⟩ : Vector3 ℝ), TransformTag.scale ⟨2, 4, 8⟩,
      TransformTag.rotateX 30], tag.Invertible) ∧
    (tag_transform (Libm.mk Real.sqrt Real.log
          (fun y x => Complex.arg (Complex.mk x y)) Real.arcsin Real.sin Real.cos Real.tan
          (fun x y => x ^ y)
          (fun z => Cplx.mk (Complex.mk z.re z.im ^ (1 / 2 : ℂ)).re
            (Complex.mk z.re z.im ^ (1 / 2 : ℂ)).im))
        ([TransformTag.translate (⟨1, 2, 3⟩ : Vector3 ℝ), TransformTag.scale ⟨2, 4, 8⟩,
          TransformTag.rotateX 30].take 3)).w2oVector.mul
      (tag_transform (Libm.mk Real.sqrt Real.log
          (fun y x => Complex.arg (Complex.mk x y)) Real.arcsin Real.sin Real.cos Real.tan
          (fun x y => x ^ y)
          (fun z => Cplx.mk (Complex.mk z.re z.im ^ (1 / 2 : ℂ)).re
            (Complex.mk z.re z.im ^ (1 / 2 : ℂ)).im))
        ([TransformTag.translate (⟨1, 2, 3⟩ : Vector3 ℝ), TransformTag.scale ⟨2, 4, 8⟩,
          TransformTag.rotateX 30].take 3)).o2wVector = Matrix34.identity := by
  have hinv : ∀ tag ∈ [TransformTag.translate (⟨1, 2, 3⟩ : Vector3 ℝ),
      TransformTag.scale ⟨2, 4, 8⟩, TransformTag.rotateX 30], tag.Invertible := by
    intro tag htag
    simp only [List.mem_cons, List.mem_singleton, List.not_mem_nil, or_false] at htag
    rcases htag with rfl | rfl | rfl
    · trivial
    · exact ⟨by norm_num, by norm_num, by norm_num⟩
    · trivial
  exact ⟨hinv, (tag_transform_inverse _ trigExact_real _ hinv 3).1⟩

/-- Witness of C32: the slanted ray entering glass of refraction index 3/2
from outside (`cosI = -4/5`, `k = 21/25`). -/
theorem refractionVector_unit_witness :
    (slantRay : Ray ℝ).direction.dot (slantRay : Ray ℝ).direction = 1 ∧
    (slantHit : Intersection ℝ).normal.dot (slantHit : Intersection ℝ).normal = 1 ∧
    (-4 / 5 : ℝ) = (slantRay : Ray ℝ).direction.dot (slantHit : Intersection ℝ).normal ∧
    refractionK (glass : Material ℝ) (-4 / 5) 0 = 21 / 25 ∧
    (refractionVector (Libm.mk Real.sqrt Real.log
          (fun y x => Complex.arg (Complex.mk x y)) Real.arcsin Real.sin Real.cos Real.tan
          (fun x y => x ^ y)
          (fun z => Cplx.mk (Complex.mk z.re z.im ^ (1 / 2 : ℂ)).re
            (Complex.mk z.re z.im ^ (1 / 2 : ℂ)).im))
        (slantRay : Ray ℝ) slantHit glass (-4 / 5) 0).length (Libm.mk Real.sqrt Real.log
          (fun y x => Complex.arg (Complex.mk x y)) Real.arcsin Real.sin Real.cos Real.tan
          (fun x y => x ^ y)
          (fun z => Cplx.mk (Complex.mk z.re z.im ^ (1 / 2 : ℂ)).re
            (Complex.mk z.re z.im ^ (1 / 2 : ℂ)).im)) = 1 := by
  have hd : (slantRay : Ray ℝ).direction.dot (slantRay : Ray ℝ).direction = 1 := by
    simp only [slantRay, Vector3.dot]; norm_num
  have hn : (slantHit : Intersection ℝ).normal.dot (slantHit : Intersection ℝ).normal = 1 := by
    simp only [slantHit, Vector3.dot]; norm_num
  have hcos : (-4 / 5 : ℝ) =
      (slantRay : Ray ℝ).direction.dot (slantHit : Intersection ℝ).normal := by
    simp only [slantRay, slantHit, Vector3.dot]; norm_num
  have hk : refractionK (glass : Material ℝ) (-4 / 5) 0 = 21 / 25 := by
    simp only [refractionK, glass]
    norm_num
  exact ⟨hd, hn, hcos, hk,
    (refractionVector_unit _ sqrtExact_real slantRay slantHit glass (-4 / 5) 0 hd hn hcos
      (by rw [hk]; norm_num)).1⟩

/-- C23, evaluated at the input on which the code leaves the claim: the
vector `d = (39 * 2^122, 0, 52 * 2^122)`, which is not zero. Its length
`65 * 2^122` is beyond the largest `float`, `std::hypot` gives `+Inf`, and the
direction that `Ray(o, d)` stores is `d / +Inf = (0, 0, 0)`, whose length is 0,
not 1. -/
theorem Vector3.normalizedIEEE_longVector :
    (longVector : Vector3 ℝ) ≠ ⟨0, 0, 0⟩ ∧
    hypotIEEE (Libm.mk Real.sqrt Real.log
        (fun y x => Complex.arg (Complex.mk x y)) Real.arcsin Real.sin Real.cos Real.tan
        (fun x y => x ^ y)
        (fun z => Cplx.mk (Complex.mk z.re z.im ^ (1 / 2 : ℂ)).re
          (Complex.mk z.re z.im ^ (1 / 2 : ℂ)).im))
      (longVector : Vector3 ℝ).x (longVector : Vector3 ℝ).y (longVector : Vector3 ℝ).z =
        IEEE.posInf ∧
    Vector3.normalizedIEEE (Libm.mk Real.sqrt Real.log
        (fun y x => Complex.arg (Complex.mk x y)) Real.arcsin Real.sin Real.cos Real.tan
        (fun x y => x ^ y)
        (fun z => Cplx.mk (Complex.mk z.re z.im ^ (1 / 2 : ℂ)).re
          (Complex.mk z.re z.im ^ (1 / 2 : ℂ)).im))
      (longVector : Vector3 ℝ) = (IEEE.num 0, IEEE.num 0, IEEE.num 0) ∧
    hypotIEEE (Libm.mk Real.sqrt Real.log
        (fun y x => Complex.arg (Complex.mk x y)) Real.arcsin Real.sin Real.cos Real.tan
        (fun x y => x ^ y)
        (fun z => Cplx.mk (Complex.mk z.re z.im ^ (1 / 2 : ℂ)).re
          (Complex.mk z.re z.im ^ (1 / 2 : ℂ)).im))
      (0 : ℝ) 0 0 = IEEE.num 0 := by
  have hne : (longVector : Vector3 ℝ) ≠ ⟨0, 0, 0⟩ := by
    intro h
    have := congrArg Vector3.x h
    simp only [longVector] at this
    norm_num at this
  have hsq : Real.sqrt ((39 * 2 ^ 122 : ℝ) * (39 * 2 ^ 122) + 0 * 0 +
      (52 * 2 ^ 122) * (52 * 2 ^ 122)) = 65 * 2 ^ 122 := by
    have e : ((39 * 2 ^ 122 : ℝ) * (39 * 2 ^ 122) + 0 * 0 + (52 * 2 ^ 122) * (52 * 2 ^ 122)) =
        (65 * 2 ^ 122) * (65 * 2 ^ 122) := by ring
    rw [e, Real.sqrt_mul_self (by positivity)]
  have hbig : ¬ ((65 * 2 ^ 122 : ℝ) < 2 ^ 128) := by norm_num
  have hh : hypotIEEE (Libm.mk Real.sqrt Real.log
        (fun y x => Complex.arg (Complex.mk x y)) Real.arcsin Real.sin Real.cos Real.tan
        (fun x y => x ^ y)
        (fun z => Cplx.mk (Complex.mk z.re z.im ^ (1 / 2 : ℂ)).re
          (Complex.mk z.re z.im ^ (1 / 2 : ℂ)).im))
      (longVector : Vector3 ℝ).x (longVector : Vector3 ℝ).y (longVector : Vector3 ℝ).z =
        IEEE.posInf := by
    simp only [hypotIEEE, longVector, hsq, if_neg hbig]
  refine ⟨hne, hh, ?_, ?_⟩
  · simp only [Vector3.normalizedIEEE, hh, IEEE.eq, IEEE.divNum]
    simp
  · have h0 : Real.sqrt ((0 : ℝ) * 0 + 0 * 0 + 0 * 0) = 0 := by simp
    simp only [hypotIEEE, h0]
    norm_num

end RayTracer
